import Mathlib

/-!
# DingusPPC soft-MMU: a shallow embedding of `cpu/ppc/ppcmmu.cpp`

Machine integers are natural numbers reduced modulo `2 ^ 32` where the C++
code truncates.  Host pointers are integers; host memory is a function from
host addresses to bytes.  Functions of the source that can leave through the
MMU exception handler, through `exit(-1)` or through undefined behaviour
return a `Res`, which carries the machine state at the point of leaving.
-/

namespace DingusPPC

/-! ## Machine words -/

/-- Truncation of a value to `uint32_t`. -/
def u32 (x : Nat) : Nat := x % 2 ^ 32

/-- Bitwise complement on `uint32_t` (the C++ `~x` of a 32-bit operand). -/
def not32 (x : Nat) : Nat := 0xFFFFFFFF - x % 2 ^ 32

/-- C++ truth value of an integer used as a condition. -/
def truthy (x : Nat) : Bool := x != 0

/-! ## Data model -/

/-- Modelled from the spec: the BAT entry record of `ppcmmu.h`
(`{access:2, prot:2, hi_mask:32, bepi:32, phys_hi:32}`). -/
structure PPC_BAT_entry where
  access : Nat
  prot : Nat
  phys_hi : Nat
  hi_mask : Nat
  bepi : Nat
deriving DecidableEq

/-- Modelled from the spec: the result record of block address translation,
`{hit, prot, phys}`, declared in `ppcmmu.h`. -/
structure BATResult where
  hit : Bool
  prot : Nat
  phys : Nat
deriving DecidableEq

/-- Selector of the BAT array, the template argument `BATType`. -/
inductive BATType
  | Instruction
  | Data
deriving DecidableEq

/-- The part of `ppc_state` (`SetPRS` in `ppcemu.h`). -/
structure SetPRS where
  fpr : Nat → Nat
  pc : Nat
  gpr : Nat → Nat
  cr : Nat
  fpscr : Nat
  tbr : Nat → Nat
  spr : Nat → Nat
  msr : Nat
  sr : Nat → Nat
  reserve : Bool

/-- SPR numbers of `enum SPR` used by the MMU. -/
def SPR.DSISR : Nat := 18

/-- SPR number of the data address register. -/
def SPR.DAR : Nat := 19

/-- SPR number of the page table base register. -/
def SPR.SDR1 : Nat := 25

/-- Exception kinds, `enum class Except_Type` of `ppcemu.h`. -/
inductive Except_Type
  | EXC_SYSTEM_RESET
  | EXC_MACHINE_CHECK
  | EXC_DSI
  | EXC_ISI
  | EXC_EXT_INT
  | EXC_ALIGNMENT
  | EXC_PROGRAM
  | EXC_NO_FPU
  | EXC_DECR
  | EXC_SYSCALL
  | EXC_TRACE
deriving DecidableEq

/-- Modelled from the spec: range kinds of the memory controller's address
map, the bit flags `RT_ROM`, `RT_RAM`, `RT_MMIO` of `devices/memctrlbase.h`. -/
def RT_ROM : Nat := 1

/-- Modelled from the spec: flag of a RAM range (`devices/memctrlbase.h`). -/
def RT_RAM : Nat := 2

/-- Modelled from the spec: flag of a memory-mapped device range
(`devices/memctrlbase.h`). -/
def RT_MMIO : Nat := 4

/-- Modelled from the spec: an address-map range of the memory controller,
`{start, end, type, mem_ptr, device_handle}` (`devices/memctrlbase.h`).
`mem_ptr` is a host address, `devobj` names the device. -/
structure AddressMapEntry where
  start : Nat
  end_ : Nat
  type : Nat
  devobj : Nat
  mem_ptr : Int
deriving DecidableEq

/-- The two readings of the union inside `TLBEntry`. -/
inductive TLBPayload
  | host_va_offset (o : Int)
  | reg_desc (r : AddressMapEntry)
deriving DecidableEq

/-- A software TLB entry, `struct TLBEntry`. -/
structure TLBEntry where
  tag : Nat
  flags : Nat
  lru_bits : Nat
  payload : TLBPayload
deriving DecidableEq

/-- The handler `mmu_exception_handler` points to. -/
inductive Handler
  | ppc_exception_handler
  | dbg_exception_handler
deriving DecidableEq

/-- The three pairs of TLB arrays `modeN_tlb1` / `modeN_tlb2`. -/
inductive TLBSel
  | mode1
  | mode2
  | mode3
deriving DecidableEq

/-- One call of a device object, as seen by the device. -/
structure DevCall where
  is_write : Bool
  devobj : Nat
  region_base : Nat
  offset : Nat
  value : Nat
  size : Nat
deriving DecidableEq

def PAGE_SIZE_BITS : Nat := 12

def TLB_SIZE : Nat := 4096

def TLB2_WAYS : Nat := 4

def TLB_INVALID_TAG : Nat := 0xFFFFFFFF

/-- The global `tlb_size_mask`; it is initialised to `TLB_SIZE - 1` and never
assigned. -/
def tlb_size_mask : Nat := TLB_SIZE - 1

/-- The globals of `ppcmmu.cpp`, the CPU state they use, and the collaborators
(the address map lookup, host memory and the devices). -/
structure MMU where
  ppc_state : SetPRS
  mmu_exception_handler : Handler
  ibat_array : Nat → PPC_BAT_entry
  dbat_array : Nat → PPC_BAT_entry
  MemAccessType : Bool
  MemAddr : Int
  Device : Nat
  DevOffset : Nat
  last_read_area : AddressMapEntry
  last_write_area : AddressMapEntry
  last_exec_area : AddressMapEntry
  last_ptab_area : AddressMapEntry
  last_dma_area : AddressMapEntry
  mode1_tlb1 : Nat → TLBEntry
  mode2_tlb1 : Nat → TLBEntry
  mode3_tlb1 : Nat → TLBEntry
  mode1_tlb2 : Nat → TLBEntry
  mode2_tlb2 : Nat → TLBEntry
  mode3_tlb2 : Nat → TLBEntry
  pCurTLB1 : Option TLBSel
  pCurTLB2 : Option TLBSel
  UnmappedVal_addr : Int
  UnmappedMem : TLBEntry
  MMUMode : Nat
  /-- Modelled from the spec: `mem_ctrl_instance->find_range`, the address-range
  lookup of the memory controller. -/
  find_range : Nat → Option AddressMapEntry
  /-- Host memory, one byte per host address. -/
  hmem : Int → Nat
  /-- Modelled from the spec: the value a device returns for
  `read(region_base, offset, size)`. -/
  dev_read : Nat → Nat → Nat → Nat → Nat
  /-- The calls made to devices so far, latest first. -/
  dev_log : List DevCall

/-- How a function of the MMU ends. -/
inductive Res (α : Type)
  | ok (a : α) (s : MMU)
  | exc (t : Except_Type) (srr1_bits : Nat) (s : MMU)
  | exit (s : MMU)
  | ub

/-- Modelled from the spec: a call of `mmu_exception_handler`.  The handlers
live in `ppcexceptions.cpp`; by the spec raising an exception unwinds the
instruction in progress, so the call does not return.  The result records
the arguments and the state at the call. -/
def mmu_exception_handler_call {α : Type} (t : Except_Type) (srr1_bits : Nat)
    (s : MMU) : Res α :=
  Res.exc t srr1_bits s

/-- Sequencing: the continuation runs only after normal completion. -/
def Res.bind {α β : Type} (r : Res α) (f : α → MMU → Res β) : Res β :=
  match r with
  | Res.ok a s => f a s
  | Res.exc t b s => Res.exc t b s
  | Res.exit s => Res.exit s
  | Res.ub => Res.ub

/-- Assignment to `ppc_state.spr[n]`. -/
def MMU.set_spr (s : MMU) (n v : Nat) : MMU :=
  { s with ppc_state :=
      { s.ppc_state with spr := fun k => if k = n then v else s.ppc_state.spr k } }

/-! ## Block address translation -/

/-- The loop of `ppc_block_address_translation` from `bat_index` on, with `n`
entries left to look at; `r` holds `bat_hit`, `prot` and `pa` so far. -/
def bat_scan (bat_array : Nat → PPC_BAT_entry) (access_bits la : Nat)
    (r : BATResult) : Nat → Nat → BATResult
  | _, 0 => r
  | bat_index, n + 1 =>
    let bat_entry := bat_array bat_index
    if truthy (bat_entry.access &&& access_bits)
        && ((la &&& bat_entry.hi_mask) == bat_entry.bepi) then
      { hit := true
        prot := bat_entry.prot
        phys := bat_entry.phys_hi ||| (la &&& not32 bat_entry.hi_mask) }
    else bat_scan bat_array access_bits la r (bat_index + 1) n

/-- The value of `!!(ppc_state.msr & 0x4000)`. -/
def msr_pr_of (msr : Nat) : Nat := if truthy (msr &&& 0x4000) then 1 else 0

/-- The access mask `((msr_pr ^ 1) << 1) | msr_pr`. -/
def access_bits_of (msr_pr : Nat) : Nat := ((msr_pr ^^^ 1) <<< 1) ||| msr_pr

/-- The function `ppc_block_address_translation<type>(la)`.  The locals `pa`
and `prot` have no initial value in the source; `prot0` and `pa0` stand for
whatever they hold when no entry matches. -/
def ppc_block_address_translation (type : BATType) (s : MMU) (la : Nat)
    (prot0 pa0 : Nat) : BATResult :=
  let msr_pr := msr_pr_of s.ppc_state.msr
  let bat_array := if type = BATType.Instruction then s.ibat_array else s.dbat_array
  let access_bits := access_bits_of msr_pr
  bat_scan bat_array access_bits la { hit := false, prot := prot0, phys := pa0 } 0 4


/-- An entry of a BAT array admits `la` under the access mask: the test
`(access & access_bits) && ((la & hi_mask) == bepi)` as a proposition. -/
def bat_match (e : PPC_BAT_entry) (access_bits la : Nat) : Prop :=
  e.access &&& access_bits ≠ 0 ∧ la &&& e.hi_mask = e.bepi

instance (e : PPC_BAT_entry) (a la : Nat) : Decidable (bat_match e a la) :=
  inferInstanceAs (Decidable (e.access &&& a ≠ 0 ∧ la &&& e.hi_mask = e.bepi))

/-! ## Host memory access (`memaccess.h`) -/

/-- One byte of host memory. -/
def rd8 (m : Int → Nat) (p : Int) : Nat := m p % 256

/-- Store of one byte to host memory. -/
def wr8 (m : Int → Nat) (p : Int) (v : Nat) : Int → Nat :=
  fun a => if a = p then v % 256 else m a

/-- Modelled from the spec: big-endian read of `n` bytes at host address `p`,
most significant byte first (the `READ_*_BE_*` macros of `memaccess.h`);
`acc` is the value read so far. -/
def read_be_from (m : Int → Nat) (acc : Nat) : Int → Nat → Nat
  | _, 0 => acc
  | p, n + 1 => read_be_from m (acc * 256 + rd8 m p) (p + 1) n

/-- Modelled from the spec: big-endian read of `n` bytes at host address `p`. -/
def read_be (m : Int → Nat) (p : Int) (n : Nat) : Nat := read_be_from m 0 p n

/-- Modelled from the spec: the macros `READ_WORD_BE_A` / `READ_WORD_BE_U`. -/
def READ_WORD_BE (m : Int → Nat) (p : Int) : Nat := read_be m p 2

/-- Modelled from the spec: the macros `READ_DWORD_BE_A` / `READ_DWORD_BE_U`. -/
def READ_DWORD_BE (m : Int → Nat) (p : Int) : Nat := read_be m p 4

/-- Modelled from the spec: the macros `READ_QWORD_BE_A` / `READ_QWORD_BE_U`. -/
def READ_QWORD_BE (m : Int → Nat) (p : Int) : Nat := read_be m p 8

/-- Modelled from the spec: big-endian store of the low `n` bytes of `v` at
host address `p` (the `WRITE_*_BE_*` macros of `memaccess.h`). -/
def write_be (m : Int → Nat) (p : Int) (v : Nat) : Nat → Int → Nat
  | 0 => m
  | n + 1 => write_be (wr8 m p (v / 256 ^ n)) (p + 1) v n

/-- Subtraction on `uint32_t`. -/
def sub32 (a b : Nat) : Nat := (a % 2 ^ 32 + 2 ^ 32 - b % 2 ^ 32) % 2 ^ 32

/-! ## Page address translation -/

/-- Lines 381-385 of `calc_pteg_addr`: the physical address of the PTEG. -/
def pteg_phys (sdr1_val hash : Nat) : Nat :=
  let pteg_addr := sdr1_val &&& 0xFE000000
  let pteg_addr := pteg_addr ||| ((sdr1_val &&& 0x01FF0000) |||
    (((sdr1_val &&& 0x1FF) <<< 16) &&& ((hash &&& 0x7FC00) <<< 6)))
  pteg_addr ||| ((hash &&& 0x3FF) <<< 6)

/-- The function `calc_pteg_addr(hash)`: the host address of the PTEG. -/
def calc_pteg_addr (hash : Nat) (s : MMU) : Res Int :=
  let pteg_addr := pteg_phys (s.ppc_state.spr SPR.SDR1) hash
  if pteg_addr ≥ s.last_ptab_area.start ∧ pteg_addr ≤ s.last_ptab_area.end_ then
    Res.ok (s.last_ptab_area.mem_ptr + (sub32 pteg_addr s.last_ptab_area.start : Nat)) s
  else
    match s.find_range pteg_addr with
    | some entry =>
      if truthy (entry.type &&& (RT_ROM ||| RT_RAM)) then
        let area : AddressMapEntry :=
          { s.last_ptab_area with
            start := entry.start, end_ := entry.end_, mem_ptr := entry.mem_ptr }
        Res.ok (area.mem_ptr + (sub32 pteg_addr area.start : Nat))
          { s with last_ptab_area := area }
      else Res.exit s
    | none => Res.exit s

/-- The loop of `search_pteg` (built without `MMU_INTEGRITY_CHECKS`), with `n`
slots left. -/
def search_pteg_loop (m : Int → Nat) (pte_check : Nat) : Int → Nat → Option Int
  | _, 0 => none
  | pteg_addr, n + 1 =>
    if pte_check == READ_DWORD_BE m pteg_addr then some pteg_addr
    else search_pteg_loop m pte_check (pteg_addr + 8) n

/-- The PTE matching word built by `search_pteg`. -/
def pte_check_word (vsid page_index pteg_num : Nat) : Nat :=
  u32 (0x80000000 ||| (vsid <<< 7) ||| (pteg_num <<< 6) ||| (page_index >>> 10))

/-- The function `search_pteg`: `some p` stands for `true` with
`*ret_pte_addr = p`, `none` for `false`. -/
def search_pteg (m : Int → Nat) (pteg_addr : Int) (vsid page_index pteg_num : Nat) :
    Option Int :=
  search_pteg_loop m (pte_check_word vsid page_index pteg_num) pteg_addr 8

/-- Raising DSI from a translation routine: DSISR and DAR are set, then the
handler is called. -/
def raise_dsi {α : Type} (dsisr dar : Nat) (s : MMU) : Res α :=
  mmu_exception_handler_call Except_Type.EXC_DSI 0
    ((s.set_spr SPR.DSISR (u32 dsisr)).set_spr SPR.DAR dar)

/-- Lines 451-470 of `page_address_translate`: the no-execute check and the
search of the primary and the secondary PTEG; the result is `pte_addr`. -/
def pte_lookup (la : Nat) (is_instr_fetch : Bool) (is_write sr_val : Nat) (s : MMU) :
    Res Int :=
  if truthy (sr_val &&& 0x10000000) && is_instr_fetch then
    mmu_exception_handler_call Except_Type.EXC_ISI 0x10000000 s
  else
    let page_index := (la >>> 12) &&& 0xFFFF
    let pteg_hash1 := (sr_val &&& 0x7FFFF) ^^^ page_index
    let vsid := sr_val &&& 0x0FFFFFF
    (calc_pteg_addr pteg_hash1 s).bind fun p1 s1 =>
      match search_pteg s1.hmem p1 vsid page_index 0 with
      | some pte_addr => Res.ok pte_addr s1
      | none =>
        (calc_pteg_addr (not32 pteg_hash1) s1).bind fun p2 s2 =>
          match search_pteg s2.hmem p2 vsid page_index 1 with
          | some pte_addr => Res.ok pte_addr s2
          | none =>
            if is_instr_fetch then
              mmu_exception_handler_call Except_Type.EXC_ISI 0x40000000 s2
            else raise_dsi (0x40000000 ||| (is_write <<< 25)) la s2

/-- The key bit of the page protection check, line 474. -/
def pte_key (sr_val msr_pr : Nat) : Nat :=
  (((sr_val >>> 29) &&& 1) &&& msr_pr) ||| (((sr_val >>> 30) &&& 1) &&& (msr_pr ^^^ 1))

/-- The condition of the page protection check, line 483. -/
def pte_violation (key pp is_write : Nat) : Bool :=
  (truthy key && (!(truthy pp) || (pp == 1 && truthy is_write)))
    || (pp == 3 && truthy is_write)

/-- Lines 493-498 of `page_address_translate`: the update of the R and C bits
of the PTE at host address `pte_addr`. -/
def rc_update (m : Int → Nat) (pte_addr : Int) (is_write : Nat) : Int → Nat :=
  let m1 := wr8 m (pte_addr + 6) (rd8 m (pte_addr + 6) ||| 0x01)
  if truthy is_write then wr8 m1 (pte_addr + 7) (rd8 m1 (pte_addr + 7) ||| 0x80)
  else m1

/-- Lines 472-501 of `page_address_translate`: protection check, update of
the R and C bits, and the physical address. -/
def pte_access (la : Nat) (is_instr_fetch : Bool) (msr_pr is_write sr_val : Nat)
    (pte_addr : Int) (s : MMU) : Res Nat :=
  let pte_word2 := READ_DWORD_BE s.hmem (pte_addr + 4)
  let key := pte_key sr_val msr_pr
  let pp := pte_word2 &&& 3
  if pte_violation key pp is_write then
    if is_instr_fetch then
      mmu_exception_handler_call Except_Type.EXC_ISI 0x08000000 s
    else raise_dsi (0x08000000 ||| (is_write <<< 25)) la s
  else
    Res.ok ((pte_word2 &&& 0xFFFFF000) ||| (la &&& 0x00000FFF))
      { s with hmem := rc_update s.hmem pte_addr is_write }

/-- The function `page_address_translate(la, is_instr_fetch, msr_pr, is_write)`. -/
def page_address_translate (la : Nat) (is_instr_fetch : Bool) (msr_pr is_write : Nat)
    (s : MMU) : Res Nat :=
  let sr_val := s.ppc_state.sr ((la >>> 28) &&& 0x0F)
  if truthy (sr_val &&& 0x80000000) then Res.exit s
  else
    (pte_lookup la is_instr_fetch is_write sr_val s).bind fun pte_addr s1 =>
      pte_access la is_instr_fetch msr_pr is_write sr_val pte_addr s1

/-! ## Instruction and data address translation -/

/-- The BAT loop of `ppc_mmu_instr_translate`: `some pa` on a hit. -/
def ibat_loop (la access_bits : Nat) (s : MMU) : Nat → Nat → Res (Option Nat)
  | _, 0 => Res.ok none s
  | bat_index, n + 1 =>
    let bat_entry := s.ibat_array bat_index
    if truthy (bat_entry.access &&& access_bits)
        && ((la &&& bat_entry.hi_mask) == bat_entry.bepi) then
      if !(truthy bat_entry.prot) then
        mmu_exception_handler_call Except_Type.EXC_ISI 0x08000000 s
      else Res.ok (some (bat_entry.phys_hi ||| (la &&& not32 bat_entry.hi_mask))) s
    else ibat_loop la access_bits s (bat_index + 1) n

/-- The function `ppc_mmu_instr_translate(la)`. -/
def ppc_mmu_instr_translate (la : Nat) (s : MMU) : Res Nat :=
  let msr_pr := msr_pr_of s.ppc_state.msr
  let access_bits := access_bits_of msr_pr
  (ibat_loop la access_bits s 0 4).bind fun r s1 =>
    match r with
    | some pa => Res.ok pa s1
    | none => page_address_translate la true msr_pr 0 s1

/-- The BAT loop of `ppc_mmu_addr_translate`: `some pa` on a hit. -/
def dbat_loop (la is_write access_bits : Nat) (s : MMU) : Nat → Nat → Res (Option Nat)
  | _, 0 => Res.ok none s
  | bat_index, n + 1 =>
    let bat_entry := s.dbat_array bat_index
    if truthy (bat_entry.access &&& access_bits)
        && ((la &&& bat_entry.hi_mask) == bat_entry.bepi) then
      if !(truthy bat_entry.prot) || (truthy (bat_entry.prot &&& 1) && truthy is_write) then
        raise_dsi (0x08000000 ||| (is_write <<< 25)) la s
      else Res.ok (some (bat_entry.phys_hi ||| (la &&& not32 bat_entry.hi_mask))) s
    else dbat_loop la is_write access_bits s (bat_index + 1) n

/-- The function `ppc_mmu_addr_translate(la, is_write)`. -/
def ppc_mmu_addr_translate (la is_write : Nat) (s : MMU) : Res Nat :=
  let msr_pr := msr_pr_of s.ppc_state.msr
  let access_bits := access_bits_of msr_pr
  (dbat_loop la is_write access_bits s 0 4).bind fun r s1 =>
    match r with
    | some pa => Res.ok pa s1
    | none => page_address_translate la false msr_pr is_write s1


/-! ## Physical memory port: writes -/

/-- The MRU range variables a physical access can be given. -/
inductive MRU
  | last_read_area
  | last_write_area
  | last_exec_area
  | last_ptab_area
  | last_dma_area
deriving DecidableEq

/-- Value of `*mru_rgn`. -/
def MMU.mru (s : MMU) : MRU → AddressMapEntry
  | MRU.last_read_area => s.last_read_area
  | MRU.last_write_area => s.last_write_area
  | MRU.last_exec_area => s.last_exec_area
  | MRU.last_ptab_area => s.last_ptab_area
  | MRU.last_dma_area => s.last_dma_area

/-- Assignment `*mru_rgn = e`. -/
def MMU.set_mru (s : MMU) (r : MRU) (e : AddressMapEntry) : MMU :=
  match r with
  | MRU.last_read_area => { s with last_read_area := e }
  | MRU.last_write_area => { s with last_write_area := e }
  | MRU.last_exec_area => { s with last_exec_area := e }
  | MRU.last_ptab_area => { s with last_ptab_area := e }
  | MRU.last_dma_area => { s with last_dma_area := e }

/-- The first statement of `read_phys_mem` and `write_phys_mem`: when the
access is not inside `*mru_rgn`, the range of the address is looked up and
copied there; `none` stands for the early return on an unmapped address. -/
def mru_resolve (sz : Nat) (mru_rgn : MRU) (addr : Nat) (s : MMU) : Option MMU :=
  if addr < (s.mru mru_rgn).start ∨ addr + sz > (s.mru mru_rgn).end_ then
    match s.find_range addr with
    | some entry => some (s.set_mru mru_rgn entry)
    | none => none
  else some s

/-- The function `write_phys_mem<T, is_aligned>(mru_rgn, addr, value)` with
`sz = sizeof(T)`. -/
def write_phys_mem (sz : Nat) (is_aligned : Bool) (mru_rgn : MRU) (addr value : Nat)
    (s : MMU) : MMU :=
  match mru_resolve sz mru_rgn addr s with
  | none => s
  | some s1 =>
    let rgn := s1.mru mru_rgn
    let p : Int := rgn.mem_ptr + (sub32 addr rgn.start : Nat)
    if truthy (rgn.type &&& RT_RAM) then
      if sz = 1 ∨ sz = 2 ∨ sz = 4 then { s1 with hmem := write_be s1.hmem p value sz }
      else if sz = 8 then
        if is_aligned then { s1 with hmem := write_be s1.hmem p value 8 } else s1
      else s1
    else if truthy (rgn.type &&& RT_MMIO) then
      { s1 with dev_log :=
          { is_write := true, devobj := rgn.devobj, region_base := rgn.start,
            offset := sub32 addr rgn.start, value := value % 256 ^ sz, size := sz }
            :: s1.dev_log }
    else s1

/-! ## Stores -/

/-- The byte loop of the cross-page case of `mem_write_unaligned`; `n` counts
the bytes still to write, `phys_addr` is `none` while it has no value. -/
def mem_write_crosspage (value : Nat) :
    Nat → Nat → Nat → Option Nat → Nat → MMU → Res Unit
  | 0, _, _, _, _, s => Res.ok () s
  | n + 1, i, addr, phys_addr, shift, s =>
    let translated : Res (Option Nat) :=
      if truthy (s.ppc_state.msr &&& 0x10) && (i == 0 || !(truthy (addr &&& 0xFFF))) then
        (ppc_mmu_addr_translate addr 1 s).bind fun pa s1 => Res.ok (some pa) s1
      else Res.ok phys_addr s
    translated.bind fun phys s1 =>
      match phys with
      | none => Res.ub
      | some pa =>
        let s2 := write_phys_mem 1 false MRU.last_write_area pa ((value >>> shift) &&& 0xFF) s1
        mem_write_crosspage value n (i + 1) (u32 (addr + 1)) (some (u32 (pa + 1)))
          (shift - 8) s2

/-- The function `mem_write_unaligned(addr, value, size)`. -/
def mem_write_unaligned (addr value size : Nat) (s : MMU) : Res Unit :=
  if (addr &&& 0xFFF) + size > 0x1000 then
    mem_write_crosspage value size 0 addr none ((size - 1) * 8) s
  else
    let translated : Res Nat :=
      if truthy (s.ppc_state.msr &&& 0x10) then ppc_mmu_addr_translate addr 1 s
      else Res.ok addr s
    translated.bind fun addr s1 =>
      if size = 2 then Res.ok () (write_phys_mem 2 false MRU.last_write_area addr value s1)
      else Res.ok () (write_phys_mem 4 false MRU.last_write_area addr value s1)

/-- Data address translation of a store, "if enabled": the common middle part
of `mem_write_byte`, `mem_write_word`, `mem_write_dword` and `mem_write_qword`. -/
def store_translate (addr : Nat) (s : MMU) : Res Nat :=
  if truthy (s.ppc_state.msr &&& 0x10) then ppc_mmu_addr_translate addr 1 s
  else Res.ok addr s

/-- The function `mem_write_byte(addr, value)`. -/
def mem_write_byte (addr value : Nat) (s : MMU) : Res Unit :=
  (store_translate addr s).bind fun addr s1 =>
    Res.ok () (write_phys_mem 1 true MRU.last_write_area addr value s1)

/-- The function `mem_write_word(addr, value)`. -/
def mem_write_word (addr value : Nat) (s : MMU) : Res Unit :=
  if truthy (addr &&& 1) then mem_write_unaligned addr value 2 s
  else
    (store_translate addr s).bind fun addr s1 =>
      Res.ok () (write_phys_mem 2 true MRU.last_write_area addr value s1)

/-- The function `mem_write_dword(addr, value)`. -/
def mem_write_dword (addr value : Nat) (s : MMU) : Res Unit :=
  if truthy (addr &&& 3) then mem_write_unaligned addr value 4 s
  else
    (store_translate addr s).bind fun addr s1 =>
      Res.ok () (write_phys_mem 4 true MRU.last_write_area addr value s1)

/-- The function `mem_write_qword(addr, value)`. -/
def mem_write_qword (addr value : Nat) (s : MMU) : Res Unit :=
  if truthy (addr &&& 7) then Res.exit s
  else
    (store_translate addr s).bind fun addr s1 =>
      Res.ok () (write_phys_mem 8 true MRU.last_write_area addr value s1)

/-- The store function for an access of `sz` bytes (`sz` in 1, 2, 4, 8). -/
def mem_write (sz : Nat) (addr value : Nat) (s : MMU) : Res Unit :=
  if sz = 1 then mem_write_byte addr value s
  else if sz = 2 then mem_write_word addr value s
  else if sz = 4 then mem_write_dword addr value s
  else mem_write_qword addr value s


/-! ## Software TLB -/

/-- The primary TLB array of a mode. -/
def MMU.tlb1 (s : MMU) : TLBSel → Nat → TLBEntry
  | TLBSel.mode1 => s.mode1_tlb1
  | TLBSel.mode2 => s.mode2_tlb1
  | TLBSel.mode3 => s.mode3_tlb1

/-- The secondary TLB array of a mode. -/
def MMU.tlb2 (s : MMU) : TLBSel → Nat → TLBEntry
  | TLBSel.mode1 => s.mode1_tlb2
  | TLBSel.mode2 => s.mode2_tlb2
  | TLBSel.mode3 => s.mode3_tlb2

/-- Pointwise update of an array. -/
def upd (a : Nat → TLBEntry) (i : Nat) (e : TLBEntry) : Nat → TLBEntry :=
  fun k => if k = i then e else a k

/-- Store to element `i` of a primary TLB array; `none` when `i` is outside
the array. -/
def MMU.set_tlb1 (s : MMU) (sel : TLBSel) (i : Nat) (e : TLBEntry) : Option MMU :=
  if i < TLB_SIZE then
    some (match sel with
      | TLBSel.mode1 => { s with mode1_tlb1 := upd s.mode1_tlb1 i e }
      | TLBSel.mode2 => { s with mode2_tlb1 := upd s.mode2_tlb1 i e }
      | TLBSel.mode3 => { s with mode3_tlb1 := upd s.mode3_tlb1 i e })
  else none

/-- Store to element `i` of a secondary TLB array; `none` when `i` is outside
the array. -/
def MMU.set_tlb2 (s : MMU) (sel : TLBSel) (i : Nat) (e : TLBEntry) : Option MMU :=
  if i < TLB_SIZE * TLB2_WAYS then
    some (match sel with
      | TLBSel.mode1 => { s with mode1_tlb2 := upd s.mode1_tlb2 i e }
      | TLBSel.mode2 => { s with mode2_tlb2 := upd s.mode2_tlb2 i e }
      | TLBSel.mode3 => { s with mode3_tlb2 := upd s.mode3_tlb2 i e })
  else none

/-- A value of type `TLBEntry*` that points into a secondary TLB array or at
`UnmappedMem`. -/
inductive TLBPtr
  | tlb2 (sel : TLBSel) (i : Nat)
  | UnmappedMem
deriving DecidableEq

/-- The entry a `TLBEntry*` points at. -/
def MMU.deref (s : MMU) : TLBPtr → TLBEntry
  | TLBPtr.tlb2 sel i => s.tlb2 sel i
  | TLBPtr.UnmappedMem => s.UnmappedMem

/-- Turns a failed array store into undefined behaviour. -/
def Res.ofOption {α : Type} (a : α) : Option MMU → Res α
  | some s => Res.ok a s
  | none => Res.ub

/-- The statement `p[k].lru_bits = v`. -/
def lru_set (sel : TLBSel) (i v : Nat) (s : MMU) : Option MMU :=
  s.set_tlb2 sel i { s.tlb2 sel i with lru_bits := v }

/-- The statement `p[k].lru_bits &= 0x1`. -/
def lru_and1 (sel : TLBSel) (i : Nat) (s : MMU) : Option MMU :=
  s.set_tlb2 sel i { s.tlb2 sel i with lru_bits := (s.tlb2 sel i).lru_bits &&& 0x1 }

/-- The four LRU statements made for a hit in the first way of a pair:
`p[0] = hi; p[1] = lo; p[2] &= 1; p[3] &= 1`. -/
def lru_first_pair (sel : TLBSel) (p hi lo : Nat) (s : MMU) : Option MMU :=
  (lru_set sel p hi s).bind fun s1 =>
  (lru_set sel (p + 1) lo s1).bind fun s2 =>
  (lru_and1 sel (p + 2) s2).bind fun s3 =>
  lru_and1 sel (p + 3) s3

/-- The four LRU statements made for a hit in the second pair:
`p[0] &= 1; p[1] &= 1; p[2] = hi; p[3] = lo`. -/
def lru_second_pair (sel : TLBSel) (p hi lo : Nat) (s : MMU) : Option MMU :=
  (lru_and1 sel p s).bind fun s1 =>
  (lru_and1 sel (p + 1) s1).bind fun s2 =>
  (lru_set sel (p + 2) hi s2).bind fun s3 =>
  lru_set sel (p + 3) lo s3

/-- The function `tlb2_target_entry(gp_va)`. -/
def tlb2_target_entry (gp_va : Nat) (s : MMU) : Res TLBPtr :=
  match s.pCurTLB2 with
  | none => Res.ub
  | some sel =>
    let b := ((gp_va >>> PAGE_SIZE_BITS) &&& tlb_size_mask) * TLB2_WAYS
    let t := s.tlb2 sel
    if (t b).tag = TLB_INVALID_TAG then
      Res.ofOption (TLBPtr.tlb2 sel b) (lru_first_pair sel b 0x3 0x2 s)
    else if (t (b + 1)).tag = TLB_INVALID_TAG then
      Res.ofOption (TLBPtr.tlb2 sel (b + 1)) (lru_first_pair sel b 0x2 0x3 s)
    else if (t (b + 2)).tag = TLB_INVALID_TAG then
      Res.ofOption (TLBPtr.tlb2 sel (b + 2)) (lru_second_pair sel b 0x3 0x2 s)
    else if (t (b + 3)).tag = TLB_INVALID_TAG then
      Res.ofOption (TLBPtr.tlb2 sel (b + 3)) (lru_second_pair sel b 0x2 0x3 s)
    else if (t b).lru_bits = 0 then
      Res.ofOption (TLBPtr.tlb2 sel b) (lru_first_pair sel b 0x3 0x2 s)
    else if (t (b + 1)).lru_bits = 0 then
      Res.ofOption (TLBPtr.tlb2 sel (b + 1)) (lru_first_pair sel b 0x2 0x3 s)
    else if (t (b + 2)).lru_bits = 0 then
      Res.ofOption (TLBPtr.tlb2 sel (b + 2)) (lru_second_pair sel b 0x3 0x2 s)
    else
      Res.ofOption (TLBPtr.tlb2 sel (b + 3)) (lru_second_pair sel b 0x2 0x3 s)

/-- Store through a `TLBEntry*`. -/
def MMU.store (s : MMU) (p : TLBPtr) (e : TLBEntry) : Option MMU :=
  match p with
  | TLBPtr.tlb2 sel i => s.set_tlb2 sel i e
  | TLBPtr.UnmappedMem => some { s with UnmappedMem := e }

/-- Lines 824-843 of `tlb2_refill`: the data address translation, "if
enabled", by BAT first and by the page table on a BAT miss. -/
def tlb2_refill_translate (guest_va is_write : Nat) (s : MMU) : Res Nat :=
  if truthy (s.ppc_state.msr &&& 0x10) then
    -- the fields of `bat_res` are read only after a hit
    let bat_res := ppc_block_address_translation BATType.Data s guest_va 0 0
    if bat_res.hit then
      if !(truthy bat_res.prot) || (truthy (bat_res.prot &&& 1) && truthy is_write) then
        raise_dsi (0x08000000 ||| (is_write <<< 25)) guest_va s
      else Res.ok bat_res.phys s
    else
      page_address_translate guest_va false (msr_pr_of s.ppc_state.msr) is_write s
  else Res.ok guest_va s

/-- Lines 845-865 of `tlb2_refill`: the look-up of the host address and the
refill of the secondary TLB. -/
def tlb2_refill_fill (guest_va phys_addr : Nat) (s1 : MMU) : Res TLBPtr :=
  let tag := guest_va &&& 0xFFFFF000
  match s1.find_range phys_addr with
  | some reg_desc =>
    (tlb2_target_entry tag s1).bind fun tlb_entry s2 =>
      let e := s2.deref tlb_entry
      let e1 : TLBEntry :=
        if truthy (reg_desc.type &&& RT_MMIO) then
          { e with tag := tag, flags := 2, payload := TLBPayload.reg_desc reg_desc }
        else
          { e with tag := tag, flags := 1,
                   payload := TLBPayload.host_va_offset
                     (reg_desc.mem_ptr - (guest_va : Int)
                       + (sub32 phys_addr reg_desc.start : Nat)) }
      Res.ofOption tlb_entry (s2.store tlb_entry e1)
  | none =>
    Res.ok TLBPtr.UnmappedMem
      { s1 with UnmappedMem :=
          { s1.UnmappedMem with
            tag := tag,
            payload := TLBPayload.host_va_offset (s1.UnmappedVal_addr - (guest_va : Int)) } }

/-- The function `tlb2_refill(guest_va, is_write)`. -/
def tlb2_refill (guest_va is_write : Nat) (s : MMU) : Res TLBPtr :=
  (tlb2_refill_translate guest_va is_write s).bind fun phys_addr s1 =>
    tlb2_refill_fill guest_va phys_addr s1

/-- One round of the loop body of `flush_tlb_entry` on the arrays `tlb1` and
`tlb2` of the mode `sel`. -/
def flush_tlb_mode (sel : TLBSel) (ea : Nat) (s : MMU) : Option MMU :=
  let tag := ea &&& 0xFFFFF000
  let i := (ea >>> PAGE_SIZE_BITS) &&& tlb_size_mask
  let flush1 : Option MMU :=
    if (s.tlb1 sel i).tag = tag then
      s.set_tlb1 sel i { s.tlb1 sel i with tag := TLB_INVALID_TAG }
    else some s
  let way := fun (k : Nat) (s : MMU) =>
    if (s.tlb2 sel (i * TLB2_WAYS + k)).tag = tag then
      s.set_tlb2 sel (i * TLB2_WAYS + k)
        { s.tlb2 sel (i * TLB2_WAYS + k) with tag := TLB_INVALID_TAG }
    else some s
  flush1.bind fun s1 => (way 0 s1).bind fun s2 => (way 1 s2).bind fun s3 =>
    (way 2 s3).bind fun s4 => way 3 s4

/-- The arrays the `switch (m)` of `flush_tlb_entry` selects: every case
assigns `mode1_tlb1` and `mode1_tlb2`. -/
def flush_tlb_switch (m : Nat) : TLBSel :=
  match m with
  | 0 => TLBSel.mode1
  | 1 => TLBSel.mode1
  | _ => TLBSel.mode1

/-- The function `flush_tlb_entry(ea)`. -/
def flush_tlb_entry (ea : Nat) (s : MMU) : Res Unit :=
  Res.ofOption ()
    ((flush_tlb_mode (flush_tlb_switch 0) ea s).bind fun s1 =>
     (flush_tlb_mode (flush_tlb_switch 1) ea s1).bind fun s2 =>
      flush_tlb_mode (flush_tlb_switch 2) ea s2)

/-- The function `lookup_secondary_tlb(guest_va, tag)`; `none` is `nullptr`.
After `tlb_entry = &tlb_entry[k]` the LRU statements index from the new
pointer, as in the source. -/
def lookup_secondary_tlb (guest_va tag : Nat) (s : MMU) : Res (Option TLBPtr) :=
  match s.pCurTLB2 with
  | none => Res.ub
  | some sel =>
    let b := ((guest_va >>> PAGE_SIZE_BITS) &&& tlb_size_mask) * TLB2_WAYS
    let t := s.tlb2 sel
    if (t b).tag = tag then
      Res.ofOption (some (TLBPtr.tlb2 sel b)) (lru_first_pair sel b 0x3 0x2 s)
    else if (t (b + 1)).tag = tag then
      Res.ofOption (some (TLBPtr.tlb2 sel (b + 1))) (lru_first_pair sel (b + 1) 0x2 0x3 s)
    else if (t (b + 2)).tag = tag then
      Res.ofOption (some (TLBPtr.tlb2 sel (b + 2))) (lru_second_pair sel (b + 2) 0x3 0x2 s)
    else if (t (b + 3)).tag = tag then
      Res.ofOption (some (TLBPtr.tlb2 sel (b + 3))) (lru_second_pair sel (b + 3) 0x2 0x3 s)
    else Res.ok none s

/-- Truncation of a value to a type of `sz` bytes. -/
def trunc (sz v : Nat) : Nat := v % 256 ^ sz

/-- Where `mmu_read_vmem` finds its datum: a host address, or the value a
device returned. -/
inductive Located
  | host (host_va : Int)
  | device (value : Nat)
deriving DecidableEq

/-- Lines 1073-1079 of `mmu_read_vmem<T>`: the look-up in the secondary TLB
and, on a miss there, the refill. -/
def mmu_read_vmem_secondary (guest_va tag : Nat) (s : MMU) : Res TLBPtr :=
  (lookup_secondary_tlb guest_va tag s).bind fun r s1 =>
    match r with
    | some p => Res.ok p s1
    | none => tlb2_refill guest_va 0 s1

/-- Lines 1081-1092 of `mmu_read_vmem<T>`: the refill of the primary TLB entry
`i` of the array `sel1` from `*tlb2_entry` for a memory region, the device
read otherwise. -/
def mmu_read_vmem_primary (sz guest_va tag : Nat) (sel1 : TLBSel) (i : Nat)
    (tlb2_entry : TLBPtr) (s2 : MMU) : Res Located :=
  let e2 := s2.deref tlb2_entry
  if truthy (e2.flags &&& 1) then
    match e2.payload with
    | TLBPayload.host_va_offset o =>
      Res.ofOption (Located.host (o + (guest_va : Int)))
        (s2.set_tlb1 sel1 i
          { s2.tlb1 sel1 i with
            tag := tag, flags := 1, payload := TLBPayload.host_va_offset o })
    | TLBPayload.reg_desc _ => Res.ub
  else
    match e2.payload with
    | TLBPayload.reg_desc rd =>
      Res.ok
        (Located.device
          (trunc sz (s2.dev_read rd.devobj rd.start (sub32 guest_va rd.start) sz)))
        { s2 with dev_log :=
            { is_write := false, devobj := rd.devobj, region_base := rd.start,
              offset := sub32 guest_va rd.start, value := 0, size := sz }
              :: s2.dev_log }
    | TLBPayload.host_va_offset _ => Res.ub

/-- Lines 1066-1093 of `mmu_read_vmem<T>`: the TLB lookup, with
`sz = sizeof(T)`. -/
def mmu_read_vmem_lookup (sz guest_va : Nat) (s : MMU) : Res Located :=
  let tag := guest_va &&& 0xFFFFF000
  match s.pCurTLB1 with
  | none => Res.ub
  | some sel1 =>
    let i := (guest_va >>> PAGE_SIZE_BITS) &&& tlb_size_mask
    if (s.tlb1 sel1 i).tag = tag then
      match (s.tlb1 sel1 i).payload with
      | TLBPayload.host_va_offset o => Res.ok (Located.host (o + (guest_va : Int))) s
      | TLBPayload.reg_desc _ => Res.ub
    else
      (mmu_read_vmem_secondary guest_va tag s).bind fun tlb2_entry s2 =>
        mmu_read_vmem_primary sz guest_va tag sel1 i tlb2_entry s2

/-- The instance `mmu_read_vmem<uint8_t>`. -/
def mmu_read_vmem_u8 (guest_va : Nat) (s : MMU) : Res Nat :=
  (mmu_read_vmem_lookup 1 guest_va s).bind fun l s1 =>
    match l with
    | Located.device v => Res.ok v s1
    | Located.host host_va => Res.ok (rd8 s1.hmem host_va) s1

/-- The byte loop of the cross-page case of `read_unaligned`. -/
def read_unaligned_loop : Nat → Nat → Nat → MMU → Res Nat
  | 0, _, result, s => Res.ok result s
  | n + 1, guest_va, result, s =>
    (mmu_read_vmem_u8 guest_va s).bind fun b s1 =>
      read_unaligned_loop n (u32 (guest_va + 1)) (u32 ((result <<< 8) ||| b)) s1

/-- The function `read_unaligned(guest_va, host_va, size)`; its result type
is `uint32_t`. -/
def read_unaligned (guest_va : Nat) (host_va : Int) (size : Nat) (s : MMU) : Res Nat :=
  if (guest_va &&& 0xFFF) + size > 0x1000 then
    read_unaligned_loop size guest_va 0 s
  else if size = 2 then Res.ok (READ_WORD_BE s.hmem host_va) s
  else if size = 4 then Res.ok (READ_DWORD_BE s.hmem host_va) s
  else if size = 8 then Res.ok (u32 (READ_QWORD_BE s.hmem host_va)) s
  else Res.ok 0 s

/-- The function `mmu_read_vmem<T>(guest_va)` with `sz = sizeof(T)`, for `sz`
in 1, 2, 4, 8. -/
def mmu_read_vmem (sz guest_va : Nat) (s : MMU) : Res Nat :=
  (mmu_read_vmem_lookup sz guest_va s).bind fun l s1 =>
    match l with
    | Located.device v => Res.ok v s1
    | Located.host host_va =>
      if sz > 1 ∧ truthy (guest_va &&& (sz - 1)) then
        read_unaligned guest_va host_va sz s1
      else Res.ok (read_be s1.hmem host_va sz) s1


/-! ## Conditions on the environment and on the TLB -/

/-- Host address that backs the physical address `pa` of the range `r`. -/
def host_of (r : AddressMapEntry) (pa : Nat) : Int := r.mem_ptr + (sub32 pa r.start : Nat)

/-- Modelled from the spec: the ranges of the address map are disjoint and
`find_range` returns the range that holds the address. -/
def map_coherent (find_range : Nat → Option AddressMapEntry) : Prop :=
  ∀ a e, find_range a = some e →
    e.start ≤ a ∧ a ≤ e.end_ ∧ ∀ b, e.start ≤ b → b ≤ e.end_ → find_range b = some e

/-- The variable `last_write_area` holds its initial value or a copy of a
range of the address map. -/
def write_area_ok (s : MMU) : Prop :=
  (s.last_write_area.start = 0xFFFFFFFF ∧ s.last_write_area.end_ = 0xFFFFFFFF) ∨
    ∃ a, s.find_range a = some s.last_write_area

/-- The variable `last_ptab_area` holds its initial bounds or the bounds and
host pointer of a RAM or ROM range of the address map. -/
def ptab_area_ok (s : MMU) : Prop :=
  (s.last_ptab_area.start = 0xFFFFFFFF ∧ s.last_ptab_area.end_ = 0xFFFFFFFF) ∨
    ∃ a e, s.find_range a = some e ∧ truthy (e.type &&& (RT_ROM ||| RT_RAM)) = true ∧
      s.last_ptab_area.start = e.start ∧ s.last_ptab_area.end_ = e.end_ ∧
      s.last_ptab_area.mem_ptr = e.mem_ptr

/-- The `n` bytes at host address `p` and the `m` bytes at `q` do not overlap. -/
def disjoint_bytes (p : Int) (n : Nat) (q : Int) (m : Nat) : Prop :=
  ∀ i j : Nat, i < n → j < m → p + (i : Int) ≠ q + (j : Int)

/-- The entries of the TLB arrays `sel1` (primary) and `sel2` (secondary) that
hold the tag of `va` are memory entries whose offset leads from `va` to the
host address `host`. -/
def tlb_agrees (s : MMU) (sel1 sel2 : TLBSel) (va : Nat) (host : Int) : Prop :=
  ((s.tlb1 sel1 ((va >>> PAGE_SIZE_BITS) &&& tlb_size_mask)).tag = va &&& 0xFFFFF000 →
    (s.tlb1 sel1 ((va >>> PAGE_SIZE_BITS) &&& tlb_size_mask)).payload =
      TLBPayload.host_va_offset (host - (va : Int))) ∧
  ∀ w, w < 4 →
    (s.tlb2 sel2 (((va >>> PAGE_SIZE_BITS) &&& tlb_size_mask) * TLB2_WAYS + w)).tag
        = va &&& 0xFFFFF000 →
      (s.tlb2 sel2 (((va >>> PAGE_SIZE_BITS) &&& tlb_size_mask) * TLB2_WAYS + w)).flags &&& 1
          ≠ 0 ∧
        (s.tlb2 sel2 (((va >>> PAGE_SIZE_BITS) &&& tlb_size_mask) * TLB2_WAYS + w)).payload =
          TLBPayload.host_va_offset (host - (va : Int))

/-- No entry of the TLB arrays `sel1` and `sel2` holds the tag of `va`. -/
def tlb_misses (s : MMU) (sel1 sel2 : TLBSel) (va : Nat) : Prop :=
  (s.tlb1 sel1 ((va >>> PAGE_SIZE_BITS) &&& tlb_size_mask)).tag ≠ va &&& 0xFFFFF000 ∧
  ∀ w, w < 4 →
    (s.tlb2 sel2 (((va >>> PAGE_SIZE_BITS) &&& tlb_size_mask) * TLB2_WAYS + w)).tag
      ≠ va &&& 0xFFFFF000

/-- The state `s'` shows the same host memory as `s`, and the same flags and
payloads in the secondary TLB arrays. -/
def same_view (s s' : MMU) : Prop :=
  s'.hmem = s.hmem ∧
    ∀ sel j, (s'.tlb2 sel j).flags = (s.tlb2 sel j).flags ∧
      (s'.tlb2 sel j).payload = (s.tlb2 sel j).payload

/-! ## Sample machine -/

/-- A 16 MiB RAM range at guest address 0, backed at host address `0x70000000`. -/
def sample_ram : AddressMapEntry :=
  { start := 0, end_ := 0x00FFFFFF, type := RT_RAM, devobj := 0, mem_ptr := 0x70000000 }

/-- The initial value `{0xFFFFFFFF, 0xFFFFFFFF}` of the MRU range variables. -/
def mru_sentinel : AddressMapEntry :=
  { start := 0xFFFFFFFF, end_ := 0xFFFFFFFF, type := 0, devobj := 0, mem_ptr := 0 }

/-- A TLB entry as `ppc_mmu_init` leaves it. -/
def invalid_entry : TLBEntry :=
  { tag := TLB_INVALID_TAG, flags := 0, lru_bits := 0,
    payload := TLBPayload.host_va_offset 0 }

/-- A BAT entry that is not valid. -/
def empty_bat : PPC_BAT_entry :=
  { access := 0, prot := 0, phys_hi := 0, hi_mask := 0, bepi := 0 }

/-- A machine in supervisor mode with data translation on.  DBAT0 maps the
128 KiB block at `0x40000000` read-only; the page table sits at physical
address 0 and its only PTE maps the page at `0x1000` to physical page 0,
read-write. -/
def sample : MMU :=
  { ppc_state :=
      { fpr := fun _ => 0, pc := 0, gpr := fun _ => 0, cr := 0, fpscr := 0,
        tbr := fun _ => 0, spr := fun _ => 0, msr := 0x10, sr := fun _ => 0,
        reserve := false }
    mmu_exception_handler := Handler.ppc_exception_handler
    ibat_array := fun _ => empty_bat
    dbat_array := fun i =>
      if i = 0 then
        { access := 3, prot := 1, phys_hi := 0x00200000, hi_mask := 0xFFFE0000,
          bepi := 0x40000000 }
      else empty_bat
    MemAccessType := false
    MemAddr := 0
    Device := 0
    DevOffset := 0
    last_read_area := mru_sentinel
    last_write_area := mru_sentinel
    last_exec_area := mru_sentinel
    last_ptab_area := mru_sentinel
    last_dma_area := mru_sentinel
    mode1_tlb1 := fun _ => invalid_entry
    mode2_tlb1 := fun _ => invalid_entry
    mode3_tlb1 := fun _ => invalid_entry
    mode1_tlb2 := fun _ => invalid_entry
    mode2_tlb2 := fun _ => invalid_entry
    mode3_tlb2 := fun _ => invalid_entry
    pCurTLB1 := some TLBSel.mode2
    pCurTLB2 := some TLBSel.mode2
    UnmappedVal_addr := 0x7F000000
    UnmappedMem := invalid_entry
    MMUMode := 2
    find_range := fun a => if a ≤ 0x00FFFFFF then some sample_ram else none
    hmem := fun a => if a = 0x70000040 then 0x80 else if a = 0x70000047 then 0x02 else 0
    dev_read := fun _ _ _ _ => 0
    dev_log := [] }

/-- The sample machine once the page table range is cached. -/
def sample_walked : MMU :=
  { sample with
    last_ptab_area :=
      { mru_sentinel with start := 0, end_ := 0x00FFFFFF, mem_ptr := 0x70000000 } }


/-- The sample machine after a supervisor write access to the page at
`0x1000` has been translated: the R and C bits of its PTE are set. -/
def sample_translated : MMU :=
  { sample_walked with
    hmem := rc_update sample.hmem 0x70000040 1 }

/-- The sample machine with the page at `0x1000` cached in the primary TLBs of
the real-address mode and of the supervisor-translated mode. -/
def sample_cached : MMU :=
  { sample with
    mode1_tlb1 := upd sample.mode1_tlb1 1
      { tag := 0x1000, flags := 1, lru_bits := 0,
        payload := TLBPayload.host_va_offset 0x70000000 }
    mode2_tlb1 := upd sample.mode2_tlb1 1
      { tag := 0x1000, flags := 1, lru_bits := 0,
        payload := TLBPayload.host_va_offset (0x70000000 - 0x1000) } }

/-- The sample machine with the protection of DBAT0 set to `11`. -/
def sample_prot3 : MMU :=
  { sample with
    dbat_array := fun i =>
      if i = 0 then
        { access := 3, prot := 3, phys_hi := 0x00200000, hi_mask := 0xFFFE0000,
          bepi := 0x40000000 }
      else empty_bat }

/-! ## BAT register updates -/

/-- The BAT entry that `ibat_update` and `dbat_update` compute from the upper
and the lower register of a pair. -/
def bat_entry_of_pair (upper lower : Nat) : PPC_BAT_entry :=
  let bl := (upper >>> 2) &&& 0x7FF
  let hi_mask := not32 ((bl <<< 17) ||| 0x1FFFF)
  { access := upper &&& 3
    prot := lower &&& 3
    hi_mask := hi_mask
    phys_hi := lower &&& hi_mask
    bepi := upper &&& hi_mask }

/-- The addresses a BAT entry admits are those of one block of `size` bytes
that starts at a multiple of `size`. -/
def bat_block (e : PPC_BAT_entry) (size : Nat) : Prop :=
  e.bepi % size = 0 ∧
    ∀ la, la < 2 ^ 32 → (la &&& e.hi_mask = e.bepi ↔ e.bepi ≤ la ∧ la < e.bepi + size)

/-- The function `ibat_update(bat_reg)`.  `ibat_array` has four entries; a
store to another index is undefined behaviour. -/
def ibat_update (bat_reg : Nat) (s : MMU) : Res Unit :=
  let upper_reg_num := u32 bat_reg &&& 0xFFFFFFFE
  if truthy (s.ppc_state.spr upper_reg_num &&& 3) then
    let i := (sub32 bat_reg 528) >>> 1
    if i < 4 then
      Res.ok ()
        { s with ibat_array := fun k =>
            if k = i then
              (bat_entry_of_pair (s.ppc_state.spr upper_reg_num)
                (s.ppc_state.spr (upper_reg_num + 1)))
            else s.ibat_array k }
    else Res.ub
  else Res.ok () s

/-- The function `dbat_update(bat_reg)`.  `dbat_array` has four entries; a
store to another index is undefined behaviour. -/
def dbat_update (bat_reg : Nat) (s : MMU) : Res Unit :=
  let upper_reg_num := u32 bat_reg &&& 0xFFFFFFFE
  if truthy (s.ppc_state.spr upper_reg_num &&& 3) then
    let i := (sub32 bat_reg 536) >>> 1
    if i < 4 then
      Res.ok ()
        { s with dbat_array := fun k =>
            if k = i then
              (bat_entry_of_pair (s.ppc_state.spr upper_reg_num)
                (s.ppc_state.spr (upper_reg_num + 1)))
            else s.dbat_array k }
    else Res.ub
  else Res.ok () s

/-! ## MMU mode -/

/-- The function `mmu_change_mode()`.  The `switch` has the cases 0, 2 and 3. -/
def mmu_change_mode (s : MMU) : MMU :=
  let mmu_mode := ((s.ppc_state.msr >>> 3) &&& 0x2) ||| ((s.ppc_state.msr >>> 14) &&& 1)
  if s.MMUMode ≠ mmu_mode then
    let s1 : MMU :=
      if mmu_mode = 0 then
        { s with pCurTLB1 := some TLBSel.mode1, pCurTLB2 := some TLBSel.mode1 }
      else if mmu_mode = 2 then
        { s with pCurTLB1 := some TLBSel.mode2, pCurTLB2 := some TLBSel.mode2 }
      else if mmu_mode = 3 then
        { s with pCurTLB1 := some TLBSel.mode3, pCurTLB2 := some TLBSel.mode3 }
      else s
    { s1 with MMUMode := mmu_mode }
  else s

/-! ## Physical memory port: reads -/

/-- The value of the expression `(-1ULL ? sizeof(T) == 8 : -1UL)` that
`read_phys_mem` returns when it cannot read. -/
def read_fail_value (sz : Nat) : Nat := if sz = 8 then 1 else 0

/-- The function `read_phys_mem<T, is_aligned>(mru_rgn, addr)` with
`sz = sizeof(T)`; the result is the value and the state. -/
def read_phys_mem (sz : Nat) (is_aligned : Bool) (mru_rgn : MRU) (addr : Nat)
    (s : MMU) : Nat × MMU :=
  match mru_resolve sz mru_rgn addr s with
  | none => (read_fail_value sz, s)
  | some s1 =>
    let rgn := s1.mru mru_rgn
    let p : Int := rgn.mem_ptr + (sub32 addr rgn.start : Nat)
    if truthy (rgn.type &&& (RT_ROM ||| RT_RAM)) then
      if sz = 1 then (rd8 s1.hmem p, s1)
      else if sz = 2 then (READ_WORD_BE s1.hmem p, s1)
      else if sz = 4 then (READ_DWORD_BE s1.hmem p, s1)
      else if sz = 8 ∧ is_aligned = true then (READ_QWORD_BE s1.hmem p, s1)
      else (read_fail_value sz, s1)
    else if truthy (rgn.type &&& RT_MMIO) then
      (trunc sz (s1.dev_read rgn.devobj rgn.start (sub32 addr rgn.start) sz),
        { s1 with dev_log :=
            { is_write := false, devobj := rgn.devobj, region_base := rgn.start,
              offset := sub32 addr rgn.start, value := 0, size := sz }
              :: s1.dev_log })
    else (read_fail_value sz, s1)

/-! ## Loads through the TLB shadow -/

/-- The function `tlb_translate_addr(guest_va)`.  Its look-up in the secondary
TLB is the statement sequence of `lookup_secondary_tlb`, followed by the
refill on a miss. -/
def tlb_translate_addr (guest_va : Nat) (s : MMU) : Res Int :=
  let tag := guest_va &&& 0xFFFFF000
  match s.pCurTLB1 with
  | none => Res.ub
  | some sel1 =>
    let i := (guest_va >>> PAGE_SIZE_BITS) &&& tlb_size_mask
    if (s.tlb1 sel1 i).tag = tag then
      match (s.tlb1 sel1 i).payload with
      | TLBPayload.host_va_offset o =>
        Res.ok (o + (guest_va : Int))
          { s with MemAccessType := true, MemAddr := o + (guest_va : Int) }
      | TLBPayload.reg_desc _ => Res.ub
    else
      (mmu_read_vmem_secondary guest_va tag s).bind fun tlb2_entry s2 =>
        let e2 := s2.deref tlb2_entry
        if truthy (e2.flags &&& 1) then
          match e2.payload with
          | TLBPayload.host_va_offset o =>
            match s2.set_tlb1 sel1 i
                { s2.tlb1 sel1 i with
                  tag := tag, flags := 1, payload := TLBPayload.host_va_offset o } with
            | some s3 =>
              Res.ok (o + (guest_va : Int))
                { s3 with MemAccessType := true, MemAddr := o + (guest_va : Int) }
            | none => Res.ub
          | TLBPayload.reg_desc _ => Res.ub
        else
          match e2.payload with
          | TLBPayload.reg_desc rd =>
            Res.ok ((sub32 guest_va rd.start : Nat) : Int)
              { s2 with MemAccessType := false, Device := rd.devobj,
                        DevOffset := sub32 guest_va rd.start }
          | TLBPayload.host_va_offset _ => Res.ub

/-- The function `mem_grab_qword(addr)`. -/
def mem_grab_qword (addr : Nat) (s : MMU) : Res Nat :=
  (tlb_translate_addr addr s).bind fun _ s0 =>
    if truthy (addr &&& 7) then Res.exit s0
    else
      let translated : Res Nat :=
        if truthy (s0.ppc_state.msr &&& 0x10) then ppc_mmu_addr_translate addr 0 s0
        else Res.ok addr s0
      translated.bind fun pa s1 =>
        Res.ok (read_phys_mem 8 true MRU.last_read_area pa s1).1
          (read_phys_mem 8 true MRU.last_read_area pa s1).2

/-! ## Composition of byte reads -/

/-- The big-endian composition of `n` single-byte reads
`mmu_read_vmem<uint8_t>(va)`, `mmu_read_vmem<uint8_t>(va + 1)`, ..., most
significant byte first, made one after the other; `acc` is the value composed
so far.  This follows the wording of the specification, not the source. -/
def byte_reads_be : Nat → Nat → Nat → MMU → Res Nat
  | 0, _, acc, s => Res.ok acc s
  | n + 1, va, acc, s =>
    (mmu_read_vmem 1 va s).bind fun b s1 =>
      byte_reads_be n (u32 (va + 1)) (acc * 256 + b) s1

/-! ## Further sample machines -/

/-- The sample machine in real-address mode, with the bytes `AA BB` at the end
of the page at `0x1000` and `CC DD` at the start of the page at `0x2000`. -/
def sample_real : MMU :=
  { sample with
    ppc_state := { sample.ppc_state with msr := 0 }
    pCurTLB1 := some TLBSel.mode1
    pCurTLB2 := some TLBSel.mode1
    MMUMode := 0
    hmem := fun a =>
      if a = 0x70001FFE then 0xAA else if a = 0x70001FFF then 0xBB
      else if a = 0x70002000 then 0xCC else if a = 0x70002001 then 0xDD else 0 }

/-- The sample machine with IBAT0 mapping the 128 KiB block at `0x40000000`
with protection `00`. -/
def sample_ibat : MMU :=
  { sample with
    ibat_array := fun i =>
      if i = 0 then
        { access := 3, prot := 0, phys_hi := 0x00200000, hi_mask := 0xFFFE0000,
          bepi := 0x40000000 }
      else empty_bat }

/-- The sample machine with every segment register a direct-store segment. -/
def sample_direct_store : MMU :=
  { sample with ppc_state := { sample.ppc_state with sr := fun _ => 0x80000000 } }

/-- The sample machine with every segment register marked no-execute. -/
def sample_noexec : MMU :=
  { sample with ppc_state := { sample.ppc_state with sr := fun _ => 0x10000000 } }

/-- The sample machine (supervisor-translated TLB pair selected) after the MSR
was set to user mode with data translation off. -/
def sample_user_real : MMU :=
  { sample with ppc_state := { sample.ppc_state with msr := 0x4000 } }

/-- The sample machine with the BAT registers IBAT0U/IBAT0L loaded for a valid
128 KiB block (`BL = 0`) and DBAT0U/DBAT0L for a valid 256 MiB block
(`BL = 0x7FF`). -/
def sample_batregs : MMU :=
  { sample with
    ppc_state :=
      { sample.ppc_state with
        spr := fun k =>
          if k = 528 then 0x40000003 else if k = 529 then 0x00200002
          else if k = 536 then 0x80001FFF else if k = 537 then 0x10000002 else 0 } }

/-- A 4 MiB ROM range at the top of the physical address space. -/
def sample_rom_range : AddressMapEntry :=
  { start := 0xFFC00000, end_ := 0xFFFFFFFF, type := RT_ROM, devobj := 0,
    mem_ptr := 0x60000000 }

/-- The sample machine with a ROM range next to its RAM range. -/
def sample_rom : MMU :=
  { sample with
    find_range := fun a =>
      if a ≤ 0x00FFFFFF then some sample_ram
      else if 0xFFC00000 ≤ a ∧ a ≤ 0xFFFFFFFF then some sample_rom_range
      else none }

/-! ## Loads through the physical memory port -/

/-- The byte loop of the cross-page case of `mem_grab_unaligned`; `n` counts
the bytes still to read, `phys_addr` is `none` while it has no value. -/
def mem_grab_crosspage : Nat → Nat → Nat → Option Nat → Nat → MMU → Res Nat
  | 0, _, _, _, res, s => Res.ok res s
  | n + 1, i, addr, phys_addr, res, s =>
    (tlb_translate_addr addr s).bind fun _ s0 =>
      let translated : Res (Option Nat) :=
        if truthy (s0.ppc_state.msr &&& 0x10) && (i == 0 || !(truthy (addr &&& 0xFFF))) then
          (ppc_mmu_addr_translate addr 0 s0).bind fun pa s1 => Res.ok (some pa) s1
        else Res.ok phys_addr s0
      translated.bind fun phys s1 =>
        match phys with
        | none => Res.ub
        | some pa =>
          mem_grab_crosspage n (i + 1) (u32 (addr + 1)) (some (u32 (pa + 1)))
            (u32 ((res <<< 8) ||| (read_phys_mem 1 false MRU.last_read_area pa s1).1))
            (read_phys_mem 1 false MRU.last_read_area pa s1).2

/-- The function `mem_grab_unaligned(addr, size)`. -/
def mem_grab_unaligned (addr size : Nat) (s : MMU) : Res Nat :=
  if (addr &&& 0xFFF) + size > 0x1000 then
    mem_grab_crosspage size 0 addr none 0 s
  else
    let translated : Res Nat :=
      if truthy (s.ppc_state.msr &&& 0x10) then ppc_mmu_addr_translate addr 0 s
      else Res.ok addr s
    translated.bind fun addr s1 =>
      if size = 2 then
        Res.ok (read_phys_mem 2 false MRU.last_read_area addr s1).1
          (read_phys_mem 2 false MRU.last_read_area addr s1).2
      else
        Res.ok (read_phys_mem 4 false MRU.last_read_area addr s1).1
          (read_phys_mem 4 false MRU.last_read_area addr s1).2

/-- Data address translation of a load, "if enabled", followed by the aligned
read of `sz` bytes: the common tail of the `mem_grab_*` functions. -/
def mem_grab_aligned (sz addr : Nat) (s : MMU) : Res Nat :=
  let translated : Res Nat :=
    if truthy (s.ppc_state.msr &&& 0x10) then ppc_mmu_addr_translate addr 0 s
    else Res.ok addr s
  translated.bind fun pa s1 =>
    Res.ok (read_phys_mem sz true MRU.last_read_area pa s1).1
      (read_phys_mem sz true MRU.last_read_area pa s1).2

/-- The function `mem_grab_byte(addr)`. -/
def mem_grab_byte (addr : Nat) (s : MMU) : Res Nat :=
  (tlb_translate_addr addr s).bind fun _ s0 => mem_grab_aligned 1 addr s0

/-- The function `mem_grab_word(addr)`; its result type is `uint16_t`. -/
def mem_grab_word (addr : Nat) (s : MMU) : Res Nat :=
  (tlb_translate_addr addr s).bind fun _ s0 =>
    if truthy (addr &&& 1) then
      (mem_grab_unaligned addr 2 s0).bind fun v s1 => Res.ok (trunc 2 v) s1
    else mem_grab_aligned 2 addr s0

/-- The function `mem_grab_dword(addr)`. -/
def mem_grab_dword (addr : Nat) (s : MMU) : Res Nat :=
  (tlb_translate_addr addr s).bind fun _ s0 =>
    if truthy (addr &&& 3) then mem_grab_unaligned addr 4 s0
    else mem_grab_aligned 4 addr s0

/-! ## Debugger reads -/

/-- The statements of `mem_read_dbg` that restore the MMU-related CPU state. -/
def dbg_restore (save_dsisr save_dar : Nat) (s : MMU) : MMU :=
  ({ s with mmu_exception_handler := Handler.ppc_exception_handler }.set_spr
    SPR.DSISR save_dsisr).set_spr SPR.DAR save_dar

/-- The function `mem_read_dbg(virt_addr, size)`.  Modelled from the spec:
`dbg_exception_handler` throws `std::invalid_argument`, which the `catch`
clause takes; what another handler does is not caught. -/
def mem_read_dbg (virt_addr size : Nat) (s : MMU) : Res Nat :=
  let save_dsisr := s.ppc_state.spr SPR.DSISR
  let save_dar := s.ppc_state.spr SPR.DAR
  let s0 : MMU := { s with mmu_exception_handler := Handler.dbg_exception_handler }
  let r : Res Nat :=
    if size = 1 then mem_grab_byte virt_addr s0
    else if size = 2 then mem_grab_word virt_addr s0
    else if size = 4 then mem_grab_dword virt_addr s0
    else if size = 8 then mem_grab_qword virt_addr s0
    else mem_grab_byte virt_addr s0
  match r with
  | Res.ok ret_val s1 => Res.ok ret_val (dbg_restore save_dsisr save_dar s1)
  | Res.exc t b s1 =>
    if s1.mmu_exception_handler = Handler.dbg_exception_handler then
      Res.exc t b (dbg_restore save_dsisr save_dar s1)
    else Res.exc t b s1
  | Res.exit s1 => Res.exit s1
  | Res.ub => Res.ub

/-! ## Initialisation -/

/-- The value every TLB array element gets in `ppc_mmu_init`. -/
def tlb_init_entry : TLBEntry :=
  { tag := TLB_INVALID_TAG, flags := 0, lru_bits := 0,
    payload := TLBPayload.host_va_offset 0 }

/-- The function `ppc_mmu_init()`. -/
def ppc_mmu_init (s : MMU) : MMU :=
  mmu_change_mode
    { s with
      mmu_exception_handler := Handler.ppc_exception_handler
      mode1_tlb1 := fun i => if i < TLB_SIZE then tlb_init_entry else s.mode1_tlb1 i
      mode2_tlb1 := fun i => if i < TLB_SIZE then tlb_init_entry else s.mode2_tlb1 i
      mode3_tlb1 := fun i => if i < TLB_SIZE then tlb_init_entry else s.mode3_tlb1 i
      mode1_tlb2 := fun i =>
        if i < TLB_SIZE * TLB2_WAYS then tlb_init_entry else s.mode1_tlb2 i
      mode2_tlb2 := fun i =>
        if i < TLB_SIZE * TLB2_WAYS then tlb_init_entry else s.mode2_tlb2 i
      mode3_tlb2 := fun i =>
        if i < TLB_SIZE * TLB2_WAYS then tlb_init_entry else s.mode3_tlb2 i }

/-- The values the static initialisers give the TLB pointers and `MMUMode`
before `ppc_mmu_init` runs. -/
def program_start (s : MMU) : Prop :=
  s.pCurTLB1 = none ∧ s.pCurTLB2 = none ∧ s.MMUMode = 0xFF

/-! ## States and frames of the TLB functions -/

/-- The TLB arrays and the pointers to the current pair are the same in `s`
and `s'`; everything else may differ (registers, memory, BAT arrays, ...). -/
def tlb_untouched (s s' : MMU) : Prop :=
  s'.pCurTLB1 = s.pCurTLB1 ∧ s'.pCurTLB2 = s.pCurTLB2 ∧
    (∀ sel, s'.tlb1 sel = s.tlb1 sel) ∧ ∀ sel, s'.tlb2 sel = s.tlb2 sel

/-- The states reachable from `ppc_mmu_init` through `mmu_read_vmem`,
`tlb_translate_addr`, `flush_tlb_entry` and `mmu_change_mode`, whether a call
returns or raises an exception, with any code in between that leaves the TLB
arrays and the two pointers alone. -/
inductive Reachable : MMU → Prop
  | init (s0 : MMU) : program_start s0 → Reachable (ppc_mmu_init s0)
  | read_ok (s s' : MMU) (sz va v : Nat) :
      Reachable s → va < 2 ^ 32 → mmu_read_vmem sz va s = Res.ok v s' → Reachable s'
  | read_exc (s s' : MMU) (sz va b : Nat) (t : Except_Type) :
      Reachable s → va < 2 ^ 32 → mmu_read_vmem sz va s = Res.exc t b s' → Reachable s'
  | translate_ok (s s' : MMU) (va : Nat) (r : Int) :
      Reachable s → va < 2 ^ 32 → tlb_translate_addr va s = Res.ok r s' → Reachable s'
  | translate_exc (s s' : MMU) (va b : Nat) (t : Except_Type) :
      Reachable s → va < 2 ^ 32 → tlb_translate_addr va s = Res.exc t b s' → Reachable s'
  | flush (s s' : MMU) (ea : Nat) :
      Reachable s → ea < 2 ^ 32 → flush_tlb_entry ea s = Res.ok () s' → Reachable s'
  | mode (s : MMU) : Reachable s → Reachable (mmu_change_mode s)
  | other (s s' : MMU) : Reachable s → tlb_untouched s s' → Reachable s'

/-- The two pointers select the arrays of the same mode; in every set an L2
way that holds the valid tag of the L1 entry holds its payload; no two ways
of a set hold the same valid tag. -/
def tlb_inv (s : MMU) : Prop :=
  s.pCurTLB1 = s.pCurTLB2 ∧
  ∀ sel i, i < TLB_SIZE →
    (∀ w, w < TLB2_WAYS → (s.tlb1 sel i).tag ≠ TLB_INVALID_TAG →
      (s.tlb2 sel (i * TLB2_WAYS + w)).tag = (s.tlb1 sel i).tag →
      (s.tlb2 sel (i * TLB2_WAYS + w)).payload = (s.tlb1 sel i).payload) ∧
    (∀ w1 w2, w1 < TLB2_WAYS → w2 < TLB2_WAYS →
      (s.tlb2 sel (i * TLB2_WAYS + w1)).tag = (s.tlb2 sel (i * TLB2_WAYS + w2)).tag →
      (s.tlb2 sel (i * TLB2_WAYS + w1)).tag ≠ TLB_INVALID_TAG → w1 = w2)

/-- The pointers, the L1 arrays, and the tags, flags and payloads of the L2
arrays are the same in `s` and `s'` (the LRU bits may differ). -/
def tlb_same (s s' : MMU) : Prop :=
  s'.pCurTLB1 = s.pCurTLB1 ∧ s'.pCurTLB2 = s.pCurTLB2 ∧
    (∀ sel, s'.tlb1 sel = s.tlb1 sel) ∧
    ∀ sel j, (s'.tlb2 sel j).tag = (s.tlb2 sel j).tag ∧
      (s'.tlb2 sel j).flags = (s.tlb2 sel j).flags ∧
      (s'.tlb2 sel j).payload = (s.tlb2 sel j).payload

/-- The state `s'` has the exception handler and the registers of `s`, DSISR
and DAR apart, and the host memory of `s` with, at most, bit `0x01` set in some
bytes. -/
def arch_frame (s s' : MMU) : Prop :=
  s'.mmu_exception_handler = s.mmu_exception_handler ∧
  (∃ spr', s'.ppc_state = { s.ppc_state with spr := spr' } ∧
    ∀ k, k ≠ SPR.DSISR → k ≠ SPR.DAR → spr' k = s.ppc_state.spr k) ∧
  ∀ a, rd8 s'.hmem a = rd8 s.hmem a ∨ rd8 s'.hmem a = rd8 s.hmem a ||| 0x01

/-- What one call on the read path does to a state: `arch_frame`, and the TLB
invariant is kept. -/
def read_step (s s' : MMU) : Prop :=
  arch_frame s s' ∧ (tlb_inv s → tlb_inv s')

/-- A `read_step` that leaves the TLB alone, LRU bits apart. -/
@[reducible] def quiet_step (s s' : MMU) : Prop :=
  read_step s s' ∧ tlb_same s s'

/-- The property `P` holds of the state in which a call ends, however it ends
(undefined behaviour leaves no state). -/
def Res.all {α : Type} (P : MMU → Prop) : Res α → Prop
  | Res.ok _ s => P s
  | Res.exc _ _ s => P s
  | Res.exit s => P s
  | Res.ub => True

/-- Entries of `s'` are those of `s`, some with the tag replaced by the
invalid tag; the pointers to the current pair are the same. -/
def tlb_killed (s s' : MMU) : Prop :=
  s'.pCurTLB1 = s.pCurTLB1 ∧ s'.pCurTLB2 = s.pCurTLB2 ∧
    (∀ sel i, s'.tlb1 sel i = s.tlb1 sel i ∨
      s'.tlb1 sel i = { s.tlb1 sel i with tag := TLB_INVALID_TAG }) ∧
    ∀ sel i, s'.tlb2 sel i = s.tlb2 sel i ∨
      s'.tlb2 sel i = { s.tlb2 sel i with tag := TLB_INVALID_TAG }

/-- Every element of the primary TLB arrays has its payload in the member
`host_va_offset`. -/
def l1_host (s : MMU) : Prop :=
  ∀ sel i, i < TLB_SIZE → ∃ o, (s.tlb1 sel i).payload = TLBPayload.host_va_offset o

/-- A step that keeps `l1_host`. -/
def l1_keep (s s' : MMU) : Prop := l1_host s → l1_host s'

/-- A 16 MiB range of a memory-mapped device at `0xF3000000`. -/
def sample_mmio_range : AddressMapEntry :=
  { start := 0xF3000000, end_ := 0xF3FFFFFF, type := RT_MMIO, devobj := 7, mem_ptr := 0 }

/-- The sample machine with the device range in its address map and DBAT0
mapping the block at `0x40000000` to the device, read-write. -/
def sample_mmio : MMU :=
  { sample with
    dbat_array := fun i =>
      if i = 0 then
        { access := 3, prot := 2, phys_hi := 0xF3000000, hi_mask := 0xFFFE0000,
          bepi := 0x40000000 }
      else empty_bat
    find_range := fun a =>
      if a ≤ 0x00FFFFFF then some sample_ram
      else if 0xF3000000 ≤ a ∧ a ≤ 0xF3FFFFFF then some sample_mmio_range
      else none }

/-- A 2 GiB RAM range at guest address 0. -/
def sample_big_ram : AddressMapEntry :=
  { start := 0, end_ := 0x7FFFFFFF, type := RT_RAM, devobj := 0, mem_ptr := 0x100000000 }

/-- A machine as the program starts it, before `ppc_mmu_init`: real-address
mode, 2 GiB of RAM, empty memory. -/
def sample_big_start : MMU :=
  { sample_real with
    pCurTLB1 := none
    pCurTLB2 := none
    MMUMode := 0xFF
    find_range := fun a => if a ≤ 0x7FFFFFFF then some sample_big_ram else none
    hmem := fun _ => 0 }

/-- The state in which a call ended, `d` after undefined behaviour. -/
def Res.state {α : Type} (d : MMU) : Res α → MMU
  | Res.ok _ s => s
  | Res.exc _ _ s => s
  | Res.exit s => s
  | Res.ub => d

/-- The machine `sample_big_start` after `ppc_mmu_init` and byte reads at the
given addresses, in order. -/
def after_reads : List Nat → MMU
  | [] => ppc_mmu_init sample_big_start
  | va :: rest => Res.state (after_reads rest) (mmu_read_vmem 1 va (after_reads rest))

/-- The machine after `ppc_mmu_init` and byte reads at `0x00000000`,
`0x01000000`, `0x02000000`, `0x03000000` (four refills of L2 set 0), then
again at `0x01000000` (L2 hit in way 1) and at `0x00000000` (L2 hit in way 0). -/
def sample_lru_state : MMU :=
  after_reads [0x00000000, 0x01000000, 0x03000000, 0x02000000, 0x01000000, 0x00000000]

/-- The real-mode sample machine with the page at `0x1000` in way 1 of its L2
set (element 5 of `mode1_tlb2`) and the other ways of the set invalid. -/
def sample_l2 : MMU :=
  { sample_real with
    mode1_tlb2 := fun j =>
      if j = 5 then
        { tag := 0x1000, flags := 1, lru_bits := 0,
          payload := TLBPayload.host_va_offset 0x70000000 }
      else invalid_entry }

/-! ## DMA -/

/-- The function `mmu_get_dma_mem(addr, size)`; the sum `addr + size` is a
`uint32_t`.  Only the fields `start`, `end` and `mem_ptr` of `last_dma_area`
are assigned. -/
def mmu_get_dma_mem (addr size : Nat) (s : MMU) : Res Int :=
  if addr ≥ s.last_dma_area.start ∧ u32 (addr + size) ≤ s.last_dma_area.end_ then
    Res.ok (s.last_dma_area.mem_ptr + (sub32 addr s.last_dma_area.start : Nat)) s
  else
    match s.find_range addr with
    | some entry =>
      if truthy (entry.type &&& (RT_ROM ||| RT_RAM)) then
        let area : AddressMapEntry :=
          { s.last_dma_area with
            start := entry.start, end_ := entry.end_, mem_ptr := entry.mem_ptr }
        Res.ok (area.mem_ptr + (sub32 addr area.start : Nat))
          { s with last_dma_area := area }
      else Res.exit s
    | none => Res.exit s

/-! ## The physical memory port without the MRU variables -/

/-- Specification side of the MRU refinement: `read_phys_mem` with
`find_range` consulted on every access and no MRU variable. -/
def read_phys_mem_uncached (sz : Nat) (is_aligned : Bool) (addr : Nat) (s : MMU) :
    Nat × MMU :=
  match s.find_range addr with
  | none => (read_fail_value sz, s)
  | some rgn =>
    let p : Int := rgn.mem_ptr + (sub32 addr rgn.start : Nat)
    if truthy (rgn.type &&& (RT_ROM ||| RT_RAM)) then
      if sz = 1 then (rd8 s.hmem p, s)
      else if sz = 2 then (READ_WORD_BE s.hmem p, s)
      else if sz = 4 then (READ_DWORD_BE s.hmem p, s)
      else if sz = 8 ∧ is_aligned = true then (READ_QWORD_BE s.hmem p, s)
      else (read_fail_value sz, s)
    else if truthy (rgn.type &&& RT_MMIO) then
      (trunc sz (s.dev_read rgn.devobj rgn.start (sub32 addr rgn.start) sz),
        { s with dev_log :=
            { is_write := false, devobj := rgn.devobj, region_base := rgn.start,
              offset := sub32 addr rgn.start, value := 0, size := sz }
              :: s.dev_log })
    else (read_fail_value sz, s)

/-- Specification side of the MRU refinement: `write_phys_mem` with
`find_range` consulted on every access and no MRU variable. -/
def write_phys_mem_uncached (sz : Nat) (is_aligned : Bool) (addr value : Nat)
    (s : MMU) : MMU :=
  match s.find_range addr with
  | none => s
  | some rgn =>
    let p : Int := rgn.mem_ptr + (sub32 addr rgn.start : Nat)
    if truthy (rgn.type &&& RT_RAM) then
      if sz = 1 ∨ sz = 2 ∨ sz = 4 then { s with hmem := write_be s.hmem p value sz }
      else if sz = 8 then
        if is_aligned then { s with hmem := write_be s.hmem p value 8 } else s
      else s
    else if truthy (rgn.type &&& RT_MMIO) then
      { s with dev_log :=
          { is_write := true, devobj := rgn.devobj, region_base := rgn.start,
            offset := sub32 addr rgn.start, value := value % 256 ^ sz, size := sz }
            :: s.dev_log }
    else s

/-! ## More sample machines -/

/-- The machine `sample_lru_state` after one more byte read, at `0x03000000`
(L2 hit in way 3 of set 0). -/
def sample_evict_state : MMU :=
  after_reads [0x03000000, 0x00000000, 0x01000000, 0x03000000, 0x02000000, 0x01000000,
    0x00000000]

/-- The machine after `ppc_mmu_init` and byte reads at `0x00000000` and
`0x01000000`: two ways of L2 set 0 hold valid tags. -/
def sample_two_ways : MMU := after_reads [0x01000000, 0x00000000]

/-! ## What a debugger read may change in memory -/

theorem u32_of_lt {x : Nat} (h : x < 2 ^ 32) : u32 x = x := by
  unfold u32; exact Nat.mod_eq_of_lt h

theorem truthy_eq_false_iff (x : Nat) : truthy x = false ↔ x = 0 := by
  unfold truthy; simp

theorem truthy_eq_true_iff (x : Nat) : truthy x = true ↔ x ≠ 0 := by
  unfold truthy; simp

theorem and_two_pow_eq_zero_iff (x k : Nat) : x &&& 2 ^ k = 0 ↔ x / 2 ^ k % 2 = 0 := by
  have hbit : (x.testBit k).toNat = x / 2 ^ k % 2 := Nat.toNat_testBit x k
  constructor
  · intro h
    have h1 : (x &&& 2 ^ k).testBit k = false := by rw [h]; simp
    rw [Nat.testBit_and, Nat.testBit_two_pow_self, Bool.and_true] at h1
    rw [← hbit, h1]; rfl
  · intro h
    have h1 : x.testBit k = false := by
      cases hb : x.testBit k with
      | false => rfl
      | true => rw [hb] at hbit; simp at hbit; omega
    apply Nat.eq_of_testBit_eq
    intro i
    rw [Nat.testBit_and, Nat.testBit_two_pow, Nat.zero_testBit]
    by_cases hki : k = i
    · subst hki; simp [h1]
    · simp [hki]

theorem shiftRight_and_one (x k : Nat) :
    (x >>> k) &&& 1 = if x &&& 2 ^ k = 0 then 0 else 1 := by
  rw [Nat.and_one_is_mod, Nat.shiftRight_eq_div_pow]
  by_cases h : x &&& 2 ^ k = 0
  · rw [if_pos h]; exact (and_two_pow_eq_zero_iff x k).1 h
  · rw [if_neg h]
    have := (and_two_pow_eq_zero_iff x k).not.1 h
    omega

theorem lor_le_one {a b : Nat} (ha : a ≤ 1) (hb : b ≤ 1) : a ||| b ≤ 1 := by
  have ha' : a = 0 ∨ a = 1 := by omega
  have hb' : b = 0 ∨ b = 1 := by omega
  rcases ha' with rfl | rfl <;> rcases hb' with rfl | rfl <;> decide

theorem pte_key_le_one (sr_val msr_pr : Nat) : pte_key sr_val msr_pr ≤ 1 := by
  unfold pte_key
  apply lor_le_one
  · exact le_trans Nat.and_le_left (by rw [Nat.and_one_is_mod]; omega)
  · exact le_trans Nat.and_le_left (by rw [Nat.and_one_is_mod]; omega)

theorem dsisr_write_bits {is_write : Nat} (h : is_write ≤ 1) (c : Nat) (hc : c < 2 ^ 32) :
    u32 (c ||| (is_write <<< 25)) = c ||| (is_write <<< 25) := by
  apply u32_of_lt
  apply Nat.or_lt_two_pow hc
  have : is_write = 0 ∨ is_write = 1 := by omega
  rcases this with rfl | rfl <;> decide

/-! ## Helper lemmas: block address translation -/

theorem access_bits_of_msr (msr : Nat) :
    access_bits_of (msr_pr_of msr) = if msr &&& 0x4000 = 0 then 2 else 1 := by
  unfold access_bits_of msr_pr_of truthy
  by_cases h : msr &&& 0x4000 = 0 <;> simp [h]

theorem bat_scan_step (arr : Nat → PPC_BAT_entry) (ab la : Nat) (r : BATResult) (i n : Nat) :
    bat_scan arr ab la r i (n + 1) =
      if bat_match (arr i) ab la then
        { hit := true, prot := (arr i).prot,
          phys := (arr i).phys_hi ||| (la &&& not32 (arr i).hi_mask) }
      else bat_scan arr ab la r (i + 1) n := by
  simp only [bat_scan, bat_match, truthy]
  by_cases h1 : (arr i).access &&& ab = 0 <;>
    by_cases h2 : la &&& (arr i).hi_mask = (arr i).bepi <;> simp [h1, h2]

theorem bat_scan_none (arr : Nat → PPC_BAT_entry) (ab la : Nat) (r : BATResult) :
    ∀ n i, (∀ k, k < n → ¬ bat_match (arr (i + k)) ab la) → bat_scan arr ab la r i n = r := by
  intro n
  induction n with
  | zero => intro i _; rfl
  | succ n ih =>
    intro i h
    rw [bat_scan_step, if_neg (by simpa using h 0 (by omega))]
    apply ih
    intro k hk
    have := h (k + 1) (by omega)
    rwa [show i + 1 + k = i + (k + 1) by omega]

theorem bat_scan_first (arr : Nat → PPC_BAT_entry) (ab la : Nat) (r : BATResult) :
    ∀ n i k, k < n → bat_match (arr (i + k)) ab la →
      (∀ j, j < k → ¬ bat_match (arr (i + j)) ab la) →
      bat_scan arr ab la r i n =
        { hit := true, prot := (arr (i + k)).prot,
          phys := (arr (i + k)).phys_hi ||| (la &&& not32 (arr (i + k)).hi_mask) } := by
  intro n
  induction n with
  | zero => intro i k hk; omega
  | succ n ih =>
    intro i k hk hm hfirst
    rw [bat_scan_step]
    cases k with
    | zero => rw [if_pos (by simpa using hm)]; rfl
    | succ k =>
      rw [if_neg (by simpa using hfirst 0 (by omega))]
      rw [ih (i + 1) k (by omega) (by rwa [show i + 1 + k = i + (k + 1) by omega])]
      · rw [show i + 1 + k = i + (k + 1) by omega]
      · intro j hj
        have := hfirst (j + 1) (by omega)
        rwa [show i + 1 + j = i + (j + 1) by omega]

/-! ## Block address translation -/

/-- C1: `ppc_block_address_translation` reports a hit exactly when one of the
four entries of the selected BAT array has an access bit for the current
privilege (2 when MSR[PR] = 0, 1 when MSR[PR] = 1) and matches `la` under its
mask; on a hit the physical address is `phys_hi | (la & ~hi_mask)` and the
protection is `prot`, both of the lowest-index such entry. -/
theorem bat_translation_hit_iff (type : BATType) (s : MMU) (la prot0 pa0 : Nat) :
    ((ppc_block_address_translation type s la prot0 pa0).hit = true ↔
      ∃ i, i < 4 ∧
        bat_match ((if type = BATType.Instruction then s.ibat_array else s.dbat_array) i)
          (if s.ppc_state.msr &&& 0x4000 = 0 then 2 else 1) la) ∧
    (∀ i, i < 4 →
      bat_match ((if type = BATType.Instruction then s.ibat_array else s.dbat_array) i)
          (if s.ppc_state.msr &&& 0x4000 = 0 then 2 else 1) la →
      (∀ j, j < i →
        ¬ bat_match ((if type = BATType.Instruction then s.ibat_array else s.dbat_array) j)
          (if s.ppc_state.msr &&& 0x4000 = 0 then 2 else 1) la) →
      (ppc_block_address_translation type s la prot0 pa0).phys =
          ((if type = BATType.Instruction then s.ibat_array else s.dbat_array) i).phys_hi |||
            (la &&& not32
              ((if type = BATType.Instruction then s.ibat_array else s.dbat_array) i).hi_mask) ∧
        (ppc_block_address_translation type s la prot0 pa0).prot =
          ((if type = BATType.Instruction then s.ibat_array else s.dbat_array) i).prot) := by
  generalize hba : (if type = BATType.Instruction then s.ibat_array else s.dbat_array)
    = bat_array
  generalize hab : (if s.ppc_state.msr &&& 0x4000 = 0 then 2 else 1) = access_bits
  have hr : ppc_block_address_translation type s la prot0 pa0 =
      bat_scan bat_array access_bits la { hit := false, prot := prot0, phys := pa0 } 0 4 := by
    simp only [ppc_block_address_translation, access_bits_of_msr, hba, hab]
  have hfirst : ∀ i, i < 4 → bat_match (bat_array i) access_bits la →
      (∀ j, j < i → ¬ bat_match (bat_array j) access_bits la) →
      ppc_block_address_translation type s la prot0 pa0 =
        { hit := true, prot := (bat_array i).prot,
          phys := (bat_array i).phys_hi ||| (la &&& not32 (bat_array i).hi_mask) } := by
    intro i hi hm hf
    rw [hr]
    have := bat_scan_first bat_array access_bits la
      { hit := false, prot := prot0, phys := pa0 } 4 0 i hi (by simpa using hm)
      (by simpa using hf)
    simpa using this
  refine ⟨⟨?_, ?_⟩, ?_⟩
  · intro h
    by_contra hne
    have hnone := bat_scan_none bat_array access_bits la
      { hit := false, prot := prot0, phys := pa0 } 4 0
      (by intro k hk hm; exact hne ⟨k, hk, by simpa using hm⟩)
    rw [hr, hnone] at h
    simp at h
  · intro hex
    have hmin := Nat.find_spec hex
    have hlt := fun j (hj : j < Nat.find hex) => Nat.find_min hex hj
    rw [hfirst (Nat.find hex) hmin.1 hmin.2
      (fun j hj hm => hlt j hj ⟨by omega, hm⟩)]
  · intro i hi hm hf
    rw [hfirst i hi hm hf]
    exact ⟨rfl, rfl⟩

/-! ## Page address translation -/

theorem pte_violation_iff (key pp is_write : Nat) (hk : key ≤ 1) :
    pte_violation key pp is_write = true ↔
      ((key = 1 ∧ pp = 0) ∨ (key = 1 ∧ pp = 1 ∧ is_write ≠ 0) ∨ (pp = 3 ∧ is_write ≠ 0)) := by
  have hk' : key = 0 ∨ key = 1 := by omega
  unfold pte_violation truthy
  rcases hk' with rfl | rfl <;> simp
  tauto

theorem page_address_translate_found (s s1 : MMU) (la msr_pr is_write : Nat)
    (is_instr_fetch : Bool) (pte_addr : Int)
    (hT : s.ppc_state.sr ((la >>> 28) &&& 0x0F) &&& 0x80000000 = 0)
    (hfound : pte_lookup la is_instr_fetch is_write
      (s.ppc_state.sr ((la >>> 28) &&& 0x0F)) s = Res.ok pte_addr s1) :
    page_address_translate la is_instr_fetch msr_pr is_write s =
      pte_access la is_instr_fetch msr_pr is_write
        (s.ppc_state.sr ((la >>> 28) &&& 0x0F)) pte_addr s1 := by
  unfold page_address_translate
  simp only [(truthy_eq_false_iff _).2 hT, hfound, Res.bind]
  simp

/-- C4: for a PTE found by the page walk, `page_address_translate` raises
(ISI with SRR1 bits `0x08000000` for a fetch, DSI with
`DSISR = 0x08000000 | (is_write << 25)` and `DAR = la` for a data access)
exactly when `key = 1 ∧ PP = 00`, or `key = 1 ∧ PP = 01` on a write, or
`PP = 11` on a write; otherwise it returns a physical address. -/
theorem page_protection_check (s s1 : MMU) (la msr_pr is_write : Nat)
    (is_instr_fetch : Bool) (pte_addr : Int)
    (hw : is_write ≤ 1)
    (hT : s.ppc_state.sr ((la >>> 28) &&& 0x0F) &&& 0x80000000 = 0)
    (hfound : pte_lookup la is_instr_fetch is_write
      (s.ppc_state.sr ((la >>> 28) &&& 0x0F)) s = Res.ok pte_addr s1) :
    (((pte_key (s.ppc_state.sr ((la >>> 28) &&& 0x0F)) msr_pr = 1 ∧
          READ_DWORD_BE s1.hmem (pte_addr + 4) &&& 3 = 0) ∨
        (pte_key (s.ppc_state.sr ((la >>> 28) &&& 0x0F)) msr_pr = 1 ∧
          READ_DWORD_BE s1.hmem (pte_addr + 4) &&& 3 = 1 ∧ is_write ≠ 0) ∨
        (READ_DWORD_BE s1.hmem (pte_addr + 4) &&& 3 = 3 ∧ is_write ≠ 0)) →
      page_address_translate la is_instr_fetch msr_pr is_write s =
        if is_instr_fetch then Res.exc Except_Type.EXC_ISI 0x08000000 s1
        else Res.exc Except_Type.EXC_DSI 0
          ((s1.set_spr SPR.DSISR (0x08000000 ||| (is_write <<< 25))).set_spr SPR.DAR la)) ∧
    (¬ ((pte_key (s.ppc_state.sr ((la >>> 28) &&& 0x0F)) msr_pr = 1 ∧
          READ_DWORD_BE s1.hmem (pte_addr + 4) &&& 3 = 0) ∨
        (pte_key (s.ppc_state.sr ((la >>> 28) &&& 0x0F)) msr_pr = 1 ∧
          READ_DWORD_BE s1.hmem (pte_addr + 4) &&& 3 = 1 ∧ is_write ≠ 0) ∨
        (READ_DWORD_BE s1.hmem (pte_addr + 4) &&& 3 = 3 ∧ is_write ≠ 0)) →
      ∃ pa s2, page_address_translate la is_instr_fetch msr_pr is_write s = Res.ok pa s2) := by
  rw [page_address_translate_found s s1 la msr_pr is_write is_instr_fetch pte_addr hT hfound]
  rw [← pte_violation_iff _ _ _ (pte_key_le_one _ _)]
  constructor
  · intro hv
    unfold pte_access
    simp only [hv, if_true, raise_dsi, mmu_exception_handler_call,
      dsisr_write_bits hw 0x08000000 (by decide)]
  · intro hv
    unfold pte_access
    simp only [hv]
    exact ⟨_, _, rfl⟩

/-- C4 witness: a supervisor write to the read-write page of the sample
machine passes the protection check. -/
theorem page_protection_check_witness :
    (1 ≤ 1 ∧ sample.ppc_state.sr ((0x1000 >>> 28) &&& 0x0F) &&& 0x80000000 = 0 ∧
      pte_lookup 0x1000 false 1 (sample.ppc_state.sr ((0x1000 >>> 28) &&& 0x0F)) sample
        = Res.ok 0x70000040 sample_walked) ∧
    ∃ pa s2, page_address_translate 0x1000 false 0 1 sample = Res.ok pa s2 :=
  ⟨⟨by decide, by decide, rfl⟩,
   (page_protection_check sample sample_walked 0x1000 0 1 false 0x70000040
      (by decide) (by decide) rfl).2 (by decide)⟩

/-- C5 counterexample: with MSR[PR] = 1 and a segment register whose Ks bit
(`0x40000000`) is set and whose Kp bit is clear, the key of the protection
check is 0, not the Ks bit. -/
theorem key_bit_counterexample :
    msr_pr_of 0x4000 = 1 ∧ 0x40000000 &&& 0x40000000 ≠ 0 ∧
      pte_key 0x40000000 (msr_pr_of 0x4000) = 0 := by
  decide

/-- C5 (amended): the key of the page protection check is the Kp bit
(`0x20000000`) of the segment register when MSR[PR] = 1 and its Ks bit
(`0x40000000`) when MSR[PR] = 0. -/
theorem key_bit_selection (sr_val msr : Nat) :
    pte_key sr_val (msr_pr_of msr) =
      if msr &&& 0x4000 = 0 then (if sr_val &&& 0x40000000 = 0 then 0 else 1)
      else (if sr_val &&& 0x20000000 = 0 then 0 else 1) := by
  unfold pte_key msr_pr_of
  rw [shiftRight_and_one sr_val 29, shiftRight_and_one sr_val 30]
  have e29 : (2 : Nat) ^ 29 = 0x20000000 := by norm_num
  have e30 : (2 : Nat) ^ 30 = 0x40000000 := by norm_num
  rw [e29, e30]
  by_cases hm : msr &&& 0x4000 = 0 <;> by_cases h29 : sr_val &&& 0x20000000 = 0 <;>
    by_cases h30 : sr_val &&& 0x40000000 = 0 <;> simp [truthy, hm, h29, h30]

/-! ### The PTEG search -/

theorem search_pteg_loop_none (m : Int → Nat) (w : Nat) :
    ∀ (n : Nat) (p : Int), (∀ i : Nat, i < n → READ_DWORD_BE m (p + 8 * (i : Int)) ≠ w) →
      search_pteg_loop m w p n = none := by
  intro n
  induction n with
  | zero => intro p _; rfl
  | succ n ih =>
    intro p h
    have h0 := h 0 (by omega)
    simp only [Nat.cast_zero, mul_zero, add_zero] at h0
    simp only [search_pteg_loop]
    rw [if_neg (by simpa using fun e => h0 e.symm)]
    apply ih
    intro i hi
    have := h (i + 1) (by omega)
    rwa [show p + 8 + 8 * (i : Int) = p + 8 * ((i + 1 : Nat) : Int) by push_cast; ring]

theorem calc_pteg_addr_frame (hash : Nat) (s s1 : MMU) (p : Int)
    (h : calc_pteg_addr hash s = Res.ok p s1) :
    s1 = { s with last_ptab_area := s1.last_ptab_area } := by
  unfold calc_pteg_addr at h
  simp only at h
  split_ifs at h with h1
  · cases h; rfl
  · split at h
    · split_ifs at h
      cases h; rfl
    · cases h

theorem Res.bind_eq_ok {α β : Type} (r : Res α) (f : α → MMU → Res β) (b : β) (t : MMU) :
    r.bind f = Res.ok b t ↔ ∃ a s, r = Res.ok a s ∧ f a s = Res.ok b t := by
  cases r with
  | ok a s =>
    simp only [Res.bind]
    constructor
    · intro h; exact ⟨a, s, rfl, h⟩
    · rintro ⟨a', s', h1, h2⟩
      cases h1; exact h2
  | exc e c s => simp [Res.bind]
  | exit s => simp [Res.bind]
  | ub => simp [Res.bind]

theorem pte_lookup_frame (la is_write sr_val : Nat) (fetch : Bool) (s s1 : MMU) (p : Int)
    (h : pte_lookup la fetch is_write sr_val s = Res.ok p s1) :
    s1 = { s with last_ptab_area := s1.last_ptab_area } := by
  unfold pte_lookup at h
  by_cases hN : (truthy (sr_val &&& 0x10000000) && fetch) = true
  · rw [if_pos hN] at h; cases h
  · rw [if_neg hN] at h
    simp only [Res.bind_eq_ok] at h
    obtain ⟨p1, t1, h1, h⟩ := h
    have f1 := calc_pteg_addr_frame _ _ _ _ h1
    split at h
    · cases h; exact f1
    · simp only [Res.bind_eq_ok] at h
      obtain ⟨p2, t2, h2, h⟩ := h
      have f2 := calc_pteg_addr_frame _ _ _ _ h2
      split at h
      · cases h
        rw [f2, f1]
      · cases hf : fetch <;> simp [hf, raise_dsi, mmu_exception_handler_call] at h

/-- C8: when the page walk reaches the PTEG search and neither the primary
nor the secondary PTEG holds a matching PTE, `page_address_translate` raises
ISI with SRR1 bits `0x40000000` for an instruction fetch, and for a data
access DSI with `DAR = la` and `DSISR = 0x40000000`, plus `0x02000000`
exactly when the access is a write. -/
theorem pteg_miss_raises (s s1 s2 : MMU) (la msr_pr is_write : Nat)
    (is_instr_fetch : Bool) (p1 p2 : Int)
    (hw : is_write ≤ 1)
    (hT : s.ppc_state.sr ((la >>> 28) &&& 0x0F) &&& 0x80000000 = 0)
    (hN : ¬ (s.ppc_state.sr ((la >>> 28) &&& 0x0F) &&& 0x10000000 ≠ 0 ∧
      is_instr_fetch = true))
    (h1 : calc_pteg_addr
      ((s.ppc_state.sr ((la >>> 28) &&& 0x0F) &&& 0x7FFFF) ^^^ ((la >>> 12) &&& 0xFFFF)) s
        = Res.ok p1 s1)
    (hm1 : ∀ i : Nat, i < 8 → READ_DWORD_BE s1.hmem (p1 + 8 * (i : Int)) ≠
      pte_check_word (s.ppc_state.sr ((la >>> 28) &&& 0x0F) &&& 0x0FFFFFF)
        ((la >>> 12) &&& 0xFFFF) 0)
    (h2 : calc_pteg_addr
      (not32 ((s.ppc_state.sr ((la >>> 28) &&& 0x0F) &&& 0x7FFFF) ^^^
        ((la >>> 12) &&& 0xFFFF))) s1 = Res.ok p2 s2)
    (hm2 : ∀ i : Nat, i < 8 → READ_DWORD_BE s2.hmem (p2 + 8 * (i : Int)) ≠
      pte_check_word (s.ppc_state.sr ((la >>> 28) &&& 0x0F) &&& 0x0FFFFFF)
        ((la >>> 12) &&& 0xFFFF) 1) :
    page_address_translate la is_instr_fetch msr_pr is_write s =
      if is_instr_fetch then Res.exc Except_Type.EXC_ISI 0x40000000 s2
      else Res.exc Except_Type.EXC_DSI 0
        ((s2.set_spr SPR.DSISR (if is_write = 1 then 0x42000000 else 0x40000000)).set_spr
          SPR.DAR la) := by
  have hs1 : search_pteg s1.hmem p1 (s.ppc_state.sr ((la >>> 28) &&& 0x0F) &&& 0x0FFFFFF)
      ((la >>> 12) &&& 0xFFFF) 0 = none := search_pteg_loop_none _ _ 8 p1 hm1
  have hs2 : search_pteg s2.hmem p2 (s.ppc_state.sr ((la >>> 28) &&& 0x0F) &&& 0x0FFFFFF)
      ((la >>> 12) &&& 0xFFFF) 1 = none := search_pteg_loop_none _ _ 8 p2 hm2
  have hN' : (truthy (s.ppc_state.sr ((la >>> 28) &&& 0x0F) &&& 0x10000000)
      && is_instr_fetch) = false := by
    cases hf : is_instr_fetch with
    | false => simp
    | true =>
      have : s.ppc_state.sr ((la >>> 28) &&& 0x0F) &&& 0x10000000 = 0 := by
        by_contra hne; exact hN ⟨hne, hf⟩
      simp [(truthy_eq_false_iff _).2 this]
  have hd : u32 (0x40000000 ||| (is_write <<< 25)) =
      if is_write = 1 then 0x42000000 else 0x40000000 := by
    have : is_write = 0 ∨ is_write = 1 := by omega
    rcases this with rfl | rfl <;> decide
  unfold page_address_translate pte_lookup
  simp only [(truthy_eq_false_iff _).2 hT, hN', h1, h2, hs1, hs2, Res.bind, raise_dsi,
    mmu_exception_handler_call, hd]
  cases is_instr_fetch <;> simp

/-- C8 witness: on the sample machine the page at `0x2000` has no PTE; a
supervisor write to it raises DSI with `DSISR = 0x42000000`. -/
theorem pteg_miss_raises_witness :
    page_address_translate 0x2000 false 0 1 sample =
      Res.exc Except_Type.EXC_DSI 0
        ((sample_walked.set_spr SPR.DSISR 0x42000000).set_spr SPR.DAR 0x2000) :=
  pteg_miss_raises sample sample_walked sample_walked 0x2000 0 1 false
    0x70000080 0x7000FF40 (by decide) (by decide) (by decide) rfl (by decide) rfl (by decide)

/-! ### Bytes and words of host memory -/

theorem rd8_lt (m : Int → Nat) (p : Int) : rd8 m p < 256 := by
  unfold rd8; omega

theorem rd8_wr8_same (m : Int → Nat) (p : Int) (v : Nat) : rd8 (wr8 m p v) p = v % 256 := by
  simp [rd8, wr8]

theorem rd8_wr8_ne (m : Int → Nat) (p a : Int) (v : Nat) (h : a ≠ p) :
    rd8 (wr8 m p v) a = rd8 m a := by
  simp [rd8, wr8, h]

theorem READ_DWORD_BE_eq (m : Int → Nat) (p : Int) :
    READ_DWORD_BE m p =
      ((rd8 m p * 256 + rd8 m (p + 1)) * 256 + rd8 m (p + 2)) * 256 + rd8 m (p + 3) := by
  simp [READ_DWORD_BE, read_be, read_be_from, add_assoc]

theorem add_eq_or_of_and_eq_zero (x y : Nat) (h : x &&& y = 0) : x + y = x ||| y := by
  have hx : x < 2 ^ (x + y + 1) := lt_of_lt_of_le (Nat.lt_two_pow x)
    (Nat.pow_le_pow_right (by omega) (by omega))
  have hy : y < 2 ^ (x + y + 1) := lt_of_lt_of_le (Nat.lt_two_pow y)
    (Nat.pow_le_pow_right (by omega) (by omega))
  have hxy : x + y < 2 ^ (x + y + 1) := lt_of_lt_of_le (Nat.lt_two_pow (x + y))
    (Nat.pow_le_pow_right (by omega) (by omega))
  have hb := BitVec.add_eq_or_of_and_eq_zero (BitVec.ofNat (x + y + 1) x)
    (BitVec.ofNat (x + y + 1) y)
    (by
      apply BitVec.eq_of_toNat_eq
      simp [BitVec.toNat_and, Nat.mod_eq_of_lt hx, Nat.mod_eq_of_lt hy, h])
  have := congrArg BitVec.toNat hb
  simpa [BitVec.toNat_add, BitVec.toNat_or, Nat.mod_eq_of_lt hx, Nat.mod_eq_of_lt hy,
    Nat.mod_eq_of_lt hxy] using this

theorem or_two_pow (x k : Nat) :
    x ||| 2 ^ k = if x / 2 ^ k % 2 = 0 then x + 2 ^ k else x := by
  by_cases h : x / 2 ^ k % 2 = 0
  · rw [if_pos h]
    exact (add_eq_or_of_and_eq_zero x (2 ^ k) ((and_two_pow_eq_zero_iff x k).2 h)).symm
  · rw [if_neg h]
    have hbit : (x.testBit k).toNat = x / 2 ^ k % 2 := Nat.toNat_testBit x k
    have h1 : x.testBit k = true := by
      cases hb : x.testBit k with
      | true => rfl
      | false => rw [hb] at hbit; simp at hbit; omega
    apply Nat.eq_of_testBit_eq
    intro i
    rw [Nat.testBit_or, Nat.testBit_two_pow]
    by_cases hki : k = i
    · subst hki; simp [h1]
    · simp [hki]

theorem or_one_eq (x : Nat) : x ||| 1 = if x % 2 = 0 then x + 1 else x := by
  have := or_two_pow x 0
  simpa using this

theorem or_0x80_eq (x : Nat) : x ||| 0x80 = if x / 128 % 2 = 0 then x + 128 else x := by
  have := or_two_pow x 7
  simpa using this

theorem or_0x100_eq (x : Nat) : x ||| 0x100 = if x / 256 % 2 = 0 then x + 256 else x := by
  have := or_two_pow x 8
  simpa using this

theorem and_0x100_ne_zero_iff (x : Nat) : x &&& 0x100 ≠ 0 ↔ x / 256 % 2 = 1 := by
  have := (and_two_pow_eq_zero_iff x 8).not
  simp only [show (2 : Nat) ^ 8 = 256 by norm_num] at this
  rw [ne_eq, this]; omega

theorem and_0x80_ne_zero_iff (x : Nat) : x &&& 0x80 ≠ 0 ↔ x / 128 % 2 = 1 := by
  have := (and_two_pow_eq_zero_iff x 7).not
  simp only [show (2 : Nat) ^ 7 = 128 by norm_num] at this
  rw [ne_eq, this]; omega

/-- The second PTE word after the R/C update, from the bytes before it. -/
theorem rc_update_word (b4 b5 b6 b7 : Nat) (h6 : b6 < 256) (h7 : b7 < 256) (c : Bool) :
    ((b4 * 256 + b5) * 256 + (b6 ||| 1) % 256) * 256
        + (if c then (b7 ||| 0x80) % 256 else b7) =
      ((((b4 * 256 + b5) * 256 + b6) * 256 + b7) ||| 0x100) ||| (if c then 0x80 else 0) := by
  rw [or_0x100_eq, or_one_eq b6]
  cases c
  · simp only [Bool.false_eq_true, if_false, Nat.or_zero]
    split_ifs <;> omega
  · simp only [if_true]
    rw [or_0x80_eq b7, or_0x80_eq]
    split_ifs <;> omega

theorem pte_access_ok (la msr_pr is_write sr_val pa : Nat) (fetch : Bool) (pte : Int)
    (s s2 : MMU)
    (h : pte_access la fetch msr_pr is_write sr_val pte s = Res.ok pa s2) :
    pte_violation (pte_key sr_val msr_pr) (READ_DWORD_BE s.hmem (pte + 4) &&& 3) is_write
        = false ∧
      pa = (READ_DWORD_BE s.hmem (pte + 4) &&& 0xFFFFF000) ||| (la &&& 0x00000FFF) ∧
      s2 = { s with hmem := rc_update s.hmem pte is_write } := by
  unfold pte_access at h
  simp only at h
  by_cases hv : pte_violation (pte_key sr_val msr_pr)
      (READ_DWORD_BE s.hmem (pte + 4) &&& 3) is_write = true
  · rw [if_pos hv] at h
    cases fetch <;> simp [raise_dsi, mmu_exception_handler_call] at h
  · rw [if_neg hv] at h
    cases h
    exact ⟨by simpa using hv, rfl, rfl⟩

theorem rc_update_outside (m : Int → Nat) (pte a : Int) (w : Nat)
    (h6 : a ≠ pte + 6) (h7 : a ≠ pte + 7) : rc_update m pte w a = m a := by
  unfold rc_update
  cases truthy w
  · simp only [Bool.false_eq_true, if_false, wr8, if_neg h6]
  · simp only [if_true, wr8, if_neg h6, if_neg h7]

theorem rc_update_byte6 (m : Int → Nat) (pte : Int) (w : Nat) :
    rd8 (rc_update m pte w) (pte + 6) = rd8 m (pte + 6) ||| 0x01 := by
  have hor1 : rd8 m (pte + 6) ||| 1 < 256 :=
    Nat.or_lt_two_pow (n := 8) (rd8_lt m (pte + 6)) (by decide)
  unfold rc_update
  cases truthy w
  · simp only [Bool.false_eq_true, if_false]
    rw [rd8_wr8_same, Nat.mod_eq_of_lt hor1]
  · simp only [if_true]
    rw [rd8_wr8_ne _ _ _ _ (by omega), rd8_wr8_same, Nat.mod_eq_of_lt hor1]

theorem rc_update_byte7 (m : Int → Nat) (pte : Int) (w : Nat) :
    rd8 (rc_update m pte w) (pte + 7) =
      rd8 m (pte + 7) ||| (if w ≠ 0 then 0x80 else 0) := by
  have hor80 : rd8 m (pte + 7) ||| 0x80 < 256 :=
    Nat.or_lt_two_pow (n := 8) (rd8_lt m (pte + 7)) (by decide)
  unfold rc_update
  by_cases hw : w = 0
  · simp only [hw, truthy, bne_self_eq_false, Bool.false_eq_true, if_false, ne_eq,
      not_true_eq_false, Nat.or_zero]
    rw [rd8_wr8_ne _ _ _ _ (by omega)]
  · have ht : truthy w = true := (truthy_eq_true_iff _).2 hw
    simp only [ht, if_true, ne_eq, hw, not_false_eq_true]
    rw [rd8_wr8_same, rd8_wr8_ne _ _ _ _ (by omega), Nat.mod_eq_of_lt hor80]

theorem rd8_rc_update_outside (m : Int → Nat) (pte a : Int) (w : Nat)
    (h6 : a ≠ pte + 6) (h7 : a ≠ pte + 7) : rd8 (rc_update m pte w) a = rd8 m a := by
  unfold rd8; rw [rc_update_outside m pte a w h6 h7]

/-- The second word of a PTE after the update of its R and C bits. -/
theorem rc_update_word2 (m : Int → Nat) (pte : Int) (w : Nat) :
    READ_DWORD_BE (rc_update m pte w) (pte + 4) =
      (READ_DWORD_BE m (pte + 4) ||| 0x100) ||| (if w ≠ 0 then 0x80 else 0) := by
  rw [READ_DWORD_BE_eq, READ_DWORD_BE_eq]
  have e4 := rd8_rc_update_outside m pte (pte + 4) w (by omega) (by omega)
  have e5 := rd8_rc_update_outside m pte (pte + 5) w (by omega) (by omega)
  have e6 := rc_update_byte6 m pte w
  have e7 := rc_update_byte7 m pte w
  have a5 : pte + 4 + 1 = pte + 5 := by ring
  have a6 : pte + 4 + 2 = pte + 6 := by ring
  have a7 : pte + 4 + 3 = pte + 7 := by ring
  rw [a5, a6, a7, e4, e5, e6, e7]
  have h6 := rd8_lt m (pte + 6)
  have h7 := rd8_lt m (pte + 7)
  have hor1 : rd8 m (pte + 6) ||| 1 < 256 := Nat.or_lt_two_pow (n := 8) h6 (by decide)
  have hor80 : rd8 m (pte + 7) ||| 0x80 < 256 := Nat.or_lt_two_pow (n := 8) h7 (by decide)
  have := rc_update_word (rd8 m (pte + 4)) (rd8 m (pte + 5)) (rd8 m (pte + 6))
    (rd8 m (pte + 7)) h6 h7 (decide (w ≠ 0))
  rw [Nat.mod_eq_of_lt hor1] at this
  by_cases hw : w = 0
  · simpa [hw] using this
  · simp only [hw, ne_eq, not_false_eq_true, decide_True, if_true] at this ⊢
    rw [Nat.mod_eq_of_lt hor80] at this
    exact this

/-- The first word of a PTE is not touched by the update of its R and C bits. -/
theorem rc_update_word1 (m : Int → Nat) (pte : Int) (w : Nat) :
    READ_DWORD_BE (rc_update m pte w) pte = READ_DWORD_BE m pte := by
  rw [READ_DWORD_BE_eq, READ_DWORD_BE_eq]
  have e0 := rd8_rc_update_outside m pte pte w (by omega) (by omega)
  have e1 := rd8_rc_update_outside m pte (pte + 1) w (by omega) (by omega)
  have e2 := rd8_rc_update_outside m pte (pte + 2) w (by omega) (by omega)
  have e3 := rd8_rc_update_outside m pte (pte + 3) w (by omega) (by omega)
  rw [e0, e1, e2, e3]

/-- A successful `page_address_translate` went through the page walk: the
segment is not a direct-store segment and `pte_lookup` found a PTE. -/
theorem page_address_translate_ok_inv (s s2 : MMU) (la msr_pr is_write pa : Nat)
    (is_instr_fetch : Bool)
    (hok : page_address_translate la is_instr_fetch msr_pr is_write s = Res.ok pa s2) :
    s.ppc_state.sr ((la >>> 28) &&& 0x0F) &&& 0x80000000 = 0 ∧
      ∃ (pte_addr : Int) (s1 : MMU),
        pte_lookup la is_instr_fetch is_write
          (s.ppc_state.sr ((la >>> 28) &&& 0x0F)) s = Res.ok pte_addr s1 := by
  unfold page_address_translate at hok
  by_cases hT : truthy (s.ppc_state.sr ((la >>> 28) &&& 0x0F) &&& 0x80000000) = true
  · simp [hT] at hok
  · have hT2 : truthy (s.ppc_state.sr ((la >>> 28) &&& 0x0F) &&& 0x80000000) = false := by
      simpa using hT
    simp only [hT2] at hok
    obtain ⟨a, s1, h1, -⟩ := (Res.bind_eq_ok _ _ _ _).1 hok
    exact ⟨(truthy_eq_false_iff _).1 hT2, a, s1, h1⟩

/-- C9: after a successful `page_address_translate` the reference bit
(`0x100` of the second word, bit `0x01` of byte 6) of the matched PTE is set,
its change bit (`0x80`, in byte 7) is set exactly when it was set before or
the access is a write, every other bit of the PTE is as before, and so is
every other byte of memory; a read of the PTE sees the update. -/
theorem pte_rc_update (s s2 : MMU) (la msr_pr is_write pa : Nat)
    (is_instr_fetch : Bool)
    (hok : page_address_translate la is_instr_fetch msr_pr is_write s = Res.ok pa s2) :
    ∃ (pte_addr : Int) (s1 : MMU),
      pte_lookup la is_instr_fetch is_write
        (s.ppc_state.sr ((la >>> 28) &&& 0x0F)) s = Res.ok pte_addr s1 ∧
      READ_DWORD_BE s2.hmem (pte_addr + 4) =
        (READ_DWORD_BE s.hmem (pte_addr + 4) ||| 0x100) |||
          (if is_write ≠ 0 then 0x80 else 0) ∧
      READ_DWORD_BE s2.hmem (pte_addr + 4) &&& 0x100 ≠ 0 ∧
      (READ_DWORD_BE s2.hmem (pte_addr + 4) &&& 0x80 ≠ 0 ↔
        (READ_DWORD_BE s.hmem (pte_addr + 4) &&& 0x80 ≠ 0 ∨ is_write ≠ 0)) ∧
      rd8 s2.hmem (pte_addr + 6) = rd8 s.hmem (pte_addr + 6) ||| 0x01 ∧
      rd8 s2.hmem (pte_addr + 7) =
        rd8 s.hmem (pte_addr + 7) ||| (if is_write ≠ 0 then 0x80 else 0) ∧
      READ_DWORD_BE s2.hmem pte_addr = READ_DWORD_BE s.hmem pte_addr ∧
      (∀ a : Int, a ≠ pte_addr + 6 → a ≠ pte_addr + 7 → s2.hmem a = s.hmem a) := by
  obtain ⟨hT, pte_addr, s1, hfound⟩ :=
    page_address_translate_ok_inv s s2 la msr_pr is_write pa is_instr_fetch hok
  refine ⟨pte_addr, s1, hfound, ?_⟩
  rw [page_address_translate_found s s1 la msr_pr is_write is_instr_fetch pte_addr hT hfound]
    at hok
  obtain ⟨-, -, hs2⟩ := pte_access_ok _ _ _ _ _ _ _ _ _ hok
  have hmem1 : s1.hmem = s.hmem := by rw [pte_lookup_frame _ _ _ _ _ _ _ hfound]
  have hm2 : s2.hmem = rc_update s.hmem pte_addr is_write := by rw [hs2, ← hmem1]
  have hword := rc_update_word2 s.hmem pte_addr is_write
  rw [← hm2] at hword
  refine ⟨hword, ?_, ?_, ?_, ?_, ?_, ?_⟩
  · rw [hword, and_0x100_ne_zero_iff]
    rw [or_0x100_eq]
    by_cases hz : is_write = 0
    · simp only [hz, ne_eq, not_true_eq_false, if_false, Nat.or_zero]
      split_ifs <;> omega
    · simp only [hz, ne_eq, not_false_eq_true, if_true]
      rw [or_0x80_eq]
      split_ifs <;> omega
  · rw [hword, and_0x80_ne_zero_iff, and_0x80_ne_zero_iff, or_0x100_eq]
    by_cases hz : is_write = 0
    · simp only [hz, ne_eq, not_true_eq_false, if_false, Nat.or_zero, or_false]
      split_ifs <;> omega
    · simp only [hz, ne_eq, not_false_eq_true, if_true, or_true, iff_true]
      rw [or_0x80_eq]
      split_ifs <;> omega
  · rw [hm2, rc_update_byte6]
  · rw [hm2, rc_update_byte7]
  · rw [hm2, rc_update_word1]
  · intro a a6 a7
    rw [hm2, rc_update_outside _ _ _ _ a6 a7]

/-- C9 witness: on the sample machine a supervisor write to the page at
`0x1000` succeeds; the second word of the PTE that was found has gained the
reference and the change bit. -/
theorem pte_rc_update_witness :
    page_address_translate 0x1000 false 0 1 sample = Res.ok 0 sample_translated ∧
    ∃ (pte_addr : Int) (s1 : MMU),
      pte_lookup 0x1000 false 1 (sample.ppc_state.sr ((0x1000 >>> 28) &&& 0x0F)) sample
        = Res.ok pte_addr s1 ∧
      READ_DWORD_BE sample_translated.hmem (pte_addr + 4) =
        (READ_DWORD_BE sample.hmem (pte_addr + 4) ||| 0x100) |||
          (if (1 : Nat) ≠ 0 then 0x80 else 0) :=
  ⟨rfl, by
    obtain ⟨p, s1, h, h1, -⟩ :=
      pte_rc_update sample sample_translated 0x1000 0 1 0 false rfl
    exact ⟨p, s1, h, h1⟩⟩

theorem and_mask_low12 (w la : Nat) :
    ((w &&& 0xFFFFF000) ||| (la &&& 0x00000FFF)) &&& 0x00000FFF = la &&& 0x00000FFF := by
  rw [Nat.and_distrib_right, Nat.and_assoc, Nat.and_assoc]
  rw [show (0xFFFFF000 : Nat) &&& 0x00000FFF = 0 by decide,
    show (0x00000FFF : Nat) &&& 0x00000FFF = 0x00000FFF by decide]
  simp

/-- C10: on success `page_address_translate` returns
`(W2 & 0xFFFFF000) | (la & 0x00000FFF)`, `W2` being the big-endian second word
of the matched PTE, so the low 12 bits of the result are those of `la`. -/
theorem page_translate_result (s s2 : MMU) (la msr_pr is_write pa : Nat)
    (is_instr_fetch : Bool)
    (hok : page_address_translate la is_instr_fetch msr_pr is_write s = Res.ok pa s2) :
    (∃ (pte_addr : Int) (s1 : MMU),
      pte_lookup la is_instr_fetch is_write
        (s.ppc_state.sr ((la >>> 28) &&& 0x0F)) s = Res.ok pte_addr s1 ∧
      pa = (READ_DWORD_BE s.hmem (pte_addr + 4) &&& 0xFFFFF000) ||| (la &&& 0x00000FFF)) ∧
      pa &&& 0x00000FFF = la &&& 0x00000FFF := by
  obtain ⟨hT, pte_addr, s1, hfound⟩ :=
    page_address_translate_ok_inv s s2 la msr_pr is_write pa is_instr_fetch hok
  rw [page_address_translate_found s s1 la msr_pr is_write is_instr_fetch pte_addr hT hfound]
    at hok
  obtain ⟨-, hpa, -⟩ := pte_access_ok _ _ _ _ _ _ _ _ _ hok
  have hmem1 : s1.hmem = s.hmem := by rw [pte_lookup_frame _ _ _ _ _ _ _ hfound]
  rw [hmem1] at hpa
  exact ⟨⟨pte_addr, s1, hfound, hpa⟩, by rw [hpa, and_mask_low12]⟩

/-- C10 witness: on the sample machine the address `0x1234` of the mapped
page translates to physical address `0x234`, whose low 12 bits are those of
the logical address. -/
theorem page_translate_result_witness :
    page_address_translate 0x1234 false 0 1 sample = Res.ok 0x234 sample_translated ∧
    (0x234 : Nat) &&& 0x00000FFF = 0x1234 &&& 0x00000FFF :=
  ⟨rfl, (page_translate_result sample sample_translated 0x1234 0 1 0x234 false rfl).2⟩

/-! ## TLB flush -/

/-- C3 (the code at the failing input): the primary TLBs of the real-address
mode and of the supervisor-translated mode both hold the tag `0x1000` at
index 1; `flush_tlb_entry(0x1000)` invalidates the first and leaves the
second as it was. -/
theorem flush_tlb_entry_leaves_mode2 :
    (sample_cached.mode1_tlb1 ((0x1000 >>> 12) &&& 0xFFF)).tag = 0x1000 &&& 0xFFFFF000 ∧
    (sample_cached.mode2_tlb1 ((0x1000 >>> 12) &&& 0xFFF)).tag = 0x1000 &&& 0xFFFFF000 ∧
    ∃ s', flush_tlb_entry 0x1000 sample_cached = Res.ok () s' ∧
      (s'.mode1_tlb1 ((0x1000 >>> 12) &&& 0xFFF)).tag = TLB_INVALID_TAG ∧
      (s'.mode2_tlb1 ((0x1000 >>> 12) &&& 0xFFF)).tag = 0x1000 &&& 0xFFFFF000 :=
  ⟨by decide, by decide, _, rfl, by decide, by decide⟩

/-! ## Data BAT protection -/

theorem dbat_loop_step (la is_write ab : Nat) (s : MMU) (i n : Nat) :
    dbat_loop la is_write ab s i (n + 1) =
      if bat_match (s.dbat_array i) ab la then
        if (s.dbat_array i).prot = 0 ∨ ((s.dbat_array i).prot &&& 1 ≠ 0 ∧ is_write ≠ 0) then
          raise_dsi (0x08000000 ||| (is_write <<< 25)) la s
        else Res.ok (some ((s.dbat_array i).phys_hi ||| (la &&& not32 (s.dbat_array i).hi_mask))) s
      else dbat_loop la is_write ab s (i + 1) n := by
  simp only [dbat_loop, bat_match, truthy]
  by_cases h1 : (s.dbat_array i).access &&& ab = 0 <;>
    by_cases h2 : la &&& (s.dbat_array i).hi_mask = (s.dbat_array i).bepi <;>
    by_cases h3 : (s.dbat_array i).prot = 0 <;>
    by_cases h4 : (s.dbat_array i).prot &&& 1 = 0 <;>
    by_cases h5 : is_write = 0 <;> simp [h1, h2, h3, h4, h5]

theorem dbat_loop_none (la is_write ab : Nat) (s : MMU) :
    ∀ n i, (∀ k, k < n → ¬ bat_match (s.dbat_array (i + k)) ab la) →
      dbat_loop la is_write ab s i n = Res.ok none s := by
  intro n
  induction n with
  | zero => intro i _; rfl
  | succ n ih =>
    intro i h
    rw [dbat_loop_step, if_neg (by simpa using h 0 (by omega))]
    apply ih
    intro k hk
    have := h (k + 1) (by omega)
    rwa [show i + 1 + k = i + (k + 1) by omega]

theorem dbat_loop_first (la is_write ab : Nat) (s : MMU) :
    ∀ n i k, k < n → bat_match (s.dbat_array (i + k)) ab la →
      (∀ j, j < k → ¬ bat_match (s.dbat_array (i + j)) ab la) →
      dbat_loop la is_write ab s i n =
        if (s.dbat_array (i + k)).prot = 0 ∨
            ((s.dbat_array (i + k)).prot &&& 1 ≠ 0 ∧ is_write ≠ 0) then
          raise_dsi (0x08000000 ||| (is_write <<< 25)) la s
        else Res.ok (some ((s.dbat_array (i + k)).phys_hi |||
          (la &&& not32 (s.dbat_array (i + k)).hi_mask))) s := by
  intro n
  induction n with
  | zero => intro i k hk; omega
  | succ n ih =>
    intro i k hk hm hfirst
    rw [dbat_loop_step]
    cases k with
    | zero => rw [if_pos (by simpa using hm)]; rfl
    | succ k =>
      rw [if_neg (by simpa using hfirst 0 (by omega))]
      rw [ih (i + 1) k (by omega) (by rwa [show i + 1 + k = i + (k + 1) by omega])]
      · rw [show i + 1 + k = i + (k + 1) by omega]
      · intro j hj
        have := hfirst (j + 1) (by omega)
        rwa [show i + 1 + j = i + (j + 1) by omega]

theorem prot_low_bit (p : Nat) (hp : p < 4) : p &&& 1 ≠ 0 ↔ (p = 1 ∨ p = 3) := by
  rw [Nat.and_one_is_mod]; omega

/-- The DSI raised for a protection violation of a data access. -/
theorem raise_dsi_prot (is_write la : Nat) (s : MMU) (hw : is_write ≤ 1) :
    (raise_dsi (0x08000000 ||| (is_write <<< 25)) la s : Res Nat) =
      Res.exc Except_Type.EXC_DSI 0
        ((s.set_spr SPR.DSISR (0x08000000 ||| (is_write <<< 25))).set_spr SPR.DAR la) := by
  simp only [raise_dsi, mmu_exception_handler_call, dsisr_write_bits hw 0x08000000 (by decide)]

/-- C6 counterexample: a write to a DBAT block with `prot = 11` raises DSI on
both data translation paths. -/
theorem dbat_prot3_write_counterexample :
    ppc_mmu_addr_translate 0x40000000 1 sample_prot3 =
        Res.exc Except_Type.EXC_DSI 0
          ((sample_prot3.set_spr SPR.DSISR 0x0A000000).set_spr SPR.DAR 0x40000000) ∧
      tlb2_refill 0x40000000 1 sample_prot3 =
        Res.exc Except_Type.EXC_DSI 0
          ((sample_prot3.set_spr SPR.DSISR 0x0A000000).set_spr SPR.DAR 0x40000000) :=
  ⟨rfl, rfl⟩

theorem ofOption_ne_exc {α : Type} (a : α) (o : Option MMU) (t : Except_Type) (b : Nat)
    (s' : MMU) : Res.ofOption a o ≠ Res.exc t b s' := by
  cases o <;> simp [Res.ofOption]

theorem tlb2_target_entry_ne_exc (gp_va : Nat) (s : MMU) (t : Except_Type) (b : Nat)
    (s' : MMU) : tlb2_target_entry gp_va s ≠ Res.exc t b s' := by
  unfold tlb2_target_entry
  cases s.pCurTLB2 with
  | none => simp
  | some sel =>
    simp only
    split_ifs <;> exact ofOption_ne_exc _ _ _ _ _

theorem bind_ne_exc {α β : Type} (r : Res α) (f : α → MMU → Res β) (t : Except_Type)
    (b : Nat) (s' : MMU) (hr : r ≠ Res.exc t b s')
    (hf : ∀ a s, f a s ≠ Res.exc t b s') : r.bind f ≠ Res.exc t b s' := by
  cases r with
  | ok a s => exact hf a s
  | exc e c s => simpa [Res.bind] using hr
  | exit s => simp [Res.bind]
  | ub => simp [Res.bind]

/-- The refill step of `tlb2_refill` raises nothing. -/
theorem tlb2_refill_fill_ne_exc (guest_va phys_addr : Nat) (s1 : MMU) (t : Except_Type)
    (b : Nat) (s' : MMU) : tlb2_refill_fill guest_va phys_addr s1 ≠ Res.exc t b s' := by
  unfold tlb2_refill_fill
  cases s1.find_range phys_addr with
  | none => simp
  | some reg_desc =>
    simp only
    exact bind_ne_exc _ _ _ _ _ (tlb2_target_entry_ne_exc _ _ _ _ _)
      (fun _ _ => ofOption_ne_exc _ _ _ _ _)

theorem dbat_cond (prot w : Nat) :
    (!(truthy prot) || (truthy (prot &&& 1) && truthy w)) = true ↔
      (prot = 0 ∨ (prot &&& 1 ≠ 0 ∧ w ≠ 0)) := by
  unfold truthy
  generalize prot &&& 1 = q
  by_cases h1 : prot = 0 <;> by_cases h2 : q = 0 <;> by_cases h3 : w = 0 <;> simp [h1, h2, h3]

/-- C6 (amended): a data access whose address hits a DBAT entry raises DSI
(`DSISR = 0x08000000 | (is_write << 25)`, `DAR = la`) exactly when the entry's
`prot` is `00`, or `prot` is `01` or `11` and the access is a write; otherwise
the translation succeeds.  `ppc_mmu_addr_translate` behaves so, and
`tlb2_refill` does when data translation is enabled. -/
theorem dbat_protection (s : MMU) (la is_write i : Nat)
    (hw : is_write ≤ 1) (hi : i < 4)
    (hm : bat_match (s.dbat_array i) (if s.ppc_state.msr &&& 0x4000 = 0 then 2 else 1) la)
    (hfirst : ∀ j, j < i →
      ¬ bat_match (s.dbat_array j) (if s.ppc_state.msr &&& 0x4000 = 0 then 2 else 1) la)
    (hp : (s.dbat_array i).prot < 4) :
    (((s.dbat_array i).prot = 0 ∨
        (((s.dbat_array i).prot = 1 ∨ (s.dbat_array i).prot = 3) ∧ is_write = 1)) →
      ppc_mmu_addr_translate la is_write s =
          Res.exc Except_Type.EXC_DSI 0
            ((s.set_spr SPR.DSISR (0x08000000 ||| (is_write <<< 25))).set_spr SPR.DAR la) ∧
        (s.ppc_state.msr &&& 0x10 ≠ 0 →
          tlb2_refill la is_write s =
            Res.exc Except_Type.EXC_DSI 0
              ((s.set_spr SPR.DSISR (0x08000000 ||| (is_write <<< 25))).set_spr SPR.DAR la))) ∧
    (¬ ((s.dbat_array i).prot = 0 ∨
        (((s.dbat_array i).prot = 1 ∨ (s.dbat_array i).prot = 3) ∧ is_write = 1)) →
      ppc_mmu_addr_translate la is_write s =
          Res.ok ((s.dbat_array i).phys_hi ||| (la &&& not32 (s.dbat_array i).hi_mask)) s ∧
        (s.ppc_state.msr &&& 0x10 ≠ 0 →
          ∀ t b s', tlb2_refill la is_write s ≠ Res.exc t b s')) := by
  have hviol : ((s.dbat_array i).prot = 0 ∨
      ((s.dbat_array i).prot &&& 1 ≠ 0 ∧ is_write ≠ 0)) ↔
      ((s.dbat_array i).prot = 0 ∨
        (((s.dbat_array i).prot = 1 ∨ (s.dbat_array i).prot = 3) ∧ is_write = 1)) := by
    rw [prot_low_bit _ hp]
    have : is_write ≠ 0 ↔ is_write = 1 := by omega
    rw [this]
  have hloop := dbat_loop_first la is_write (if s.ppc_state.msr &&& 0x4000 = 0 then 2 else 1) s
    4 0 i hi (by simpa using hm) (by simpa using hfirst)
  simp only [Nat.zero_add] at hloop
  have hbat := bat_scan_first s.dbat_array (if s.ppc_state.msr &&& 0x4000 = 0 then 2 else 1) la
    { hit := false, prot := 0, phys := 0 } 4 0 i hi (by simpa using hm) (by simpa using hfirst)
  simp only [Nat.zero_add] at hbat
  have hbat' : ppc_block_address_translation BATType.Data s la 0 0 =
      { hit := true, prot := (s.dbat_array i).prot,
        phys := (s.dbat_array i).phys_hi ||| (la &&& not32 (s.dbat_array i).hi_mask) } := by
    simp only [ppc_block_address_translation, access_bits_of_msr]
    simpa using hbat
  constructor
  · intro hv
    have hv' := hviol.2 hv
    constructor
    · unfold ppc_mmu_addr_translate
      simp only [access_bits_of_msr, hloop, if_pos hv', raise_dsi_prot _ _ _ hw]
      simp [raise_dsi, mmu_exception_handler_call, Res.bind,
        dsisr_write_bits hw 0x08000000 (by decide)]
    · intro hdr
      unfold tlb2_refill tlb2_refill_translate
      have hc : (!(truthy (s.dbat_array i).prot) ||
          (truthy ((s.dbat_array i).prot &&& 1) && truthy is_write)) = true :=
        (dbat_cond _ _).2 hv'
      simp only [(truthy_eq_true_iff _).2 hdr, if_true, hbat', hc]
      simp [raise_dsi, mmu_exception_handler_call, Res.bind,
        dsisr_write_bits hw 0x08000000 (by decide)]
  · intro hv
    have hv' := hviol.not.2 hv
    constructor
    · unfold ppc_mmu_addr_translate
      simp only [access_bits_of_msr, hloop, if_neg hv', Res.bind]
    · intro hdr t b s'
      unfold tlb2_refill tlb2_refill_translate
      have hc : (!(truthy (s.dbat_array i).prot) ||
          (truthy ((s.dbat_array i).prot &&& 1) && truthy is_write)) = false := by
        rw [← Bool.not_eq_true]
        exact (dbat_cond _ _).not.2 hv'
      simp only [(truthy_eq_true_iff _).2 hdr, if_true, hbat', hc, Res.bind]
      exact tlb2_refill_fill_ne_exc _ _ _ _ _ _

/-- C6 witness: on the sample machine a supervisor read of `0x40000000`, in the
read-only DBAT block, translates to `0x00200000`. -/
theorem dbat_protection_witness :
    ppc_mmu_addr_translate 0x40000000 0 sample = Res.ok 0x00200000 sample :=
  ((dbat_protection sample 0x40000000 0 0 (by decide) (by decide) (by decide)
    (by decide) (by decide)).2 (by decide)).1

/-! ## Stores to a read-only block -/

/-- A write that hits a read-only DBAT entry: `ppc_mmu_addr_translate` raises
DSI with `DSISR = 0x0A000000`, `DAR = la`. -/
theorem addr_translate_readonly (s : MMU) (la i : Nat) (hi : i < 4)
    (hm : bat_match (s.dbat_array i) (if s.ppc_state.msr &&& 0x4000 = 0 then 2 else 1) la)
    (hfirst : ∀ j, j < i →
      ¬ bat_match (s.dbat_array j) (if s.ppc_state.msr &&& 0x4000 = 0 then 2 else 1) la)
    (hprot : (s.dbat_array i).prot = 1) :
    ppc_mmu_addr_translate la 1 s =
      Res.exc Except_Type.EXC_DSI 0
        ((s.set_spr SPR.DSISR 0x0A000000).set_spr SPR.DAR la) := by
  have hloop := dbat_loop_first la 1 (if s.ppc_state.msr &&& 0x4000 = 0 then 2 else 1) s
    4 0 i hi (by simpa using hm) (by simpa using hfirst)
  simp only [Nat.zero_add] at hloop
  have hv : (s.dbat_array i).prot = 0 ∨ ((s.dbat_array i).prot &&& 1 ≠ 0 ∧ (1 : Nat) ≠ 0) :=
    Or.inr ⟨by rw [hprot]; decide, by decide⟩
  unfold ppc_mmu_addr_translate
  simp only [access_bits_of_msr, hloop, if_pos hv, raise_dsi_prot _ _ _ (le_refl 1)]
  rfl

/-- The stores that reach data translation: with data translation enabled, a
store of 1, 2 or 4 bytes at any alignment, or of 8 bytes at an 8-byte aligned
address, whose address `la` hits a DBAT entry with `prot = 01` raises DSI with
`DSISR = 0x0A000000` and `DAR = la`; the state at the raise differs from the
state before the store only in DSISR and DAR, so no byte of memory has been
written. -/
theorem store_readonly_dbat_raises (s : MMU) (sz la value i : Nat)
    (hsz : sz = 1 ∨ sz = 2 ∨ sz = 4 ∨ sz = 8)
    (hal : sz = 8 → la &&& 7 = 0)
    (hdr : s.ppc_state.msr &&& 0x10 ≠ 0)
    (hi : i < 4)
    (hm : bat_match (s.dbat_array i) (if s.ppc_state.msr &&& 0x4000 = 0 then 2 else 1) la)
    (hfirst : ∀ j, j < i →
      ¬ bat_match (s.dbat_array j) (if s.ppc_state.msr &&& 0x4000 = 0 then 2 else 1) la)
    (hprot : (s.dbat_array i).prot = 1) :
    mem_write sz la value s =
        Res.exc Except_Type.EXC_DSI 0
          ((s.set_spr SPR.DSISR 0x0A000000).set_spr SPR.DAR la) ∧
      ((s.set_spr SPR.DSISR 0x0A000000).set_spr SPR.DAR la).hmem = s.hmem ∧
      ((s.set_spr SPR.DSISR 0x0A000000).set_spr SPR.DAR la).dev_log = s.dev_log := by
  have ht := addr_translate_readonly s la i hi hm hfirst hprot
  have hdr' : truthy (s.ppc_state.msr &&& 0x10) = true := (truthy_eq_true_iff _).2 hdr
  have hst : store_translate la s =
      Res.exc Except_Type.EXC_DSI 0
        ((s.set_spr SPR.DSISR 0x0A000000).set_spr SPR.DAR la) := by
    unfold store_translate
    rw [if_pos hdr', ht]
  have hun : ∀ size, size = 2 ∨ size = 4 → mem_write_unaligned la value size s =
      Res.exc Except_Type.EXC_DSI 0
        ((s.set_spr SPR.DSISR 0x0A000000).set_spr SPR.DAR la) := by
    intro size hsize
    unfold mem_write_unaligned
    by_cases hc : (la &&& 0xFFF) + size > 0x1000
    · rw [if_pos hc]
      rcases hsize with rfl | rfl <;>
        simp [mem_write_crosspage, hdr', ht, Res.bind]
    · rw [if_neg hc]
      simp [hdr', ht, Res.bind]
  refine ⟨?_, rfl, rfl⟩
  unfold mem_write
  rcases hsz with rfl | rfl | rfl | rfl
  · simp [mem_write_byte, hst, Res.bind]
  · simp only [show (2 : Nat) ≠ 1 by decide, if_false, if_true, mem_write_word]
    by_cases ha : truthy (la &&& 1) = true
    · rw [if_pos ha]; exact hun 2 (Or.inl rfl)
    · rw [if_neg ha, hst]; rfl
  · simp only [show (4 : Nat) ≠ 1 by decide, show (4 : Nat) ≠ 2 by decide, if_false, if_true,
      mem_write_dword]
    by_cases ha : truthy (la &&& 3) = true
    · rw [if_pos ha]; exact hun 4 (Or.inr rfl)
    · rw [if_neg ha, hst]; rfl
  · simp only [show (8 : Nat) ≠ 1 by decide, show (8 : Nat) ≠ 2 by decide,
      show (8 : Nat) ≠ 4 by decide, if_false, mem_write_qword]
    rw [if_neg (by simp [truthy, hal rfl]), hst]; rfl

/-- DBAT0 of the sample machine maps `0x40000000` for 128 KiB with
`prot = 01`; a 4-byte store to `0x40000000` raises DSI with
`DSISR = 0x0A000000` and `DAR = 0x40000000`. -/
theorem store_readonly_dbat_witness :
    mem_write 4 0x40000000 0xDEADBEEF sample =
      Res.exc Except_Type.EXC_DSI 0
        ((sample.set_spr SPR.DSISR 0x0A000000).set_spr SPR.DAR 0x40000000) :=
  (store_readonly_dbat_raises sample 4 0x40000000 0xDEADBEEF 0 (by decide) (by decide)
    (by decide) (by decide) (by decide) (by decide) (by decide)).1

/-- C7 at the failing input: DBAT0 of the sample machine maps `0x40000000` for
128 KiB with `prot = 01` and data translation is on; the translation of a
write to `0x40000004` raises DSI with `DSISR = 0x0A000000` and
`DAR = 0x40000004`, but `mem_write_qword(0x40000004, v)` raises nothing: the
address is not 8-byte aligned and the function exits before it translates. -/
theorem readonly_dbat_misaligned_qword_exits :
    sample.ppc_state.msr &&& 0x10 ≠ 0 ∧
    bat_match (sample.dbat_array 0) 2 0x40000004 ∧
    (sample.dbat_array 0).prot = 1 ∧
    ppc_mmu_addr_translate 0x40000004 1 sample =
      Res.exc Except_Type.EXC_DSI 0
        ((sample.set_spr SPR.DSISR 0x0A000000).set_spr SPR.DAR 0x40000004) ∧
    mem_write_qword 0x40000004 0x1122334455667788 sample = Res.exit sample ∧
    mem_write 8 0x40000004 0x1122334455667788 sample = Res.exit sample :=
  ⟨by decide, by decide, rfl, rfl, rfl, rfl⟩

/-! ## Store followed by load -/

/-- C2 counterexample: on the sample machine (translated mode, both TLB levels
empty) the page at `0x1000` maps to the physical page that holds the page
table, and the aligned address `0x1044` is the second word of the PTE of that
page.  After the 4-byte store of `0x00000002` there, `mmu_read_vmem<uint32_t>`
returns `0x00000102`: the page walk of the TLB refill has set the R bit. -/
theorem store_load_pte_counterexample :
    (∀ i, (sample.mode2_tlb1 i).tag = TLB_INVALID_TAG) ∧
    (∀ i, (sample.mode2_tlb2 i).tag = TLB_INVALID_TAG) ∧
    ∃ s' s'', mem_write 4 0x1044 0x00000002 sample = Res.ok () s' ∧
      mmu_read_vmem 4 0x1044 s' = Res.ok 0x00000102 s'' :=
  ⟨fun _ => rfl, fun _ => rfl, _, _, rfl, rfl⟩

/-! ### Big-endian words of a given size -/

theorem write_be_outside (v : Nat) :
    ∀ (n : Nat) (m : Int → Nat) (p a : Int), (a < p ∨ p + (n : Int) ≤ a) →
      write_be m p v n a = m a := by
  intro n
  induction n with
  | zero => intro m p a _; rfl
  | succ n ih =>
    intro m p a h
    simp only [write_be]
    rw [ih _ _ _ (by push_cast at h; omega)]
    simp only [wr8]
    rw [if_neg (by push_cast at h; omega)]

theorem read_be_from_congr (m m' : Int → Nat) :
    ∀ (n : Nat) (acc : Nat) (p : Int),
      (∀ k : Nat, k < n → m (p + (k : Int)) = m' (p + (k : Int))) →
      read_be_from m acc p n = read_be_from m' acc p n := by
  intro n
  induction n with
  | zero => intro acc p _; rfl
  | succ n ih =>
    intro acc p h
    simp only [read_be_from]
    have h0 := h 0 (by omega)
    simp only [Nat.cast_zero, add_zero] at h0
    rw [show rd8 m p = rd8 m' p by simp [rd8, h0]]
    apply ih
    intro k hk
    have := h (k + 1) (by omega)
    rwa [show p + ((k + 1 : Nat) : Int) = p + 1 + (k : Int) by push_cast; ring] at this

theorem read_be_from_write_be (v : Nat) :
    ∀ (n : Nat) (m : Int → Nat) (acc : Nat) (p : Int),
      read_be_from (write_be m p v n) acc p n = acc * 256 ^ n + v % 256 ^ n := by
  intro n
  induction n with
  | zero => intro m acc p; simp [read_be_from, write_be, Nat.mod_one]
  | succ n ih =>
    intro m acc p
    simp only [read_be_from, write_be]
    rw [ih]
    have hb : rd8 (write_be (wr8 m p (v / 256 ^ n)) (p + 1) v n) p = v / 256 ^ n % 256 := by
      unfold rd8
      rw [write_be_outside v n _ _ _ (Or.inl (by omega))]
      simp [wr8]
    rw [hb]
    have hm : v % 256 ^ (n + 1) = v / 256 ^ n % 256 * 256 ^ n + v % 256 ^ n := by
      rw [pow_succ, Nat.mod_mul, Nat.add_comm, Nat.mul_comm]
    rw [hm, pow_succ]
    ring

/-- A big-endian read returns what a big-endian store of the same size at the
same host address wrote. -/
theorem read_be_write_be (m : Int → Nat) (p : Int) (v n : Nat) (hv : v < 256 ^ n) :
    read_be (write_be m p v n) p n = v := by
  unfold read_be
  rw [read_be_from_write_be, Nat.mod_eq_of_lt hv]
  simp

/-! ### The store side -/

theorem and_low_eq_zero_of_mod (a k : Nat) (h : a % 2 ^ k = 0) : a &&& (2 ^ k - 1) = 0 := by
  rw [Nat.and_pow_two_sub_one_eq_mod]; exact h

/-- An aligned store is the translation followed by one aligned physical write. -/
theorem mem_write_aligned (s : MMU) (sz a v : Nat)
    (hsz : sz = 1 ∨ sz = 2 ∨ sz = 4 ∨ sz = 8) (hal : a % sz = 0) :
    mem_write sz a v s =
      (store_translate a s).bind fun pa s1 =>
        Res.ok () (write_phys_mem sz true MRU.last_write_area pa v s1) := by
  unfold mem_write
  rcases hsz with rfl | rfl | rfl | rfl
  · simp [mem_write_byte]
  · have h0 : a &&& 1 = 0 := and_low_eq_zero_of_mod a 1 (by simpa using hal)
    simp only [show (2 : Nat) ≠ 1 by decide, if_false, if_true, mem_write_word]
    rw [if_neg (by simp [truthy, h0])]
  · have h0 : a &&& 3 = 0 := and_low_eq_zero_of_mod a 2 (by simpa using hal)
    simp only [show (4 : Nat) ≠ 1 by decide, show (4 : Nat) ≠ 2 by decide, if_false, if_true,
      mem_write_dword]
    rw [if_neg (by simp [truthy, h0])]
  · have h0 : a &&& 7 = 0 := and_low_eq_zero_of_mod a 3 (by simpa using hal)
    simp only [show (8 : Nat) ≠ 1 by decide, show (8 : Nat) ≠ 2 by decide,
      show (8 : Nat) ≠ 4 by decide, if_false, mem_write_qword]
    rw [if_neg (by simp [truthy, h0])]

/-- A physical write that resolves to the RAM range `r` stores the value
big-endian at the host address of `pa` and leaves `r` in the MRU variable. -/
theorem write_phys_mem_ram (s1 : MMU) (sz pa v : Nat) (r : AddressMapEntry)
    (hsz : sz = 1 ∨ sz = 2 ∨ sz = 4 ∨ sz = 8)
    (hr : s1.find_range pa = some r)
    (hram : r.type &&& RT_RAM ≠ 0)
    (hcache : s1.last_write_area.start ≤ pa → pa + sz ≤ s1.last_write_area.end_ →
      s1.last_write_area = r) :
    write_phys_mem sz true MRU.last_write_area pa v s1 =
      { s1 with last_write_area := r, hmem := write_be s1.hmem (host_of r pa) v sz } := by
  have hram' : truthy (r.type &&& RT_RAM) = true := (truthy_eq_true_iff _).2 hram
  have hlook : mru_resolve sz MRU.last_write_area pa s1 =
      some { s1 with last_write_area := r } := by
    unfold mru_resolve
    by_cases hc : pa < (s1.mru MRU.last_write_area).start ∨
        pa + sz > (s1.mru MRU.last_write_area).end_
    · rw [if_pos hc, hr]; rfl
    · rw [if_neg hc]
      have hcov : s1.last_write_area = r := by
        simp only [MMU.mru] at hc
        exact hcache (by omega) (by omega)
      rw [← hcov]
  unfold write_phys_mem
  rw [hlook]
  simp only [MMU.mru, hram', if_true, host_of]
  rcases hsz with rfl | rfl | rfl | rfl <;> simp

/-- With a coherent map the condition under which `write_phys_mem` trusts its
MRU variable implies that the variable is the range of the address. -/
theorem write_cache_hit (s1 : MMU) (sz pa : Nat) (r : AddressMapEntry) (hsz : 0 < sz)
    (hcoh : map_coherent s1.find_range) (hw : write_area_ok s1)
    (hr : s1.find_range pa = some r) :
    s1.last_write_area.start ≤ pa → pa + sz ≤ s1.last_write_area.end_ →
      s1.last_write_area = r := by
  intro h1 h2
  rcases hw with ⟨hs, he⟩ | ⟨a, ha⟩
  · omega
  · have := (hcoh a _ ha).2.2 pa h1 (by omega)
    rw [hr] at this
    exact (Option.some.inj this).symm

/-! ### The load side: TLB bookkeeping -/

theorem same_view_refl (s : MMU) : same_view s s := ⟨rfl, fun _ _ => ⟨rfl, rfl⟩⟩

theorem same_view_trans {s s1 s2 : MMU} (h1 : same_view s s1) (h2 : same_view s1 s2) :
    same_view s s2 :=
  ⟨h2.1.trans h1.1, fun sel j =>
    ⟨((h2.2 sel j).1).trans ((h1.2 sel j).1), ((h2.2 sel j).2).trans ((h1.2 sel j).2)⟩⟩

theorem tlb2_set_get (s s' : MMU) (sel sel' : TLBSel) (i j : Nat) (e : TLBEntry)
    (h : s.set_tlb2 sel i e = some s') :
    s'.tlb2 sel' j = if sel' = sel ∧ j = i then e else s.tlb2 sel' j := by
  unfold MMU.set_tlb2 at h
  split_ifs at h with hb
  cases h
  cases sel <;> cases sel' <;> simp [MMU.tlb2, upd]

theorem tlb2_set_hmem (s s' : MMU) (sel : TLBSel) (i : Nat) (e : TLBEntry)
    (h : s.set_tlb2 sel i e = some s') : s'.hmem = s.hmem := by
  unfold MMU.set_tlb2 at h
  split_ifs at h with hb
  cases h
  cases sel <;> rfl

theorem tlb2_set_some (s : MMU) (sel : TLBSel) (i : Nat) (e : TLBEntry)
    (h : i < TLB_SIZE * TLB2_WAYS) : ∃ s', s.set_tlb2 sel i e = some s' := by
  unfold MMU.set_tlb2
  rw [if_pos h]
  exact ⟨_, rfl⟩

theorem lru_set_view (s : MMU) (sel : TLBSel) (i v : Nat) (h : i < TLB_SIZE * TLB2_WAYS) :
    ∃ s', lru_set sel i v s = some s' ∧ same_view s s' := by
  obtain ⟨s', hs'⟩ := tlb2_set_some s sel i { s.tlb2 sel i with lru_bits := v } h
  refine ⟨s', hs', tlb2_set_hmem _ _ _ _ _ hs', fun sel' j => ?_⟩
  rw [tlb2_set_get _ _ _ _ _ _ _ hs']
  by_cases hc : sel' = sel ∧ j = i
  · obtain ⟨rfl, rfl⟩ := hc
    simp
  · simp [hc]

theorem lru_and1_view (s : MMU) (sel : TLBSel) (i : Nat) (h : i < TLB_SIZE * TLB2_WAYS) :
    ∃ s', lru_and1 sel i s = some s' ∧ same_view s s' := by
  obtain ⟨s', hs'⟩ := tlb2_set_some s sel i
    { s.tlb2 sel i with lru_bits := (s.tlb2 sel i).lru_bits &&& 0x1 } h
  refine ⟨s', hs', tlb2_set_hmem _ _ _ _ _ hs', fun sel' j => ?_⟩
  rw [tlb2_set_get _ _ _ _ _ _ _ hs']
  by_cases hc : sel' = sel ∧ j = i
  · obtain ⟨rfl, rfl⟩ := hc
    simp
  · simp [hc]

theorem lru_first_pair_view (s : MMU) (sel : TLBSel) (p hi lo : Nat)
    (h : p + 3 < TLB_SIZE * TLB2_WAYS) :
    ∃ s', lru_first_pair sel p hi lo s = some s' ∧ same_view s s' := by
  obtain ⟨s1, e1, v1⟩ := lru_set_view s sel p hi (by omega)
  obtain ⟨s2, e2, v2⟩ := lru_set_view s1 sel (p + 1) lo (by omega)
  obtain ⟨s3, e3, v3⟩ := lru_and1_view s2 sel (p + 2) (by omega)
  obtain ⟨s4, e4, v4⟩ := lru_and1_view s3 sel (p + 3) h
  refine ⟨s4, ?_, same_view_trans (same_view_trans (same_view_trans v1 v2) v3) v4⟩
  unfold lru_first_pair
  simp [e1, e2, e3, e4]

theorem lru_second_pair_view (s : MMU) (sel : TLBSel) (p hi lo : Nat)
    (h : p + 3 < TLB_SIZE * TLB2_WAYS) :
    ∃ s', lru_second_pair sel p hi lo s = some s' ∧ same_view s s' := by
  obtain ⟨s1, e1, v1⟩ := lru_and1_view s sel p (by omega)
  obtain ⟨s2, e2, v2⟩ := lru_and1_view s1 sel (p + 1) (by omega)
  obtain ⟨s3, e3, v3⟩ := lru_set_view s2 sel (p + 2) hi (by omega)
  obtain ⟨s4, e4, v4⟩ := lru_set_view s3 sel (p + 3) lo h
  refine ⟨s4, ?_, same_view_trans (same_view_trans (same_view_trans v1 v2) v3) v4⟩
  unfold lru_second_pair
  simp [e1, e2, e3, e4]

theorem tlb_index_le (va : Nat) : (va >>> PAGE_SIZE_BITS) &&& tlb_size_mask ≤ 4095 :=
  Nat.and_le_right

/-- The replacement choice returns a way of the set, and shows the same memory. -/
theorem tlb2_target_entry_ok (tag : Nat) (t : MMU) (sel2 : TLBSel)
    (hcur : t.pCurTLB2 = some sel2) :
    ∃ w t', w < 4 ∧
      tlb2_target_entry tag t =
        Res.ok (TLBPtr.tlb2 sel2 (((tag >>> PAGE_SIZE_BITS) &&& tlb_size_mask) * TLB2_WAYS + w)) t'
      ∧ same_view t t' := by
  have hb := tlb_index_le tag
  have hin : ((tag >>> PAGE_SIZE_BITS) &&& tlb_size_mask) * TLB2_WAYS + 3
      < TLB_SIZE * TLB2_WAYS := by
    simp only [TLB2_WAYS, TLB_SIZE]; omega
  unfold tlb2_target_entry
  rw [hcur]
  simp only
  split_ifs
  · obtain ⟨t', e, v⟩ := lru_first_pair_view t sel2 _ 0x3 0x2 hin
    exact ⟨0, t', by omega, by rw [e]; rfl, v⟩
  · obtain ⟨t', e, v⟩ := lru_first_pair_view t sel2 _ 0x2 0x3 hin
    exact ⟨1, t', by omega, by rw [e]; rfl, v⟩
  · obtain ⟨t', e, v⟩ := lru_second_pair_view t sel2 _ 0x3 0x2 hin
    exact ⟨2, t', by omega, by rw [e]; rfl, v⟩
  · obtain ⟨t', e, v⟩ := lru_second_pair_view t sel2 _ 0x2 0x3 hin
    exact ⟨3, t', by omega, by rw [e]; rfl, v⟩
  · obtain ⟨t', e, v⟩ := lru_first_pair_view t sel2 _ 0x3 0x2 hin
    exact ⟨0, t', by omega, by rw [e]; rfl, v⟩
  · obtain ⟨t', e, v⟩ := lru_first_pair_view t sel2 _ 0x2 0x3 hin
    exact ⟨1, t', by omega, by rw [e]; rfl, v⟩
  · obtain ⟨t', e, v⟩ := lru_second_pair_view t sel2 _ 0x3 0x2 hin
    exact ⟨2, t', by omega, by rw [e]; rfl, v⟩
  · obtain ⟨t', e, v⟩ := lru_second_pair_view t sel2 _ 0x2 0x3 hin
    exact ⟨3, t', by omega, by rw [e]; rfl, v⟩

theorem tlb1_set_some (s : MMU) (sel : TLBSel) (i : Nat) (e : TLBEntry) (h : i < TLB_SIZE) :
    ∃ s', s.set_tlb1 sel i e = some s' ∧ s'.hmem = s.hmem := by
  unfold MMU.set_tlb1
  rw [if_pos h]
  cases sel <;> exact ⟨_, rfl, rfl⟩

/-- The refill of the secondary TLB for an address that resolves to memory. -/
theorem tlb2_refill_fill_ok (t2 : MMU) (va pa : Nat) (r : AddressMapEntry) (sel2 : TLBSel)
    (hcur : t2.pCurTLB2 = some sel2) (hr : t2.find_range pa = some r)
    (hnm : r.type &&& RT_MMIO = 0) :
    ∃ p t4, tlb2_refill_fill va pa t2 = Res.ok p t4 ∧ t4.hmem = t2.hmem ∧
      (t4.deref p).flags = 1 ∧
      (t4.deref p).payload = TLBPayload.host_va_offset (host_of r pa - (va : Int)) := by
  obtain ⟨w, t3, hw, e3, v3⟩ := tlb2_target_entry_ok (va &&& 0xFFFFF000) t2 sel2 hcur
  have hb := tlb_index_le (va &&& 0xFFFFF000)
  have hin : (((va &&& 0xFFFFF000) >>> PAGE_SIZE_BITS) &&& tlb_size_mask) * TLB2_WAYS + w
      < TLB_SIZE * TLB2_WAYS := by
    simp only [TLB2_WAYS, TLB_SIZE]; omega
  obtain ⟨t4, e4⟩ := tlb2_set_some t3 sel2 _
    { t3.tlb2 sel2 ((((va &&& 0xFFFFF000) >>> PAGE_SIZE_BITS) &&& tlb_size_mask) * TLB2_WAYS + w)
        with tag := va &&& 0xFFFFF000, flags := 1,
             payload := TLBPayload.host_va_offset
               (r.mem_ptr - (va : Int) + (sub32 pa r.start : Nat)) } hin
  refine ⟨TLBPtr.tlb2 sel2
    ((((va &&& 0xFFFFF000) >>> PAGE_SIZE_BITS) &&& tlb_size_mask) * TLB2_WAYS + w), t4, ?_,
    (tlb2_set_hmem _ _ _ _ _ e4).trans v3.1, ?_, ?_⟩
  · unfold tlb2_refill_fill
    simp only [hr, e3, Res.bind, (truthy_eq_false_iff _).2 hnm, MMU.deref, MMU.store]
    simp only [Bool.false_eq_true, if_false, e4, Res.ofOption]
  · simp only [MMU.deref]
    rw [tlb2_set_get _ _ _ _ _ _ _ e4]
    simp
  · simp only [MMU.deref]
    rw [tlb2_set_get _ _ _ _ _ _ _ e4]
    simp only [and_self, if_true, host_of]
    congr 1
    ring

/-- From an agreeing memory entry the primary TLB is refilled and the host
address of the datum is found. -/
theorem mmu_read_vmem_primary_ok (sz va tag : Nat) (sel1 : TLBSel) (i : Nat) (p : TLBPtr)
    (s2 : MMU) (h : Int) (hi : i < TLB_SIZE)
    (hf : (s2.deref p).flags &&& 1 ≠ 0)
    (hp : (s2.deref p).payload = TLBPayload.host_va_offset (h - (va : Int))) :
    ∃ t', mmu_read_vmem_primary sz va tag sel1 i p s2 = Res.ok (Located.host h) t' ∧
      t'.hmem = s2.hmem := by
  obtain ⟨t', e, hm⟩ := tlb1_set_some s2 sel1 i
    { s2.tlb1 sel1 i with
      tag := tag, flags := 1, payload := TLBPayload.host_va_offset (h - (va : Int)) } hi
  refine ⟨t', ?_, hm⟩
  unfold mmu_read_vmem_primary
  simp only [(truthy_eq_true_iff _).2 hf, if_true, hp, e, Res.ofOption]
  congr 2
  ring

/-- The secondary look-up of a load: a hit in an agreeing way, or a refill
whose translation is given, yields a memory entry for the host address `h`. -/
theorem mmu_read_vmem_secondary_ok (t : MMU) (sz va pa : Nat) (h : Int)
    (r : AddressMapEntry) (sel1 sel2 : TLBSel)
    (hc2 : t.pCurTLB2 = some sel2)
    (hag : tlb_agrees t sel1 sel2 va h)
    (h1 : (t.tlb1 sel1 ((va >>> PAGE_SIZE_BITS) &&& tlb_size_mask)).tag ≠ va &&& 0xFFFFF000)
    (hlru : (va >>> PAGE_SIZE_BITS) &&& tlb_size_mask < 4095 ∨
      (t.tlb2 sel2 (((va >>> PAGE_SIZE_BITS) &&& tlb_size_mask) * TLB2_WAYS)).tag
        = va &&& 0xFFFFF000 ∨
      tlb_misses t sel1 sel2 va)
    (hrefill : tlb_misses t sel1 sel2 va →
      ∃ t2, tlb2_refill_translate va 0 t = Res.ok pa t2 ∧ t2.find_range pa = some r ∧
        r.type &&& RT_MMIO = 0 ∧ host_of r pa = h ∧ t2.pCurTLB2 = some sel2 ∧
        ∀ k : Nat, k < sz → t2.hmem (h + (k : Int)) = t.hmem (h + (k : Int))) :
    ∃ p t1, mmu_read_vmem_secondary va (va &&& 0xFFFFF000) t = Res.ok p t1 ∧
      (∀ k : Nat, k < sz → t1.hmem (h + (k : Int)) = t.hmem (h + (k : Int))) ∧
      (t1.deref p).flags &&& 1 ≠ 0 ∧
      (t1.deref p).payload = TLBPayload.host_va_offset (h - (va : Int)) := by
  have hb := tlb_index_le va
  have hag2 := hag.2
  have hit : ∀ w (t1 : MMU), w < 4 →
      (t.tlb2 sel2 (((va >>> PAGE_SIZE_BITS) &&& tlb_size_mask) * TLB2_WAYS + w)).tag = va &&& 0xFFFFF000 →
      same_view t t1 →
      (∀ k : Nat, k < sz → t1.hmem (h + (k : Int)) = t.hmem (h + (k : Int))) ∧
      (t1.deref (TLBPtr.tlb2 sel2 (((va >>> PAGE_SIZE_BITS) &&& tlb_size_mask) * TLB2_WAYS + w))).flags &&& 1 ≠ 0 ∧
      (t1.deref (TLBPtr.tlb2 sel2 (((va >>> PAGE_SIZE_BITS) &&& tlb_size_mask) * TLB2_WAYS + w))).payload =
        TLBPayload.host_va_offset (h - (va : Int)) := by
    intro w t1 hw htag hv
    obtain ⟨hf, hp⟩ := hag2 w hw htag
    refine ⟨fun k _ => by rw [hv.1], ?_, ?_⟩
    · simp only [MMU.deref]; rw [(hv.2 sel2 _).1]; exact hf
    · simp only [MMU.deref]; rw [(hv.2 sel2 _).2]; exact hp
  unfold mmu_read_vmem_secondary lookup_secondary_tlb
  rw [hc2]
  simp only
  by_cases w0 : (t.tlb2 sel2 (((va >>> PAGE_SIZE_BITS) &&& tlb_size_mask) * TLB2_WAYS)).tag = va &&& 0xFFFFF000
  · rw [if_pos w0]
    obtain ⟨t1, e, v⟩ := lru_first_pair_view t sel2 (((va >>> PAGE_SIZE_BITS) &&& tlb_size_mask) * TLB2_WAYS) 0x3 0x2
      (by simp only [TLB2_WAYS, TLB_SIZE]; omega)
    have := hit 0 t1 (by omega) (by simpa using w0) v
    refine ⟨TLBPtr.tlb2 sel2 (((va >>> PAGE_SIZE_BITS) &&& tlb_size_mask) * TLB2_WAYS), t1, ?_, this.1, by simpa using this.2.1,
      by simpa using this.2.2⟩
    rw [e]; rfl
  · rw [if_neg w0]
    by_cases w1 : (t.tlb2 sel2 (((va >>> PAGE_SIZE_BITS) &&& tlb_size_mask) * TLB2_WAYS + 1)).tag = va &&& 0xFFFFF000
    · rw [if_pos w1]
      have hlt : ((va >>> PAGE_SIZE_BITS) &&& tlb_size_mask) < 4095 := by
        rcases hlru with hl | hl | hl
        · exact hl
        · exact absurd hl w0
        · exact absurd w1 (hl.2 1 (by omega))
      obtain ⟨t1, e, v⟩ := lru_first_pair_view t sel2 (((va >>> PAGE_SIZE_BITS) &&& tlb_size_mask) * TLB2_WAYS + 1) 0x2 0x3
        (by simp only [TLB2_WAYS, TLB_SIZE]; omega)
      have := hit 1 t1 (by omega) w1 v
      refine ⟨TLBPtr.tlb2 sel2 (((va >>> PAGE_SIZE_BITS) &&& tlb_size_mask) * TLB2_WAYS + 1), t1, ?_, this.1, this.2.1, this.2.2⟩
      rw [e]; rfl
    · rw [if_neg w1]
      by_cases w2 : (t.tlb2 sel2 (((va >>> PAGE_SIZE_BITS) &&& tlb_size_mask) * TLB2_WAYS + 2)).tag = va &&& 0xFFFFF000
      · rw [if_pos w2]
        have hlt : ((va >>> PAGE_SIZE_BITS) &&& tlb_size_mask) < 4095 := by
          rcases hlru with hl | hl | hl
          · exact hl
          · exact absurd hl w0
          · exact absurd w2 (hl.2 2 (by omega))
        obtain ⟨t1, e, v⟩ := lru_second_pair_view t sel2 (((va >>> PAGE_SIZE_BITS) &&& tlb_size_mask) * TLB2_WAYS + 2) 0x3 0x2
          (by simp only [TLB2_WAYS, TLB_SIZE]; omega)
        have := hit 2 t1 (by omega) w2 v
        refine ⟨TLBPtr.tlb2 sel2 (((va >>> PAGE_SIZE_BITS) &&& tlb_size_mask) * TLB2_WAYS + 2), t1, ?_, this.1, this.2.1, this.2.2⟩
        rw [e]; rfl
      · rw [if_neg w2]
        by_cases w3 : (t.tlb2 sel2 (((va >>> PAGE_SIZE_BITS) &&& tlb_size_mask) * TLB2_WAYS + 3)).tag = va &&& 0xFFFFF000
        · rw [if_pos w3]
          have hlt : ((va >>> PAGE_SIZE_BITS) &&& tlb_size_mask) < 4095 := by
            rcases hlru with hl | hl | hl
            · exact hl
            · exact absurd hl w0
            · exact absurd w3 (hl.2 3 (by omega))
          obtain ⟨t1, e, v⟩ := lru_second_pair_view t sel2 (((va >>> PAGE_SIZE_BITS) &&& tlb_size_mask) * TLB2_WAYS + 3) 0x2 0x3
            (by simp only [TLB2_WAYS, TLB_SIZE]; omega)
          have := hit 3 t1 (by omega) w3 v
          refine ⟨TLBPtr.tlb2 sel2 (((va >>> PAGE_SIZE_BITS) &&& tlb_size_mask) * TLB2_WAYS + 3), t1, ?_, this.1, this.2.1,
            this.2.2⟩
          rw [e]; rfl
        · rw [if_neg w3]
          have hmiss : tlb_misses t sel1 sel2 va := by
            refine ⟨h1, ?_⟩
            intro w hw
            have : w = 0 ∨ w = 1 ∨ w = 2 ∨ w = 3 := by omega
            rcases this with rfl | rfl | rfl | rfl
            · simpa using w0
            · exact w1
            · exact w2
            · exact w3
          obtain ⟨t2, etr, hr, hnm, hh, hcur, hm2⟩ := hrefill hmiss
          obtain ⟨p, t4, e4, hm4, hf4, hp4⟩ := tlb2_refill_fill_ok t2 va pa r sel2 hcur hr hnm
          refine ⟨p, t4, ?_, ?_, ?_, ?_⟩
          · simp only [Res.bind, tlb2_refill, etr, e4]
          · intro k hk; rw [hm4]; exact hm2 k hk
          · rw [hf4]; decide
          · rw [hp4, hh]

/-- An aligned load through the TLB: when the entries that hold the tag of
`va` agree with the host address `h`, and a refill (if needed) translates to
that address without disturbing the datum, the load returns the big-endian
value found at `h`. -/
theorem mmu_read_vmem_aligned (t : MMU) (sz va pa : Nat) (h : Int)
    (r : AddressMapEntry) (sel1 sel2 : TLBSel)
    (hsz : sz = 1 ∨ sz = 2 ∨ sz = 4 ∨ sz = 8) (hal : va % sz = 0)
    (hc1 : t.pCurTLB1 = some sel1) (hc2 : t.pCurTLB2 = some sel2)
    (hag : tlb_agrees t sel1 sel2 va h)
    (hlru : (va >>> PAGE_SIZE_BITS) &&& tlb_size_mask < 4095 ∨
      (t.tlb1 sel1 ((va >>> PAGE_SIZE_BITS) &&& tlb_size_mask)).tag = va &&& 0xFFFFF000 ∨
      (t.tlb2 sel2 (((va >>> PAGE_SIZE_BITS) &&& tlb_size_mask) * TLB2_WAYS)).tag
        = va &&& 0xFFFFF000 ∨
      tlb_misses t sel1 sel2 va)
    (hrefill : tlb_misses t sel1 sel2 va →
      ∃ t2, tlb2_refill_translate va 0 t = Res.ok pa t2 ∧ t2.find_range pa = some r ∧
        r.type &&& RT_MMIO = 0 ∧ host_of r pa = h ∧ t2.pCurTLB2 = some sel2 ∧
        ∀ k : Nat, k < sz → t2.hmem (h + (k : Int)) = t.hmem (h + (k : Int))) :
    ∃ t', mmu_read_vmem sz va t = Res.ok (read_be t.hmem h sz) t' := by
  have hlook : ∃ t', mmu_read_vmem_lookup sz va t = Res.ok (Located.host h) t' ∧
      ∀ k : Nat, k < sz → t'.hmem (h + (k : Int)) = t.hmem (h + (k : Int)) := by
    unfold mmu_read_vmem_lookup
    rw [hc1]
    simp only
    by_cases h1 : (t.tlb1 sel1 ((va >>> PAGE_SIZE_BITS) &&& tlb_size_mask)).tag
        = va &&& 0xFFFFF000
    · rw [if_pos h1, hag.1 h1]
      refine ⟨t, ?_, fun _ _ => rfl⟩
      simp
    · rw [if_neg h1]
      have hlru' : (va >>> PAGE_SIZE_BITS) &&& tlb_size_mask < 4095 ∨
          (t.tlb2 sel2 (((va >>> PAGE_SIZE_BITS) &&& tlb_size_mask) * TLB2_WAYS)).tag
            = va &&& 0xFFFFF000 ∨ tlb_misses t sel1 sel2 va := by
        rcases hlru with hl | hl | hl | hl
        · exact Or.inl hl
        · exact absurd hl h1
        · exact Or.inr (Or.inl hl)
        · exact Or.inr (Or.inr hl)
      obtain ⟨p, t1, e1, hm1, hf1, hp1⟩ :=
        mmu_read_vmem_secondary_ok t sz va pa h r sel1 sel2 hc2 hag h1 hlru' hrefill
      obtain ⟨t', e', hm'⟩ := mmu_read_vmem_primary_ok sz va (va &&& 0xFFFFF000) sel1
        ((va >>> PAGE_SIZE_BITS) &&& tlb_size_mask) p t1 h
        (by have := tlb_index_le va; simp only [TLB_SIZE]; omega) hf1 hp1
      refine ⟨t', ?_, fun k hk => by rw [hm']; exact hm1 k hk⟩
      simp only [e1, Res.bind, e']
  obtain ⟨t', e, hm⟩ := hlook
  refine ⟨t', ?_⟩
  unfold mmu_read_vmem
  simp only [e, Res.bind]
  have hna : ¬ (sz > 1 ∧ truthy (va &&& (sz - 1)) = true) := by
    rintro ⟨-, ht⟩
    have hz : va &&& (sz - 1) = 0 := by
      rcases hsz with rfl | rfl | rfl | rfl
      · simp
      · exact and_low_eq_zero_of_mod va 1 (by simpa using hal)
      · exact and_low_eq_zero_of_mod va 2 (by simpa using hal)
      · exact and_low_eq_zero_of_mod va 3 (by simpa using hal)
    rw [hz] at ht
    simp [truthy] at ht
  rw [if_neg hna]
  congr 1
  unfold read_be
  exact read_be_from_congr _ _ sz 0 h hm

/-! ### The page walk repeated after a store -/

theorem shiftLeft6_and_63 (x : Nat) : (x <<< 6) &&& 63 = 0 := by
  rw [Nat.shiftLeft_eq, show (63 : Nat) = 2 ^ 6 - 1 by norm_num, Nat.and_pow_two_sub_one_eq_mod]
  norm_num

theorem pteg_phys_and_63 (sdr1 hash : Nat) : pteg_phys sdr1 hash &&& 63 = 0 := by
  unfold pteg_phys
  simp only [Nat.and_distrib_right]
  rw [Nat.and_assoc sdr1, Nat.and_assoc sdr1, Nat.and_assoc ((sdr1 &&& 0x1FF) <<< 16),
    shiftLeft6_and_63, shiftLeft6_and_63]
  rw [show (0xFE000000 : Nat) &&& 63 = 0 by decide,
    show (0x01FF0000 : Nat) &&& 63 = 0 by decide]
  simp

theorem pteg_phys_ne_sentinel (sdr1 hash : Nat) : pteg_phys sdr1 hash ≠ 0xFFFFFFFF := by
  intro h
  have := pteg_phys_and_63 sdr1 hash
  rw [h] at this
  revert this
  decide

/-- The host address `calc_pteg_addr` returns is that of the range the map
gives for the PTEG, whatever `last_ptab_area` holds. -/
theorem calc_pteg_addr_spec (hash : Nat) (s sa : MMU) (p : Int)
    (hcoh : map_coherent s.find_range) (hpt : ptab_area_ok s)
    (h : calc_pteg_addr hash s = Res.ok p sa) :
    (∃ e, s.find_range (pteg_phys (s.ppc_state.spr SPR.SDR1) hash) = some e ∧
      truthy (e.type &&& (RT_ROM ||| RT_RAM)) = true ∧
      p = host_of e (pteg_phys (s.ppc_state.spr SPR.SDR1) hash)) ∧
    sa = { s with last_ptab_area := sa.last_ptab_area } ∧ ptab_area_ok sa := by
  have hne := pteg_phys_ne_sentinel (s.ppc_state.spr SPR.SDR1) hash
  unfold calc_pteg_addr at h
  simp only at h
  by_cases hc : pteg_phys (s.ppc_state.spr SPR.SDR1) hash ≥ s.last_ptab_area.start ∧
      pteg_phys (s.ppc_state.spr SPR.SDR1) hash ≤ s.last_ptab_area.end_
  · rw [if_pos hc] at h
    cases h
    refine ⟨?_, rfl, hpt⟩
    rcases hpt with ⟨h1, h2⟩ | ⟨a, e, ha, hty, hs, he, hm⟩
    · omega
    · have := (hcoh a e ha).2.2 (pteg_phys (s.ppc_state.spr SPR.SDR1) hash)
        (by omega) (by omega)
      exact ⟨e, this, hty, by simp only [host_of, hm, hs]⟩
  · rw [if_neg hc] at h
    cases hf : s.find_range (pteg_phys (s.ppc_state.spr SPR.SDR1) hash) with
    | none => rw [hf] at h; cases h
    | some e =>
      rw [hf] at h
      simp only at h
      by_cases hty : truthy (e.type &&& (RT_ROM ||| RT_RAM)) = true
      · rw [if_pos hty] at h
        cases h
        exact ⟨⟨e, rfl, hty, rfl⟩, rfl, Or.inr ⟨_, e, hf, hty, rfl, rfl, rfl⟩⟩
      · rw [if_neg hty] at h; cases h

/-- Conversely `calc_pteg_addr` succeeds, with that host address, in every
state with the same map and a sound `last_ptab_area`. -/
theorem calc_pteg_addr_ok (hash : Nat) (t : MMU) (e : AddressMapEntry)
    (hcoh : map_coherent t.find_range) (hpt : ptab_area_ok t)
    (hf : t.find_range (pteg_phys (t.ppc_state.spr SPR.SDR1) hash) = some e)
    (hty : truthy (e.type &&& (RT_ROM ||| RT_RAM)) = true) :
    ∃ ta, calc_pteg_addr hash t =
        Res.ok (host_of e (pteg_phys (t.ppc_state.spr SPR.SDR1) hash)) ta ∧
      ta = { t with last_ptab_area := ta.last_ptab_area } ∧ ptab_area_ok ta := by
  have hne := pteg_phys_ne_sentinel (t.ppc_state.spr SPR.SDR1) hash
  unfold calc_pteg_addr
  simp only
  by_cases hc : pteg_phys (t.ppc_state.spr SPR.SDR1) hash ≥ t.last_ptab_area.start ∧
      pteg_phys (t.ppc_state.spr SPR.SDR1) hash ≤ t.last_ptab_area.end_
  · rw [if_pos hc]
    refine ⟨t, ?_, rfl, hpt⟩
    rcases hpt with ⟨h1, h2⟩ | ⟨a, e', ha, hty', hs, he, hm⟩
    · omega
    · have := (hcoh a e' ha).2.2 (pteg_phys (t.ppc_state.spr SPR.SDR1) hash)
        (by omega) (by omega)
      rw [hf] at this
      cases this
      simp only [host_of, hm, hs]
  · rw [if_neg hc, hf]
    simp only [hty, if_true]
    exact ⟨_, rfl, rfl, Or.inr ⟨_, e, hf, hty, rfl, rfl, rfl⟩⟩

/-- What `search_pteg` finds: the lowest-index slot whose first word matches. -/
theorem search_pteg_loop_some (m : Int → Nat) (w : Nat) :
    ∀ (n : Nat) (p pte : Int), search_pteg_loop m w p n = some pte →
      ∃ k : Nat, k < n ∧ pte = p + 8 * (k : Int) ∧ READ_DWORD_BE m pte = w ∧
        ∀ j : Nat, j < k → READ_DWORD_BE m (p + 8 * (j : Int)) ≠ w := by
  intro n
  induction n with
  | zero => intro p pte h; cases h
  | succ n ih =>
    intro p pte h
    simp only [search_pteg_loop] at h
    by_cases hc : (w == READ_DWORD_BE m p) = true
    · rw [if_pos hc] at h
      cases h
      exact ⟨0, by omega, by simp, (by simpa using hc : w = _).symm, fun j hj => by omega⟩
    · rw [if_neg hc] at h
      obtain ⟨k, hk, hp, hw, hj⟩ := ih _ _ h
      refine ⟨k + 1, by omega, by rw [hp]; push_cast; ring, hw, ?_⟩
      intro j hjk
      cases j with
      | zero => simpa using fun e => hc (by simpa using e.symm)
      | succ j =>
        have := hj j (by omega)
        rwa [show p + 8 + 8 * (j : Int) = p + 8 * ((j + 1 : Nat) : Int) by push_cast; ring]
          at this

theorem search_pteg_loop_first (m : Int → Nat) (w : Nat) :
    ∀ (n : Nat) (p : Int) (k : Nat), k < n → READ_DWORD_BE m (p + 8 * (k : Int)) = w →
      (∀ j : Nat, j < k → READ_DWORD_BE m (p + 8 * (j : Int)) ≠ w) →
      search_pteg_loop m w p n = some (p + 8 * (k : Int)) := by
  intro n
  induction n with
  | zero => intro p k hk; omega
  | succ n ih =>
    intro p k hk hw hj
    simp only [search_pteg_loop]
    cases k with
    | zero =>
      rw [if_pos (by simpa using hw.symm)]
      simp
    | succ k =>
      have h0 := hj 0 (by omega)
      simp only [Nat.cast_zero, mul_zero, add_zero] at h0
      rw [if_neg (by simpa using fun e => h0 e.symm)]
      rw [ih (p + 8) k (by omega)
        (by rwa [show p + 8 + 8 * (k : Int) = p + 8 * ((k + 1 : Nat) : Int) by push_cast; ring])
        (by
          intro j hjk
          have := hj (j + 1) (by omega)
          rwa [show p + 8 + 8 * (j : Int) = p + 8 * ((j + 1 : Nat) : Int) by
            push_cast; ring])]
      congr 1
      push_cast; ring

theorem search_pteg_loop_eq_none (m : Int → Nat) (w : Nat) (n : Nat) (p : Int)
    (h : search_pteg_loop m w p n = none) :
    ∀ j : Nat, j < n → READ_DWORD_BE m (p + 8 * (j : Int)) ≠ w := by
  intro j hj
  by_contra hc
  have hex : ∃ k, k < n ∧ READ_DWORD_BE m (p + 8 * (k : Int)) = w := ⟨j, hj, hc⟩
  have hmin := Nat.find_spec hex
  have := search_pteg_loop_first m w n p (Nat.find hex) hmin.1 hmin.2
    (fun i hi heq => Nat.find_min hex hi ⟨by omega, heq⟩)
  rw [h] at this
  cases this

theorem read_dword_congr (m m' : Int → Nat) (p : Int)
    (h : ∀ b : Nat, b < 4 → m (p + (b : Int)) = m' (p + (b : Int))) :
    READ_DWORD_BE m p = READ_DWORD_BE m' p := by
  unfold READ_DWORD_BE read_be
  exact read_be_from_congr m m' 4 0 p h

theorem ptab_area_ok_congr (s t : MMU) (hf : t.find_range = s.find_range)
    (ha : t.last_ptab_area = s.last_ptab_area) (h : ptab_area_ok s) : ptab_area_ok t := by
  unfold ptab_area_ok at h ⊢
  rw [hf, ha]
  exact h

theorem pte_violation_read (key pp : Nat) (h : pte_violation key pp 1 = false) :
    pte_violation key pp 0 = false := by
  unfold pte_violation truthy at h ⊢
  by_cases hk : key = 0 <;> by_cases hp : pp = 0 <;> simp_all

theorem rc_word_and_3 (w c : Nat) (hc : c = 0 ∨ c = 0x80) :
    ((w ||| 0x100) ||| c) &&& 3 = w &&& 3 := by
  rw [Nat.and_distrib_right, Nat.and_distrib_right]
  rcases hc with rfl | rfl
  · rw [show (0x100 : Nat) &&& 3 = 0 by decide, show (0 : Nat) &&& 3 = 0 by decide]; simp
  · rw [show (0x100 : Nat) &&& 3 = 0 by decide, show (0x80 : Nat) &&& 3 = 0 by decide]; simp

theorem rc_word_and_rpn (w c : Nat) (hc : c = 0 ∨ c = 0x80) :
    ((w ||| 0x100) ||| c) &&& 0xFFFFF000 = w &&& 0xFFFFF000 := by
  rw [Nat.and_distrib_right, Nat.and_distrib_right]
  rcases hc with rfl | rfl
  · rw [show (0x100 : Nat) &&& 0xFFFFF000 = 0 by decide,
      show (0 : Nat) &&& 0xFFFFF000 = 0 by decide]; simp
  · rw [show (0x100 : Nat) &&& 0xFFFFF000 = 0 by decide,
      show (0x80 : Nat) &&& 0xFFFFF000 = 0 by decide]; simp

/-- Memory after a store of `sz` bytes at `h` that followed the R/C update of
the PTE at `pte`: bytes outside both are as before. -/
theorem hmem_after_store (m : Int → Nat) (pte h a : Int) (v sz : Nat)
    (hd : ∀ k : Nat, k < sz → a ≠ h + (k : Int)) (h6 : a ≠ pte + 6) (h7 : a ≠ pte + 7) :
    write_be (rc_update m pte 1) h v sz a = m a := by
  rw [write_be_outside v sz _ h a, rc_update_outside m pte a 1 h6 h7]
  by_contra hc
  push_neg at hc
  have := hd (a - h).toNat (by omega)
  omega

/-- The PTE access of a load that repeats the walk of a store. -/
theorem pte_access_again (la pr sr_val pa : Nat) (pte h : Int) (sz v : Nat) (sa t' : MMU)
    (hv : pte_violation (pte_key sr_val pr) (READ_DWORD_BE sa.hmem (pte + 4) &&& 3) 1 = false)
    (hpa : pa = (READ_DWORD_BE sa.hmem (pte + 4) &&& 0xFFFFF000) ||| (la &&& 0x00000FFF))
    (hm : t'.hmem = write_be (rc_update sa.hmem pte 1) h v sz)
    (hd : ∀ k b : Nat, k < sz → b < 8 → h + (k : Int) ≠ pte + (b : Int)) :
    ∃ t2, pte_access la false pr 0 sr_val pte t' = Res.ok pa t2 ∧
      t2.find_range = t'.find_range ∧ t2.pCurTLB2 = t'.pCurTLB2 ∧
      ∀ k : Nat, k < sz → t2.hmem (h + (k : Int)) = t'.hmem (h + (k : Int)) := by
  have hw2 : READ_DWORD_BE t'.hmem (pte + 4) =
      (READ_DWORD_BE sa.hmem (pte + 4) ||| 0x100) ||| 0x80 := by
    have hrc : READ_DWORD_BE (rc_update sa.hmem pte 1) (pte + 4) =
        (READ_DWORD_BE sa.hmem (pte + 4) ||| 0x100) ||| 0x80 :=
      (rc_update_word2 sa.hmem pte 1).trans (by simp)
    rw [hm, ← hrc]
    apply read_dword_congr
    intro b hb
    apply write_be_outside
    by_contra hc
    push_neg at hc
    have := hd (pte + 4 + (b : Int) - h).toNat (b + 4) (by omega) (by omega)
    push_cast at this
    omega
  refine ⟨{ t' with hmem := rc_update t'.hmem pte 0 }, ?_, rfl, rfl, ?_⟩
  · unfold pte_access
    simp only [hw2, rc_word_and_3 _ 0x80 (Or.inr rfl), pte_violation_read _ _ hv,
      rc_word_and_rpn _ 0x80 (Or.inr rfl), ← hpa]
    simp
  · intro k hk
    simp only
    apply rc_update_outside
    · have := hd k 6 hk (by omega); simpa using this
    · have := hd k 7 hk (by omega); simpa using this

/-- First words of the slots of a PTEG are as before the store, when the
stored bytes lie outside the PTEG and the R/C bytes are no first-word bytes. -/
theorem word1_stable (m : Int → Nat) (p pte h : Int) (sz v : Nat)
    (hdis : disjoint_bytes h sz p 64)
    (hpte : ∀ j b : Nat, j < 8 → b < 4 →
      p + 8 * (j : Int) + (b : Int) ≠ pte + 6 ∧ p + 8 * (j : Int) + (b : Int) ≠ pte + 7) :
    ∀ j : Nat, j < 8 →
      READ_DWORD_BE (write_be (rc_update m pte 1) h v sz) (p + 8 * (j : Int)) =
        READ_DWORD_BE m (p + 8 * (j : Int)) := by
  intro j hj
  apply read_dword_congr
  intro b hb
  apply hmem_after_store
  · intro k hk heq
    have := hdis k (8 * j + b) hk (by omega)
    apply this
    rw [← heq]; push_cast; ring
  · exact (hpte j b hj hb).1
  · exact (hpte j b hj hb).2

/-- A load that repeats the page walk of a store finds the same physical
address, when the stored bytes lie outside both PTEGs and the two PTEGs do not
share host bytes.  The datum is not touched by the second walk. -/
theorem page_walk_again (s s1 t : MMU) (la pr pa sz v : Nat) (h : Int)
    (hcoh : map_coherent s.find_range) (hpt : ptab_area_ok s)
    (hw : page_address_translate la false pr 1 s = Res.ok pa s1)
    (hps : t.ppc_state = s.ppc_state) (hfr : t.find_range = s.find_range)
    (hlpa : t.last_ptab_area = s1.last_ptab_area)
    (hm : t.hmem = write_be s1.hmem h v sz)
    (hd1 : ∀ e, s.find_range (pteg_phys (s.ppc_state.spr SPR.SDR1) (((s.ppc_state.sr ((la >>> 28) &&& 0x0F)) &&& 0x7FFFF) ^^^ ((la >>> 12) &&& 0xFFFF))) = some e → disjoint_bytes h sz (host_of e (pteg_phys (s.ppc_state.spr SPR.SDR1) (((s.ppc_state.sr ((la >>> 28) &&& 0x0F)) &&& 0x7FFFF) ^^^ ((la >>> 12) &&& 0xFFFF)))) 64)
    (hd2 : ∀ e, s.find_range (pteg_phys (s.ppc_state.spr SPR.SDR1) (not32 (((s.ppc_state.sr ((la >>> 28) &&& 0x0F)) &&& 0x7FFFF) ^^^ ((la >>> 12) &&& 0xFFFF)))) = some e → disjoint_bytes h sz (host_of e (pteg_phys (s.ppc_state.spr SPR.SDR1) (not32 (((s.ppc_state.sr ((la >>> 28) &&& 0x0F)) &&& 0x7FFFF) ^^^ ((la >>> 12) &&& 0xFFFF))))) 64)
    (hd12 : ∀ e1 e2, s.find_range (pteg_phys (s.ppc_state.spr SPR.SDR1) (((s.ppc_state.sr ((la >>> 28) &&& 0x0F)) &&& 0x7FFFF) ^^^ ((la >>> 12) &&& 0xFFFF))) = some e1 → s.find_range (pteg_phys (s.ppc_state.spr SPR.SDR1) (not32 (((s.ppc_state.sr ((la >>> 28) &&& 0x0F)) &&& 0x7FFFF) ^^^ ((la >>> 12) &&& 0xFFFF)))) = some e2 →
      disjoint_bytes (host_of e1 (pteg_phys (s.ppc_state.spr SPR.SDR1) (((s.ppc_state.sr ((la >>> 28) &&& 0x0F)) &&& 0x7FFFF) ^^^ ((la >>> 12) &&& 0xFFFF)))) 64 (host_of e2 (pteg_phys (s.ppc_state.spr SPR.SDR1) (not32 (((s.ppc_state.sr ((la >>> 28) &&& 0x0F)) &&& 0x7FFFF) ^^^ ((la >>> 12) &&& 0xFFFF))))) 64) :
    ∃ t2, page_address_translate la false pr 0 t = Res.ok pa t2 ∧
      t2.find_range = t.find_range ∧ t2.pCurTLB2 = t.pCurTLB2 ∧
      ∀ k : Nat, k < sz → t2.hmem (h + (k : Int)) = t.hmem (h + (k : Int)) := by
  unfold page_address_translate at hw
  by_cases hT : truthy ((s.ppc_state.sr ((la >>> 28) &&& 0x0F)) &&& 0x80000000) = true
  · simp [hT] at hw
  simp only [hT, Bool.false_eq_true, if_false] at hw
  rw [Res.bind_eq_ok] at hw
  obtain ⟨pte, sa, hlook, hacc⟩ := hw
  obtain ⟨hv, hpa, hs1⟩ := pte_access_ok _ _ _ _ _ _ _ _ _ hacc
  have hsaf := pte_lookup_frame _ _ _ _ _ _ _ hlook
  have hsam : sa.hmem = s.hmem := by rw [hsaf]
  have hs1m : s1.hmem = rc_update s.hmem pte 1 := by rw [hs1, ← hsam]
  have hs1l : s1.last_ptab_area = sa.last_ptab_area := by rw [hs1]
  have htm : t.hmem = write_be (rc_update s.hmem pte 1) h v sz := by rw [hm, hs1m]
  rw [hsam] at hv hpa
  have hcoh_t : map_coherent t.find_range := by rw [hfr]; exact hcoh
  -- the look-up of the store
  unfold pte_lookup at hlook
  simp only [Bool.and_false, Bool.false_eq_true, if_false] at hlook
  rw [Res.bind_eq_ok] at hlook
  obtain ⟨p1, sa1, hc1, hrest⟩ := hlook
  obtain ⟨⟨e1, hf1, hty1, hp1⟩, hsa1, hpt1⟩ := calc_pteg_addr_spec _ _ _ _ hcoh hpt hc1
  have hsa1m : sa1.hmem = s.hmem := by rw [hsa1]
  have hsa1f : sa1.find_range = s.find_range := by rw [hsa1]
  have hsa1p : sa1.ppc_state = s.ppc_state := by rw [hsa1]
  rw [hsa1m] at hrest
  have hlook_t : ∃ ta, pte_lookup la false 0 (s.ppc_state.sr ((la >>> 28) &&& 0x0F)) t = Res.ok pte ta ∧ ta.hmem = t.hmem ∧
      ta.find_range = t.find_range ∧ ta.pCurTLB2 = t.pCurTLB2 ∧
      ∀ k b : Nat, k < sz → b < 8 → h + (k : Int) ≠ pte + (b : Int) := by
    cases hsr1 : search_pteg s.hmem p1 ((s.ppc_state.sr ((la >>> 28) &&& 0x0F)) &&& 0x0FFFFFF) ((la >>> 12) &&& 0xFFFF) 0 with
    | some pte' =>
      rw [hsr1] at hrest
      simp only at hrest
      cases hrest
      -- the PTE is in the primary PTEG
      obtain ⟨k, hk, hpk, hwk, hjk⟩ := search_pteg_loop_some _ _ _ _ _ hsr1
      have hpt_t : ptab_area_ok t := by
        apply ptab_area_ok_congr sa t (by rw [hfr, hsa1f]) (by rw [hlpa, hs1l]) hpt1
      obtain ⟨ta1, hct1, hta1, -⟩ := calc_pteg_addr_ok (((s.ppc_state.sr ((la >>> 28) &&& 0x0F)) &&& 0x7FFFF) ^^^ ((la >>> 12) &&& 0xFFFF)) t e1 hcoh_t hpt_t
        (by rw [hfr, hps]; exact hf1) hty1
      rw [hps, ← hp1] at hct1
      have hstab := word1_stable s.hmem p1 pte h sz v
        (by rw [hp1]; exact hd1 e1 hf1)
        (by intro j b hj hb; rw [hpk]; constructor <;> omega)
      have hsr_t : search_pteg ta1.hmem p1 ((s.ppc_state.sr ((la >>> 28) &&& 0x0F)) &&& 0x0FFFFFF) ((la >>> 12) &&& 0xFFFF) 0 = some pte := by
        have : ta1.hmem = t.hmem := by rw [hta1]
        have hfirst := search_pteg_loop_first (write_be (rc_update s.hmem pte 1) h v sz)
          (pte_check_word ((s.ppc_state.sr ((la >>> 28) &&& 0x0F)) &&& 0x0FFFFFF) ((la >>> 12) &&& 0xFFFF) 0) 8 p1 k hk
          (by rw [hstab k hk, ← hpk]; exact hwk)
          (by intro j hj; rw [hstab j (by omega)]; exact hjk j hj)
        rw [this, htm]
        unfold search_pteg
        rw [hfirst, hpk]
      refine ⟨ta1, ?_, by rw [hta1], by rw [hta1], by rw [hta1], ?_⟩
      · unfold pte_lookup
        simp only [Bool.and_false, Bool.false_eq_true, if_false, hct1, Res.bind, hsr_t]
      · intro i b hi hb
        have := hd1 e1 hf1 i (8 * k + b) hi (by omega)
        rw [← hp1] at this
        rw [hpk]
        intro heq
        apply this
        rw [heq]; push_cast; ring
    | none =>
      rw [hsr1] at hrest
      simp only at hrest
      rw [Res.bind_eq_ok] at hrest
      obtain ⟨p2, sa2, hc2, hrest2⟩ := hrest
      have hcoh1 : map_coherent sa1.find_range := by rw [hsa1f]; exact hcoh
      obtain ⟨⟨e2, hf2, hty2, hp2⟩, hsa2, hpt2⟩ :=
        calc_pteg_addr_spec _ _ _ _ hcoh1 hpt1 hc2
      rw [hsa1f, hsa1p] at hf2
      rw [hsa1p] at hp2
      have hsa2m : sa2.hmem = s.hmem := by rw [hsa2, hsa1m]
      have hsa2f : sa2.find_range = s.find_range := by rw [hsa2, hsa1f]
      rw [hsa2m] at hrest2
      cases hsr2 : search_pteg s.hmem p2 ((s.ppc_state.sr ((la >>> 28) &&& 0x0F)) &&& 0x0FFFFFF) ((la >>> 12) &&& 0xFFFF) 1 with
      | none =>
        rw [hsr2] at hrest2
        simp [raise_dsi, mmu_exception_handler_call] at hrest2
      | some pte' =>
        rw [hsr2] at hrest2
        simp only at hrest2
        cases hrest2
        obtain ⟨k, hk, hpk, hwk, hjk⟩ := search_pteg_loop_some _ _ _ _ _ hsr2
        have hpt_t : ptab_area_ok t := by
          apply ptab_area_ok_congr sa t (by rw [hfr, hsa2f]) (by rw [hlpa, hs1l]) hpt2
        obtain ⟨ta1, hct1, hta1, hpta1⟩ := calc_pteg_addr_ok (((s.ppc_state.sr ((la >>> 28) &&& 0x0F)) &&& 0x7FFFF) ^^^ ((la >>> 12) &&& 0xFFFF)) t e1 hcoh_t hpt_t
          (by rw [hfr, hps]; exact hf1) hty1
        rw [hps, ← hp1] at hct1
        have hta1f : ta1.find_range = s.find_range := by rw [hta1]; exact hfr
        have hta1p : ta1.ppc_state = s.ppc_state := by rw [hta1]; exact hps
        have hta1m : ta1.hmem = t.hmem := by rw [hta1]
        obtain ⟨ta2, hct2, hta2, -⟩ := calc_pteg_addr_ok (not32 (((s.ppc_state.sr ((la >>> 28) &&& 0x0F)) &&& 0x7FFFF) ^^^ ((la >>> 12) &&& 0xFFFF))) ta1 e2
          (by rw [hta1f]; exact hcoh) hpta1 (by rw [hta1f, hta1p]; exact hf2) hty2
        rw [hta1p, ← hp2] at hct2
        have hta2m : ta2.hmem = t.hmem := by rw [hta2, hta1m]
        have h12 := hd12 e1 e2 hf1 hf2
        rw [← hp1, ← hp2] at h12
        have hstab1 := word1_stable s.hmem p1 pte h sz v
          (by rw [hp1]; exact hd1 e1 hf1)
          (by
            intro j b hj hb
            rw [hpk]
            constructor
            · have := h12 (8 * j + b) (8 * k + 6) (by omega) (by omega)
              intro heq; apply this; push_cast; rw [← add_assoc, heq]; ring
            · have := h12 (8 * j + b) (8 * k + 7) (by omega) (by omega)
              intro heq; apply this; push_cast; rw [← add_assoc, heq]; ring)
        have hstab2 := word1_stable s.hmem p2 pte h sz v
          (by rw [hp2]; exact hd2 e2 hf2)
          (by intro j b hj hb; rw [hpk]; constructor <;> omega)
        have hsr1_t : search_pteg ta1.hmem p1 ((s.ppc_state.sr ((la >>> 28) &&& 0x0F)) &&& 0x0FFFFFF) ((la >>> 12) &&& 0xFFFF) 0 = none := by
          rw [hta1m, htm]
          apply search_pteg_loop_none
          intro j hj
          rw [hstab1 j hj]
          exact search_pteg_loop_eq_none _ _ _ _ hsr1 j hj
        have hsr2_t : search_pteg ta2.hmem p2 ((s.ppc_state.sr ((la >>> 28) &&& 0x0F)) &&& 0x0FFFFFF) ((la >>> 12) &&& 0xFFFF) 1 = some pte := by
          have hfirst := search_pteg_loop_first (write_be (rc_update s.hmem pte 1) h v sz)
            (pte_check_word ((s.ppc_state.sr ((la >>> 28) &&& 0x0F)) &&& 0x0FFFFFF) ((la >>> 12) &&& 0xFFFF) 1) 8 p2 k hk
            (by rw [hstab2 k hk, ← hpk]; exact hwk)
            (by intro j hj; rw [hstab2 j (by omega)]; exact hjk j hj)
          rw [hta2m, htm]
          unfold search_pteg
          rw [hfirst, hpk]
        refine ⟨ta2, ?_, hta2m, by rw [hta2, hta1], by rw [hta2, hta1], ?_⟩
        · unfold pte_lookup
          simp only [Bool.and_false, Bool.false_eq_true, if_false, hct1, Res.bind, hsr1_t,
            hct2, hsr2_t]
        · intro i b hi hb
          have := hd2 e2 hf2 i (8 * k + b) hi (by omega)
          rw [← hp2] at this
          rw [hpk]
          intro heq
          apply this
          rw [heq]; push_cast; ring
  obtain ⟨ta, hlt, htam, htaf, htac, hdp⟩ := hlook_t
  obtain ⟨t2, hacc2, h2f, h2c, h2m⟩ := pte_access_again la pr (s.ppc_state.sr ((la >>> 28) &&& 0x0F)) pa pte h sz v s ta hv hpa
    (by rw [htam, htm]) hdp
  refine ⟨t2, ?_, h2f.trans htaf, h2c.trans htac, fun k hk => by rw [h2m k hk, htam]⟩
  unfold page_address_translate
  simp only [hps, hT, Bool.false_eq_true, if_false, hlt, Res.bind, hacc2]

/-! ### Store followed by load: the amended statement -/

theorem bat_first_or_none (arr : Nat → PPC_BAT_entry) (ab la : Nat) :
    (∃ i, i < 4 ∧ bat_match (arr i) ab la ∧ ∀ j, j < i → ¬ bat_match (arr j) ab la) ∨
      (∀ i, i < 4 → ¬ bat_match (arr i) ab la) := by
  by_cases hex : ∃ i, i < 4 ∧ bat_match (arr i) ab la
  · left
    refine ⟨Nat.find hex, (Nat.find_spec hex).1, (Nat.find_spec hex).2, ?_⟩
    intro j hj hm
    exact Nat.find_min hex hj ⟨by have := (Nat.find_spec hex).1; omega, hm⟩
  · right
    intro i hi hm
    exact hex ⟨i, hi, hm⟩

/-- The three ways in which the translation of a store succeeds. -/
theorem store_translate_cases (s s1 : MMU) (la pa : Nat)
    (h : store_translate la s = Res.ok pa s1) :
    (s.ppc_state.msr &&& 0x10 = 0 ∧ pa = la ∧ s1 = s) ∨
    (s.ppc_state.msr &&& 0x10 ≠ 0 ∧ s1 = s ∧
      ∃ i, i < 4 ∧ bat_match (s.dbat_array i) (if s.ppc_state.msr &&& 0x4000 = 0 then 2 else 1) la ∧
        (∀ j, j < i → ¬ bat_match (s.dbat_array j) (if s.ppc_state.msr &&& 0x4000 = 0 then 2 else 1) la) ∧
        (s.dbat_array i).prot ≠ 0 ∧ (s.dbat_array i).prot &&& 1 = 0 ∧
        pa = (s.dbat_array i).phys_hi ||| (la &&& not32 (s.dbat_array i).hi_mask)) ∨
    (s.ppc_state.msr &&& 0x10 ≠ 0 ∧
      (∀ i, i < 4 → ¬ bat_match (s.dbat_array i) (if s.ppc_state.msr &&& 0x4000 = 0 then 2 else 1) la) ∧
      page_address_translate la false (msr_pr_of s.ppc_state.msr) 1 s = Res.ok pa s1) := by
  unfold store_translate at h
  by_cases hdr : s.ppc_state.msr &&& 0x10 = 0
  · rw [if_neg (by simp [truthy, hdr])] at h
    cases h
    exact Or.inl ⟨hdr, rfl, rfl⟩
  · rw [if_pos ((truthy_eq_true_iff _).2 hdr)] at h
    unfold ppc_mmu_addr_translate at h
    simp only [access_bits_of_msr] at h
    rcases bat_first_or_none s.dbat_array (if s.ppc_state.msr &&& 0x4000 = 0 then 2 else 1) la with ⟨i, hi, hm, hf⟩ | hnone
    · have hl := dbat_loop_first la 1 (if s.ppc_state.msr &&& 0x4000 = 0 then 2 else 1) s 4 0 i hi (by simpa using hm) (by simpa using hf)
      simp only [Nat.zero_add] at hl
      rw [hl] at h
      by_cases hv : (s.dbat_array i).prot = 0 ∨ ((s.dbat_array i).prot &&& 1 ≠ 0 ∧ 1 ≠ 0)
      · rw [if_pos hv] at h
        simp [raise_dsi, mmu_exception_handler_call, Res.bind] at h
      · rw [if_neg hv] at h
        simp only [Res.bind] at h
        cases h
        push_neg at hv
        refine Or.inr (Or.inl ⟨hdr, rfl, i, hi, hm, hf, hv.1, ?_, rfl⟩)
        by_contra hc
        exact absurd (hv.2 hc) (by decide)
    · have hl := dbat_loop_none la 1 (if s.ppc_state.msr &&& 0x4000 = 0 then 2 else 1) s 4 0 (by simpa using hnone)
      rw [hl] at h
      simp only [Res.bind] at h
      exact Or.inr (Or.inr ⟨hdr, hnone, h⟩)

theorem tlb_agrees_congr (s t : MMU) (sel1 sel2 : TLBSel) (va : Nat) (h : Int)
    (h1 : ∀ sel, t.tlb1 sel = s.tlb1 sel) (h2 : ∀ sel, t.tlb2 sel = s.tlb2 sel)
    (hag : tlb_agrees s sel1 sel2 va h) : tlb_agrees t sel1 sel2 va h := by
  unfold tlb_agrees at hag ⊢
  rw [h1, h2]
  exact hag

theorem tlb_misses_congr (s t : MMU) (sel1 sel2 : TLBSel) (va : Nat)
    (h1 : ∀ sel, t.tlb1 sel = s.tlb1 sel) (h2 : ∀ sel, t.tlb2 sel = s.tlb2 sel)
    (hm : tlb_misses t sel1 sel2 va) : tlb_misses s sel1 sel2 va := by
  unfold tlb_misses at hm ⊢
  rw [h1, h2] at hm
  exact hm

/-- What the translation of a store leaves unchanged. -/
theorem store_translate_frame (s s1 : MMU) (la pa : Nat)
    (htr : store_translate la s = Res.ok pa s1) :
    s1.find_range = s.find_range ∧ s1.last_write_area = s.last_write_area ∧
      s1.ppc_state = s.ppc_state ∧ s1.dbat_array = s.dbat_array ∧
      s1.pCurTLB1 = s.pCurTLB1 ∧ s1.pCurTLB2 = s.pCurTLB2 ∧
      (∀ sel, s1.tlb1 sel = s.tlb1 sel) ∧ (∀ sel, s1.tlb2 sel = s.tlb2 sel) := by
  rcases store_translate_cases s s1 la pa htr with ⟨-, -, rfl⟩ | ⟨-, rfl, -⟩ | ⟨-, -, hw⟩
  · exact ⟨rfl, rfl, rfl, rfl, rfl, rfl, fun _ => rfl, fun _ => rfl⟩
  · exact ⟨rfl, rfl, rfl, rfl, rfl, rfl, fun _ => rfl, fun _ => rfl⟩
  · unfold page_address_translate at hw
    by_cases hT : truthy (s.ppc_state.sr ((la >>> 28) &&& 0x0F) &&& 0x80000000) = true
    · simp [hT] at hw
    simp only [hT, Bool.false_eq_true, if_false] at hw
    rw [Res.bind_eq_ok] at hw
    obtain ⟨pte, sa, hlook, hacc⟩ := hw
    obtain ⟨-, -, hs1⟩ := pte_access_ok _ _ _ _ _ _ _ _ _ hacc
    have hsaf := pte_lookup_frame _ _ _ _ _ _ _ hlook
    have e1 : s1.find_range = s.find_range := by rw [hs1, hsaf]
    have e2 : s1.last_write_area = s.last_write_area := by rw [hs1, hsaf]
    have e3 : s1.ppc_state = s.ppc_state := by rw [hs1, hsaf]
    have e4 : s1.dbat_array = s.dbat_array := by rw [hs1, hsaf]
    have e5 : s1.pCurTLB1 = s.pCurTLB1 := by rw [hs1, hsaf]
    have e6 : s1.pCurTLB2 = s.pCurTLB2 := by rw [hs1, hsaf]
    have e7 : ∀ sel, s1.tlb1 sel = s.tlb1 sel := by
      intro sel; rw [hs1, hsaf]; cases sel <;> rfl
    have e8 : ∀ sel, s1.tlb2 sel = s.tlb2 sel := by
      intro sel; rw [hs1, hsaf]; cases sel <;> rfl
    exact ⟨e1, e2, e3, e4, e5, e6, e7, e8⟩

/-- The load after the store, for a state `t` that differs from the state
`s1` after the translation of the store in the MRU variable of writes and in
the stored bytes. -/
theorem load_after_store (s s1 t : MMU) (sz va v pa : Nat) (r : AddressMapEntry)
    (sel1 sel2 : TLBSel)
    (hsz : sz = 1 ∨ sz = 2 ∨ sz = 4 ∨ sz = 8) (hal : va % sz = 0) (hv : v < 256 ^ sz)
    (hc1 : s.pCurTLB1 = some sel1) (hc2 : s.pCurTLB2 = some sel2)
    (hcoh : map_coherent s.find_range) (hpt : ptab_area_ok s)
    (htr : store_translate va s = Res.ok pa s1)
    (hr : s.find_range pa = some r) (hnm : r.type &&& RT_MMIO = 0)
    (hag : tlb_agrees s sel1 sel2 va (host_of r pa))
    (hlru : (va >>> PAGE_SIZE_BITS) &&& tlb_size_mask < 4095 ∨
      (s.tlb1 sel1 ((va >>> PAGE_SIZE_BITS) &&& tlb_size_mask)).tag = va &&& 0xFFFFF000 ∨
      (s.tlb2 sel2 (((va >>> PAGE_SIZE_BITS) &&& tlb_size_mask) * TLB2_WAYS)).tag
        = va &&& 0xFFFFF000 ∨
      tlb_misses s sel1 sel2 va)
    (hwalk : tlb_misses s sel1 sel2 va → s.ppc_state.msr &&& 0x10 ≠ 0 →
      (∀ i, i < 4 → ¬ bat_match (s.dbat_array i) (if s.ppc_state.msr &&& 0x4000 = 0 then 2 else 1) va) →
      (∀ e, s.find_range (pteg_phys (s.ppc_state.spr SPR.SDR1) (((s.ppc_state.sr ((va >>> 28) &&& 0x0F)) &&& 0x7FFFF) ^^^ ((va >>> 12) &&& 0xFFFF))) = some e →
        disjoint_bytes (host_of r pa) sz (host_of e (pteg_phys (s.ppc_state.spr SPR.SDR1) (((s.ppc_state.sr ((va >>> 28) &&& 0x0F)) &&& 0x7FFFF) ^^^ ((va >>> 12) &&& 0xFFFF)))) 64) ∧
      (∀ e, s.find_range (pteg_phys (s.ppc_state.spr SPR.SDR1) (not32 (((s.ppc_state.sr ((va >>> 28) &&& 0x0F)) &&& 0x7FFFF) ^^^ ((va >>> 12) &&& 0xFFFF)))) = some e →
        disjoint_bytes (host_of r pa) sz (host_of e (pteg_phys (s.ppc_state.spr SPR.SDR1) (not32 (((s.ppc_state.sr ((va >>> 28) &&& 0x0F)) &&& 0x7FFFF) ^^^ ((va >>> 12) &&& 0xFFFF))))) 64) ∧
      (∀ e1 e2, s.find_range (pteg_phys (s.ppc_state.spr SPR.SDR1) (((s.ppc_state.sr ((va >>> 28) &&& 0x0F)) &&& 0x7FFFF) ^^^ ((va >>> 12) &&& 0xFFFF))) = some e1 → s.find_range (pteg_phys (s.ppc_state.spr SPR.SDR1) (not32 (((s.ppc_state.sr ((va >>> 28) &&& 0x0F)) &&& 0x7FFFF) ^^^ ((va >>> 12) &&& 0xFFFF)))) = some e2 →
        disjoint_bytes (host_of e1 (pteg_phys (s.ppc_state.spr SPR.SDR1) (((s.ppc_state.sr ((va >>> 28) &&& 0x0F)) &&& 0x7FFFF) ^^^ ((va >>> 12) &&& 0xFFFF)))) 64 (host_of e2 (pteg_phys (s.ppc_state.spr SPR.SDR1) (not32 (((s.ppc_state.sr ((va >>> 28) &&& 0x0F)) &&& 0x7FFFF) ^^^ ((va >>> 12) &&& 0xFFFF))))) 64))
    (ht_ps : t.ppc_state = s1.ppc_state) (ht_fr : t.find_range = s1.find_range)
    (ht_db : t.dbat_array = s1.dbat_array) (ht_lpa : t.last_ptab_area = s1.last_ptab_area)
    (ht_m : t.hmem = write_be s1.hmem (host_of r pa) v sz)
    (ht_c1 : t.pCurTLB1 = s1.pCurTLB1) (ht_c2 : t.pCurTLB2 = s1.pCurTLB2)
    (ht_t1 : ∀ sel, t.tlb1 sel = s1.tlb1 sel) (ht_t2 : ∀ sel, t.tlb2 sel = s1.tlb2 sel) :
    ∃ s'', mmu_read_vmem sz va t = Res.ok v s'' := by
  obtain ⟨hf_fr, -, hf_ps, hf_db, hf_c1, hf_c2, hf_t1, hf_t2⟩ :=
    store_translate_frame s s1 va pa htr
  have g1 : ∀ sel, t.tlb1 sel = s.tlb1 sel := fun sel => (ht_t1 sel).trans (hf_t1 sel)
  have g2 : ∀ sel, t.tlb2 sel = s.tlb2 sel := fun sel => (ht_t2 sel).trans (hf_t2 sel)
  have gps : t.ppc_state = s.ppc_state := ht_ps.trans hf_ps
  have gfr : t.find_range = s.find_range := ht_fr.trans hf_fr
  have gdb : t.dbat_array = s.dbat_array := ht_db.trans hf_db
  have gc2 : t.pCurTLB2 = some sel2 := (ht_c2.trans hf_c2).trans hc2
  have hload := mmu_read_vmem_aligned t sz va pa (host_of r pa) r sel1 sel2 hsz hal
    ((ht_c1.trans hf_c1).trans hc1) gc2
    (tlb_agrees_congr s t sel1 sel2 va _ g1 g2 hag)
    (by
      unfold tlb_misses at hlru ⊢
      rw [g1, g2]
      exact hlru)
    (by
      intro hmiss'
      have hmiss : tlb_misses s sel1 sel2 va := tlb_misses_congr s t sel1 sel2 va g1 g2 hmiss'
      rcases store_translate_cases s s1 va pa htr with
        ⟨hdr, hpa, hs1⟩ | ⟨hdr, hs1, i, hi, hm, hfirst, hp0, hp1, hpa⟩ | ⟨hdr, hnone, hw⟩
      · -- real-address mode
        refine ⟨t, ?_, by rw [gfr]; exact hr, hnm, rfl, gc2, fun _ _ => rfl⟩
        unfold tlb2_refill_translate
        rw [gps, if_neg (by simp [truthy, hdr]), hpa]
      · -- block address translation
        refine ⟨t, ?_, by rw [gfr]; exact hr, hnm, rfl, gc2, fun _ _ => rfl⟩
        have hbat := bat_scan_first s.dbat_array (if s.ppc_state.msr &&& 0x4000 = 0 then 2 else 1) va
          { hit := false, prot := 0, phys := 0 } 4 0 i hi (by simpa using hm)
          (by simpa using hfirst)
        simp only [Nat.zero_add] at hbat
        unfold tlb2_refill_translate
        simp only [gps, (truthy_eq_true_iff _).2 hdr, if_true, ppc_block_address_translation,
          access_bits_of_msr, gdb]
        simp only [show (BATType.Data = BATType.Instruction) = False by simp, if_false, hbat]
        simp [truthy, hp0, hp1, hpa]
      · -- page address translation
        obtain ⟨hd1, hd2, hd12⟩ := hwalk hmiss hdr hnone
        obtain ⟨t2, ht2, h2f, h2c, h2m⟩ := page_walk_again s s1 t
          va (msr_pr_of s.ppc_state.msr) pa sz v (host_of r pa) hcoh hpt hw gps gfr ht_lpa ht_m
          hd1 hd2 hd12
        refine ⟨t2, ?_, by rw [h2f, gfr]; exact hr, hnm, rfl, by rw [h2c]; exact gc2, h2m⟩
        have hbn := bat_scan_none s.dbat_array (if s.ppc_state.msr &&& 0x4000 = 0 then 2 else 1) va
          { hit := false, prot := 0, phys := 0 } 4 0 (by simpa using hnone)
        unfold tlb2_refill_translate
        simp only [gps, (truthy_eq_true_iff _).2 hdr, if_true, ppc_block_address_translation,
          access_bits_of_msr, gdb]
        simp only [show (BATType.Data = BATType.Instruction) = False by simp, if_false, hbn]
        simpa using ht2)
  obtain ⟨s'', hs''⟩ := hload
  refine ⟨s'', ?_⟩
  rw [hs'', ht_m]
  congr 1
  exact read_be_write_be _ _ _ _ hv

/-- C2 (amended): for an access size of 1, 2, 4 or 8 bytes, an aligned address
`va` whose store translates to a physical address of a RAM range, and a value
`v` of that size, the load `mmu_read_vmem` after the store returns `v`, in
real-address mode and in translated mode, provided that
* the MRU range variables hold their initial value or a copy of a range of a
  coherent address map,
* the entries of the current TLB arrays that hold the tag of `va` agree with
  the translation,
* the LRU statements of a secondary hit stay inside the array (the set is not
  the last one, or the hit is in way 0), and
* when the load has to walk the page table again (both TLB levels miss and no
  DBAT entry matches), the stored bytes lie outside the primary and the
  secondary PTEG, which share no host byte. -/
theorem store_then_load (s s1 : MMU) (sz va v pa : Nat) (r : AddressMapEntry)
    (sel1 sel2 : TLBSel)
    (hsz : sz = 1 ∨ sz = 2 ∨ sz = 4 ∨ sz = 8) (hal : va % sz = 0) (hv : v < 256 ^ sz)
    (hc1 : s.pCurTLB1 = some sel1) (hc2 : s.pCurTLB2 = some sel2)
    (hcoh : map_coherent s.find_range) (hwa : write_area_ok s) (hpt : ptab_area_ok s)
    (htr : store_translate va s = Res.ok pa s1)
    (hr : s.find_range pa = some r) (hram : r.type &&& RT_RAM ≠ 0)
    (hnm : r.type &&& RT_MMIO = 0)
    (hag : tlb_agrees s sel1 sel2 va (host_of r pa))
    (hlru : (va >>> PAGE_SIZE_BITS) &&& tlb_size_mask < 4095 ∨
      (s.tlb1 sel1 ((va >>> PAGE_SIZE_BITS) &&& tlb_size_mask)).tag = va &&& 0xFFFFF000 ∨
      (s.tlb2 sel2 (((va >>> PAGE_SIZE_BITS) &&& tlb_size_mask) * TLB2_WAYS)).tag
        = va &&& 0xFFFFF000 ∨
      tlb_misses s sel1 sel2 va)
    (hwalk : tlb_misses s sel1 sel2 va → s.ppc_state.msr &&& 0x10 ≠ 0 →
      (∀ i, i < 4 → ¬ bat_match (s.dbat_array i) (if s.ppc_state.msr &&& 0x4000 = 0 then 2 else 1) va) →
      (∀ e, s.find_range (pteg_phys (s.ppc_state.spr SPR.SDR1) (((s.ppc_state.sr ((va >>> 28) &&& 0x0F)) &&& 0x7FFFF) ^^^ ((va >>> 12) &&& 0xFFFF))) = some e →
        disjoint_bytes (host_of r pa) sz (host_of e (pteg_phys (s.ppc_state.spr SPR.SDR1) (((s.ppc_state.sr ((va >>> 28) &&& 0x0F)) &&& 0x7FFFF) ^^^ ((va >>> 12) &&& 0xFFFF)))) 64) ∧
      (∀ e, s.find_range (pteg_phys (s.ppc_state.spr SPR.SDR1) (not32 (((s.ppc_state.sr ((va >>> 28) &&& 0x0F)) &&& 0x7FFFF) ^^^ ((va >>> 12) &&& 0xFFFF)))) = some e →
        disjoint_bytes (host_of r pa) sz (host_of e (pteg_phys (s.ppc_state.spr SPR.SDR1) (not32 (((s.ppc_state.sr ((va >>> 28) &&& 0x0F)) &&& 0x7FFFF) ^^^ ((va >>> 12) &&& 0xFFFF))))) 64) ∧
      (∀ e1 e2, s.find_range (pteg_phys (s.ppc_state.spr SPR.SDR1) (((s.ppc_state.sr ((va >>> 28) &&& 0x0F)) &&& 0x7FFFF) ^^^ ((va >>> 12) &&& 0xFFFF))) = some e1 → s.find_range (pteg_phys (s.ppc_state.spr SPR.SDR1) (not32 (((s.ppc_state.sr ((va >>> 28) &&& 0x0F)) &&& 0x7FFFF) ^^^ ((va >>> 12) &&& 0xFFFF)))) = some e2 →
        disjoint_bytes (host_of e1 (pteg_phys (s.ppc_state.spr SPR.SDR1) (((s.ppc_state.sr ((va >>> 28) &&& 0x0F)) &&& 0x7FFFF) ^^^ ((va >>> 12) &&& 0xFFFF)))) 64 (host_of e2 (pteg_phys (s.ppc_state.spr SPR.SDR1) (not32 (((s.ppc_state.sr ((va >>> 28) &&& 0x0F)) &&& 0x7FFFF) ^^^ ((va >>> 12) &&& 0xFFFF))))) 64)) :
    ∃ s' s'', mem_write sz va v s = Res.ok () s' ∧ mmu_read_vmem sz va s' = Res.ok v s'' := by
  obtain ⟨hf_fr, hf_lw, -, -, -, -, -, -⟩ := store_translate_frame s s1 va pa htr
  have hszpos : 0 < sz := by omega
  have hwrite := write_phys_mem_ram s1 sz pa v r hsz (by rw [hf_fr]; exact hr) hram
    (write_cache_hit s1 sz pa r hszpos (by rw [hf_fr]; exact hcoh)
      (by unfold write_area_ok; rw [hf_fr, hf_lw]; exact hwa) (by rw [hf_fr]; exact hr))
  have hstore : mem_write sz va v s =
      Res.ok () (write_phys_mem sz true MRU.last_write_area pa v s1) := by
    rw [mem_write_aligned s sz va v hsz hal, htr]
    simp only [Res.bind]
  obtain ⟨s'', hs''⟩ := load_after_store s s1
    (write_phys_mem sz true MRU.last_write_area pa v s1) sz va v pa r sel1 sel2
    hsz hal hv hc1 hc2 hcoh hpt htr hr hnm hag hlru hwalk
    (by rw [hwrite]) (by rw [hwrite]) (by rw [hwrite]) (by rw [hwrite]) (by rw [hwrite])
    (by rw [hwrite]) (by rw [hwrite])
    (fun sel => by rw [hwrite]; cases sel <;> rfl)
    (fun sel => by rw [hwrite]; cases sel <;> rfl)
  exact ⟨_, s'', hstore, hs''⟩

theorem sample_coherent : map_coherent sample.find_range := by
  intro a e h
  simp only [sample] at h
  by_cases ha : a ≤ 0x00FFFFFF
  · rw [if_pos ha] at h
    cases h
    refine ⟨by simp [sample_ram], by simpa [sample_ram] using ha, ?_⟩
    intro b _ hb
    simp only [sample]
    rw [if_pos (by simpa [sample_ram] using hb)]
  · rw [if_neg ha] at h
    cases h

theorem sample_tlb_misses : tlb_misses sample TLBSel.mode2 TLBSel.mode2 0x1100 :=
  ⟨by decide, fun _ _ => by
    show invalid_entry.tag ≠ 0x1100 &&& 0xFFFFF000
    decide⟩

theorem sample_tlb_agrees (h : Int) :
    tlb_agrees sample TLBSel.mode2 TLBSel.mode2 0x1100 h :=
  ⟨fun e => absurd e sample_tlb_misses.1, fun w hw e => absurd e (sample_tlb_misses.2 w hw)⟩

theorem sample_find_range_eq (a : Nat) (e : AddressMapEntry)
    (h : sample.find_range a = some e) : e = sample_ram := by
  simp only [sample] at h
  split_ifs at h
  cases h
  rfl

theorem sample_pteg1 :
    pteg_phys (sample.ppc_state.spr SPR.SDR1)
      ((sample.ppc_state.sr ((0x1100 >>> 28) &&& 0x0F) &&& 0x7FFFF) ^^^
        ((0x1100 >>> 12) &&& 0xFFFF)) = 0x40 := by
  decide

theorem sample_pteg2 :
    pteg_phys (sample.ppc_state.spr SPR.SDR1)
      (not32 ((sample.ppc_state.sr ((0x1100 >>> 28) &&& 0x0F) &&& 0x7FFFF) ^^^
        ((0x1100 >>> 12) &&& 0xFFFF))) = 0xFF80 := by
  decide

theorem sample_host_data : host_of sample_ram 0x100 = 0x70000100 := by decide

theorem sample_host_pteg1 : host_of sample_ram 0x40 = 0x70000040 := by decide

theorem sample_host_pteg2 : host_of sample_ram 0xFF80 = 0x7000FF80 := by decide

/-- C2 witness: on the sample machine the 4-byte store of `0xDEADBEEF` at
`0x1100`, which the page table maps to physical address `0x100`, is read back
by `mmu_read_vmem<uint32_t>` after a refill of the empty TLB. -/
theorem store_then_load_witness :
    store_translate 0x1100 sample = Res.ok 0x100 sample_translated ∧
    ∃ s' s'', mem_write 4 0x1100 0xDEADBEEF sample = Res.ok () s' ∧
      mmu_read_vmem 4 0x1100 s' = Res.ok 0xDEADBEEF s'' :=
  ⟨rfl,
   store_then_load sample sample_translated 4 0x1100 0xDEADBEEF 0x100 sample_ram
    TLBSel.mode2 TLBSel.mode2 (by decide) (by decide) (by decide) rfl rfl
    sample_coherent (Or.inl ⟨rfl, rfl⟩) (Or.inl ⟨rfl, rfl⟩) rfl rfl (by decide) (by decide)
    (sample_tlb_agrees _) (Or.inl (by decide))
    (fun _ _ _ =>
      ⟨fun e he => by
          rw [sample_find_range_eq _ _ he, sample_pteg1, sample_host_data, sample_host_pteg1]
          intro i j hi hj
          omega,
        fun e he => by
          rw [sample_find_range_eq _ _ he, sample_pteg2, sample_host_data, sample_host_pteg2]
          intro i j hi hj
          omega,
        fun e1 e2 h1 h2 => by
          rw [sample_find_range_eq _ _ h1, sample_find_range_eq _ _ h2, sample_pteg1,
            sample_pteg2, sample_host_pteg1, sample_host_pteg2]
          intro i j hi hj
          omega⟩)⟩

/-! ## BAT register updates -/

/-- Masking a 32-bit value with the upper `32 - k` bits rounds it down to a
multiple of `2 ^ k`. -/
theorem and_high_mask (x k : Nat) (hx : x < 2 ^ 32) (hk : k ≤ 32) :
    x &&& (2 ^ 32 - 2 ^ k) = x / 2 ^ k * 2 ^ k := by
  have hm : 2 ^ 32 - 2 ^ k = (2 ^ (32 - k) - 1) <<< k := by
    rw [Nat.shiftLeft_eq, Nat.sub_mul, ← pow_add, one_mul]
    congr 2
    omega
  apply Nat.eq_of_testBit_eq
  intro i
  rw [Nat.testBit_and, hm, Nat.testBit_shiftLeft, Nat.testBit_two_pow_sub_one,
    ← Nat.shiftLeft_eq, ← Nat.shiftRight_eq_div_pow, Nat.testBit_shiftLeft,
    Nat.testBit_shiftRight]
  by_cases hik : k ≤ i
  · have e : k + (i - k) = i := by omega
    rw [e]
    by_cases h32 : i < 32
    · simp [hik, show i - k < 32 - k by omega]
    · have hb : x.testBit i = false :=
        Nat.testBit_lt_two_pow
          (lt_of_lt_of_le hx (Nat.pow_le_pow_right (by norm_num) (by omega)))
      simp [hb]
  · simp [hik]

/-- The mask of a 128 KiB block. -/
theorem and_0xFFFE0000 (x : Nat) (hx : x < 2 ^ 32) :
    x &&& 0xFFFE0000 = x / 0x20000 * 0x20000 :=
  and_high_mask x 17 hx (by norm_num)

/-- The mask of a 256 MiB block. -/
theorem and_0xF0000000 (x : Nat) (hx : x < 2 ^ 32) :
    x &&& 0xF0000000 = x / 0x10000000 * 0x10000000 :=
  and_high_mask x 28 hx (by norm_num)

/-- The page mask. -/
theorem and_0xFFFFF000 (x : Nat) (hx : x < 2 ^ 32) :
    x &&& 0xFFFFF000 = x / 0x1000 * 0x1000 :=
  and_high_mask x 12 hx (by norm_num)

theorem and_lt_of_right (x m b : Nat) (hm : m < b) : x &&& m < b :=
  lt_of_le_of_lt Nat.and_le_right hm

/-- The block a mask of the upper bits admits. -/
theorem block_of_mask (u la k : Nat) (hla : la < 2 ^ 32) (hk : k ≤ 32) :
    (u &&& (2 ^ 32 - 2 ^ k)) % 2 ^ k = 0 ∧
    (la &&& (2 ^ 32 - 2 ^ k) = u &&& (2 ^ 32 - 2 ^ k) ↔
      u &&& (2 ^ 32 - 2 ^ k) ≤ la ∧ la < (u &&& (2 ^ 32 - 2 ^ k)) + 2 ^ k) := by
  have hpos : 0 < 2 ^ k := Nat.two_pow_pos k
  have hb : u &&& (2 ^ 32 - 2 ^ k) < 2 ^ 32 :=
    and_lt_of_right _ _ _ (Nat.sub_lt (Nat.two_pow_pos 32) hpos)
  have hidem : (u &&& (2 ^ 32 - 2 ^ k)) &&& (2 ^ 32 - 2 ^ k) = u &&& (2 ^ 32 - 2 ^ k) := by
    rw [Nat.and_assoc, Nat.and_self]
  have hbe := and_high_mask (u &&& (2 ^ 32 - 2 ^ k)) k hb hk
  rw [hidem] at hbe
  have hla2 := and_high_mask la k hla hk
  generalize u &&& (2 ^ 32 - 2 ^ k) = b at *
  generalize la &&& (2 ^ 32 - 2 ^ k) = a at *
  generalize 2 ^ k = p at *
  have hbmod : b % p = 0 := by rw [hbe]; exact Nat.mul_mod_left _ _
  refine ⟨hbmod, ?_⟩
  subst hla2
  constructor
  · intro h
    rw [← h]
    have := Nat.div_add_mod la p
    have := Nat.mod_lt la hpos
    constructor
    · exact Nat.div_mul_le_self la p
    · nlinarith [Nat.div_add_mod la p, Nat.mod_lt la hpos, Nat.mul_comm p (la / p)]
  · rintro ⟨h1, h2⟩
    have hq : la / p = b / p := by
      apply Nat.div_eq_of_lt_le
      · rw [← hbe]; exact h1
      · rw [Nat.succ_mul, ← hbe]; exact h2
    rw [hq, ← hbe]

/-- The mask `bat_entry_of_pair` computes, and the blocks it gives for the
smallest and the largest block length. -/
theorem bat_entry_of_pair_spec (u l : Nat) :
    (bat_entry_of_pair u l).hi_mask = not32 ((((u >>> 2) &&& 0x7FF) <<< 17) ||| 0x1FFFF) ∧
    (bat_entry_of_pair u l).access = u &&& 3 ∧
    ((u >>> 2) &&& 0x7FF = 0 →
      (bat_entry_of_pair u l).hi_mask = 0xFFFE0000 ∧
        bat_block (bat_entry_of_pair u l) 0x20000) ∧
    ((u >>> 2) &&& 0x7FF = 0x7FF →
      (bat_entry_of_pair u l).hi_mask = 0xF0000000 ∧
        bat_block (bat_entry_of_pair u l) 0x10000000) := by
  refine ⟨rfl, rfl, ?_, ?_⟩
  · intro h0
    have hm : (bat_entry_of_pair u l).hi_mask = 0xFFFE0000 := by
      simp only [bat_entry_of_pair, h0]; decide
    refine ⟨hm, ?_⟩
    have hb : (bat_entry_of_pair u l).bepi = u &&& 0xFFFE0000 := by
      simp only [bat_entry_of_pair, h0]
      rw [show not32 (0 <<< 17 ||| 0x1FFFF) = 0xFFFE0000 by decide]
    unfold bat_block
    rw [hb, hm]
    refine ⟨(block_of_mask u 0 17 (by norm_num) (by norm_num)).1, ?_⟩
    intro la hla
    exact (block_of_mask u la 17 hla (by norm_num)).2
  · intro h0
    have hm : (bat_entry_of_pair u l).hi_mask = 0xF0000000 := by
      simp only [bat_entry_of_pair, h0]; decide
    refine ⟨hm, ?_⟩
    have hb : (bat_entry_of_pair u l).bepi = u &&& 0xF0000000 := by
      simp only [bat_entry_of_pair, h0]
      rw [show not32 (0x7FF <<< 17 ||| 0x1FFFF) = 0xF0000000 by decide]
    unfold bat_block
    rw [hb, hm]
    refine ⟨(block_of_mask u 0 28 (by norm_num) (by norm_num)).1, ?_⟩
    intro la hla
    exact (block_of_mask u la 28 hla (by norm_num)).2

/-- The register numbers `ibat_update` derives from the number of either half
of the pair `i`. -/
theorem ibat_reg_index (i h : Nat) (hi : i < 4) (hh : h < 2) :
    u32 (528 + 2 * i + h) &&& 0xFFFFFFFE = 528 + 2 * i ∧
      (sub32 (528 + 2 * i + h) 528) >>> 1 = i := by
  interval_cases i <;> interval_cases h <;> decide

/-- The register numbers `dbat_update` derives from the number of either half
of the pair `i`. -/
theorem dbat_reg_index (i h : Nat) (hi : i < 4) (hh : h < 2) :
    u32 (536 + 2 * i + h) &&& 0xFFFFFFFE = 536 + 2 * i ∧
      (sub32 (536 + 2 * i + h) 536) >>> 1 = i := by
  interval_cases i <;> interval_cases h <;> decide

/-- The effect of `ibat_update` on a valid pair. -/
theorem ibat_update_valid (s : MMU) (i h : Nat) (hi : i < 4) (hh : h < 2)
    (hv : s.ppc_state.spr (528 + 2 * i) &&& 3 ≠ 0) :
    ibat_update (528 + 2 * i + h) s =
      Res.ok ()
        { s with ibat_array := fun k =>
            if k = i then
              (bat_entry_of_pair (s.ppc_state.spr (528 + 2 * i))
                (s.ppc_state.spr (528 + 2 * i + 1)))
            else s.ibat_array k } := by
  obtain ⟨e1, e2⟩ := ibat_reg_index i h hi hh
  unfold ibat_update
  simp only [e1, e2, (truthy_eq_true_iff _).2 hv, if_true, hi]

/-- The effect of `dbat_update` on a valid pair. -/
theorem dbat_update_valid (s : MMU) (i h : Nat) (hi : i < 4) (hh : h < 2)
    (hv : s.ppc_state.spr (536 + 2 * i) &&& 3 ≠ 0) :
    dbat_update (536 + 2 * i + h) s =
      Res.ok ()
        { s with dbat_array := fun k =>
            if k = i then
              (bat_entry_of_pair (s.ppc_state.spr (536 + 2 * i))
                (s.ppc_state.spr (536 + 2 * i + 1)))
            else s.dbat_array k } := by
  obtain ⟨e1, e2⟩ := dbat_reg_index i h hi hh
  unfold dbat_update
  simp only [e1, e2, (truthy_eq_true_iff _).2 hv, if_true, hi]

/-- C11: after `ibat_update` on the pair `i` (called with the number of
either register of the pair) whose upper register is valid, the entry's
`hi_mask` is `~((bl << 17) | 0x1FFFF)` with `bl` the 11-bit block length
field; for `bl = 0` the mask is `0xFFFE0000` and the entry admits exactly one
128 KiB block aligned to 128 KiB, for `bl = 0x7FF` the mask is `0xF0000000`
and the entry admits exactly one 256 MiB block aligned to 256 MiB; and the
same for `dbat_update` on a pair whose upper register is valid.  Each function
needs only its own pair to be valid. -/
theorem bat_update_hi_mask (s : MMU) (i h : Nat) (hi : i < 4) (hh : h < 2) :
    (s.ppc_state.spr (528 + 2 * i) &&& 3 ≠ 0 →
      ∃ s', ibat_update (528 + 2 * i + h) s = Res.ok () s' ∧
        (s'.ibat_array i).hi_mask =
          not32 ((((s.ppc_state.spr (528 + 2 * i) >>> 2) &&& 0x7FF) <<< 17) ||| 0x1FFFF) ∧
        ((s.ppc_state.spr (528 + 2 * i) >>> 2) &&& 0x7FF = 0 →
          (s'.ibat_array i).hi_mask = 0xFFFE0000 ∧ bat_block (s'.ibat_array i) 0x20000) ∧
        ((s.ppc_state.spr (528 + 2 * i) >>> 2) &&& 0x7FF = 0x7FF →
          (s'.ibat_array i).hi_mask = 0xF0000000 ∧
            bat_block (s'.ibat_array i) 0x10000000)) ∧
    (s.ppc_state.spr (536 + 2 * i) &&& 3 ≠ 0 →
      ∃ s', dbat_update (536 + 2 * i + h) s = Res.ok () s' ∧
        (s'.dbat_array i).hi_mask =
          not32 ((((s.ppc_state.spr (536 + 2 * i) >>> 2) &&& 0x7FF) <<< 17) ||| 0x1FFFF) ∧
        ((s.ppc_state.spr (536 + 2 * i) >>> 2) &&& 0x7FF = 0 →
          (s'.dbat_array i).hi_mask = 0xFFFE0000 ∧ bat_block (s'.dbat_array i) 0x20000) ∧
        ((s.ppc_state.spr (536 + 2 * i) >>> 2) &&& 0x7FF = 0x7FF →
          (s'.dbat_array i).hi_mask = 0xF0000000 ∧
            bat_block (s'.dbat_array i) 0x10000000)) := by
  constructor
  · intro hvi
    refine ⟨_, ibat_update_valid s i h hi hh hvi, ?_⟩
    simp only [if_true]
    obtain ⟨h1, -, h3, h4⟩ := bat_entry_of_pair_spec (s.ppc_state.spr (528 + 2 * i))
      (s.ppc_state.spr (528 + 2 * i + 1))
    exact ⟨h1, h3, h4⟩
  · intro hvd
    refine ⟨_, dbat_update_valid s i h hi hh hvd, ?_⟩
    simp only [if_true]
    obtain ⟨h1, -, h3, h4⟩ := bat_entry_of_pair_spec (s.ppc_state.spr (536 + 2 * i))
      (s.ppc_state.spr (536 + 2 * i + 1))
    exact ⟨h1, h3, h4⟩

/-- C11 on two machines: with IBAT0U = `0x40000003` (`BL = 0`) and an invalid
DBAT0U, writing IBAT0L gives the mask `0xFFFE0000`; with DBAT0U =
`0x80001FFF` (`BL = 0x7FF`), writing DBAT0L gives the mask `0xF0000000`. -/
theorem bat_update_hi_mask_witness :
    (sample_batregs.set_spr 536 0).ppc_state.spr 536 &&& 3 = 0 ∧
    (∃ s', ibat_update 529 (sample_batregs.set_spr 536 0) = Res.ok () s' ∧
      (s'.ibat_array 0).hi_mask = 0xFFFE0000 ∧ bat_block (s'.ibat_array 0) 0x20000) ∧
    (∃ s', dbat_update 537 sample_batregs = Res.ok () s' ∧
      (s'.dbat_array 0).hi_mask = 0xF0000000 ∧ bat_block (s'.dbat_array 0) 0x10000000) := by
  obtain ⟨s1, e1, -, a1, -⟩ :=
    (bat_update_hi_mask (sample_batregs.set_spr 536 0) 0 1 (by decide) (by decide)).1
      (by decide)
  obtain ⟨s2, e2, -, -, b2⟩ :=
    (bat_update_hi_mask sample_batregs 0 1 (by decide) (by decide)).2 (by decide)
  exact ⟨by decide, ⟨s1, e1, a1 (by decide)⟩, ⟨s2, e2, b2 (by decide)⟩⟩

/-- C12: when the upper register of the pair `i` has both valid bits clear,
`ibat_update` and `dbat_update` write nothing: the machine, and with it the
BAT entry, is as before the call. -/
theorem bat_update_invalid_pair_keeps_entry (s : MMU) (i h : Nat) (hi : i < 4) (hh : h < 2)
    (hvi : s.ppc_state.spr (528 + 2 * i) &&& 3 = 0)
    (hvd : s.ppc_state.spr (536 + 2 * i) &&& 3 = 0) :
    ibat_update (528 + 2 * i + h) s = Res.ok () s ∧
      dbat_update (536 + 2 * i + h) s = Res.ok () s := by
  obtain ⟨e1, -⟩ := ibat_reg_index i h hi hh
  obtain ⟨e2, -⟩ := dbat_reg_index i h hi hh
  constructor
  · unfold ibat_update
    simp only [e1, (truthy_eq_false_iff _).2 hvi]
    rfl
  · unfold dbat_update
    simp only [e2, (truthy_eq_false_iff _).2 hvd]
    rfl

/-- C12 at the failing input: DBAT0 of the sample machine is valid while
DBAT0U holds 0; after `dbat_update(536)` the entry still admits the address
`0x40000000`. -/
theorem bat_update_invalid_pair_witness :
    sample.ppc_state.spr 536 &&& 3 = 0 ∧
    dbat_update 536 sample = Res.ok () sample ∧
    (ppc_block_address_translation BATType.Data sample 0x40000000 0 0).hit = true :=
  ⟨by decide,
    (bat_update_invalid_pair_keeps_entry sample 0 0 (by decide) (by decide) (by decide)
      (by decide)).2,
    by decide⟩

/-! ## Instruction BAT protection -/

theorem ibat_loop_step (la ab : Nat) (s : MMU) (i n : Nat) :
    ibat_loop la ab s i (n + 1) =
      if bat_match (s.ibat_array i) ab la then
        if (s.ibat_array i).prot = 0 then
          mmu_exception_handler_call Except_Type.EXC_ISI 0x08000000 s
        else Res.ok (some ((s.ibat_array i).phys_hi ||| (la &&& not32 (s.ibat_array i).hi_mask))) s
      else ibat_loop la ab s (i + 1) n := by
  simp only [ibat_loop, bat_match, truthy]
  by_cases h1 : (s.ibat_array i).access &&& ab = 0 <;>
    by_cases h2 : la &&& (s.ibat_array i).hi_mask = (s.ibat_array i).bepi <;>
    by_cases h3 : (s.ibat_array i).prot = 0 <;> simp [h1, h2, h3]

theorem ibat_loop_first (la ab : Nat) (s : MMU) :
    ∀ n i k, k < n → bat_match (s.ibat_array (i + k)) ab la →
      (∀ j, j < k → ¬ bat_match (s.ibat_array (i + j)) ab la) →
      ibat_loop la ab s i n =
        if (s.ibat_array (i + k)).prot = 0 then
          mmu_exception_handler_call Except_Type.EXC_ISI 0x08000000 s
        else Res.ok (some ((s.ibat_array (i + k)).phys_hi |||
          (la &&& not32 (s.ibat_array (i + k)).hi_mask))) s := by
  intro n
  induction n with
  | zero => intro i k hk; omega
  | succ n ih =>
    intro i k hk hm hfirst
    rw [ibat_loop_step]
    cases k with
    | zero => rw [if_pos (by simpa using hm)]; rfl
    | succ k =>
      rw [if_neg (by simpa using hfirst 0 (by omega))]
      rw [ih (i + 1) k (by omega) (by rwa [show i + 1 + k = i + (k + 1) by omega])]
      · rw [show i + 1 + k = i + (k + 1) by omega]
      · intro j hj
        have := hfirst (j + 1) (by omega)
        rwa [show i + 1 + j = i + (j + 1) by omega]

/-- C13 as stated fails: on a machine whose IBAT0 maps `0x40000000` with
protection `00`, the fetch address `0x40000000` hits that entry and
`ppc_mmu_instr_translate` raises ISI with the cause bits `0x08000000`, so not
with `0x10000000`. -/
theorem ibat_prot0_counterexample :
    bat_match (sample_ibat.ibat_array 0) 2 0x40000000 ∧
    (sample_ibat.ibat_array 0).prot = 0 ∧
    ppc_mmu_instr_translate 0x40000000 sample_ibat =
      Res.exc Except_Type.EXC_ISI 0x08000000 sample_ibat ∧
    ∀ t, ppc_mmu_instr_translate 0x40000000 sample_ibat ≠
      Res.exc Except_Type.EXC_ISI 0x10000000 t := by
  have h : ppc_mmu_instr_translate 0x40000000 sample_ibat =
      Res.exc Except_Type.EXC_ISI 0x08000000 sample_ibat := rfl
  refine ⟨by decide, by decide, h, ?_⟩
  intro t ht
  rw [h] at ht
  injection ht with _ hb _
  exact absurd hb (by decide)

/-- C13 (amended): an instruction fetch whose address hits an IBAT entry with
protection `00` (the first entry, in array order, that admits the address)
raises ISI with the cause bits `0x08000000` and returns no physical address;
the machine state is as before. -/
theorem ibat_prot0_fetch_raises (s : MMU) (la i : Nat) (hi : i < 4)
    (hm : bat_match (s.ibat_array i) (if s.ppc_state.msr &&& 0x4000 = 0 then 2 else 1) la)
    (hfirst : ∀ j, j < i →
      ¬ bat_match (s.ibat_array j) (if s.ppc_state.msr &&& 0x4000 = 0 then 2 else 1) la)
    (hp : (s.ibat_array i).prot = 0) :
    ppc_mmu_instr_translate la s = Res.exc Except_Type.EXC_ISI 0x08000000 s := by
  have hloop := ibat_loop_first la (if s.ppc_state.msr &&& 0x4000 = 0 then 2 else 1) s
    4 0 i hi (by simpa using hm) (by simpa using hfirst)
  simp only [Nat.zero_add, hp, if_true] at hloop
  unfold ppc_mmu_instr_translate
  simp only [access_bits_of_msr, hloop]
  rfl

/-- C13 witness: the amended statement applies to the fetch of `0x40000000` on
the machine whose IBAT0 maps that block with protection `00`. -/
theorem ibat_prot0_fetch_witness :
    ppc_mmu_instr_translate 0x40000000 sample_ibat =
      Res.exc Except_Type.EXC_ISI 0x08000000 sample_ibat :=
  ibat_prot0_fetch_raises sample_ibat 0x40000000 0 (by decide) (by decide)
    (fun j hj => absurd hj (by omega)) (by decide)

/-! ## Direct-store and no-execute segments -/

/-- C14: when the segment register selected by `la` has the T bit set,
`page_address_translate` ends in `exit(-1)`: it calls no exception handler and
returns no address. -/
theorem direct_store_exits (s : MMU) (la msr_pr is_write : Nat) (is_instr_fetch : Bool)
    (hT : s.ppc_state.sr ((la >>> 28) &&& 0x0F) &&& 0x80000000 ≠ 0) :
    page_address_translate la is_instr_fetch msr_pr is_write s = Res.exit s := by
  unfold page_address_translate
  simp only [(truthy_eq_true_iff _).2 hT, if_true]

/-- C14 at the failing input: a data read of `0x1000` through a direct-store
segment terminates the emulator. -/
theorem direct_store_exits_witness :
    sample_direct_store.ppc_state.sr ((0x1000 >>> 28) &&& 0x0F) &&& 0x80000000 ≠ 0 ∧
    page_address_translate 0x1000 false 0 0 sample_direct_store =
      Res.exit sample_direct_store :=
  ⟨by decide, direct_store_exits sample_direct_store 0x1000 0 0 false (by decide)⟩

theorem and_and_const (v a b c : Nat) (h : a &&& b = c) : (v &&& a) &&& b = v &&& c := by
  rw [Nat.and_assoc, h]

/-- The page-table search of a data access does not look at the N bit. -/
theorem pte_lookup_data_mask (la is_write v : Nat) (s : MMU) :
    pte_lookup la false is_write (v &&& 0xEFFFFFFF) s = pte_lookup la false is_write v s := by
  unfold pte_lookup
  simp only [Bool.and_false]
  rw [and_and_const v 0xEFFFFFFF 0x7FFFF 0x7FFFF (by decide),
    and_and_const v 0xEFFFFFFF 0x0FFFFFF 0x0FFFFFF (by decide)]

/-- The key bit does not depend on the N bit. -/
theorem pte_key_mask (v msr_pr : Nat) : pte_key (v &&& 0xEFFFFFFF) msr_pr = pte_key v msr_pr := by
  unfold pte_key
  rw [shiftRight_and_one (v &&& 0xEFFFFFFF) 29, shiftRight_and_one (v &&& 0xEFFFFFFF) 30,
    shiftRight_and_one v 29, shiftRight_and_one v 30,
    and_and_const v 0xEFFFFFFF (2 ^ 29) (2 ^ 29) (by decide),
    and_and_const v 0xEFFFFFFF (2 ^ 30) (2 ^ 30) (by decide)]

/-- The protection check and the R/C update of a data access do not look at
the N bit. -/
theorem pte_access_data_mask (la msr_pr is_write v : Nat) (pte_addr : Int) (s : MMU) :
    pte_access la false msr_pr is_write (v &&& 0xEFFFFFFF) pte_addr s =
      pte_access la false msr_pr is_write v pte_addr s := by
  unfold pte_access
  rw [pte_key_mask]

/-- C15: for a segment that is not a direct-store segment, an instruction
fetch through it with the N bit set makes `page_address_translate` raise ISI
with the cause bits `0x10000000` in the unchanged machine state (no PTEG was
searched, no PTE was written); a data access through it gives the result
that the segment register value with the N bit cleared gives. -/
theorem noexec_segment_fetch (s : MMU) (la msr_pr is_write : Nat)
    (hT : s.ppc_state.sr ((la >>> 28) &&& 0x0F) &&& 0x80000000 = 0) :
    (s.ppc_state.sr ((la >>> 28) &&& 0x0F) &&& 0x10000000 ≠ 0 →
      page_address_translate la true msr_pr is_write s =
        Res.exc Except_Type.EXC_ISI 0x10000000 s) ∧
    page_address_translate la false msr_pr is_write s =
      (pte_lookup la false is_write
          (s.ppc_state.sr ((la >>> 28) &&& 0x0F) &&& 0xEFFFFFFF) s).bind
        fun pte_addr s1 =>
          pte_access la false msr_pr is_write
            (s.ppc_state.sr ((la >>> 28) &&& 0x0F) &&& 0xEFFFFFFF) pte_addr s1 := by
  constructor
  · intro hN
    unfold page_address_translate pte_lookup
    simp only [(truthy_eq_false_iff _).2 hT, (truthy_eq_true_iff _).2 hN]
    rfl
  · unfold page_address_translate
    simp only [(truthy_eq_false_iff _).2 hT, pte_lookup_data_mask, pte_access_data_mask]
    rfl

/-- C15 witness: on the machine whose segments are no-execute, the fetch of
`0x1000` raises ISI with `0x10000000`, and the data write to `0x1000` is
translated as on the sample machine. -/
theorem noexec_segment_fetch_witness :
    page_address_translate 0x1000 true 0 0 sample_noexec =
      Res.exc Except_Type.EXC_ISI 0x10000000 sample_noexec ∧
    ∃ s', page_address_translate 0x1000 false 0 1 sample_noexec = Res.ok 0 s' :=
  ⟨(noexec_segment_fetch sample_noexec 0x1000 0 0 (by decide)).1 (by decide), ⟨_, rfl⟩⟩

/-! ## MMU mode -/

/-- The mode number `mmu_change_mode` computes from the MSR. -/
theorem mmu_mode_of_msr (msr : Nat) :
    ((msr >>> 3) &&& 0x2) ||| ((msr >>> 14) &&& 1) =
      (if msr &&& 0x10 = 0 then 0 else 2) + (if msr &&& 0x4000 = 0 then 0 else 1) := by
  have h1 : (msr >>> 3) &&& 0x2 = if msr &&& 0x10 = 0 then 0 else 2 := by
    have e1 := Nat.and_two_pow (msr >>> 3) 1
    have e2 := Nat.and_two_pow msr 4
    rw [Nat.testBit_shiftRight] at e1
    rw [show (2 : Nat) ^ 1 = 0x2 by norm_num, show 3 + 1 = 4 by norm_num] at e1
    rw [show (2 : Nat) ^ 4 = 0x10 by norm_num] at e2
    rw [e1, e2]
    cases msr.testBit 4 <;> simp
  have h2 := shiftRight_and_one msr 14
  rw [show (2 : Nat) ^ 14 = 0x4000 by norm_num] at h2
  rw [h1, h2]
  by_cases a : msr &&& 0x10 = 0 <;> by_cases b : msr &&& 0x4000 = 0 <;> simp [a, b]

/-- C16: with data translation off and the processor in user mode
(`MSR[DR] = 0`, `MSR[PR] = 1`) the computed mode is 1, for which the `switch`
of `mmu_change_mode` has no case: the current TLB pair stays what it was,
whatever it was, and `MMUMode` becomes 1. -/
theorem mmu_change_mode_user_real (s : MMU)
    (hdr : s.ppc_state.msr &&& 0x10 = 0) (hpr : s.ppc_state.msr &&& 0x4000 ≠ 0) :
    (mmu_change_mode s).pCurTLB1 = s.pCurTLB1 ∧
      (mmu_change_mode s).pCurTLB2 = s.pCurTLB2 ∧
      (mmu_change_mode s).MMUMode = 1 := by
  unfold mmu_change_mode
  simp only [mmu_mode_of_msr, hdr, hpr, if_true, if_false]
  by_cases hm : s.MMUMode = 1
  · simp [hm]
  · simp [hm]

/-- C16 at the failing input: the supervisor-translated pair is current, the
MSR changes to user mode with data translation off, and after
`mmu_change_mode` the current pair is still the supervisor-translated one, not
the real-mode pair. -/
theorem mmu_change_mode_user_real_witness :
    sample_user_real.ppc_state.msr &&& 0x10 = 0 ∧
    (mmu_change_mode sample_user_real).pCurTLB1 = some TLBSel.mode2 ∧
    (mmu_change_mode sample_user_real).pCurTLB2 = some TLBSel.mode2 ∧
    (mmu_change_mode sample_user_real).pCurTLB1 ≠ some TLBSel.mode1 := by
  obtain ⟨h1, h2, -⟩ := mmu_change_mode_user_real sample_user_real (by decide) (by decide)
  refine ⟨by decide, h1, h2, ?_⟩
  rw [h1]
  decide

/-! ## Misaligned 8-byte accesses -/

/-- C18: an 8-byte access at an address that is not a multiple of 8 raises no
alignment exception.  `mem_write_qword` ends in `exit(-1)`; `mem_grab_qword`
ends in `exit(-1)` once its TLB look-up has returned; `mmu_read_vmem<uint64_t>`
returns a value, the 8 bytes read at the host address truncated to 32 bits,
when the look-up finds host memory and the access stays inside the page. -/
theorem misaligned_qword_access (s : MMU) (addr value : Nat) (h : addr &&& 7 ≠ 0) :
    mem_write_qword addr value s = Res.exit s ∧
    mem_grab_qword addr s = (tlb_translate_addr addr s).bind (fun _ s0 => Res.exit s0) ∧
    (∀ host_va s1, mmu_read_vmem_lookup 8 addr s = Res.ok (Located.host host_va) s1 →
      (addr &&& 0xFFF) + 8 ≤ 0x1000 →
      mmu_read_vmem 8 addr s = Res.ok (u32 (READ_QWORD_BE s1.hmem host_va)) s1) := by
  have ht : truthy (addr &&& 7) = true := (truthy_eq_true_iff _).2 h
  refine ⟨?_, ?_, ?_⟩
  · unfold mem_write_qword
    simp only [ht, if_true]
  · unfold mem_grab_qword
    simp only [ht, if_true]
  · intro host_va s1 hl hin
    unfold mmu_read_vmem
    rw [hl]
    simp only [Res.bind]
    have hc : (8 : Nat) > 1 ∧ truthy (addr &&& (8 - 1)) = true := ⟨by norm_num, ht⟩
    rw [if_pos hc]
    unfold read_unaligned
    rw [if_neg (by omega)]
    simp

/-- C18 at the failing input: on the machine with the page at `0x1000` in the
primary TLB, the 8-byte store to `0x1001` and the 8-byte load from `0x1001`
terminate the emulator, and `mmu_read_vmem<uint64_t>(0x1001)` returns a
value. -/
theorem misaligned_qword_access_witness :
    mem_write_qword 0x1001 0 sample_cached = Res.exit sample_cached ∧
    (∃ s', mem_grab_qword 0x1001 sample_cached = Res.exit s') ∧
    ∃ v s', mmu_read_vmem 8 0x1001 sample_cached = Res.ok v s' := by
  obtain ⟨h1, h2, h3⟩ := misaligned_qword_access sample_cached 0x1001 0 (by decide)
  refine ⟨h1, ⟨_, h2.trans rfl⟩, _, _, h3 _ _ rfl (by decide)⟩

/-! ## Cross-page stores in real-address mode -/

theorem and_0xFFF (a : Nat) : a &&& 0xFFF = a % 4096 :=
  Nat.and_pow_two_sub_one_eq_mod a 12

theorem and_1 (a : Nat) : a &&& 1 = a % 2 :=
  Nat.and_pow_two_sub_one_eq_mod a 1

theorem and_3 (a : Nat) : a &&& 3 = a % 4 :=
  Nat.and_pow_two_sub_one_eq_mod a 2

theorem and_7 (a : Nat) : a &&& 7 = a % 8 :=
  Nat.and_pow_two_sub_one_eq_mod a 3

/-- The cross-page loop of `mem_write_unaligned` with data translation off:
the first byte is written through `phys_addr`, which has no value yet. -/
theorem mem_write_crosspage_real (s : MMU) (value n addr shift : Nat)
    (hdr : s.ppc_state.msr &&& 0x10 = 0) :
    mem_write_crosspage value (n + 1) 0 addr none shift s = Res.ub := by
  unfold mem_write_crosspage
  simp only [(truthy_eq_false_iff _).2 hdr, Bool.false_and]
  rfl

/-- C19: with data translation off (`MSR[DR] = 0`), a 2- or 4-byte store that
crosses a page boundary reaches the byte loop of `mem_write_unaligned` with
`phys_addr` never assigned; the write through it is undefined behaviour, so
no byte is written to the address `addr + i`. -/
theorem crosspage_store_real_mode (s : MMU) (sz addr value : Nat)
    (hsz : sz = 2 ∨ sz = 4) (hcross : (addr &&& 0xFFF) + sz > 0x1000)
    (hdr : s.ppc_state.msr &&& 0x10 = 0) :
    mem_write sz addr value s = Res.ub := by
  have hun : mem_write_unaligned addr value sz s = Res.ub := by
    unfold mem_write_unaligned
    rw [if_pos hcross]
    rcases hsz with rfl | rfl
    · exact mem_write_crosspage_real s value 1 addr _ hdr
    · exact mem_write_crosspage_real s value 3 addr _ hdr
  rw [and_0xFFF] at hcross
  unfold mem_write
  rcases hsz with rfl | rfl
  · have hm : truthy (addr &&& 1) = true := by
      rw [truthy_eq_true_iff, and_1]; omega
    simp only [show (2 : Nat) ≠ 1 by decide, if_false, if_true, mem_write_word, hm, hun]
  · have hm : truthy (addr &&& 3) = true := by
      rw [truthy_eq_true_iff, and_3]; omega
    simp only [show (4 : Nat) ≠ 1 by decide, show (4 : Nat) ≠ 2 by decide, if_false, if_true,
      mem_write_dword, hm, hun]

/-- C19 at the failing input: in real-address mode the 4-byte store of
`0xAABBCCDD` to `0x1FFE` is undefined behaviour. -/
theorem crosspage_store_real_mode_witness :
    sample_real.ppc_state.msr &&& 0x10 = 0 ∧
    mem_write 4 0x1FFE 0xAABBCCDD sample_real = Res.ub :=
  ⟨by decide,
    crosspage_store_real_mode sample_real 4 0x1FFE 0xAABBCCDD (Or.inr rfl) (by decide)
      (by decide)⟩

/-! ## Writes to ROM -/

theorem mru_set_mru (s : MMU) (m : MRU) (e : AddressMapEntry) : (s.set_mru m e).mru m = e := by
  cases m <;> rfl

theorem set_mru_self (s : MMU) (m : MRU) : s.set_mru m (s.mru m) = s := by
  cases m <;> rfl

theorem set_mru_hmem (s : MMU) (m : MRU) (e : AddressMapEntry) :
    (s.set_mru m e).hmem = s.hmem ∧ (s.set_mru m e).dev_log = s.dev_log := by
  cases m <;> exact ⟨rfl, rfl⟩

/-- The range `read_phys_mem` and `write_phys_mem` work with, for a coherent
address map and an MRU variable that holds its initial bounds or a copy of a
range of the map: it is the range of the address. -/
theorem mru_resolve_coherent (s : MMU) (sz addr : Nat) (m : MRU) (r : AddressMapEntry)
    (hsz : 0 < sz) (hcoh : map_coherent s.find_range)
    (hmru : ((s.mru m).start = 0xFFFFFFFF ∧ (s.mru m).end_ = 0xFFFFFFFF) ∨
      ∃ a, s.find_range a = some (s.mru m))
    (hr : s.find_range addr = some r) :
    mru_resolve sz m addr s = some (s.set_mru m r) := by
  unfold mru_resolve
  by_cases hc : addr < (s.mru m).start ∨ addr + sz > (s.mru m).end_
  · rw [if_pos hc, hr]
  · rw [if_neg hc]
    rcases hmru with ⟨hs, he⟩ | ⟨a, ha⟩
    · omega
    · have := (hcoh a _ ha).2.2 addr (by omega) (by omega)
      rw [hr] at this
      rw [Option.some.inj this, set_mru_self]

/-- C20: a write of any size through `write_phys_mem` to a physical address
inside a ROM range changes no byte of host memory and calls no device; the
machine afterwards is the machine before with the MRU variable set to the
ROM range. -/
theorem rom_write_dropped (s : MMU) (sz addr value : Nat) (is_aligned : Bool) (m : MRU)
    (r : AddressMapEntry)
    (hsz : sz = 1 ∨ sz = 2 ∨ sz = 4 ∨ sz = 8)
    (hcoh : map_coherent s.find_range)
    (hmru : ((s.mru m).start = 0xFFFFFFFF ∧ (s.mru m).end_ = 0xFFFFFFFF) ∨
      ∃ a, s.find_range a = some (s.mru m))
    (hr : s.find_range addr = some r) (hrom : r.type = RT_ROM) :
    write_phys_mem sz is_aligned m addr value s = s.set_mru m r ∧
      (write_phys_mem sz is_aligned m addr value s).hmem = s.hmem ∧
      (write_phys_mem sz is_aligned m addr value s).dev_log = s.dev_log := by
  have hres := mru_resolve_coherent s sz addr m r (by omega) hcoh hmru hr
  have hw : write_phys_mem sz is_aligned m addr value s = s.set_mru m r := by
    unfold write_phys_mem
    rw [hres]
    simp only [mru_set_mru, hrom]
    rw [if_neg (by decide), if_neg (by decide)]
  rw [hw]
  exact ⟨rfl, (set_mru_hmem s m r).1, (set_mru_hmem s m r).2⟩

theorem sample_rom_coherent : map_coherent sample_rom.find_range := by
  intro a e h
  simp only [sample_rom] at h
  by_cases ha : a ≤ 0x00FFFFFF
  · rw [if_pos ha] at h
    cases h
    refine ⟨by simp [sample_ram], by simpa [sample_ram] using ha, ?_⟩
    intro b _ hb
    simp only [sample_rom]
    rw [if_pos (by simpa [sample_ram] using hb)]
  · rw [if_neg ha] at h
    by_cases hb : 0xFFC00000 ≤ a ∧ a ≤ 0xFFFFFFFF
    · rw [if_pos hb] at h
      cases h
      refine ⟨by simpa [sample_rom_range] using hb.1, by simpa [sample_rom_range] using hb.2, ?_⟩
      intro b hb1 hb2
      simp only [sample_rom]
      have hb1' : 0xFFC00000 ≤ b := by simpa [sample_rom_range] using hb1
      have hb2' : b ≤ 0xFFFFFFFF := by simpa [sample_rom_range] using hb2
      rw [if_neg (by omega), if_pos ⟨hb1', hb2'⟩]
    · rw [if_neg hb] at h
      cases h

/-- C20 witness: on the machine with a ROM range at `0xFFC00000`, the 4-byte
write of `0xDEADBEEF` to `0xFFF00000` changes no byte of host memory and calls
no device. -/
theorem rom_write_dropped_witness :
    sample_rom.find_range 0xFFF00000 = some sample_rom_range ∧
    (write_phys_mem 4 true MRU.last_write_area 0xFFF00000 0xDEADBEEF sample_rom).hmem
      = sample_rom.hmem ∧
    (write_phys_mem 4 true MRU.last_write_area 0xFFF00000 0xDEADBEEF sample_rom).dev_log
      = [] :=
  ⟨by decide,
    (rom_write_dropped sample_rom 4 0xFFF00000 0xDEADBEEF true MRU.last_write_area
      sample_rom_range (by decide) sample_rom_coherent (Or.inl ⟨rfl, rfl⟩) (by decide) rfl).2⟩

/-! ## The current primary TLB array is kept by the TLB look-up -/

theorem set_tlb2_pcur (s s' : MMU) (sel : TLBSel) (i : Nat) (e : TLBEntry)
    (h : s.set_tlb2 sel i e = some s') : s'.pCurTLB1 = s.pCurTLB1 := by
  unfold MMU.set_tlb2 at h
  split_ifs at h
  cases sel <;> (injection h with h; subst h; rfl)

theorem lru_set_pcur (s s' : MMU) (sel : TLBSel) (i v : Nat)
    (h : lru_set sel i v s = some s') : s'.pCurTLB1 = s.pCurTLB1 :=
  set_tlb2_pcur _ _ _ _ _ h

theorem lru_and1_pcur (s s' : MMU) (sel : TLBSel) (i : Nat)
    (h : lru_and1 sel i s = some s') : s'.pCurTLB1 = s.pCurTLB1 :=
  set_tlb2_pcur _ _ _ _ _ h

theorem lru_first_pair_pcur (s s' : MMU) (sel : TLBSel) (p hi lo : Nat)
    (h : lru_first_pair sel p hi lo s = some s') : s'.pCurTLB1 = s.pCurTLB1 := by
  unfold lru_first_pair at h
  simp only [Option.bind_eq_some] at h
  obtain ⟨s1, h1, s2, h2, s3, h3, h4⟩ := h
  rw [lru_and1_pcur _ _ _ _ h4, lru_and1_pcur _ _ _ _ h3, lru_set_pcur _ _ _ _ _ h2,
    lru_set_pcur _ _ _ _ _ h1]

theorem lru_second_pair_pcur (s s' : MMU) (sel : TLBSel) (p hi lo : Nat)
    (h : lru_second_pair sel p hi lo s = some s') : s'.pCurTLB1 = s.pCurTLB1 := by
  unfold lru_second_pair at h
  simp only [Option.bind_eq_some] at h
  obtain ⟨s1, h1, s2, h2, s3, h3, h4⟩ := h
  rw [lru_set_pcur _ _ _ _ _ h4, lru_set_pcur _ _ _ _ _ h3, lru_and1_pcur _ _ _ _ h2,
    lru_and1_pcur _ _ _ _ h1]

theorem ofOption_eq_ok {α : Type} (a b : α) (o : Option MMU) (s : MMU)
    (h : Res.ofOption a o = Res.ok b s) : a = b ∧ o = some s := by
  cases o with
  | none => simp [Res.ofOption] at h
  | some t =>
    simp only [Res.ofOption] at h
    injection h with h1 h2
    exact ⟨h1, by rw [h2]⟩

theorem tlb2_target_entry_pcur (tag : Nat) (s s' : MMU) (p : TLBPtr)
    (h : tlb2_target_entry tag s = Res.ok p s') : s'.pCurTLB1 = s.pCurTLB1 := by
  unfold tlb2_target_entry at h
  cases hc : s.pCurTLB2 with
  | none => rw [hc] at h; simp at h
  | some sel =>
    rw [hc] at h
    simp only at h
    split_ifs at h <;>
      first
      | exact lru_first_pair_pcur _ _ _ _ _ _ (ofOption_eq_ok _ _ _ _ h).2
      | exact lru_second_pair_pcur _ _ _ _ _ _ (ofOption_eq_ok _ _ _ _ h).2

theorem lookup_secondary_tlb_pcur (va tag : Nat) (s s' : MMU) (r : Option TLBPtr)
    (h : lookup_secondary_tlb va tag s = Res.ok r s') : s'.pCurTLB1 = s.pCurTLB1 := by
  unfold lookup_secondary_tlb at h
  cases hc : s.pCurTLB2 with
  | none => rw [hc] at h; simp at h
  | some sel =>
    rw [hc] at h
    simp only at h
    split_ifs at h <;>
      first
      | exact lru_first_pair_pcur _ _ _ _ _ _ (ofOption_eq_ok _ _ _ _ h).2
      | exact lru_second_pair_pcur _ _ _ _ _ _ (ofOption_eq_ok _ _ _ _ h).2
      | (injection h with _ h2; rw [h2])

theorem page_address_translate_pcur (la msr_pr is_write pa : Nat) (fetch : Bool) (s s' : MMU)
    (h : page_address_translate la fetch msr_pr is_write s = Res.ok pa s') :
    s'.pCurTLB1 = s.pCurTLB1 := by
  obtain ⟨hT, pte_addr, s1, hfound⟩ :=
    page_address_translate_ok_inv s s' la msr_pr is_write pa fetch h
  rw [page_address_translate_found s s1 la msr_pr is_write fetch pte_addr hT hfound] at h
  obtain ⟨-, -, hs2⟩ := pte_access_ok _ _ _ _ _ _ _ _ _ h
  have h1 := pte_lookup_frame _ _ _ _ _ _ _ hfound
  rw [hs2, h1]

theorem raise_dsi_ne_ok {α : Type} (d a : Nat) (s s' : MMU) (x : α) :
    (raise_dsi d a s : Res α) ≠ Res.ok x s' := by
  simp [raise_dsi, mmu_exception_handler_call]

theorem tlb2_refill_translate_pcur (va is_write pa : Nat) (s s' : MMU)
    (h : tlb2_refill_translate va is_write s = Res.ok pa s') :
    s'.pCurTLB1 = s.pCurTLB1 := by
  unfold tlb2_refill_translate at h
  by_cases hdr : truthy (s.ppc_state.msr &&& 0x10) = true
  · rw [if_pos hdr] at h
    simp only at h
    split_ifs at h
    · exact absurd h (raise_dsi_ne_ok _ _ _ _ _)
    · injection h with _ h2; rw [h2]
    · exact page_address_translate_pcur _ _ _ _ _ _ _ h
  · rw [if_neg hdr] at h
    injection h with _ h2; rw [h2]

theorem store_pcur (s s' : MMU) (p : TLBPtr) (e : TLBEntry) (h : s.store p e = some s') :
    s'.pCurTLB1 = s.pCurTLB1 := by
  cases p with
  | tlb2 sel i => exact set_tlb2_pcur _ _ _ _ _ h
  | UnmappedMem =>
    simp only [MMU.store] at h
    injection h with h; subst h; rfl

theorem tlb2_refill_fill_pcur (va pa : Nat) (s s' : MMU) (p : TLBPtr)
    (h : tlb2_refill_fill va pa s = Res.ok p s') : s'.pCurTLB1 = s.pCurTLB1 := by
  unfold tlb2_refill_fill at h
  cases hf : s.find_range pa with
  | none =>
    rw [hf] at h
    simp only at h
    injection h with _ h2; rw [← h2]
  | some rd =>
    rw [hf] at h
    simp only at h
    obtain ⟨q, s2, h1, h2⟩ := (Res.bind_eq_ok _ _ _ _).1 h
    have e2 := (ofOption_eq_ok _ _ _ _ h2).2
    rw [store_pcur _ _ _ _ e2, tlb2_target_entry_pcur _ _ _ _ h1]

theorem tlb2_refill_pcur (va is_write : Nat) (s s' : MMU) (p : TLBPtr)
    (h : tlb2_refill va is_write s = Res.ok p s') : s'.pCurTLB1 = s.pCurTLB1 := by
  unfold tlb2_refill at h
  obtain ⟨pa, s1, h1, h2⟩ := (Res.bind_eq_ok _ _ _ _).1 h
  rw [tlb2_refill_fill_pcur _ _ _ _ _ h2, tlb2_refill_translate_pcur _ _ _ _ _ h1]

theorem mmu_read_vmem_secondary_pcur (va tag : Nat) (s s' : MMU) (p : TLBPtr)
    (h : mmu_read_vmem_secondary va tag s = Res.ok p s') : s'.pCurTLB1 = s.pCurTLB1 := by
  unfold mmu_read_vmem_secondary at h
  obtain ⟨r, s1, h1, h2⟩ := (Res.bind_eq_ok _ _ _ _).1 h
  have e1 := lookup_secondary_tlb_pcur _ _ _ _ _ h1
  cases r with
  | some q =>
    simp only at h2
    injection h2 with _ h3
    rw [← h3, e1]
  | none =>
    simp only at h2
    rw [tlb2_refill_pcur _ _ _ _ _ h2, e1]

/-! ## Wide reads and byte reads -/

theorem read_be_one (m : Int → Nat) (p : Int) : read_be m p 1 = rd8 m p := by
  simp [read_be, read_be_from]

/-- The instance of `mmu_read_vmem` for one byte. -/
theorem mmu_read_vmem_one (va : Nat) (s : MMU) : mmu_read_vmem 1 va s = mmu_read_vmem_u8 va s := by
  unfold mmu_read_vmem mmu_read_vmem_u8
  congr 1
  funext l s1
  cases l with
  | host h => simp [read_be_one]
  | device v => rfl

/-- The device branch apart, the primary refill does not depend on the size
of the access. -/
theorem mmu_read_vmem_primary_size (sz sz' va tag : Nat) (sel1 : TLBSel) (i : Nat)
    (p : TLBPtr) (s2 : MMU)
    (h : ∀ v s1, mmu_read_vmem_primary sz va tag sel1 i p s2 ≠ Res.ok (Located.device v) s1) :
    mmu_read_vmem_primary sz' va tag sel1 i p s2 =
      mmu_read_vmem_primary sz va tag sel1 i p s2 := by
  unfold mmu_read_vmem_primary at h ⊢
  by_cases hf : truthy ((s2.deref p).flags &&& 1) = true
  · simp only [hf, if_true]
  · simp only [hf] at h ⊢
    cases hp : (s2.deref p).payload with
    | host_va_offset o => rfl
    | reg_desc rd =>
      rw [hp] at h
      exact absurd rfl (h _ _)

/-- Unless the page is served by a device, the TLB look-up of `mmu_read_vmem`
does not depend on the size of the access. -/
theorem mmu_read_vmem_lookup_size (sz sz' va : Nat) (s : MMU)
    (h : ∀ v s1, mmu_read_vmem_lookup sz va s ≠ Res.ok (Located.device v) s1) :
    mmu_read_vmem_lookup sz' va s = mmu_read_vmem_lookup sz va s := by
  unfold mmu_read_vmem_lookup at h ⊢
  cases hc : s.pCurTLB1 with
  | none => rfl
  | some sel1 =>
    rw [hc] at h
    simp only at h ⊢
    by_cases ht : (s.tlb1 sel1 ((va >>> PAGE_SIZE_BITS) &&& tlb_size_mask)).tag
        = va &&& 0xFFFFF000
    · simp only [ht, if_true]
    · simp only [ht, if_false] at h ⊢
      cases hs : mmu_read_vmem_secondary va (va &&& 0xFFFFF000) s with
      | ok p s2 =>
        rw [hs] at h
        simp only [Res.bind] at h ⊢
        exact mmu_read_vmem_primary_size sz sz' va _ sel1 _ p s2 h
      | exc t b s2 => rfl
      | exit s2 => rfl
      | ub => rfl

/-- After a look-up that found host memory, the primary TLB entry of the page
holds the tag of the page and the offset that leads to the host address. -/
theorem mmu_read_vmem_lookup_post (sz va : Nat) (s s1 : MMU) (h : Int)
    (hl : mmu_read_vmem_lookup sz va s = Res.ok (Located.host h) s1) :
    ∃ sel1 o, s1.pCurTLB1 = some sel1 ∧
      (s1.tlb1 sel1 ((va >>> PAGE_SIZE_BITS) &&& tlb_size_mask)).tag = va &&& 0xFFFFF000 ∧
      (s1.tlb1 sel1 ((va >>> PAGE_SIZE_BITS) &&& tlb_size_mask)).payload
        = TLBPayload.host_va_offset o ∧
      h = o + (va : Int) := by
  unfold mmu_read_vmem_lookup at hl
  cases hc : s.pCurTLB1 with
  | none => rw [hc] at hl; simp at hl
  | some sel1 =>
    rw [hc] at hl
    simp only at hl
    by_cases ht : (s.tlb1 sel1 ((va >>> PAGE_SIZE_BITS) &&& tlb_size_mask)).tag
        = va &&& 0xFFFFF000
    · rw [if_pos ht] at hl
      cases hp : (s.tlb1 sel1 ((va >>> PAGE_SIZE_BITS) &&& tlb_size_mask)).payload with
      | reg_desc rd => rw [hp] at hl; simp at hl
      | host_va_offset o =>
        rw [hp] at hl
        simp only at hl
        injection hl with h1 h2
        injection h1 with h1
        subst h2
        exact ⟨sel1, o, hc, ht, hp, h1.symm⟩
    · rw [if_neg ht] at hl
      obtain ⟨p, s2, h2, h3⟩ := (Res.bind_eq_ok _ _ _ _).1 hl
      have hpc := mmu_read_vmem_secondary_pcur _ _ _ _ _ h2
      unfold mmu_read_vmem_primary at h3
      by_cases hf : truthy ((s2.deref p).flags &&& 1) = true
      · simp only [hf, if_true] at h3
        cases hp : (s2.deref p).payload with
        | reg_desc rd => rw [hp] at h3; simp at h3
        | host_va_offset o =>
          rw [hp] at h3
          simp only at h3
          obtain ⟨e1, e2⟩ := ofOption_eq_ok _ _ _ _ h3
          injection e1 with e1
          unfold MMU.set_tlb1 at e2
          split_ifs at e2
          refine ⟨sel1, o, ?_, ?_, ?_, e1.symm⟩
          · cases sel1 <;> (injection e2 with e2; subst e2; exact hpc.trans hc)
          · cases sel1 <;> (injection e2 with e2; subst e2; simp [MMU.tlb1, upd])
          · cases sel1 <;> (injection e2 with e2; subst e2; simp [MMU.tlb1, upd])
      · simp only [hf] at h3
        cases hp : (s2.deref p).payload with
        | reg_desc rd => rw [hp] at h3; simp at h3
        | host_va_offset o => rw [hp] at h3; simp at h3

/-- The TLB index and the tag of an address are those of its page. -/
theorem page_index_tag (va P : Nat) (hva : va < 2 ^ 32) (hP : P % 4096 = 0)
    (h1 : P ≤ va) (h2 : va < P + 4096) :
    va >>> PAGE_SIZE_BITS = P >>> PAGE_SIZE_BITS ∧ va &&& 0xFFFFF000 = P := by
  have e1 : va >>> PAGE_SIZE_BITS = va / 4096 := by
    rw [PAGE_SIZE_BITS, Nat.shiftRight_eq_div_pow]
  have e2 : P >>> PAGE_SIZE_BITS = P / 4096 := by
    rw [PAGE_SIZE_BITS, Nat.shiftRight_eq_div_pow]
  rw [e1, e2, and_0xFFFFF000 va hva]
  constructor <;> omega

/-- A byte read on a page whose primary TLB entry is valid returns the byte
at the host address the entry gives and leaves the state alone. -/
theorem mmu_read_vmem_primary_hit (s1 : MMU) (sel1 : TLBSel) (o : Int) (va P : Nat)
    (hcur : s1.pCurTLB1 = some sel1)
    (htag : (s1.tlb1 sel1 ((P >>> PAGE_SIZE_BITS) &&& tlb_size_mask)).tag = P)
    (hpl : (s1.tlb1 sel1 ((P >>> PAGE_SIZE_BITS) &&& tlb_size_mask)).payload
      = TLBPayload.host_va_offset o)
    (hva : va < 2 ^ 32) (hP : P % 4096 = 0) (h1 : P ≤ va) (h2 : va < P + 4096) :
    mmu_read_vmem 1 va s1 = Res.ok (rd8 s1.hmem (o + (va : Int))) s1 := by
  obtain ⟨e1, e2⟩ := page_index_tag va P hva hP h1 h2
  rw [mmu_read_vmem_one]
  unfold mmu_read_vmem_u8 mmu_read_vmem_lookup
  simp only [hcur, e1, e2, htag, if_true, hpl, Res.bind]

theorem read_be_from_succ (m : Int → Nat) (acc : Nat) (p : Int) (n : Nat) :
    read_be_from m acc p (n + 1) = read_be_from m (acc * 256 + rd8 m p) (p + 1) n := rfl

/-- The composition of byte reads inside a page whose primary TLB entry is
valid is the big-endian read at the host address. -/
theorem byte_reads_in_page (s1 : MMU) (sel1 : TLBSel) (o : Int) (P : Nat)
    (hcur : s1.pCurTLB1 = some sel1)
    (htag : (s1.tlb1 sel1 ((P >>> PAGE_SIZE_BITS) &&& tlb_size_mask)).tag = P)
    (hpl : (s1.tlb1 sel1 ((P >>> PAGE_SIZE_BITS) &&& tlb_size_mask)).payload
      = TLBPayload.host_va_offset o)
    (hP : P % 4096 = 0) (hP2 : P + 4096 ≤ 2 ^ 32) :
    ∀ (n va acc : Nat), (n ≠ 0 → P ≤ va ∧ va + n ≤ P + 4096) →
      byte_reads_be n va acc s1 =
        Res.ok (read_be_from s1.hmem acc (o + (va : Int)) n) s1 := by
  intro n
  induction n with
  | zero => intro va acc _; rfl
  | succ n ih =>
    intro va acc h
    obtain ⟨h1, h2⟩ := h (by omega)
    have hva : va < 2 ^ 32 := by omega
    unfold byte_reads_be
    rw [mmu_read_vmem_primary_hit s1 sel1 o va P hcur htag hpl hva hP h1 (by omega)]
    simp only [Res.bind]
    have hu : u32 (va + 1) = va + 1 ∨ n = 0 := by
      by_cases hn : n = 0
      · exact Or.inr hn
      · left
        unfold u32
        exact Nat.mod_eq_of_lt (by omega)
    rcases hu with hu | hn
    · rw [hu, ih (va + 1) _ (fun _ => ⟨by omega, by omega⟩), read_be_from_succ]
      push_cast
      rw [add_assoc]
    · subst hn
      rfl

/-- The value of a device read is truncated to the size of the access. -/
theorem mmu_read_vmem_lookup_device_lt (sz va v : Nat) (s s1 : MMU)
    (hl : mmu_read_vmem_lookup sz va s = Res.ok (Located.device v) s1) : v < 256 ^ sz := by
  unfold mmu_read_vmem_lookup at hl
  cases hc : s.pCurTLB1 with
  | none => rw [hc] at hl; simp at hl
  | some sel1 =>
    rw [hc] at hl
    simp only at hl
    by_cases ht : (s.tlb1 sel1 ((va >>> PAGE_SIZE_BITS) &&& tlb_size_mask)).tag
        = va &&& 0xFFFFF000
    · rw [if_pos ht] at hl
      cases hp : (s.tlb1 sel1 ((va >>> PAGE_SIZE_BITS) &&& tlb_size_mask)).payload with
      | reg_desc rd => rw [hp] at hl; simp at hl
      | host_va_offset o => rw [hp] at hl; simp at hl
    · rw [if_neg ht] at hl
      obtain ⟨p, s2, h2, h3⟩ := (Res.bind_eq_ok _ _ _ _).1 hl
      unfold mmu_read_vmem_primary at h3
      by_cases hf : truthy ((s2.deref p).flags &&& 1) = true
      · simp only [hf, if_true] at h3
        cases hp : (s2.deref p).payload with
        | reg_desc rd => rw [hp] at h3; simp at h3
        | host_va_offset o =>
          rw [hp] at h3
          simp only at h3
          have e1 := (ofOption_eq_ok _ _ _ _ h3).1
          simp at e1
      · simp only [hf] at h3
        cases hp : (s2.deref p).payload with
        | reg_desc rd =>
          rw [hp] at h3
          simp only [Bool.false_eq_true, if_false] at h3
          injection h3 with e _
          injection e with e
          rw [← e]
          unfold trunc
          exact Nat.mod_lt _ (by positivity)
        | host_va_offset o => rw [hp] at h3; simp at h3

/-- What `mmu_read_vmem<uint8_t>` returns fits in a byte. -/
theorem mmu_read_vmem_u8_lt (va b : Nat) (s s1 : MMU)
    (h : mmu_read_vmem_u8 va s = Res.ok b s1) : b < 256 := by
  unfold mmu_read_vmem_u8 at h
  obtain ⟨l, s2, hl, h2⟩ := (Res.bind_eq_ok _ _ _ _).1 h
  cases l with
  | host hv =>
    simp only at h2
    injection h2 with e _
    rw [← e]
    exact Nat.mod_lt _ (by norm_num)
  | device v =>
    simp only at h2
    injection h2 with e _
    subst e
    simpa using mmu_read_vmem_lookup_device_lt 1 va v s s2 hl

theorem shift8_or (acc b : Nat) (hb : b < 256) : (acc <<< 8) ||| b = acc * 256 + b := by
  have h := @Nat.mul_add_lt_is_or 8 b (by simpa using hb) acc
  rw [Nat.shiftLeft_eq, Nat.mul_comm, ← h]

/-- The byte loop of `read_unaligned` composes the byte reads, as long as the
result fits in 32 bits. -/
theorem read_unaligned_loop_eq :
    ∀ (n k va acc : Nat) (s : MMU), acc < 256 ^ k → k + n ≤ 4 →
      read_unaligned_loop n va acc s = byte_reads_be n va acc s := by
  intro n
  induction n with
  | zero => intro k va acc s _ _; rfl
  | succ n ih =>
    intro k va acc s hacc hk
    unfold read_unaligned_loop byte_reads_be
    rw [mmu_read_vmem_one]
    cases hb : mmu_read_vmem_u8 va s with
    | ok b s1 =>
      simp only [Res.bind]
      have hlt := mmu_read_vmem_u8_lt va b s s1 hb
      have hk3 : k ≤ 3 := by omega
      have hpow : (256 : Nat) ^ k ≤ 256 ^ 3 := Nat.pow_le_pow_right (by norm_num) hk3
      have hnew : acc * 256 + b < 256 ^ (k + 1) := by
        rw [pow_succ]
        nlinarith
      have hfit : u32 (acc <<< 8 ||| b) = acc * 256 + b := by
        rw [shift8_or acc b hlt]
        unfold u32
        apply Nat.mod_eq_of_lt
        have : (256 : Nat) ^ 3 = 16777216 := by norm_num
        omega
      rw [hfit]
      exact ih (k + 1) _ _ s1 hnew (by omega)
    | exc t c s1 => rfl
    | exit s1 => rfl
    | ub => rfl

/-- C17: for 2- and 4-byte reads at any alignment (aligned, misaligned inside
a page, or crossing a page boundary) and for aligned 8-byte reads, on a page
that is not served by a device, `mmu_read_vmem<T>(va)` is the big-endian
composition of the byte reads `mmu_read_vmem<uint8_t>(va)`, ...,
`mmu_read_vmem<uint8_t>(va + sizeof(T) - 1)`: the same value and the same
final state when it returns, the same exception when it raises one. -/
theorem read_is_byte_composition (s : MMU) (sz va : Nat)
    (hsz : sz = 2 ∨ sz = 4 ∨ (sz = 8 ∧ va % 8 = 0)) (hva : va < 2 ^ 32)
    (hmem : ∀ v s1, mmu_read_vmem_lookup sz va s ≠ Res.ok (Located.device v) s1) :
    mmu_read_vmem sz va s = byte_reads_be sz va 0 s := by
  revert hsz hmem
  intro hsz hmem
  obtain ⟨n, hn⟩ : ∃ n, sz = n + 1 := ⟨sz - 1, by omega⟩
  subst hn
  have hone := mmu_read_vmem_lookup_size (n + 1) 1 va s hmem
  have hfirst : byte_reads_be (n + 1) va 0 s =
      (mmu_read_vmem_lookup (n + 1) va s).bind fun l s1 =>
        match l with
        | Located.device v => byte_reads_be n (u32 (va + 1)) (0 * 256 + v) s1
        | Located.host h => byte_reads_be n (u32 (va + 1)) (0 * 256 + rd8 s1.hmem h) s1 := by
    conv_lhs => unfold byte_reads_be
    rw [mmu_read_vmem_one]
    unfold mmu_read_vmem_u8
    rw [hone]
    cases mmu_read_vmem_lookup (n + 1) va s with
    | ok l s1 => cases l <;> rfl
    | exc t c s1 => rfl
    | exit s1 => rfl
    | ub => rfl
  cases hl : mmu_read_vmem_lookup (n + 1) va s with
  | exc t c s1 => rw [hfirst]; unfold mmu_read_vmem; rw [hl]; rfl
  | exit s1 => rw [hfirst]; unfold mmu_read_vmem; rw [hl]; rfl
  | ub => rw [hfirst]; unfold mmu_read_vmem; rw [hl]; rfl
  | ok l s1 =>
    cases l with
    | device v => exact absurd hl (hmem v s1)
    | host h =>
      obtain ⟨sel1, o, hcur, htag, hpl, hh⟩ := mmu_read_vmem_lookup_post (n + 1) va s s1 h hl
      have hP : (va &&& 0xFFFFF000) % 4096 = 0 := by
        rw [and_0xFFFFF000 va hva]; omega
      have hPle : va &&& 0xFFFFF000 ≤ va := Nat.and_le_left
      have hPlt : va < (va &&& 0xFFFFF000) + 4096 := by
        rw [and_0xFFFFF000 va hva]; omega
      have hP2 : (va &&& 0xFFFFF000) + 4096 ≤ 2 ^ 32 := by
        rw [and_0xFFFFF000 va hva]; omega
      have hidx : (va &&& 0xFFFFF000) >>> PAGE_SIZE_BITS = va >>> PAGE_SIZE_BITS :=
        (page_index_tag va _ hva hP hPle hPlt).1.symm
      rw [← hidx] at htag hpl
      -- the byte reads may as well start in the state after the look-up
      have hstart : byte_reads_be (n + 1) va 0 s = byte_reads_be (n + 1) va 0 s1 := by
        rw [hfirst, hl]
        simp only [Res.bind]
        conv_rhs => unfold byte_reads_be
        rw [mmu_read_vmem_primary_hit s1 sel1 o va _ hcur htag hpl hva hP hPle hPlt]
        simp only [Res.bind]
        rw [hh]
      rw [hstart]
      unfold mmu_read_vmem
      rw [hl]
      simp only [Res.bind]
      have hmod : va &&& 0xFFF = va % 4096 := and_0xFFF va
      have hmodP : va % 4096 = va - (va &&& 0xFFFFF000) := by
        rw [and_0xFFFFF000 va hva]; omega
      by_cases hcross : (va &&& 0xFFF) + (n + 1) > 0x1000
      · -- the access crosses the page boundary
        have hmis : n + 1 > 1 ∧ truthy (va &&& (n + 1 - 1)) = true := by
          rw [hmod] at hcross
          rcases hsz with h2 | h2 | ⟨h2, h8⟩
          · obtain rfl : n = 1 := by omega
            refine ⟨by norm_num, ?_⟩
            rw [truthy_eq_true_iff]
            show va &&& 1 ≠ 0
            rw [and_1]; omega
          · obtain rfl : n = 3 := by omega
            refine ⟨by norm_num, ?_⟩
            rw [truthy_eq_true_iff]
            show va &&& 3 ≠ 0
            rw [and_3]; omega
          · omega
        rw [if_pos hmis]
        unfold read_unaligned
        rw [if_pos hcross]
        have h4 : n + 1 ≤ 4 := by
          rw [hmod] at hcross
          rcases hsz with h2 | h2 | ⟨h2, h8⟩ <;> omega
        exact read_unaligned_loop_eq (n + 1) 0 va 0 s1 (by norm_num) (by omega)
      · -- the access stays inside the page
        have hin := byte_reads_in_page s1 sel1 o _ hcur htag hpl hP hP2 (n + 1) va 0
          (fun _ => ⟨hPle, by rw [hmod] at hcross; omega⟩)
        rw [hin, ← hh]
        by_cases hmis : n + 1 > 1 ∧ truthy (va &&& (n + 1 - 1)) = true
        · rw [if_pos hmis]
          unfold read_unaligned
          rw [if_neg hcross]
          rcases hsz with h2 | h2 | ⟨h2, h8⟩
          · obtain rfl : n = 1 := by omega
            rfl
          · obtain rfl : n = 3 := by omega
            rfl
          · obtain rfl : n = 7 := by omega
            exfalso
            have h7 : va &&& 7 ≠ 0 := (truthy_eq_true_iff _).1 hmis.2
            rw [and_7] at h7
            omega
        · rw [if_neg hmis]
          rfl

/-- C17 witness: in real-address mode, with the bytes `AA BB` at `0x1FFE` and
`CC DD` at `0x2000`, the 4-byte read at `0x1FFE` crosses the page boundary,
is the composition of the four byte reads, and returns `0xAABBCCDD`. -/
theorem read_is_byte_composition_witness :
    mmu_read_vmem 4 0x1FFE sample_real = byte_reads_be 4 0x1FFE 0 sample_real ∧
    ∃ s', mmu_read_vmem 4 0x1FFE sample_real = Res.ok 0xAABBCCDD s' := by
  have hl : ∃ h s1, mmu_read_vmem_lookup 4 0x1FFE sample_real = Res.ok (Located.host h) s1 :=
    ⟨_, _, rfl⟩
  obtain ⟨h, s1, hl⟩ := hl
  refine ⟨read_is_byte_composition sample_real 4 0x1FFE (Or.inr (Or.inl rfl)) (by norm_num) ?_,
    ⟨_, rfl⟩⟩
  intro v s2 hv
  rw [hl] at hv
  injection hv with hv _
  injection hv

/-! ## Device reads through the TLB -/

/-- C21 at the failing input: DBAT0 maps `0x40000000` to the device range at
`0xF3000000`, so the address `0x40000010` translates to the physical address
`0xF3000010`, offset `0x10` in the range; `mmu_read_vmem<uint32_t>(0x40000010)`
calls the device once, with the offset `0x4D000010`, which is
`guest_va - range.start` in 32-bit arithmetic. -/
theorem mmu_read_vmem_device_offset :
    ppc_mmu_addr_translate 0x40000010 0 sample_mmio = Res.ok 0xF3000010 sample_mmio ∧
    sample_mmio.find_range 0xF3000010 = some sample_mmio_range ∧
    sub32 0xF3000010 sample_mmio_range.start = 0x10 ∧
    ∃ v s', mmu_read_vmem 4 0x40000010 sample_mmio = Res.ok v s' ∧
      s'.dev_log =
        [{ is_write := false, devobj := 7, region_base := 0xF3000000,
           offset := 0x4D000010, value := 0, size := 4 }] :=
  ⟨rfl, by decide, by decide, _, _, rfl, rfl⟩

/-! ## Accesses to unmapped physical addresses -/

/-- C24 as stated fails: in real-address mode the address `0x80000000` lies in
no range of the map; the 4-byte store to it returns normally and leaves the
machine as it was, and `read_phys_mem<uint32_t>` returns a value to its
caller. -/
theorem unmapped_access_counterexample :
    sample_real.find_range 0x80000000 = none ∧
    mem_write 4 0x80000000 0xDEADBEEF sample_real = Res.ok () sample_real ∧
    read_phys_mem 4 true MRU.last_read_area 0x80000000 sample_real = (0, sample_real) :=
  ⟨by decide, rfl, rfl⟩

/-- For a coherent address map and an MRU variable that holds its initial
bounds or a copy of a range of the map, an address in no range is not resolved. -/
theorem mru_resolve_unmapped (s : MMU) (sz addr : Nat) (m : MRU)
    (hsz : 0 < sz) (hcoh : map_coherent s.find_range)
    (hmru : ((s.mru m).start = 0xFFFFFFFF ∧ (s.mru m).end_ = 0xFFFFFFFF) ∨
      ∃ a, s.find_range a = some (s.mru m))
    (hr : s.find_range addr = none) :
    mru_resolve sz m addr s = none := by
  unfold mru_resolve
  by_cases hc : addr < (s.mru m).start ∨ addr + sz > (s.mru m).end_
  · rw [if_pos hc, hr]
  · rw [if_neg hc]
    rcases hmru with ⟨hs, he⟩ | ⟨a, ha⟩
    · omega
    · have := (hcoh a _ ha).2.2 addr (by omega) (by omega)
      rw [hr] at this
      cases this

/-- C24 (amended): an access whose physical address lies in no range of the
address map does not terminate the emulator in `write_phys_mem`,
`read_phys_mem` or the refill of `tlb2_refill`.  `write_phys_mem` returns with
the machine unchanged (nothing written, no device called); `read_phys_mem`
returns with the machine unchanged, and the value it returns is the same
whatever memory holds and whatever the devices answer; the refill of
`tlb2_refill` returns the `UnmappedMem` entry, having set its tag and its
offset and nothing else. -/
theorem unmapped_access_dropped (s : MMU) (sz addr value guest_va : Nat)
    (is_aligned : Bool) (m : MRU)
    (hsz : sz = 1 ∨ sz = 2 ∨ sz = 4 ∨ sz = 8)
    (hcoh : map_coherent s.find_range)
    (hmru : ((s.mru m).start = 0xFFFFFFFF ∧ (s.mru m).end_ = 0xFFFFFFFF) ∨
      ∃ a, s.find_range a = some (s.mru m))
    (hr : s.find_range addr = none) :
    write_phys_mem sz is_aligned m addr value s = s ∧
    (read_phys_mem sz is_aligned m addr s).2 = s ∧
    (∀ (h : Int → Nat) (d : Nat → Nat → Nat → Nat → Nat),
      (read_phys_mem sz is_aligned m addr { s with hmem := h, dev_read := d }).1
        = (read_phys_mem sz is_aligned m addr s).1) ∧
    tlb2_refill_fill guest_va addr s =
      Res.ok TLBPtr.UnmappedMem
        { s with UnmappedMem :=
            { s.UnmappedMem with
              tag := guest_va &&& 0xFFFFF000,
              payload :=
                TLBPayload.host_va_offset (s.UnmappedVal_addr - (guest_va : Int)) } } := by
  have hres := mru_resolve_unmapped s sz addr m (by omega) hcoh hmru hr
  refine ⟨?_, ?_, ?_, ?_⟩
  · unfold write_phys_mem; rw [hres]
  · unfold read_phys_mem; rw [hres]
  · intro h d
    have hmru' : (({ s with hmem := h, dev_read := d } : MMU).mru m).start = 0xFFFFFFFF ∧
          (({ s with hmem := h, dev_read := d } : MMU).mru m).end_ = 0xFFFFFFFF ∨
        ∃ a, ({ s with hmem := h, dev_read := d } : MMU).find_range a
          = some (({ s with hmem := h, dev_read := d } : MMU).mru m) := by
      cases m <;> exact hmru
    have hres' := mru_resolve_unmapped { s with hmem := h, dev_read := d } sz addr m
      (by omega) hcoh hmru' hr
    unfold read_phys_mem
    rw [hres, hres']
  · unfold tlb2_refill_fill; rw [hr]

/-- C24 witness: the amended statement at the address `0x80000000` of the
real-mode sample machine. -/
theorem unmapped_access_dropped_witness :
    sample_real.find_range 0x80000000 = none ∧
    write_phys_mem 4 true MRU.last_write_area 0x80000000 0xDEADBEEF sample_real
      = sample_real ∧
    (read_phys_mem 4 true MRU.last_write_area 0x80000000 sample_real).2 = sample_real ∧
    (∃ s', tlb2_refill_fill 0x80000000 0x80000000 sample_real
      = Res.ok TLBPtr.UnmappedMem s') := by
  have hcoh : map_coherent sample_real.find_range := sample_coherent
  obtain ⟨h1, h2, -, h4⟩ := unmapped_access_dropped sample_real 4 0x80000000 0xDEADBEEF
    0x80000000 true MRU.last_write_area (by decide) hcoh (Or.inl ⟨rfl, rfl⟩) (by decide)
  exact ⟨by decide, h1, h2, _, h4⟩

/-! ## Real-address mode -/

/-- C25 at the failing input: with `MSR[DR] = 0` the refill translation maps
`0x2FFF` to itself, but the 2-byte store to `0x2FFF`, which crosses a page
boundary, writes through the unassigned `phys_addr` of `mem_write_unaligned`
(undefined behaviour) instead of writing to the physical address `0x2FFF`. -/
theorem real_mode_crosspage_word_store :
    sample_real.ppc_state.msr &&& 0x10 = 0 ∧
    tlb2_refill_translate 0x2FFF 0 sample_real = Res.ok 0x2FFF sample_real ∧
    mem_write_word 0x2FFF 0x1234 sample_real = Res.ub :=
  ⟨by decide, rfl, rfl⟩

/-! ## The page walk -/

theorem or_lt_two_pow32 {a b : Nat} (ha : a < 2 ^ 32) (hb : b < 2 ^ 32) : a ||| b < 2 ^ 32 :=
  Nat.or_lt_two_pow ha hb

/-- For a 24-bit VSID, a 16-bit page index and `H` in 0, 1 the matching word
needs no truncation. -/
theorem pte_check_word_eq (vsid page_index pteg_num : Nat)
    (hv : vsid < 2 ^ 24) (hH : pteg_num ≤ 1) (hp : page_index < 2 ^ 16) :
    pte_check_word vsid page_index pteg_num =
      0x80000000 ||| (vsid <<< 7) ||| (pteg_num <<< 6) ||| (page_index >>> 10) := by
  unfold pte_check_word u32
  apply Nat.mod_eq_of_lt
  have h1 : vsid <<< 7 < 2 ^ 32 := by
    rw [Nat.shiftLeft_eq]
    have : (2 : Nat) ^ 24 * 2 ^ 7 < 2 ^ 32 := by norm_num
    nlinarith
  have h2 : pteg_num <<< 6 < 2 ^ 32 := by
    rw [Nat.shiftLeft_eq]
    have : (1 : Nat) * 2 ^ 6 < 2 ^ 32 := by norm_num
    nlinarith
  have h3 : page_index >>> 10 < 2 ^ 32 := by
    rw [Nat.shiftRight_eq_div_pow]
    have : page_index / 2 ^ 10 ≤ page_index := Nat.div_le_self _ _
    have : (2 : Nat) ^ 16 < 2 ^ 32 := by norm_num
    omega
  exact or_lt_two_pow32 (or_lt_two_pow32 (or_lt_two_pow32 (by norm_num) h1) h2) h3

/-- C27: `search_pteg` succeeds exactly when one of the eight 8-byte slots of
the PTEG has the matching word as its big-endian first word, and then reports
the lowest such slot; the matching word is
`0x80000000 | (vsid << 7) | (H << 6) | (page_index >> 10)`; when the search of
the primary PTEG succeeds, the page walk ends with that slot, in the state
reached before any look at the secondary PTEG. -/
theorem search_pteg_first_match (m : Int → Nat) (pteg_addr : Int)
    (vsid page_index pteg_num : Nat) :
    ((∃ pte_addr, search_pteg m pteg_addr vsid page_index pteg_num = some pte_addr) ↔
      ∃ i : Nat, i < 8 ∧
        READ_DWORD_BE m (pteg_addr + 8 * (i : Int)) =
          pte_check_word vsid page_index pteg_num) ∧
    (∀ pte_addr, search_pteg m pteg_addr vsid page_index pteg_num = some pte_addr →
      ∃ i : Nat, i < 8 ∧ pte_addr = pteg_addr + 8 * (i : Int) ∧
        READ_DWORD_BE m pte_addr = pte_check_word vsid page_index pteg_num ∧
        ∀ j : Nat, j < i →
          READ_DWORD_BE m (pteg_addr + 8 * (j : Int)) ≠
            pte_check_word vsid page_index pteg_num) ∧
    (vsid < 2 ^ 24 → pteg_num ≤ 1 → page_index < 2 ^ 16 →
      pte_check_word vsid page_index pteg_num =
        0x80000000 ||| (vsid <<< 7) ||| (pteg_num <<< 6) ||| (page_index >>> 10)) ∧
    (∀ (s s1 : MMU) (la is_write sr_val : Nat) (is_instr_fetch : Bool) (p1 pte_addr : Int),
      (is_instr_fetch = true → sr_val &&& 0x10000000 = 0) →
      calc_pteg_addr ((sr_val &&& 0x7FFFF) ^^^ ((la >>> 12) &&& 0xFFFF)) s = Res.ok p1 s1 →
      search_pteg s1.hmem p1 (sr_val &&& 0x0FFFFFF) ((la >>> 12) &&& 0xFFFF) 0
        = some pte_addr →
      pte_lookup la is_instr_fetch is_write sr_val s = Res.ok pte_addr s1) := by
  refine ⟨?_, ?_, fun hv hH hp => pte_check_word_eq _ _ _ hv hH hp, ?_⟩
  · constructor
    · rintro ⟨pte, h⟩
      obtain ⟨k, hk, hpte, hw, -⟩ := search_pteg_loop_some m _ 8 pteg_addr pte h
      exact ⟨k, hk, by rw [← hpte]; exact hw⟩
    · rintro ⟨i, hi, hw⟩
      by_contra hne
      have hnone : search_pteg m pteg_addr vsid page_index pteg_num = none := by
        cases hs : search_pteg m pteg_addr vsid page_index pteg_num with
        | none => rfl
        | some p => exact absurd ⟨p, hs⟩ hne
      exact search_pteg_loop_eq_none m _ 8 pteg_addr hnone i hi hw
  · intro pte h
    exact search_pteg_loop_some m _ 8 pteg_addr pte h
  · intro s s1 la is_write sr_val fetch p1 pte hN h1 hs
    have hc : (truthy (sr_val &&& 0x10000000) && fetch) = false := by
      cases fetch with
      | false => simp
      | true => simp [(truthy_eq_false_iff _).2 (hN rfl)]
    unfold pte_lookup
    simp only [hc, h1, Res.bind, hs]
    rfl

/-- C27 on the sample machine: slot 0 of the PTEG at host address
`0x70000040` holds the matching word `0x80000000` of VSID 0, page index 1,
and the search reports it. -/
theorem search_pteg_first_match_witness :
    pte_check_word 0 1 0 = 0x80000000 ∧
    search_pteg sample.hmem 0x70000040 0 1 0 = some 0x70000040 ∧
    ∃ i : Nat, i < 8 ∧
      READ_DWORD_BE sample.hmem (0x70000040 + 8 * (i : Int)) = pte_check_word 0 1 0 :=
  ⟨((search_pteg_first_match sample.hmem 0x70000040 0 1 0).2.2.1
      (by decide) (by decide) (by decide)).trans (by decide),
    rfl,
    (search_pteg_first_match sample.hmem 0x70000040 0 1 0).1.mp ⟨_, rfl⟩⟩

/-! ## LRU bits after an L2 hit -/

/-- C29 at the failing input: way 1 of the L2 set of the page `0x1000` (element
5 of the array) holds the tag; after `lookup_secondary_tlb` reports it, its
`lru_bits` are 2 (not 3), those of way 0 (element 4) are still 0 (not 2), and
way 2 (element 6) was given 3. -/
theorem l2_hit_way1_lru :
    (sample_l2.mode1_tlb2 5).tag = 0x1000 ∧
    ∃ s', lookup_secondary_tlb 0x1000 0x1000 sample_l2
        = Res.ok (some (TLBPtr.tlb2 TLBSel.mode1 5)) s' ∧
      (s'.mode1_tlb2 5).lru_bits = 2 ∧ (s'.mode1_tlb2 4).lru_bits = 0 ∧
      (s'.mode1_tlb2 6).lru_bits = 3 :=
  ⟨rfl, _, rfl, rfl, rfl, rfl⟩

/-! ## The replacement way after hits in both pairs -/

theorem after_reads_step1 :
    mmu_read_vmem 1 0x00000000 (after_reads []) = Res.ok 0 (after_reads [0x00000000]) := rfl

theorem after_reads_step2 :
    mmu_read_vmem 1 0x01000000 (after_reads [0x00000000])
      = Res.ok 0 (after_reads [0x01000000, 0x00000000]) := rfl

theorem after_reads_step3 :
    mmu_read_vmem 1 0x02000000 (after_reads [0x01000000, 0x00000000])
      = Res.ok 0 (after_reads [0x02000000, 0x01000000, 0x00000000]) := rfl

theorem after_reads_step4 :
    mmu_read_vmem 1 0x03000000 (after_reads [0x02000000, 0x01000000, 0x00000000])
      = Res.ok 0 (after_reads [0x03000000, 0x02000000, 0x01000000, 0x00000000]) := rfl

theorem after_reads_step5 :
    mmu_read_vmem 1 0x01000000
        (after_reads [0x03000000, 0x02000000, 0x01000000, 0x00000000])
      = Res.ok 0
        (after_reads [0x01000000, 0x03000000, 0x02000000, 0x01000000, 0x00000000]) := rfl

theorem after_reads_step6 :
    mmu_read_vmem 1 0x00000000
        (after_reads [0x01000000, 0x03000000, 0x02000000, 0x01000000, 0x00000000])
      = Res.ok 0
        (after_reads
          [0x00000000, 0x01000000, 0x03000000, 0x02000000, 0x01000000, 0x00000000]) := rfl

/-- C30 at the failing input: after `ppc_mmu_init` and six byte reads in
real-address mode (four refills of L2 set 0, a hit in way 1, a hit in way 0)
no way of the set is invalid and the `lru_bits` of the four ways are 3, 2, 1,
1; for the next refill `tlb2_target_entry` selects way 3, whose `lru_bits`
are 1. -/
theorem replacement_picks_nonzero_lru :
    Reachable sample_lru_state ∧
    (∀ w, w < 4 → (sample_lru_state.mode1_tlb2 w).tag ≠ TLB_INVALID_TAG) ∧
    (sample_lru_state.mode1_tlb2 0).lru_bits = 3 ∧
    (sample_lru_state.mode1_tlb2 1).lru_bits = 2 ∧
    (sample_lru_state.mode1_tlb2 2).lru_bits = 1 ∧
    (sample_lru_state.mode1_tlb2 3).lru_bits = 1 ∧
    ∃ s', tlb2_target_entry 0x04000000 sample_lru_state
      = Res.ok (TLBPtr.tlb2 TLBSel.mode1 3) s' := by
  have h0 : Reachable (after_reads []) := Reachable.init sample_big_start ⟨rfl, rfl, rfl⟩
  have h1 := Reachable.read_ok _ _ 1 _ _ h0 (by norm_num) after_reads_step1
  have h2 := Reachable.read_ok _ _ 1 _ _ h1 (by norm_num) after_reads_step2
  have h3 := Reachable.read_ok _ _ 1 _ _ h2 (by norm_num) after_reads_step3
  have h4 := Reachable.read_ok _ _ 1 _ _ h3 (by norm_num) after_reads_step4
  have h5 := Reachable.read_ok _ _ 1 _ _ h4 (by norm_num) after_reads_step5
  have h6 := Reachable.read_ok _ _ 1 _ _ h5 (by norm_num) after_reads_step6
  refine ⟨h6, ?_, rfl, rfl, rfl, rfl, _, rfl⟩
  intro w hw
  interval_cases w <;> decide

/-! ## Frames of the read path -/

theorem arch_frame_refl (s : MMU) : arch_frame s s :=
  ⟨rfl, ⟨s.ppc_state.spr, rfl, fun _ _ _ => rfl⟩, fun _ => Or.inl rfl⟩

theorem or_one_or_one (x : Nat) : (x ||| 1) ||| 1 = x ||| 1 := by
  rw [Nat.or_assoc, show (1 : Nat) ||| 1 = 1 by decide]

theorem arch_frame_trans {s s1 s2 : MMU} (h1 : arch_frame s s1) (h2 : arch_frame s1 s2) :
    arch_frame s s2 := by
  obtain ⟨a1, ⟨spr1, b1, c1⟩, d1⟩ := h1
  obtain ⟨a2, ⟨spr2, b2, c2⟩, d2⟩ := h2
  refine ⟨a2.trans a1, ⟨spr2, ?_, ?_⟩, ?_⟩
  · rw [b2, b1]
  · intro k hk1 hk2
    rw [c2 k hk1 hk2, b1]
    exact c1 k hk1 hk2
  · intro a
    rcases d2 a with e2 | e2 <;> rcases d1 a with e1 | e1
    · exact Or.inl (e2.trans e1)
    · exact Or.inr (e2.trans e1)
    · exact Or.inr (by rw [e2, e1])
    · exact Or.inr (by rw [e2, e1, or_one_or_one])

theorem read_step_refl (s : MMU) : read_step s s := ⟨arch_frame_refl s, fun h => h⟩

theorem read_step_trans {s s1 s2 : MMU} (h1 : read_step s s1) (h2 : read_step s1 s2) :
    read_step s s2 :=
  ⟨arch_frame_trans h1.1 h2.1, fun h => h2.2 (h1.2 h)⟩

theorem Res.all_mono {α : Type} {P Q : MMU → Prop} (h : ∀ t, P t → Q t) (r : Res α)
    (hr : Res.all P r) : Res.all Q r := by
  cases r with
  | ok a s => exact h _ hr
  | exc t b s => exact h _ hr
  | exit s => exact h _ hr
  | ub => trivial

/-- Sequencing of two calls that each make a `read_step`. -/
theorem read_step_bind {α β : Type} (s : MMU) (r : Res α) (f : α → MMU → Res β)
    (hr : Res.all (read_step s) r)
    (hf : ∀ a s1, r = Res.ok a s1 → Res.all (read_step s1) (f a s1)) :
    Res.all (read_step s) (r.bind f) := by
  cases r with
  | ok a s1 =>
    exact Res.all_mono (fun t ht => read_step_trans hr ht) _ (hf a s1 rfl)
  | exc t b s1 => exact hr
  | exit s1 => exact hr
  | ub => trivial

/-- The TLB invariant looks only at what `tlb_same` keeps. -/
theorem tlb_inv_of_same {s s' : MMU} (h : tlb_same s s') (hi : tlb_inv s) : tlb_inv s' := by
  obtain ⟨p1, p2, t1, t2⟩ := h
  obtain ⟨hp, hs⟩ := hi
  refine ⟨by rw [p1, p2, hp], ?_⟩
  intro sel i hi
  obtain ⟨ha, hb⟩ := hs sel i hi
  constructor
  · intro w hw hv ht
    rw [t1 sel] at hv ht ⊢
    rw [(t2 sel _).1] at ht
    rw [(t2 sel _).2.2]
    exact ha w hw hv ht
  · intro w1 w2 h1 h2 ht hv
    rw [(t2 sel _).1, (t2 sel _).1] at ht
    rw [(t2 sel _).1] at hv
    exact hb w1 w2 h1 h2 ht hv

theorem tlb_same_refl (s : MMU) : tlb_same s s :=
  ⟨rfl, rfl, fun _ => rfl, fun _ _ => ⟨rfl, rfl, rfl⟩⟩

theorem tlb_same_trans {s s1 s2 : MMU} (h1 : tlb_same s s1) (h2 : tlb_same s1 s2) :
    tlb_same s s2 := by
  obtain ⟨a1, b1, c1, d1⟩ := h1
  obtain ⟨a2, b2, c2, d2⟩ := h2
  refine ⟨a2.trans a1, b2.trans b1, fun sel => (c2 sel).trans (c1 sel), fun sel j => ?_⟩
  exact ⟨(d2 sel j).1.trans (d1 sel j).1, (d2 sel j).2.1.trans (d1 sel j).2.1,
    (d2 sel j).2.2.trans (d1 sel j).2.2⟩

theorem tlb_same_of_untouched {s s' : MMU} (h : tlb_untouched s s') : tlb_same s s' :=
  ⟨h.1, h.2.1, h.2.2.1, fun sel j => by rw [h.2.2.2 sel]; exact ⟨rfl, rfl, rfl⟩⟩

/-- A change of fields other than the handler, the registers, memory and the
TLB is a `quiet_step`. -/
theorem quiet_of_other (s s' : MMU)
    (hh : s'.mmu_exception_handler = s.mmu_exception_handler)
    (hp : s'.ppc_state = s.ppc_state) (hm : s'.hmem = s.hmem)
    (ht : tlb_untouched s s') : quiet_step s s' :=
  ⟨⟨⟨hh, ⟨s.ppc_state.spr, by rw [hp], fun _ _ _ => rfl⟩, fun a => Or.inl (by rw [hm])⟩,
    tlb_inv_of_same (tlb_same_of_untouched ht)⟩, tlb_same_of_untouched ht⟩

theorem quiet_refl (s : MMU) : quiet_step s s := ⟨read_step_refl s, tlb_same_refl s⟩

theorem quiet_trans {s s1 s2 : MMU} (h1 : quiet_step s s1) (h2 : quiet_step s1 s2) :
    quiet_step s s2 :=
  ⟨read_step_trans h1.1 h2.1, tlb_same_trans h1.2 h2.2⟩

/-- Sequencing of two calls that each make a `quiet_step`. -/
theorem quiet_bind {α β : Type} (s : MMU) (r : Res α) (f : α → MMU → Res β)
    (hr : Res.all (quiet_step s) r)
    (hf : ∀ a s1, r = Res.ok a s1 → Res.all (quiet_step s1) (f a s1)) :
    Res.all (quiet_step s) (r.bind f) := by
  cases r with
  | ok a s1 =>
    exact Res.all_mono (fun t ht => quiet_trans hr ht) _ (hf a s1 rfl)
  | exc t b s1 => exact hr
  | exit s1 => exact hr
  | ub => trivial

theorem tlb_untouched_refl (s : MMU) : tlb_untouched s s :=
  ⟨rfl, rfl, fun _ => rfl, fun _ => rfl⟩

theorem tlb1_congr (s s' : MMU) (h1 : s'.mode1_tlb1 = s.mode1_tlb1)
    (h2 : s'.mode2_tlb1 = s.mode2_tlb1) (h3 : s'.mode3_tlb1 = s.mode3_tlb1) (sel : TLBSel) :
    s'.tlb1 sel = s.tlb1 sel := by
  cases sel <;> simp [MMU.tlb1, h1, h2, h3]

theorem tlb2_congr (s s' : MMU) (h1 : s'.mode1_tlb2 = s.mode1_tlb2)
    (h2 : s'.mode2_tlb2 = s.mode2_tlb2) (h3 : s'.mode3_tlb2 = s.mode3_tlb2) (sel : TLBSel) :
    s'.tlb2 sel = s.tlb2 sel := by
  cases sel <;> simp [MMU.tlb2, h1, h2, h3]

/-- The TLB is untouched when the six arrays and the two pointers are. -/
theorem tlb_untouched_of_fields (s s' : MMU)
    (p1 : s'.pCurTLB1 = s.pCurTLB1) (p2 : s'.pCurTLB2 = s.pCurTLB2)
    (a1 : s'.mode1_tlb1 = s.mode1_tlb1) (a2 : s'.mode2_tlb1 = s.mode2_tlb1)
    (a3 : s'.mode3_tlb1 = s.mode3_tlb1) (b1 : s'.mode1_tlb2 = s.mode1_tlb2)
    (b2 : s'.mode2_tlb2 = s.mode2_tlb2) (b3 : s'.mode3_tlb2 = s.mode3_tlb2) :
    tlb_untouched s s' :=
  ⟨p1, p2, tlb1_congr s s' a1 a2 a3, tlb2_congr s s' b1 b2 b3⟩

/-- Setting DSISR or DAR is a `quiet_step`. -/
theorem quiet_set_spr (s : MMU) (n v : Nat) (hn : n = SPR.DSISR ∨ n = SPR.DAR) :
    quiet_step s (s.set_spr n v) := by
  have hu : tlb_untouched s (s.set_spr n v) :=
    tlb_untouched_of_fields _ _ rfl rfl rfl rfl rfl rfl rfl rfl
  refine ⟨⟨⟨rfl, ⟨_, rfl, ?_⟩, fun a => Or.inl rfl⟩, tlb_inv_of_same
    (tlb_same_of_untouched hu)⟩, tlb_same_of_untouched hu⟩
  intro k h1 h2
  have : k ≠ n := by rcases hn with rfl | rfl <;> assumption
  simp [this]

theorem quiet_raise_dsi {α : Type} (d a : Nat) (s : MMU) :
    Res.all (quiet_step s) (raise_dsi d a s : Res α) := by
  unfold raise_dsi mmu_exception_handler_call
  exact quiet_trans (quiet_set_spr s _ _ (Or.inl rfl))
    (quiet_set_spr _ _ _ (Or.inr rfl))

theorem quiet_calc_pteg_addr (hash : Nat) (s : MMU) :
    Res.all (quiet_step s) (calc_pteg_addr hash s) := by
  unfold calc_pteg_addr
  simp only
  split_ifs
  · exact quiet_refl s
  · split
    · split_ifs
      · exact quiet_of_other _ _ rfl rfl rfl
          (tlb_untouched_of_fields _ _ rfl rfl rfl rfl rfl rfl rfl rfl)
      · exact quiet_refl s
    · exact quiet_refl s

theorem quiet_pte_lookup (la is_write sr_val : Nat) (fetch : Bool) (s : MMU) :
    Res.all (quiet_step s) (pte_lookup la fetch is_write sr_val s) := by
  unfold pte_lookup
  by_cases hc : (truthy (sr_val &&& 0x10000000) && fetch) = true
  · rw [if_pos hc]
    exact quiet_refl s
  · rw [if_neg hc]
    simp only
    apply quiet_bind _ _ _ (quiet_calc_pteg_addr _ s)
    intro p1 s1 _
    cases search_pteg s1.hmem p1 (sr_val &&& 0x0FFFFFF) ((la >>> 12) &&& 0xFFFF) 0 with
    | some pte => exact quiet_refl s1
    | none =>
      simp only
      apply quiet_bind _ _ _ (quiet_calc_pteg_addr _ s1)
      intro p2 s2 _
      cases search_pteg s2.hmem p2 (sr_val &&& 0x0FFFFFF) ((la >>> 12) &&& 0xFFFF) 1 with
      | some pte => exact quiet_refl s2
      | none =>
        cases fetch with
        | true => exact quiet_refl s2
        | false => exact quiet_raise_dsi _ _ s2

/-- The update of the R bit alone sets bit `0x01` of one byte. -/
theorem rc_update_read (m : Int → Nat) (pte : Int) (a : Int) :
    rd8 (rc_update m pte 0) a = rd8 m a ∨ rd8 (rc_update m pte 0) a = rd8 m a ||| 0x01 := by
  by_cases h : a = pte + 6
  · right
    rw [h, rc_update_byte6]
  · left
    by_cases h7 : a = pte + 7
    · rw [h7, rc_update_byte7]
      simp
    · exact rd8_rc_update_outside m pte a 0 h h7

theorem quiet_pte_access (la msr_pr sr_val : Nat) (fetch : Bool) (pte : Int) (s : MMU) :
    Res.all (quiet_step s) (pte_access la fetch msr_pr 0 sr_val pte s) := by
  unfold pte_access
  simp only
  split_ifs
  · exact quiet_refl s
  · exact quiet_raise_dsi _ _ s
  · exact ⟨⟨⟨rfl, ⟨s.ppc_state.spr, rfl, fun _ _ _ => rfl⟩, fun a => rc_update_read _ _ a⟩,
      tlb_inv_of_same (tlb_same_of_untouched
        (tlb_untouched_of_fields _ _ rfl rfl rfl rfl rfl rfl rfl rfl))⟩,
      tlb_same_of_untouched (tlb_untouched_of_fields _ _ rfl rfl rfl rfl rfl rfl rfl rfl)⟩

theorem quiet_page_address_translate (la msr_pr : Nat) (fetch : Bool) (s : MMU) :
    Res.all (quiet_step s) (page_address_translate la fetch msr_pr 0 s) := by
  unfold page_address_translate
  simp only
  split_ifs
  · exact quiet_refl s
  · apply quiet_bind _ _ _ (quiet_pte_lookup _ _ _ _ s)
    intro pte s1 _
    exact quiet_pte_access _ _ _ _ _ s1

theorem quiet_dbat_loop (la ab : Nat) (s : MMU) :
    ∀ n i, Res.all (quiet_step s) (dbat_loop la 0 ab s i n) := by
  intro n
  induction n with
  | zero => intro i; exact quiet_refl s
  | succ n ih =>
    intro i
    rw [dbat_loop_step]
    split_ifs
    · exact quiet_raise_dsi _ _ s
    · exact quiet_refl s
    · exact ih (i + 1)

theorem quiet_addr_translate (la : Nat) (s : MMU) :
    Res.all (quiet_step s) (ppc_mmu_addr_translate la 0 s) := by
  unfold ppc_mmu_addr_translate
  simp only
  apply quiet_bind _ _ _ (quiet_dbat_loop _ _ s 4 0)
  intro r s1 _
  cases r with
  | some pa => exact quiet_refl s1
  | none => exact quiet_page_address_translate _ _ _ s1

theorem quiet_refill_translate (va : Nat) (s : MMU) :
    Res.all (quiet_step s) (tlb2_refill_translate va 0 s) := by
  unfold tlb2_refill_translate
  by_cases hdr : truthy (s.ppc_state.msr &&& 0x10) = true
  · rw [if_pos hdr]
    simp only
    by_cases hh : (ppc_block_address_translation BATType.Data s va 0 0).hit = true
    · rw [if_pos hh]
      split_ifs
      · exact quiet_raise_dsi _ _ s
      · exact quiet_refl s
    · rw [if_neg hh]
      exact quiet_page_address_translate _ _ _ s
  · rw [if_neg hdr]
    exact quiet_refl s

theorem quiet_set_mru (s : MMU) (m : MRU) (e : AddressMapEntry) :
    quiet_step s (s.set_mru m e) := by
  cases m <;>
    exact quiet_of_other _ _ rfl rfl rfl
      (tlb_untouched_of_fields _ _ rfl rfl rfl rfl rfl rfl rfl rfl)

theorem quiet_mru_resolve (sz addr : Nat) (m : MRU) (s s1 : MMU)
    (h : mru_resolve sz m addr s = some s1) : quiet_step s s1 := by
  unfold mru_resolve at h
  split_ifs at h
  · split at h
    · injection h with h; subst h; exact quiet_set_mru s m _
    · cases h
  · injection h with h; subst h; exact quiet_refl s

theorem quiet_read_phys_mem (sz addr : Nat) (al : Bool) (m : MRU) (s : MMU) :
    quiet_step s (read_phys_mem sz al m addr s).2 := by
  unfold read_phys_mem
  cases h : mru_resolve sz m addr s with
  | none => exact quiet_refl s
  | some s1 =>
    have h1 := quiet_mru_resolve sz addr m s s1 h
    simp only
    split_ifs <;> exact h1

/-! ## Stores to the TLB arrays -/

/-- What a store to an L2 element changes. -/
theorem set_tlb2_spec (s s' : MMU) (sel : TLBSel) (i : Nat) (e : TLBEntry)
    (h : s.set_tlb2 sel i e = some s') :
    (∀ sel' j, s'.tlb2 sel' j = if sel' = sel ∧ j = i then e else s.tlb2 sel' j) ∧
    (∀ sel', s'.tlb1 sel' = s.tlb1 sel') ∧
    s'.pCurTLB1 = s.pCurTLB1 ∧ s'.pCurTLB2 = s.pCurTLB2 ∧
    s'.mmu_exception_handler = s.mmu_exception_handler ∧
    s'.ppc_state = s.ppc_state ∧ s'.hmem = s.hmem ∧ s'.UnmappedMem = s.UnmappedMem := by
  unfold MMU.set_tlb2 at h
  split_ifs at h
  cases sel <;>
    (injection h with h; subst h
     refine ⟨?_, fun sel' => by cases sel' <;> rfl, rfl, rfl, rfl, rfl, rfl, rfl⟩
     intro sel' j
     cases sel' <;> simp [MMU.tlb2, upd])

/-- What a store to an L1 element changes. -/
theorem set_tlb1_spec (s s' : MMU) (sel : TLBSel) (i : Nat) (e : TLBEntry)
    (h : s.set_tlb1 sel i e = some s') :
    (∀ sel' j, s'.tlb1 sel' j = if sel' = sel ∧ j = i then e else s.tlb1 sel' j) ∧
    (∀ sel', s'.tlb2 sel' = s.tlb2 sel') ∧
    s'.pCurTLB1 = s.pCurTLB1 ∧ s'.pCurTLB2 = s.pCurTLB2 ∧
    s'.mmu_exception_handler = s.mmu_exception_handler ∧
    s'.ppc_state = s.ppc_state ∧ s'.hmem = s.hmem ∧ s'.UnmappedMem = s.UnmappedMem := by
  unfold MMU.set_tlb1 at h
  split_ifs at h
  cases sel <;>
    (injection h with h; subst h
     refine ⟨?_, fun sel' => by cases sel' <;> rfl, rfl, rfl, rfl, rfl, rfl, rfl⟩
     intro sel' j
     cases sel' <;> simp [MMU.tlb1, upd])

/-- A state that differs only in TLB arrays has the `arch_frame`. -/
theorem arch_frame_of_eq (s s' : MMU)
    (hh : s'.mmu_exception_handler = s.mmu_exception_handler)
    (hp : s'.ppc_state = s.ppc_state) (hm : s'.hmem = s.hmem) : arch_frame s s' :=
  ⟨hh, ⟨s.ppc_state.spr, by rw [hp], fun _ _ _ => rfl⟩, fun a => Or.inl (by rw [hm])⟩

/-- A store that changes only the LRU bits of an L2 element. -/
theorem set_tlb2_lru (s s' : MMU) (sel : TLBSel) (i v : Nat)
    (h : s.set_tlb2 sel i { s.tlb2 sel i with lru_bits := v } = some s') :
    quiet_step s s' := by
  obtain ⟨h2, h1, p1, p2, hh, hp, hm, -⟩ := set_tlb2_spec s s' sel i _ h
  have hs : tlb_same s s' := by
    refine ⟨p1, p2, h1, fun sel' j => ?_⟩
    rw [h2 sel' j]
    by_cases hc : sel' = sel ∧ j = i
    · rw [if_pos hc, hc.1, hc.2]
      exact ⟨rfl, rfl, rfl⟩
    · rw [if_neg hc]
      exact ⟨rfl, rfl, rfl⟩
  exact ⟨⟨arch_frame_of_eq s s' hh hp hm, tlb_inv_of_same hs⟩, hs⟩

theorem lru_set_quiet (s s' : MMU) (sel : TLBSel) (i v : Nat)
    (h : lru_set sel i v s = some s') : quiet_step s s' :=
  set_tlb2_lru s s' sel i v h

theorem lru_and1_quiet (s s' : MMU) (sel : TLBSel) (i : Nat)
    (h : lru_and1 sel i s = some s') : quiet_step s s' :=
  set_tlb2_lru s s' sel i _ h

theorem lru_first_pair_quiet (s s' : MMU) (sel : TLBSel) (p hi lo : Nat)
    (h : lru_first_pair sel p hi lo s = some s') : quiet_step s s' := by
  unfold lru_first_pair at h
  simp only [Option.bind_eq_some] at h
  obtain ⟨s1, h1, s2, h2, s3, h3, h4⟩ := h
  exact quiet_trans (quiet_trans (quiet_trans (lru_set_quiet _ _ _ _ _ h1)
    (lru_set_quiet _ _ _ _ _ h2)) (lru_and1_quiet _ _ _ _ h3)) (lru_and1_quiet _ _ _ _ h4)

theorem lru_second_pair_quiet (s s' : MMU) (sel : TLBSel) (p hi lo : Nat)
    (h : lru_second_pair sel p hi lo s = some s') : quiet_step s s' := by
  unfold lru_second_pair at h
  simp only [Option.bind_eq_some] at h
  obtain ⟨s1, h1, s2, h2, s3, h3, h4⟩ := h
  exact quiet_trans (quiet_trans (quiet_trans (lru_and1_quiet _ _ _ _ h1)
    (lru_and1_quiet _ _ _ _ h2)) (lru_set_quiet _ _ _ _ _ h3)) (lru_set_quiet _ _ _ _ _ h4)

/-- The replacement choice: a way of the set of the tag, chosen with only LRU
bits changed. -/
theorem tlb2_target_entry_quiet (tag : Nat) (s s' : MMU) (p : TLBPtr)
    (h : tlb2_target_entry tag s = Res.ok p s') :
    (quiet_step s s') ∧
      ∃ sel w, s.pCurTLB2 = some sel ∧ w < 4 ∧
        p = TLBPtr.tlb2 sel (((tag >>> PAGE_SIZE_BITS) &&& tlb_size_mask) * TLB2_WAYS + w) := by
  unfold tlb2_target_entry at h
  cases hc : s.pCurTLB2 with
  | none => rw [hc] at h; simp at h
  | some sel =>
    rw [hc] at h
    simp only at h
    split_ifs at h <;>
      (obtain ⟨e1, e2⟩ := ofOption_eq_ok _ _ _ _ h
       first
       | exact ⟨lru_first_pair_quiet _ _ _ _ _ _ e2, sel, 0, rfl, by norm_num, e1.symm⟩
       | exact ⟨lru_first_pair_quiet _ _ _ _ _ _ e2, sel, 1, rfl, by norm_num, e1.symm⟩
       | exact ⟨lru_second_pair_quiet _ _ _ _ _ _ e2, sel, 2, rfl, by norm_num, e1.symm⟩
       | exact ⟨lru_second_pair_quiet _ _ _ _ _ _ e2, sel, 3, rfl, by norm_num, e1.symm⟩)

/-- The L2 probe: on a hit a way of the set that holds the tag, with only LRU
bits changed; on a miss no way of the set holds the tag and nothing changed. -/
theorem lookup_secondary_tlb_quiet (va tag : Nat) (s s' : MMU) (r : Option TLBPtr)
    (h : lookup_secondary_tlb va tag s = Res.ok r s') :
    (quiet_step s s') ∧
      ∃ sel, s.pCurTLB2 = some sel ∧
        ((r = none ∧
          ∀ w, w < 4 →
            (s.tlb2 sel (((va >>> PAGE_SIZE_BITS) &&& tlb_size_mask) * TLB2_WAYS + w)).tag
              ≠ tag) ∨
        ∃ w, w < 4 ∧
          r = some (TLBPtr.tlb2 sel
            (((va >>> PAGE_SIZE_BITS) &&& tlb_size_mask) * TLB2_WAYS + w)) ∧
          (s.tlb2 sel (((va >>> PAGE_SIZE_BITS) &&& tlb_size_mask) * TLB2_WAYS + w)).tag
            = tag) := by
  unfold lookup_secondary_tlb at h
  cases hc : s.pCurTLB2 with
  | none => rw [hc] at h; simp at h
  | some sel =>
    rw [hc] at h
    simp only at h
    split_ifs at h with h0 h1 h2 h3
    · obtain ⟨e1, e2⟩ := ofOption_eq_ok _ _ _ _ h
      exact ⟨lru_first_pair_quiet _ _ _ _ _ _ e2, sel, rfl,
        Or.inr ⟨0, by norm_num, e1.symm, h0⟩⟩
    · obtain ⟨e1, e2⟩ := ofOption_eq_ok _ _ _ _ h
      exact ⟨lru_first_pair_quiet _ _ _ _ _ _ e2, sel, rfl,
        Or.inr ⟨1, by norm_num, e1.symm, h1⟩⟩
    · obtain ⟨e1, e2⟩ := ofOption_eq_ok _ _ _ _ h
      exact ⟨lru_second_pair_quiet _ _ _ _ _ _ e2, sel, rfl,
        Or.inr ⟨2, by norm_num, e1.symm, h2⟩⟩
    · obtain ⟨e1, e2⟩ := ofOption_eq_ok _ _ _ _ h
      exact ⟨lru_second_pair_quiet _ _ _ _ _ _ e2, sel, rfl,
        Or.inr ⟨3, by norm_num, e1.symm, h3⟩⟩
    · injection h with e1 e2
      subst e2
      refine ⟨quiet_refl s, sel, rfl, Or.inl ⟨e1.symm, ?_⟩⟩
      intro w hw
      interval_cases w
      · exact h0
      · exact h1
      · exact h2
      · exact h3

/-! ## The TLB invariant under refills -/

theorem testBit_0xFFFFF000 (j : Nat) :
    (0xFFFFF000 : Nat).testBit j = (decide (12 ≤ j) && decide (j - 12 < 20)) := by
  rw [show (0xFFFFF000 : Nat) = (2 ^ 20 - 1) <<< 12 by decide, Nat.testBit_shiftLeft,
    Nat.testBit_two_pow_sub_one]

/-- The TLB index of a tag is the index of the address it was taken from. -/
theorem tag_index (va : Nat) :
    ((va &&& 0xFFFFF000) >>> PAGE_SIZE_BITS) &&& tlb_size_mask
      = (va >>> PAGE_SIZE_BITS) &&& tlb_size_mask := by
  apply Nat.eq_of_testBit_eq
  intro j
  rw [show tlb_size_mask = 2 ^ 12 - 1 by decide, show PAGE_SIZE_BITS = 12 by rfl]
  simp only [Nat.testBit_and, Nat.testBit_shiftRight, testBit_0xFFFFF000,
    Nat.testBit_two_pow_sub_one]
  by_cases hj : j < 12
  · have e : 12 + j - 12 = j := by omega
    simp [hj, e, show j < 20 by omega]
  · simp [hj]

/-- A tag taken from an address is not the invalid tag. -/
theorem tag_valid (va : Nat) : va &&& 0xFFFFF000 ≠ TLB_INVALID_TAG := by
  intro h
  have h1 : (va &&& 0xFFFFF000) &&& 0xFFF = 0 := by
    rw [Nat.and_assoc, show (0xFFFFF000 : Nat) &&& 0xFFF = 0 by decide, Nat.and_zero]
  rw [h] at h1
  exact absurd h1 (by decide)

/-- The invariant after a store to an L1 element whose payload agrees with
the L2 ways of its set that hold its tag. -/
theorem tlb_inv_set_tlb1 (s s' : MMU) (sel : TLBSel) (i : Nat) (e : TLBEntry)
    (hinv : tlb_inv s) (h : s.set_tlb1 sel i e = some s')
    (hpay : ∀ w, w < TLB2_WAYS → (s.tlb2 sel (i * TLB2_WAYS + w)).tag = e.tag →
      (s.tlb2 sel (i * TLB2_WAYS + w)).payload = e.payload) :
    tlb_inv s' := by
  obtain ⟨h1, h2, p1, p2, -⟩ := set_tlb1_spec s s' sel i e h
  obtain ⟨hp, hs⟩ := hinv
  refine ⟨by rw [p1, p2, hp], ?_⟩
  intro sel' i' hi'
  obtain ⟨ha, hb⟩ := hs sel' i' hi'
  constructor
  · intro w hw hv ht
    rw [h2 sel'] at ht ⊢
    rw [h1 sel' i'] at hv ht ⊢
    by_cases hc : sel' = sel ∧ i' = i
    · rw [if_pos hc] at ht ⊢
      rw [hc.1, hc.2] at ht ⊢
      exact hpay w hw ht
    · rw [if_neg hc] at hv ht ⊢
      exact ha w hw hv ht
  · intro w1 w2 hw1 hw2 ht hv
    rw [h2 sel'] at ht hv
    exact hb w1 w2 hw1 hw2 ht hv

/-- The invariant after a store to an L2 way whose new tag is held by no way
of the set and not by the L1 entry of the set. -/
theorem tlb_inv_set_tlb2 (s s' : MMU) (sel : TLBSel) (i w0 : Nat) (e : TLBEntry)
    (hinv : tlb_inv s) (hw0 : w0 < TLB2_WAYS)
    (h : s.set_tlb2 sel (i * TLB2_WAYS + w0) e = some s')
    (hmiss : ∀ w, w < TLB2_WAYS → (s.tlb2 sel (i * TLB2_WAYS + w)).tag ≠ e.tag)
    (hl1 : (s.tlb1 sel i).tag ≠ e.tag) :
    tlb_inv s' ∧
      ∀ w, w < TLB2_WAYS → (s'.tlb2 sel (i * TLB2_WAYS + w)).tag = e.tag →
        (s'.tlb2 sel (i * TLB2_WAYS + w)).payload = e.payload := by
  obtain ⟨h2, h1, p1, p2, -⟩ := set_tlb2_spec s s' sel _ e h
  have hW : TLB2_WAYS = 4 := rfl
  have key : ∀ sel' i' w, w < TLB2_WAYS →
      s'.tlb2 sel' (i' * TLB2_WAYS + w) =
        if sel' = sel ∧ i' = i ∧ w = w0 then e else s.tlb2 sel' (i' * TLB2_WAYS + w) := by
    intro sel' i' w hw
    rw [h2]
    by_cases hc : sel' = sel ∧ i' * TLB2_WAYS + w = i * TLB2_WAYS + w0
    · have hiw : i' = i ∧ w = w0 := by
        have := hc.2
        rw [hW] at this hw hw0
        omega
      rw [if_pos hc, if_pos ⟨hc.1, hiw⟩]
    · rw [if_neg hc, if_neg]
      rintro ⟨a, b, c⟩
      exact hc ⟨a, by rw [b, c]⟩
  obtain ⟨hp, hs⟩ := hinv
  refine ⟨⟨by rw [p1, p2, hp], ?_⟩, ?_⟩
  · intro sel' i' hi'
    obtain ⟨ha, hb⟩ := hs sel' i' hi'
    constructor
    · intro w hw hv ht
      rw [h1 sel'] at hv ht ⊢
      rw [key sel' i' w hw] at ht ⊢
      by_cases hc : sel' = sel ∧ i' = i ∧ w = w0
      · rw [if_pos hc] at ht
        rw [hc.1, hc.2.1] at ht
        exact absurd ht.symm hl1
      · rw [if_neg hc] at ht ⊢
        exact ha w hw hv ht
    · intro w1 w2 hw1 hw2 ht hv
      rw [key sel' i' w1 hw1, key sel' i' w2 hw2] at ht
      rw [key sel' i' w1 hw1] at hv
      by_cases c1 : sel' = sel ∧ i' = i ∧ w1 = w0 <;>
        by_cases c2 : sel' = sel ∧ i' = i ∧ w2 = w0
      · exact c1.2.2.trans c2.2.2.symm
      · rw [if_pos c1, if_neg c2] at ht
        rw [c1.1, c1.2.1] at ht
        exact absurd ht.symm (hmiss w2 hw2)
      · rw [if_neg c1, if_pos c2] at ht
        rw [c2.1, c2.2.1] at ht
        exact absurd ht (hmiss w1 hw1)
      · rw [if_neg c1, if_neg c2] at ht
        rw [if_neg c1] at hv
        exact hb w1 w2 hw1 hw2 ht hv
  · intro w hw ht
    rw [key sel i w hw] at ht ⊢
    by_cases hc : sel = sel ∧ i = i ∧ w = w0
    · rw [if_pos hc]
    · rw [if_neg hc] at ht
      exact absurd ht (hmiss w hw)

theorem ofOption_all {α : Type} (P : MMU → Prop) (a : α) (o : Option MMU)
    (h : ∀ s', o = some s' → P s') : Res.all P (Res.ofOption a o) := by
  cases o with
  | none => trivial
  | some t => exact h t rfl

theorem ofOption_ok_or_ub {α : Type} (a : α) (o : Option MMU) :
    (∃ s', Res.ofOption a o = Res.ok a s') ∨ Res.ofOption a o = Res.ub := by
  cases o with
  | none => exact Or.inr rfl
  | some t => exact Or.inl ⟨t, rfl⟩

/-- The replacement choice returns a way or is undefined; it raises nothing. -/
theorem tlb2_target_entry_ok_or_ub (tag : Nat) (s : MMU) :
    (∃ p s', tlb2_target_entry tag s = Res.ok p s') ∨ tlb2_target_entry tag s = Res.ub := by
  unfold tlb2_target_entry
  cases hc : s.pCurTLB2 with
  | none => exact Or.inr rfl
  | some sel =>
    simp only
    split_ifs <;>
      (rcases ofOption_ok_or_ub _ _ with ⟨s', h⟩ | h
       · exact Or.inl ⟨_, s', h⟩
       · exact Or.inr h)

/-- The refill of the secondary TLB, for a tag that neither the L1 entry nor a
way of the L2 set of the current mode holds: a `read_step`, after which the
ways of the set that hold the tag have the payload of the returned entry. -/
theorem tlb2_refill_fill_inv (va pa : Nat) (s : MMU) :
    Res.all (fun s' => arch_frame s s' ∧ s'.pCurTLB1 = s.pCurTLB1 ∧
        (∀ sel, s'.tlb1 sel = s.tlb1 sel) ∧
        (tlb_inv s →
          (∀ sel, s.pCurTLB2 = some sel →
            (∀ w, w < TLB2_WAYS →
              (s.tlb2 sel (((va >>> PAGE_SIZE_BITS) &&& tlb_size_mask) * TLB2_WAYS + w)).tag
                ≠ va &&& 0xFFFFF000) ∧
            (s.tlb1 sel ((va >>> PAGE_SIZE_BITS) &&& tlb_size_mask)).tag
              ≠ va &&& 0xFFFFF000) →
          tlb_inv s'))
      (tlb2_refill_fill va pa s) ∧
    ∀ p s', tlb2_refill_fill va pa s = Res.ok p s' → tlb_inv s →
      ∀ sel, s.pCurTLB2 = some sel →
        (∀ w, w < TLB2_WAYS →
          (s.tlb2 sel (((va >>> PAGE_SIZE_BITS) &&& tlb_size_mask) * TLB2_WAYS + w)).tag
            ≠ va &&& 0xFFFFF000) →
        (s.tlb1 sel ((va >>> PAGE_SIZE_BITS) &&& tlb_size_mask)).tag ≠ va &&& 0xFFFFF000 →
        ∀ w, w < TLB2_WAYS →
          (s'.tlb2 sel (((va >>> PAGE_SIZE_BITS) &&& tlb_size_mask) * TLB2_WAYS + w)).tag
            = va &&& 0xFFFFF000 →
          (s'.tlb2 sel (((va >>> PAGE_SIZE_BITS) &&& tlb_size_mask) * TLB2_WAYS + w)).payload
            = (s'.deref p).payload := by
  unfold tlb2_refill_fill
  cases hf : s.find_range pa with
  | none =>
    simp only
    have hu : tlb_untouched s
        { s with UnmappedMem :=
            { s.UnmappedMem with
              tag := va &&& 0xFFFFF000,
              payload := TLBPayload.host_va_offset (s.UnmappedVal_addr - (va : Int)) } } :=
      tlb_untouched_of_fields _ _ rfl rfl rfl rfl rfl rfl rfl rfl
    refine ⟨⟨arch_frame_of_eq _ _ rfl rfl rfl, rfl, hu.2.2.1,
      fun hi _ => tlb_inv_of_same (tlb_same_of_untouched hu) hi⟩, ?_⟩
    intro p s' h hi sel hsel hmiss hl1 w hw ht
    injection h with h1 h2
    subst h2
    rw [hu.2.2.2 sel] at ht
    exact absurd ht (hmiss w hw)
  | some rd =>
    simp only
    cases ht : tlb2_target_entry (va &&& 0xFFFFF000) s with
    | exc t b s2 =>
      exfalso
      rcases tlb2_target_entry_ok_or_ub (va &&& 0xFFFFF000) s with ⟨p, s', h⟩ | h <;>
        (rw [ht] at h; cases h)
    | exit s2 =>
      exfalso
      rcases tlb2_target_entry_ok_or_ub (va &&& 0xFFFFF000) s with ⟨p, s', h⟩ | h <;>
        (rw [ht] at h; cases h)
    | ub => exact ⟨trivial, fun p s' h => by simp [Res.bind] at h⟩
    | ok q s2 =>
      obtain ⟨hq, sel0, w0, hsel0, hw0, hqe⟩ := tlb2_target_entry_quiet _ _ _ _ ht
      rw [tag_index] at hqe
      simp only [Res.bind]
      subst hqe
      simp only [MMU.store, MMU.deref]
      -- the entry stored
      generalize he : (if truthy (rd.type &&& RT_MMIO) = true then
          ({ s2.tlb2 sel0 (((va >>> PAGE_SIZE_BITS) &&& tlb_size_mask) * TLB2_WAYS + w0) with
              tag := va &&& 0xFFFFF000, flags := 2,
              payload := TLBPayload.reg_desc rd } : TLBEntry)
        else
          { s2.tlb2 sel0 (((va >>> PAGE_SIZE_BITS) &&& tlb_size_mask) * TLB2_WAYS + w0) with
              tag := va &&& 0xFFFFF000, flags := 1,
              payload := TLBPayload.host_va_offset
                (rd.mem_ptr - (va : Int) + ((sub32 pa rd.start : Nat) : Int)) }) = e1
      have hetag : e1.tag = va &&& 0xFFFFF000 := by
        rw [← he]; split_ifs <;> rfl
      have core : ∀ s', s2.set_tlb2 sel0
          (((va >>> PAGE_SIZE_BITS) &&& tlb_size_mask) * TLB2_WAYS + w0) e1 = some s' →
          (arch_frame s s' ∧ s'.pCurTLB1 = s.pCurTLB1 ∧ (∀ sel, s'.tlb1 sel = s.tlb1 sel)) ∧
          (tlb_inv s →
            (∀ w, w < TLB2_WAYS →
              (s.tlb2 sel0 (((va >>> PAGE_SIZE_BITS) &&& tlb_size_mask) * TLB2_WAYS + w)).tag
                ≠ va &&& 0xFFFFF000) →
            (s.tlb1 sel0 ((va >>> PAGE_SIZE_BITS) &&& tlb_size_mask)).tag
              ≠ va &&& 0xFFFFF000 →
            tlb_inv s' ∧
            ∀ w, w < TLB2_WAYS →
              (s'.tlb2 sel0
                (((va >>> PAGE_SIZE_BITS) &&& tlb_size_mask) * TLB2_WAYS + w)).tag
                = va &&& 0xFFFFF000 →
              (s'.tlb2 sel0
                (((va >>> PAGE_SIZE_BITS) &&& tlb_size_mask) * TLB2_WAYS + w)).payload
                = (s'.tlb2 sel0
                    (((va >>> PAGE_SIZE_BITS) &&& tlb_size_mask) * TLB2_WAYS + w0)).payload) := by
        intro s' hs'
        obtain ⟨g2, g1, q1, q2, gh, gp, gm, -⟩ := set_tlb2_spec _ _ _ _ _ hs'
        refine ⟨⟨arch_frame_trans hq.1.1 (arch_frame_of_eq _ _ gh gp gm),
          q1.trans hq.2.1, fun sel => (g1 sel).trans (hq.2.2.2.1 sel)⟩, ?_⟩
        intro hi hmiss hl1
        have hi2 : tlb_inv s2 := hq.1.2 hi
        have hmiss2 : ∀ w, w < TLB2_WAYS →
            (s2.tlb2 sel0
              (((va >>> PAGE_SIZE_BITS) &&& tlb_size_mask) * TLB2_WAYS + w)).tag ≠ e1.tag := by
          intro w hw
          rw [(hq.2.2.2.2 sel0 _).1, hetag]
          exact hmiss w hw
        have hl12 : (s2.tlb1 sel0 ((va >>> PAGE_SIZE_BITS) &&& tlb_size_mask)).tag
            ≠ e1.tag := by
          rw [hq.2.2.2.1 sel0, hetag]
          exact hl1
        obtain ⟨r1, r2⟩ := tlb_inv_set_tlb2 s2 s' sel0 _ w0 e1 hi2 hw0 hs' hmiss2 hl12
        refine ⟨r1, ?_⟩
        intro w hw htw
        rw [r2 w hw (by rw [htw, hetag])]
        rw [g2 sel0 _, if_pos ⟨rfl, rfl⟩]
      refine ⟨?_, ?_⟩
      · apply ofOption_all
        intro s' hs'
        obtain ⟨⟨c1, c2, c3⟩, c4⟩ := core s' hs'
        refine ⟨c1, c2, c3, ?_⟩
        intro hi hpre
        exact (c4 hi (hpre sel0 hsel0).1 (hpre sel0 hsel0).2).1
      · intro p s' h hi sel hsel hmiss hl1 w hw htw
        obtain ⟨e1', e2'⟩ := ofOption_eq_ok _ _ _ _ h
        subst e1'
        have hsel' : sel = sel0 := by
          rw [hsel0] at hsel
          exact (Option.some.inj hsel).symm
        subst hsel'
        exact (core s' e2').2 hi hmiss hl1 |>.2 w hw htw

/-! ## The read path keeps the TLB invariant -/

theorem quiet_to_read {α : Type} (s : MMU) (r : Res α) (h : Res.all (quiet_step s) r) :
    Res.all (read_step s) r :=
  Res.all_mono (fun _ ht => ht.1) r h

theorem read_of_other (s s' : MMU)
    (hh : s'.mmu_exception_handler = s.mmu_exception_handler)
    (hp : s'.ppc_state = s.ppc_state) (hm : s'.hmem = s.hmem)
    (ht : tlb_untouched s s') : read_step s s' :=
  (quiet_of_other s s' hh hp hm ht).1

/-- The L2 probe returns or is undefined; it raises nothing. -/
theorem lookup_secondary_tlb_ok_or_ub (va tag : Nat) (s : MMU) :
    (∃ r s', lookup_secondary_tlb va tag s = Res.ok r s') ∨
      lookup_secondary_tlb va tag s = Res.ub := by
  unfold lookup_secondary_tlb
  cases hc : s.pCurTLB2 with
  | none => exact Or.inr rfl
  | some sel =>
    simp only
    split_ifs <;>
      first
      | exact Or.inl ⟨_, _, rfl⟩
      | (rcases ofOption_ok_or_ub _ _ with ⟨s', h⟩ | h
         · exact Or.inl ⟨_, s', h⟩
         · exact Or.inr h)

/-- The L2 look-up with refill, after an L1 miss: a `read_step`, after which
the ways of the set that hold the tag have the payload of the returned entry. -/
theorem mmu_read_vmem_secondary_inv (va : Nat) (s : MMU)
    (hl1 : ∀ sel, s.pCurTLB1 = some sel →
      (s.tlb1 sel ((va >>> PAGE_SIZE_BITS) &&& tlb_size_mask)).tag ≠ va &&& 0xFFFFF000) :
    Res.all (fun s2 => read_step s s2 ∧ ∀ sel, s2.tlb1 sel = s.tlb1 sel)
      (mmu_read_vmem_secondary va (va &&& 0xFFFFF000) s) ∧
    ∀ p s2, mmu_read_vmem_secondary va (va &&& 0xFFFFF000) s = Res.ok p s2 → tlb_inv s →
      ∀ sel, s.pCurTLB1 = some sel → ∀ w, w < TLB2_WAYS →
        (s2.tlb2 sel (((va >>> PAGE_SIZE_BITS) &&& tlb_size_mask) * TLB2_WAYS + w)).tag
          = va &&& 0xFFFFF000 →
        (s2.tlb2 sel (((va >>> PAGE_SIZE_BITS) &&& tlb_size_mask) * TLB2_WAYS + w)).payload
          = (s2.deref p).payload := by
  unfold mmu_read_vmem_secondary
  cases hlk : lookup_secondary_tlb va (va &&& 0xFFFFF000) s with
  | ub => exact ⟨trivial, fun p s2 h => by simp [Res.bind] at h⟩
  | exc t b s1 =>
    exfalso
    rcases lookup_secondary_tlb_ok_or_ub va (va &&& 0xFFFFF000) s with ⟨r, s', h⟩ | h <;>
      (rw [hlk] at h; cases h)
  | exit s1 =>
    exfalso
    rcases lookup_secondary_tlb_ok_or_ub va (va &&& 0xFFFFF000) s with ⟨r, s', h⟩ | h <;>
      (rw [hlk] at h; cases h)
  | ok r s1 =>
    obtain ⟨hq, sel2, hsel2, hcase⟩ := lookup_secondary_tlb_quiet _ _ _ _ _ hlk
    have hib : (va >>> PAGE_SIZE_BITS) &&& tlb_size_mask < TLB_SIZE :=
      Nat.lt_succ_of_le (tlb_index_le va)
    rcases hcase with ⟨hr, hmiss⟩ | ⟨k, hk, hr, htagk⟩
    · -- L2 miss: refill
      subst hr
      simp only [Res.bind]
      unfold tlb2_refill
      have htrq := quiet_refill_translate va s1
      cases htr : tlb2_refill_translate va 0 s1 with
      | ub => exact ⟨trivial, fun p s2 h => by simp [Res.bind] at h⟩
      | exc t b s3 =>
        rw [htr] at htrq
        exact ⟨⟨read_step_trans hq.1 htrq.1,
          fun sel => by rw [htrq.2.2.2.1 sel, hq.2.2.2.1 sel]⟩,
          fun p s2 h => by simp [Res.bind] at h⟩
      | exit s3 =>
        rw [htr] at htrq
        exact ⟨⟨read_step_trans hq.1 htrq.1,
          fun sel => by rw [htrq.2.2.2.1 sel, hq.2.2.2.1 sel]⟩,
          fun p s2 h => by simp [Res.bind] at h⟩
      | ok pa s3 =>
        rw [htr] at htrq
        have hq3 : quiet_step s s3 := quiet_trans hq htrq
        obtain ⟨K1, K2⟩ := tlb2_refill_fill_inv va pa s3
        simp only [Res.bind]
        have hpre : tlb_inv s → ∀ sel, s3.pCurTLB2 = some sel →
            (∀ w, w < TLB2_WAYS →
              (s3.tlb2 sel
                (((va >>> PAGE_SIZE_BITS) &&& tlb_size_mask) * TLB2_WAYS + w)).tag
                ≠ va &&& 0xFFFFF000) ∧
            (s3.tlb1 sel ((va >>> PAGE_SIZE_BITS) &&& tlb_size_mask)).tag
              ≠ va &&& 0xFFFFF000 := by
          intro hi sel hsel
          rw [hq3.2.2.1, hsel2] at hsel
          have hse : sel = sel2 := (Option.some.inj hsel).symm
          subst hse
          constructor
          · intro w hw
            rw [(hq3.2.2.2.2 sel _).1]
            exact hmiss w (by simpa [TLB2_WAYS] using hw)
          · rw [hq3.2.2.2.1 sel]
            exact hl1 sel (by rw [hi.1, hsel2])
        constructor
        · refine Res.all_mono ?_ _ K1
          rintro s' ⟨a, -, c, d⟩
          exact ⟨⟨arch_frame_trans hq3.1.1 a, fun hi => d (hq3.1.2 hi) (hpre hi)⟩,
            fun sel => by rw [c sel, hq3.2.2.2.1 sel]⟩
        · intro p s2 h hi sel hsel w hw ht
          have hsel3 : s3.pCurTLB2 = some sel := by
            rw [hq3.2.2.1, ← hi.1, hsel]
          exact K2 p s2 h (hq3.1.2 hi) sel hsel3 (hpre hi sel hsel3).1 (hpre hi sel hsel3).2
            w hw ht
    · -- L2 hit
      subst hr
      simp only [Res.bind]
      refine ⟨⟨hq.1, hq.2.2.2.1⟩, ?_⟩
      intro p s2 h hi sel hsel w hw ht
      injection h with h1 h2
      subst h1 h2
      have hse : sel = sel2 := by
        rw [hi.1, hsel2] at hsel
        exact (Option.some.inj hsel).symm
      subst hse
      rw [(hq.2.2.2.2 sel _).1] at ht
      have hwk : w = k := by
        apply (hi.2 sel _ hib).2 w k hw (by simpa [TLB2_WAYS] using hk)
        · rw [ht, htagk]
        · rw [ht]; exact tag_valid va
      subst hwk
      rfl

/-- The refill of the primary TLB entry, or the device read. -/
theorem mmu_read_vmem_primary_inv (sz va tag : Nat) (sel1 : TLBSel) (i : Nat) (p : TLBPtr)
    (s2 : MMU) :
    Res.all (fun s' => arch_frame s2 s' ∧
        (tlb_inv s2 →
          (∀ w, w < TLB2_WAYS → (s2.tlb2 sel1 (i * TLB2_WAYS + w)).tag = tag →
            (s2.tlb2 sel1 (i * TLB2_WAYS + w)).payload = (s2.deref p).payload) →
          tlb_inv s'))
      (mmu_read_vmem_primary sz va tag sel1 i p s2) := by
  unfold mmu_read_vmem_primary
  simp only
  by_cases hf : truthy ((s2.deref p).flags &&& 1) = true
  · rw [if_pos hf]
    cases hp : (s2.deref p).payload with
    | reg_desc rd => trivial
    | host_va_offset o =>
      simp only
      apply ofOption_all
      intro s' hs'
      obtain ⟨-, -, -, -, gh, gp, gm, -⟩ := set_tlb1_spec _ _ _ _ _ hs'
      refine ⟨arch_frame_of_eq _ _ gh gp gm, fun hi hpay => ?_⟩
      apply tlb_inv_set_tlb1 s2 s' sel1 i _ hi hs'
      intro w hw ht
      exact hpay w hw ht
  · rw [if_neg hf]
    cases hp : (s2.deref p).payload with
    | host_va_offset o => trivial
    | reg_desc rd =>
      simp only
      have hu : tlb_untouched s2
          { s2 with dev_log :=
              { is_write := false, devobj := rd.devobj, region_base := rd.start,
                offset := sub32 va rd.start, value := 0, size := sz } :: s2.dev_log } :=
        tlb_untouched_of_fields _ _ rfl rfl rfl rfl rfl rfl rfl rfl
      exact ⟨arch_frame_of_eq _ _ rfl rfl rfl,
        fun hi _ => tlb_inv_of_same (tlb_same_of_untouched hu) hi⟩

/-- The TLB look-up of `mmu_read_vmem` is a `read_step`. -/
theorem read_step_lookup (sz va : Nat) (s : MMU) :
    Res.all (read_step s) (mmu_read_vmem_lookup sz va s) := by
  unfold mmu_read_vmem_lookup
  cases hc : s.pCurTLB1 with
  | none => trivial
  | some sel1 =>
    simp only
    by_cases ht : (s.tlb1 sel1 ((va >>> PAGE_SIZE_BITS) &&& tlb_size_mask)).tag
        = va &&& 0xFFFFF000
    · rw [if_pos ht]
      cases (s.tlb1 sel1 ((va >>> PAGE_SIZE_BITS) &&& tlb_size_mask)).payload with
      | host_va_offset o => exact read_step_refl s
      | reg_desc rd => trivial
    · rw [if_neg ht]
      have hl1 : ∀ sel, s.pCurTLB1 = some sel →
          (s.tlb1 sel ((va >>> PAGE_SIZE_BITS) &&& tlb_size_mask)).tag
            ≠ va &&& 0xFFFFF000 := by
        intro sel hsel
        rw [hc] at hsel
        rw [← Option.some.inj hsel]
        exact ht
      obtain ⟨L1, L2⟩ := mmu_read_vmem_secondary_inv va s hl1
      cases hsec : mmu_read_vmem_secondary va (va &&& 0xFFFFF000) s with
      | ub => trivial
      | exc t b s2 => rw [hsec] at L1; exact L1.1
      | exit s2 => rw [hsec] at L1; exact L1.1
      | ok p s2 =>
        rw [hsec] at L1
        simp only [Res.bind]
        refine Res.all_mono ?_ _ (mmu_read_vmem_primary_inv sz va _ sel1 _ p s2)
        rintro s' ⟨a, b⟩
        exact ⟨arch_frame_trans L1.1.1 a,
          fun hi => b (L1.1.2 hi) (L2 p s2 hsec hi sel1 hc)⟩

/-- The function `tlb_translate_addr` is a `read_step`. -/
theorem read_step_tlb_translate_addr (va : Nat) (s : MMU) :
    Res.all (read_step s) (tlb_translate_addr va s) := by
  unfold tlb_translate_addr
  cases hc : s.pCurTLB1 with
  | none => trivial
  | some sel1 =>
    simp only
    by_cases ht : (s.tlb1 sel1 ((va >>> PAGE_SIZE_BITS) &&& tlb_size_mask)).tag
        = va &&& 0xFFFFF000
    · rw [if_pos ht]
      cases (s.tlb1 sel1 ((va >>> PAGE_SIZE_BITS) &&& tlb_size_mask)).payload with
      | host_va_offset o =>
        show read_step s _
        exact read_of_other s _ rfl rfl rfl
          (tlb_untouched_of_fields s _ hc.symm rfl rfl rfl rfl rfl rfl rfl)
      | reg_desc rd => trivial
    · rw [if_neg ht]
      have hl1 : ∀ sel, s.pCurTLB1 = some sel →
          (s.tlb1 sel ((va >>> PAGE_SIZE_BITS) &&& tlb_size_mask)).tag
            ≠ va &&& 0xFFFFF000 := by
        intro sel hsel
        rw [hc] at hsel
        rw [← Option.some.inj hsel]
        exact ht
      obtain ⟨L1, L2⟩ := mmu_read_vmem_secondary_inv va s hl1
      cases hsec : mmu_read_vmem_secondary va (va &&& 0xFFFFF000) s with
      | ub => trivial
      | exc t b s2 => rw [hsec] at L1; exact L1.1
      | exit s2 => rw [hsec] at L1; exact L1.1
      | ok p s2 =>
        rw [hsec] at L1
        simp only [Res.bind]
        by_cases hf : truthy ((s2.deref p).flags &&& 1) = true
        · rw [if_pos hf]
          cases hp : (s2.deref p).payload with
          | reg_desc rd => trivial
          | host_va_offset o =>
            simp only
            cases hs3 : s2.set_tlb1 sel1 ((va >>> PAGE_SIZE_BITS) &&& tlb_size_mask)
                { s2.tlb1 sel1 ((va >>> PAGE_SIZE_BITS) &&& tlb_size_mask) with
                  tag := va &&& 0xFFFFF000, flags := 1,
                  payload := TLBPayload.host_va_offset o } with
            | none => trivial
            | some s3 =>
              simp only
              obtain ⟨-, -, -, -, gh, gp, gm, -⟩ := set_tlb1_spec _ _ _ _ _ hs3
              have h3 : read_step s s3 := by
                refine ⟨arch_frame_trans L1.1.1 (arch_frame_of_eq _ _ gh gp gm), fun hi => ?_⟩
                apply tlb_inv_set_tlb1 s2 s3 sel1 _ _ (L1.1.2 hi) hs3
                intro w hw htw
                have := L2 p s2 hsec hi sel1 hc w hw htw
                rw [this, hp]
              show read_step s _
              exact read_step_trans h3
                (quiet_of_other _ _ rfl rfl rfl
                  (tlb_untouched_of_fields _ _ rfl rfl rfl rfl rfl rfl rfl rfl)).1
        · rw [if_neg hf]
          cases hp : (s2.deref p).payload with
          | host_va_offset o => trivial
          | reg_desc rd =>
            show read_step s _
            exact read_step_trans L1.1 (quiet_of_other _ _ rfl rfl rfl
              (tlb_untouched_of_fields _ _ rfl rfl rfl rfl rfl rfl rfl rfl)).1

/-! ## Whole reads are `read_step`s -/

theorem read_step_u8 (va : Nat) (s : MMU) :
    Res.all (read_step s) (mmu_read_vmem_u8 va s) := by
  unfold mmu_read_vmem_u8
  apply read_step_bind _ _ _ (read_step_lookup 1 va s)
  intro l s1 _
  cases l with
  | device v => exact read_step_refl s1
  | host h => exact read_step_refl s1

theorem read_step_unaligned_loop (n : Nat) :
    ∀ (va res : Nat) (s : MMU), Res.all (read_step s) (read_unaligned_loop n va res s) := by
  induction n with
  | zero => intro va res s; exact read_step_refl s
  | succ n ih =>
    intro va res s
    unfold read_unaligned_loop
    apply read_step_bind _ _ _ (read_step_u8 va s)
    intro b s1 _
    exact ih _ _ s1

theorem read_step_unaligned (va : Nat) (host_va : Int) (size : Nat) (s : MMU) :
    Res.all (read_step s) (read_unaligned va host_va size s) := by
  unfold read_unaligned
  split_ifs
  · exact read_step_unaligned_loop _ _ _ s
  all_goals exact read_step_refl s

/-- Every call of `mmu_read_vmem` is a `read_step`. -/
theorem read_step_mmu_read_vmem (sz va : Nat) (s : MMU) :
    Res.all (read_step s) (mmu_read_vmem sz va s) := by
  unfold mmu_read_vmem
  apply read_step_bind _ _ _ (read_step_lookup sz va s)
  intro l s1 _
  cases l with
  | device v => exact read_step_refl s1
  | host h =>
    simp only
    split_ifs
    · exact read_step_unaligned _ _ _ s1
    · exact read_step_refl s1

theorem read_step_translated (addr : Nat) (s : MMU) :
    Res.all (read_step s)
      (if truthy (s.ppc_state.msr &&& 0x10) then ppc_mmu_addr_translate addr 0 s
        else Res.ok addr s) := by
  split_ifs
  · exact quiet_to_read _ _ (quiet_addr_translate addr s)
  · exact read_step_refl s

theorem read_step_mem_grab_aligned (sz addr : Nat) (s : MMU) :
    Res.all (read_step s) (mem_grab_aligned sz addr s) := by
  unfold mem_grab_aligned
  simp only
  apply read_step_bind _ _ _ (read_step_translated addr s)
  intro pa s1 _
  exact (quiet_read_phys_mem _ _ _ _ s1).1

theorem read_step_mem_grab_crosspage (n : Nat) :
    ∀ (i addr : Nat) (phys : Option Nat) (res : Nat) (s : MMU),
      Res.all (read_step s) (mem_grab_crosspage n i addr phys res s) := by
  induction n with
  | zero => intro i addr phys res s; exact read_step_refl s
  | succ n ih =>
    intro i addr phys res s
    unfold mem_grab_crosspage
    apply read_step_bind _ _ _ (read_step_tlb_translate_addr addr s)
    intro _ s0 _
    simp only
    apply read_step_bind
    · split_ifs
      · apply read_step_bind _ _ _ (quiet_to_read _ _ (quiet_addr_translate addr s0))
        intro pa s1 _
        exact read_step_refl s1
      · exact read_step_refl s0
    · intro ph s1 _
      cases ph with
      | none => trivial
      | some pa =>
        simp only
        exact Res.all_mono
          (fun t ht => read_step_trans (quiet_read_phys_mem _ _ _ _ s1).1 ht) _ (ih _ _ _ _ _)

theorem read_step_mem_grab_unaligned (addr size : Nat) (s : MMU) :
    Res.all (read_step s) (mem_grab_unaligned addr size s) := by
  unfold mem_grab_unaligned
  by_cases hc : (addr &&& 0xFFF) + size > 0x1000
  · rw [if_pos hc]
    exact read_step_mem_grab_crosspage _ _ _ _ _ s
  · rw [if_neg hc]
    simp only
    apply read_step_bind _ _ _ (read_step_translated addr s)
    intro pa s1 _
    split_ifs
    · exact (quiet_read_phys_mem _ _ _ _ s1).1
    · exact (quiet_read_phys_mem _ _ _ _ s1).1

theorem read_step_mem_grab_byte (addr : Nat) (s : MMU) :
    Res.all (read_step s) (mem_grab_byte addr s) := by
  unfold mem_grab_byte
  apply read_step_bind _ _ _ (read_step_tlb_translate_addr addr s)
  intro _ s0 _
  exact read_step_mem_grab_aligned 1 addr s0

theorem read_step_mem_grab_word (addr : Nat) (s : MMU) :
    Res.all (read_step s) (mem_grab_word addr s) := by
  unfold mem_grab_word
  apply read_step_bind _ _ _ (read_step_tlb_translate_addr addr s)
  intro _ s0 _
  split_ifs
  · apply read_step_bind _ _ _ (read_step_mem_grab_unaligned addr 2 s0)
    intro v s1 _
    exact read_step_refl s1
  · exact read_step_mem_grab_aligned 2 addr s0

theorem read_step_mem_grab_dword (addr : Nat) (s : MMU) :
    Res.all (read_step s) (mem_grab_dword addr s) := by
  unfold mem_grab_dword
  apply read_step_bind _ _ _ (read_step_tlb_translate_addr addr s)
  intro _ s0 _
  split_ifs
  · exact read_step_mem_grab_unaligned addr 4 s0
  · exact read_step_mem_grab_aligned 4 addr s0

theorem read_step_mem_grab_qword (addr : Nat) (s : MMU) :
    Res.all (read_step s) (mem_grab_qword addr s) := by
  unfold mem_grab_qword
  apply read_step_bind _ _ _ (read_step_tlb_translate_addr addr s)
  intro _ s0 _
  by_cases hc : truthy (addr &&& 7) = true
  · rw [if_pos hc]
    exact read_step_refl s0
  · rw [if_neg hc]
    simp only
    apply read_step_bind _ _ _ (read_step_translated addr s0)
    intro pa s1 _
    exact (quiet_read_phys_mem _ _ _ _ s1).1

/-! ## Steps that keep the payloads of the primary TLB -/

theorem l1_keep_refl (s : MMU) : l1_keep s s := id

theorem l1_keep_trans {a b c : MMU} (h1 : l1_keep a b) (h2 : l1_keep b c) : l1_keep a c :=
  fun h => h2 (h1 h)

theorem l1_keep_of_tlb1 {s s' : MMU} (h : ∀ sel, s'.tlb1 sel = s.tlb1 sel) : l1_keep s s' := by
  intro hh sel i hi
  rw [h sel]
  exact hh sel i hi

theorem l1_keep_of_untouched {s s' : MMU} (h : tlb_untouched s s') : l1_keep s s' :=
  l1_keep_of_tlb1 h.2.2.1

theorem l1_keep_bind {α β : Type} (s : MMU) (r : Res α) (f : α → MMU → Res β)
    (hr : Res.all (l1_keep s) r)
    (hf : ∀ a s1, r = Res.ok a s1 → Res.all (l1_keep s1) (f a s1)) :
    Res.all (l1_keep s) (r.bind f) := by
  cases r with
  | ok a s1 =>
    exact Res.all_mono (fun t ht => l1_keep_trans hr ht) _ (hf a s1 rfl)
  | exc t b s1 => exact hr
  | exit s1 => exact hr
  | ub => trivial

/-- A store of an entry with a `host_va_offset` payload keeps `l1_host`. -/
theorem l1_keep_set_tlb1 (s s' : MMU) (sel : TLBSel) (i : Nat) (e : TLBEntry) (o : Int)
    (he : e.payload = TLBPayload.host_va_offset o) (h : s.set_tlb1 sel i e = some s') :
    l1_keep s s' := by
  obtain ⟨h1, -⟩ := set_tlb1_spec s s' sel i e h
  intro hh sel' j hj
  rw [h1 sel' j]
  split_ifs
  · exact ⟨o, he⟩
  · exact hh sel' j hj

theorem l1_keep_primary (sz va tag : Nat) (sel1 : TLBSel) (i : Nat) (p : TLBPtr) (s2 : MMU) :
    Res.all (l1_keep s2) (mmu_read_vmem_primary sz va tag sel1 i p s2) := by
  unfold mmu_read_vmem_primary
  simp only
  by_cases hf : truthy ((s2.deref p).flags &&& 1) = true
  · rw [if_pos hf]
    cases hp : (s2.deref p).payload with
    | reg_desc rd => trivial
    | host_va_offset o =>
      simp only
      apply ofOption_all
      intro s' hs'
      exact l1_keep_set_tlb1 _ _ _ _ _ o rfl hs'
  · rw [if_neg hf]
    cases hp : (s2.deref p).payload with
    | host_va_offset o => trivial
    | reg_desc rd =>
      simp only
      exact l1_keep_of_untouched (tlb_untouched_of_fields _ _ rfl rfl rfl rfl rfl rfl rfl rfl)

theorem l1_keep_secondary (va : Nat) (s : MMU)
    (hl1 : ∀ sel, s.pCurTLB1 = some sel →
      (s.tlb1 sel ((va >>> PAGE_SIZE_BITS) &&& tlb_size_mask)).tag ≠ va &&& 0xFFFFF000) :
    Res.all (l1_keep s) (mmu_read_vmem_secondary va (va &&& 0xFFFFF000) s) :=
  Res.all_mono (fun _ h => l1_keep_of_tlb1 h.2) _ (mmu_read_vmem_secondary_inv va s hl1).1

theorem l1_keep_lookup (sz va : Nat) (s : MMU) :
    Res.all (l1_keep s) (mmu_read_vmem_lookup sz va s) := by
  unfold mmu_read_vmem_lookup
  cases hc : s.pCurTLB1 with
  | none => trivial
  | some sel1 =>
    simp only
    by_cases ht : (s.tlb1 sel1 ((va >>> PAGE_SIZE_BITS) &&& tlb_size_mask)).tag
        = va &&& 0xFFFFF000
    · rw [if_pos ht]
      cases (s.tlb1 sel1 ((va >>> PAGE_SIZE_BITS) &&& tlb_size_mask)).payload with
      | host_va_offset o => exact l1_keep_refl s
      | reg_desc rd => trivial
    · rw [if_neg ht]
      have hl1 : ∀ sel, s.pCurTLB1 = some sel →
          (s.tlb1 sel ((va >>> PAGE_SIZE_BITS) &&& tlb_size_mask)).tag
            ≠ va &&& 0xFFFFF000 := by
        intro sel hsel
        rw [hc] at hsel
        rw [← Option.some.inj hsel]
        exact ht
      apply l1_keep_bind _ _ _ (l1_keep_secondary va s hl1)
      intro p s2 _
      exact l1_keep_primary _ _ _ _ _ _ _

theorem l1_keep_tlb_translate_addr (va : Nat) (s : MMU) :
    Res.all (l1_keep s) (tlb_translate_addr va s) := by
  unfold tlb_translate_addr
  cases hc : s.pCurTLB1 with
  | none => trivial
  | some sel1 =>
    simp only
    by_cases ht : (s.tlb1 sel1 ((va >>> PAGE_SIZE_BITS) &&& tlb_size_mask)).tag
        = va &&& 0xFFFFF000
    · rw [if_pos ht]
      cases (s.tlb1 sel1 ((va >>> PAGE_SIZE_BITS) &&& tlb_size_mask)).payload with
      | host_va_offset o =>
        show l1_keep s _
        exact l1_keep_of_untouched
          (tlb_untouched_of_fields s _ hc.symm rfl rfl rfl rfl rfl rfl rfl)
      | reg_desc rd => trivial
    · rw [if_neg ht]
      have hl1 : ∀ sel, s.pCurTLB1 = some sel →
          (s.tlb1 sel ((va >>> PAGE_SIZE_BITS) &&& tlb_size_mask)).tag
            ≠ va &&& 0xFFFFF000 := by
        intro sel hsel
        rw [hc] at hsel
        rw [← Option.some.inj hsel]
        exact ht
      apply l1_keep_bind _ _ _ (l1_keep_secondary va s hl1)
      intro p s2 _
      by_cases hf : truthy ((s2.deref p).flags &&& 1) = true
      · rw [if_pos hf]
        cases hp : (s2.deref p).payload with
        | reg_desc rd => trivial
        | host_va_offset o =>
          simp only
          cases hs3 : s2.set_tlb1 sel1 ((va >>> PAGE_SIZE_BITS) &&& tlb_size_mask)
              { s2.tlb1 sel1 ((va >>> PAGE_SIZE_BITS) &&& tlb_size_mask) with
                tag := va &&& 0xFFFFF000, flags := 1,
                payload := TLBPayload.host_va_offset o } with
          | none => trivial
          | some s3 =>
            show l1_keep s2 _
            exact l1_keep_trans (l1_keep_set_tlb1 _ _ _ _ _ o rfl hs3)
              (l1_keep_of_untouched
                (tlb_untouched_of_fields _ _ rfl rfl rfl rfl rfl rfl rfl rfl))
      · rw [if_neg hf]
        cases hp : (s2.deref p).payload with
        | host_va_offset o => trivial
        | reg_desc rd =>
          show l1_keep s2 _
          exact l1_keep_of_untouched
            (tlb_untouched_of_fields _ _ rfl rfl rfl rfl rfl rfl rfl rfl)

theorem l1_keep_u8 (va : Nat) (s : MMU) :
    Res.all (l1_keep s) (mmu_read_vmem_u8 va s) := by
  unfold mmu_read_vmem_u8
  apply l1_keep_bind _ _ _ (l1_keep_lookup 1 va s)
  intro l s1 _
  cases l with
  | device v => exact l1_keep_refl s1
  | host h => exact l1_keep_refl s1

theorem l1_keep_unaligned_loop (n : Nat) :
    ∀ (va res : Nat) (s : MMU), Res.all (l1_keep s) (read_unaligned_loop n va res s) := by
  induction n with
  | zero => intro va res s; exact l1_keep_refl s
  | succ n ih =>
    intro va res s
    unfold read_unaligned_loop
    apply l1_keep_bind _ _ _ (l1_keep_u8 va s)
    intro b s1 _
    exact ih _ _ s1

theorem l1_keep_unaligned (va : Nat) (host_va : Int) (size : Nat) (s : MMU) :
    Res.all (l1_keep s) (read_unaligned va host_va size s) := by
  unfold read_unaligned
  split_ifs
  · exact l1_keep_unaligned_loop _ _ _ s
  all_goals exact l1_keep_refl s

theorem l1_keep_mmu_read_vmem (sz va : Nat) (s : MMU) :
    Res.all (l1_keep s) (mmu_read_vmem sz va s) := by
  unfold mmu_read_vmem
  apply l1_keep_bind _ _ _ (l1_keep_lookup sz va s)
  intro l s1 _
  cases l with
  | device v => exact l1_keep_refl s1
  | host h =>
    simp only
    split_ifs
    · exact l1_keep_unaligned _ _ _ s1
    · exact l1_keep_refl s1

/-! ## Flushes, mode changes and the initial state -/

theorem tlb_killed_refl (s : MMU) : tlb_killed s s :=
  ⟨rfl, rfl, fun _ _ => Or.inl rfl, fun _ _ => Or.inl rfl⟩

theorem tlb_killed_trans {a b c : MMU} (h1 : tlb_killed a b) (h2 : tlb_killed b c) :
    tlb_killed a c := by
  obtain ⟨p1, p2, k1, k2⟩ := h1
  obtain ⟨q1, q2, l1, l2⟩ := h2
  refine ⟨by rw [q1, p1], by rw [q2, p2], fun sel i => ?_, fun sel i => ?_⟩
  · rcases l1 sel i with h | h <;> rcases k1 sel i with g | g
    · exact Or.inl (by rw [h, g])
    · exact Or.inr (by rw [h, g])
    · exact Or.inr (by rw [h, g])
    · exact Or.inr (by rw [h, g])
  · rcases l2 sel i with h | h <;> rcases k2 sel i with g | g
    · exact Or.inl (by rw [h, g])
    · exact Or.inr (by rw [h, g])
    · exact Or.inr (by rw [h, g])
    · exact Or.inr (by rw [h, g])

theorem tlb_killed_set_tlb1 (s s' : MMU) (sel : TLBSel) (i : Nat)
    (h : s.set_tlb1 sel i { s.tlb1 sel i with tag := TLB_INVALID_TAG } = some s') :
    tlb_killed s s' := by
  obtain ⟨h1, h2, p1, p2, -⟩ := set_tlb1_spec _ _ _ _ _ h
  refine ⟨p1, p2, fun sel' j => ?_, fun sel' j => Or.inl (by rw [h2 sel'])⟩
  rw [h1 sel' j]
  split_ifs with hc
  · obtain ⟨rfl, rfl⟩ := hc
    exact Or.inr rfl
  · exact Or.inl rfl

theorem tlb_killed_set_tlb2 (s s' : MMU) (sel : TLBSel) (i : Nat)
    (h : s.set_tlb2 sel i { s.tlb2 sel i with tag := TLB_INVALID_TAG } = some s') :
    tlb_killed s s' := by
  obtain ⟨h1, h2, p1, p2, -⟩ := set_tlb2_spec _ _ _ _ _ h
  refine ⟨p1, p2, fun sel' j => Or.inl (by rw [h2 sel']), fun sel' j => ?_⟩
  rw [h1 sel' j]
  split_ifs with hc
  · obtain ⟨rfl, rfl⟩ := hc
    exact Or.inr rfl
  · exact Or.inl rfl

theorem tlb_killed_way (sel : TLBSel) (i tag : Nat) (s s' : MMU)
    (h : (if (s.tlb2 sel i).tag = tag then
        s.set_tlb2 sel i { s.tlb2 sel i with tag := TLB_INVALID_TAG }
      else some s) = some s') : tlb_killed s s' := by
  split_ifs at h
  · exact tlb_killed_set_tlb2 _ _ _ _ h
  · injection h with h; subst h; exact tlb_killed_refl s

theorem tlb_killed_flush_mode (sel : TLBSel) (ea : Nat) (s s' : MMU)
    (h : flush_tlb_mode sel ea s = some s') : tlb_killed s s' := by
  unfold flush_tlb_mode at h
  simp only [Option.bind_eq_some] at h
  obtain ⟨s1, h1, s2, h2, s3, h3, s4, h4, h5⟩ := h
  have k1 : tlb_killed s s1 := by
    split_ifs at h1
    · exact tlb_killed_set_tlb1 _ _ _ _ h1
    · injection h1 with h1; subst h1; exact tlb_killed_refl s
  exact tlb_killed_trans k1 (tlb_killed_trans (tlb_killed_way _ _ _ _ _ h2)
    (tlb_killed_trans (tlb_killed_way _ _ _ _ _ h3)
      (tlb_killed_trans (tlb_killed_way _ _ _ _ _ h4) (tlb_killed_way _ _ _ _ _ h5))))

theorem tlb_killed_flush (ea : Nat) (s s' : MMU)
    (h : flush_tlb_entry ea s = Res.ok () s') : tlb_killed s s' := by
  unfold flush_tlb_entry at h
  have h := (ofOption_eq_ok _ _ _ _ h).2
  simp only [Option.bind_eq_some] at h
  obtain ⟨s1, h1, s2, h2, h3⟩ := h
  exact tlb_killed_trans (tlb_killed_flush_mode _ _ _ _ h1)
    (tlb_killed_trans (tlb_killed_flush_mode _ _ _ _ h2) (tlb_killed_flush_mode _ _ _ _ h3))

theorem tlb_killed_tag (x y : TLBEntry)
    (h : y = x ∨ y = { x with tag := TLB_INVALID_TAG }) (hv : y.tag ≠ TLB_INVALID_TAG) :
    y = x := by
  rcases h with h | h
  · exact h
  · exact absurd (by rw [h]) hv

theorem tlb_inv_of_killed {s s' : MMU} (h : tlb_killed s s') (hi : tlb_inv s) : tlb_inv s' := by
  obtain ⟨p1, p2, k1, k2⟩ := h
  obtain ⟨hp, hs⟩ := hi
  refine ⟨by rw [p1, p2, hp], ?_⟩
  intro sel i hib
  obtain ⟨ha, hb⟩ := hs sel i hib
  constructor
  · intro w hw hv ht
    have e1 := tlb_killed_tag _ _ (k1 sel i) hv
    have e2 := tlb_killed_tag _ _ (k2 sel (i * TLB2_WAYS + w)) (by rw [ht]; exact hv)
    rw [e1] at hv ht ⊢
    rw [e2] at ht ⊢
    exact ha w hw hv ht
  · intro w1 w2 hw1 hw2 ht hv
    have e1 := tlb_killed_tag _ _ (k2 sel (i * TLB2_WAYS + w1)) hv
    have e2 := tlb_killed_tag _ _ (k2 sel (i * TLB2_WAYS + w2)) (by rw [← ht]; exact hv)
    rw [e1] at hv ht
    rw [e2] at ht
    exact hb w1 w2 hw1 hw2 ht hv

theorem l1_keep_of_killed {s s' : MMU} (h : tlb_killed s s') : l1_keep s s' := by
  intro hh sel i hi
  obtain ⟨o, ho⟩ := hh sel i hi
  rcases h.2.2.1 sel i with g | g
  · exact ⟨o, by rw [g, ho]⟩
  · exact ⟨o, by rw [g]; exact ho⟩

theorem tlb_untouched_change_mode_arrays (s : MMU) :
    (∀ sel, (mmu_change_mode s).tlb1 sel = s.tlb1 sel) ∧
      ∀ sel, (mmu_change_mode s).tlb2 sel = s.tlb2 sel := by
  unfold mmu_change_mode
  simp only
  split_ifs <;> exact ⟨fun sel => by cases sel <;> rfl, fun sel => by cases sel <;> rfl⟩

theorem change_mode_pointers (s : MMU) (h : s.pCurTLB1 = s.pCurTLB2) :
    (mmu_change_mode s).pCurTLB1 = (mmu_change_mode s).pCurTLB2 := by
  unfold mmu_change_mode
  simp only
  split_ifs <;> first | rfl | exact h

theorem tlb_inv_change_mode (s : MMU) (hi : tlb_inv s) : tlb_inv (mmu_change_mode s) := by
  obtain ⟨a1, a2⟩ := tlb_untouched_change_mode_arrays s
  refine ⟨change_mode_pointers s hi.1, ?_⟩
  intro sel i hib
  rw [a1 sel, a2 sel]
  exact hi.2 sel i hib

theorem l1_keep_change_mode (s : MMU) : l1_keep s (mmu_change_mode s) :=
  l1_keep_of_tlb1 (tlb_untouched_change_mode_arrays s).1

/-- After `ppc_mmu_init` every element of the six arrays has the invalid tag
and the payload `host_va_offset 0`. -/
theorem ppc_mmu_init_entries (s0 : MMU) :
    (∀ sel i, i < TLB_SIZE → (ppc_mmu_init s0).tlb1 sel i = tlb_init_entry) ∧
      ∀ sel i, i < TLB_SIZE * TLB2_WAYS → (ppc_mmu_init s0).tlb2 sel i = tlb_init_entry := by
  unfold ppc_mmu_init
  constructor
  · intro sel i hi
    rw [(tlb_untouched_change_mode_arrays _).1 sel]
    cases sel <;> simp [MMU.tlb1, hi]
  · intro sel i hi
    rw [(tlb_untouched_change_mode_arrays _).2 sel]
    cases sel <;> simp [MMU.tlb2, hi]

theorem tlb_inv_init (s0 : MMU) (h0 : program_start s0) : tlb_inv (ppc_mmu_init s0) := by
  obtain ⟨e1, e2⟩ := ppc_mmu_init_entries s0
  constructor
  · unfold ppc_mmu_init
    apply change_mode_pointers
    show s0.pCurTLB1 = s0.pCurTLB2
    rw [h0.1, h0.2.1]
  · intro sel i hib
    constructor
    · intro w hw hv
      rw [e1 sel i hib] at hv
      exact absurd rfl hv
    · intro w1 w2 hw1 hw2 _ hv
      have hb : i * TLB2_WAYS + w1 < TLB_SIZE * TLB2_WAYS := by
        simp only [TLB_SIZE, TLB2_WAYS] at *
        omega
      rw [e2 sel _ hb] at hv
      exact absurd rfl hv

theorem l1_host_init (s0 : MMU) : l1_host (ppc_mmu_init s0) := by
  intro sel i hi
  rw [(ppc_mmu_init_entries s0).1 sel i hi]
  exact ⟨0, rfl⟩

/-- The invariant holds in every reachable state. -/
theorem reachable_inv (s : MMU) (h : Reachable s) : tlb_inv s ∧ l1_host s := by
  induction h with
  | init s0 h0 => exact ⟨tlb_inv_init s0 h0, l1_host_init s0⟩
  | read_ok s s' sz va v _ _ hr ih =>
    have h1 := read_step_mmu_read_vmem sz va s
    have h2 := l1_keep_mmu_read_vmem sz va s
    rw [hr] at h1 h2
    exact ⟨h1.2 ih.1, h2 ih.2⟩
  | read_exc s s' sz va b t _ _ hr ih =>
    have h1 := read_step_mmu_read_vmem sz va s
    have h2 := l1_keep_mmu_read_vmem sz va s
    rw [hr] at h1 h2
    exact ⟨h1.2 ih.1, h2 ih.2⟩
  | translate_ok s s' va r _ _ hr ih =>
    have h1 := read_step_tlb_translate_addr va s
    have h2 := l1_keep_tlb_translate_addr va s
    rw [hr] at h1 h2
    exact ⟨h1.2 ih.1, h2 ih.2⟩
  | translate_exc s s' va b t _ _ hr ih =>
    have h1 := read_step_tlb_translate_addr va s
    have h2 := l1_keep_tlb_translate_addr va s
    rw [hr] at h1 h2
    exact ⟨h1.2 ih.1, h2 ih.2⟩
  | flush s s' ea _ _ hr ih =>
    have hk := tlb_killed_flush ea s s' hr
    exact ⟨tlb_inv_of_killed hk ih.1, l1_keep_of_killed hk ih.2⟩
  | mode s _ ih => exact ⟨tlb_inv_change_mode s ih.1, l1_keep_change_mode s ih.2⟩
  | other s s' _ hu ih =>
    exact ⟨tlb_inv_of_same (tlb_same_of_untouched hu) ih.1, l1_keep_of_untouched hu ih.2⟩

/-! ## Debugger reads -/

theorem read_step_dbg_dispatch (virt_addr size : Nat) (s0 : MMU) :
    Res.all (read_step s0)
      (if size = 1 then mem_grab_byte virt_addr s0
        else if size = 2 then mem_grab_word virt_addr s0
        else if size = 4 then mem_grab_dword virt_addr s0
        else if size = 8 then mem_grab_qword virt_addr s0
        else mem_grab_byte virt_addr s0) := by
  split_ifs
  · exact read_step_mem_grab_byte _ _
  · exact read_step_mem_grab_word _ _
  · exact read_step_mem_grab_dword _ _
  · exact read_step_mem_grab_qword _ _
  · exact read_step_mem_grab_byte _ _

/-- A debugger read that returns or rethrows ends in the state the read
itself ended in, with the saved values written back. -/
theorem mem_read_dbg_outcome (virt_addr size : Nat) (s s' : MMU)
    (h : (∃ v, mem_read_dbg virt_addr size s = Res.ok v s') ∨
      ∃ t b, mem_read_dbg virt_addr size s = Res.exc t b s') :
    ∃ s1, arch_frame { s with mmu_exception_handler := Handler.dbg_exception_handler } s1 ∧
      s' = dbg_restore (s.ppc_state.spr SPR.DSISR) (s.ppc_state.spr SPR.DAR) s1 := by
  have hall := read_step_dbg_dispatch virt_addr size
    { s with mmu_exception_handler := Handler.dbg_exception_handler }
  unfold mem_read_dbg at h
  simp only at h
  generalize (if size = 1 then
      mem_grab_byte virt_addr { s with mmu_exception_handler := Handler.dbg_exception_handler }
    else if size = 2 then
      mem_grab_word virt_addr { s with mmu_exception_handler := Handler.dbg_exception_handler }
    else if size = 4 then
      mem_grab_dword virt_addr { s with mmu_exception_handler := Handler.dbg_exception_handler }
    else if size = 8 then
      mem_grab_qword virt_addr { s with mmu_exception_handler := Handler.dbg_exception_handler }
    else
      mem_grab_byte virt_addr
        { s with mmu_exception_handler := Handler.dbg_exception_handler }) = r at h hall
  cases r with
  | ok v s1 =>
    refine ⟨s1, hall.1, ?_⟩
    rcases h with ⟨v', h⟩ | ⟨t, b, h⟩
    · injection h with _ h2
      exact h2.symm
    · cases h
  | exc t b s1 =>
    refine ⟨s1, hall.1, ?_⟩
    have hd : s1.mmu_exception_handler = Handler.dbg_exception_handler := hall.1.1
    simp only [if_pos hd] at h
    rcases h with ⟨v', h⟩ | ⟨t', b', h⟩
    · cases h
    · injection h with _ _ h3
      exact h3.symm
  | exit s1 =>
    rcases h with ⟨v', h⟩ | ⟨t', b', h⟩ <;> cases h
  | ub =>
    rcases h with ⟨v', h⟩ | ⟨t', b', h⟩ <;> cases h

/-- C22: when `mem_read_dbg` returns a value, or rethrows the exception of a
read that faulted, `DSISR` and `DAR` hold the values they had before the call
and the MMU exception handler is `ppc_exception_handler`, for every
`virt_addr` and `size`. -/
theorem mem_read_dbg_restores (virt_addr size : Nat) (s s' : MMU)
    (h : (∃ v, mem_read_dbg virt_addr size s = Res.ok v s') ∨
      ∃ t b, mem_read_dbg virt_addr size s = Res.exc t b s') :
    s'.ppc_state.spr SPR.DSISR = s.ppc_state.spr SPR.DSISR ∧
    s'.ppc_state.spr SPR.DAR = s.ppc_state.spr SPR.DAR ∧
    s'.mmu_exception_handler = Handler.ppc_exception_handler := by
  obtain ⟨s1, -, rfl⟩ := mem_read_dbg_outcome _ _ _ _ h
  refine ⟨?_, ?_, rfl⟩
  · simp [dbg_restore, MMU.set_spr, SPR.DSISR, SPR.DAR]
  · simp [dbg_restore, MMU.set_spr]

/-- On the sample machine the debugger read of the word at `0x2000` faults (no
page table entry) and the one at `0x1000` returns; in both end states DSISR
and DAR are as before and the handler is the normal one. -/
theorem mem_read_dbg_restores_witness :
    ((∃ t b, mem_read_dbg 0x2000 4 sample
        = Res.exc t b (Res.state sample (mem_read_dbg 0x2000 4 sample))) ∧
      (Res.state sample (mem_read_dbg 0x2000 4 sample)).ppc_state.spr SPR.DSISR
        = sample.ppc_state.spr SPR.DSISR ∧
      (Res.state sample (mem_read_dbg 0x2000 4 sample)).ppc_state.spr SPR.DAR
        = sample.ppc_state.spr SPR.DAR ∧
      (Res.state sample (mem_read_dbg 0x2000 4 sample)).mmu_exception_handler
        = Handler.ppc_exception_handler) ∧
    ((∃ v, mem_read_dbg 0x1000 4 sample
        = Res.ok v (Res.state sample (mem_read_dbg 0x1000 4 sample))) ∧
      (Res.state sample (mem_read_dbg 0x1000 4 sample)).ppc_state.spr SPR.DSISR
        = sample.ppc_state.spr SPR.DSISR ∧
      (Res.state sample (mem_read_dbg 0x1000 4 sample)).ppc_state.spr SPR.DAR
        = sample.ppc_state.spr SPR.DAR ∧
      (Res.state sample (mem_read_dbg 0x1000 4 sample)).mmu_exception_handler
        = Handler.ppc_exception_handler) :=
  ⟨⟨⟨_, _, rfl⟩, mem_read_dbg_restores 0x2000 4 sample _ (Or.inr ⟨_, _, rfl⟩)⟩,
    ⟨⟨_, rfl⟩, mem_read_dbg_restores 0x1000 4 sample _ (Or.inl ⟨_, rfl⟩)⟩⟩

/-- C28: in every state reachable from `ppc_mmu_init` through
`mmu_read_vmem`, `tlb_translate_addr`, `flush_tlb_entry` and
`mmu_change_mode`, for each MMU mode `sel` and each set index `i`: if the L1
entry and way `w` of the L2 set hold the same valid tag, they hold the same
payload, and it is a `host_va_offset`. -/
theorem l1_l2_same_payload (s : MMU) (h : Reachable s) (sel : TLBSel) (i w : Nat)
    (hi : i < TLB_SIZE) (hw : w < TLB2_WAYS)
    (hv : (s.tlb1 sel i).tag ≠ TLB_INVALID_TAG)
    (ht : (s.tlb2 sel (i * TLB2_WAYS + w)).tag = (s.tlb1 sel i).tag) :
    ∃ o, (s.tlb1 sel i).payload = TLBPayload.host_va_offset o ∧
      (s.tlb2 sel (i * TLB2_WAYS + w)).payload = TLBPayload.host_va_offset o := by
  obtain ⟨hinv, hhost⟩ := reachable_inv s h
  obtain ⟨o, ho⟩ := hhost sel i hi
  exact ⟨o, ho, by rw [(hinv.2 sel i hi).1 w hw hv ht, ho]⟩

/-- After `ppc_mmu_init` and one byte read at address 0 in real-address mode,
the L1 entry of set 0 and way 0 of the L2 set hold the tag 0. -/
theorem l1_l2_same_payload_witness :
    Reachable (after_reads [0x00000000]) ∧
    ((after_reads [0x00000000]).tlb1 TLBSel.mode1 0).tag = 0 ∧
    ((after_reads [0x00000000]).tlb2 TLBSel.mode1 (0 * TLB2_WAYS + 0)).tag = 0 ∧
    ∃ o, ((after_reads [0x00000000]).tlb1 TLBSel.mode1 0).payload
        = TLBPayload.host_va_offset o ∧
      ((after_reads [0x00000000]).tlb2 TLBSel.mode1 (0 * TLB2_WAYS + 0)).payload
        = TLBPayload.host_va_offset o :=
  ⟨Reachable.read_ok _ _ 1 _ _ (Reachable.init sample_big_start ⟨rfl, rfl, rfl⟩)
      (by decide) after_reads_step1,
    rfl, rfl,
    l1_l2_same_payload (after_reads [0x00000000])
      (Reachable.read_ok _ _ 1 _ _ (Reachable.init sample_big_start ⟨rfl, rfl, rfl⟩)
        (by decide) after_reads_step1)
      TLBSel.mode1 0 0 (by decide) (by decide) (by decide) rfl⟩

/-! ## Reads of unmapped addresses -/

/-- C39 at the failing input: the address `0x80000000` of the real-mode sample
machine lies in no range; `read_phys_mem<T>` returns 0 for the sizes 1, 2 and
4 and 1 for the size 8, the value of `(-1ULL ? sizeof(T) == 8 : -1UL)`, and
not the all-ones value of `T`. -/
theorem read_unmapped_not_all_ones :
    sample_real.find_range 0x80000000 = none ∧
    (read_phys_mem 1 true MRU.last_read_area 0x80000000 sample_real).1 = 0 ∧
    (read_phys_mem 2 true MRU.last_read_area 0x80000000 sample_real).1 = 0 ∧
    (read_phys_mem 4 true MRU.last_read_area 0x80000000 sample_real).1 = 0 ∧
    (read_phys_mem 8 true MRU.last_read_area 0x80000000 sample_real).1 = 1 :=
  ⟨by decide, rfl, rfl, rfl, rfl⟩

/-- C38 at the failing input: in real-address mode the address `0x80000000`
lies in no range; `tlb2_refill` returns the entry `UnmappedMem`, whose flags
are 0 (neither 1 nor 2) and whose payload is a `host_va_offset`; the read
`mmu_read_vmem<uint32_t>(0x80000000)` takes the device branch on that entry
and reads its `reg_desc` (undefined behaviour). -/
theorem unmapped_entry_device_branch :
    sample_real.find_range 0x80000000 = none ∧
    (∃ s', tlb2_refill 0x80000000 0 sample_real = Res.ok TLBPtr.UnmappedMem s' ∧
      (s'.deref TLBPtr.UnmappedMem).flags = 0 ∧
      (s'.deref TLBPtr.UnmappedMem).payload
        = TLBPayload.host_va_offset (0x7F000000 - 0x80000000)) ∧
    mmu_read_vmem 4 0x80000000 sample_real = Res.ub :=
  ⟨by decide, ⟨_, rfl, rfl, rfl⟩, rfl⟩

/-! ## DMA -/

/-- C40 at the failing input: the address map of the real-mode sample machine
has RAM at `0 .. 0x00FFFFFF` and nothing at `0x01000000`;
`mmu_get_dma_mem(0x00FFFFF0, 0x100)` returns the host location of
`0x00FFFFF0` although the interval runs to `0x010000EF`. -/
theorem dma_interval_not_checked :
    sample_real.find_range 0x00FFFFF0 = some sample_ram ∧
    sample_ram.end_ = 0x00FFFFFF ∧
    sample_real.find_range 0x01000000 = none ∧
    ∃ s', mmu_get_dma_mem 0x00FFFFF0 0x100 sample_real = Res.ok 0x70FFFFF0 s' :=
  ⟨by decide, rfl, by decide, _, rfl⟩

/-! ## LRU bits and the replacement way -/

theorem after_reads_step7 :
    mmu_read_vmem 1 0x03000000 sample_lru_state = Res.ok 0 sample_evict_state := rfl

/-- C35 at the failing input: after `ppc_mmu_init` and byte reads in
real-address mode at `0x00000000`, `0x01000000`, `0x02000000`, `0x03000000`
(refills of the ways 0 to 3 of L2 set 0), `0x01000000`, `0x00000000` and
`0x03000000` (hits in the ways 1, 0 and 3), all four ways are valid, their
`lru_bits` are 3, 2, 1, 1, so the pair (2,3) holds (1,1), and
`tlb2_target_entry` selects way 3, which holds the page read last. -/
theorem replacement_evicts_most_recent :
    Reachable sample_evict_state ∧
    (sample_evict_state.mode1_tlb2 0).tag = 0x00000000 ∧
    (sample_evict_state.mode1_tlb2 1).tag = 0x01000000 ∧
    (sample_evict_state.mode1_tlb2 2).tag = 0x02000000 ∧
    (sample_evict_state.mode1_tlb2 3).tag = 0x03000000 ∧
    (sample_evict_state.mode1_tlb2 0).lru_bits = 3 ∧
    (sample_evict_state.mode1_tlb2 1).lru_bits = 2 ∧
    (sample_evict_state.mode1_tlb2 2).lru_bits = 1 ∧
    (sample_evict_state.mode1_tlb2 3).lru_bits = 1 ∧
    ∃ s', tlb2_target_entry 0x04000000 sample_evict_state
      = Res.ok (TLBPtr.tlb2 TLBSel.mode1 3) s' := by
  have h0 : Reachable (after_reads []) := Reachable.init sample_big_start ⟨rfl, rfl, rfl⟩
  have h1 := Reachable.read_ok _ _ 1 _ _ h0 (by norm_num) after_reads_step1
  have h2 := Reachable.read_ok _ _ 1 _ _ h1 (by norm_num) after_reads_step2
  have h3 := Reachable.read_ok _ _ 1 _ _ h2 (by norm_num) after_reads_step3
  have h4 := Reachable.read_ok _ _ 1 _ _ h3 (by norm_num) after_reads_step4
  have h5 := Reachable.read_ok _ _ 1 _ _ h4 (by norm_num) after_reads_step5
  have h6 := Reachable.read_ok _ _ 1 _ _ h5 (by norm_num) after_reads_step6
  have h7 := Reachable.read_ok _ _ 1 _ _ h6 (by norm_num) after_reads_step7
  exact ⟨h7, rfl, rfl, rfl, rfl, rfl, rfl, rfl, rfl, _, rfl⟩

/-! ## Bits of BAT entries -/

theorem testBit_not32 (x i : Nat) :
    (not32 x).testBit i = (decide (i < 32) && !x.testBit i) := by
  unfold not32
  have h : x % 2 ^ 32 < 2 ^ 32 := Nat.mod_lt _ (by norm_num)
  have e : 0xFFFFFFFF - x % 2 ^ 32 = 2 ^ 32 - (x % 2 ^ 32 + 1) := by omega
  rw [e, Nat.testBit_two_pow_sub_succ h, Nat.testBit_mod_two_pow]
  by_cases hi : i < 32 <;> simp [hi]

theorem testBit_0x1FFFF (j : Nat) : (0x1FFFF : Nat).testBit j = decide (j < 17) := by
  rw [show (0x1FFFF : Nat) = 2 ^ 17 - 1 by norm_num, Nat.testBit_two_pow_sub_one]

/-- The mask `~((bl << 17) | 0x1FFFF)` has its low 17 bits clear. -/
theorem hi_mask_low (bl : Nat) : not32 ((bl <<< 17) ||| 0x1FFFF) &&& 0x1FFFF = 0 := by
  apply Nat.eq_of_testBit_eq
  intro i
  simp only [Nat.testBit_and, testBit_not32, Nat.testBit_or, testBit_0x1FFFF,
    Nat.zero_testBit]
  by_cases h : i < 17 <;> simp [h]

theorem and_not32_self (u m : Nat) : (u &&& m) &&& not32 m = 0 := by
  apply Nat.eq_of_testBit_eq
  intro i
  simp only [Nat.testBit_and, testBit_not32, Nat.zero_testBit]
  cases m.testBit i <;> simp

/-- The translation of a block whose mask has the low 17 bits clear and whose
`phys_hi` lies under the mask. -/
theorem bat_phys_bits (phys_hi hi_mask la : Nat)
    (hm : hi_mask &&& 0x1FFFF = 0) (hp : phys_hi &&& not32 hi_mask = 0) :
    (phys_hi ||| (la &&& not32 hi_mask)) &&& 0x1FFFF = la &&& 0x1FFFF ∧
    phys_hi ||| (la &&& not32 hi_mask) = phys_hi + (la &&& not32 hi_mask) := by
  constructor
  · apply Nat.eq_of_testBit_eq
    intro i
    have h1 := congrArg (fun x => x.testBit i) hm
    have h2 := congrArg (fun x => x.testBit i) hp
    simp only [Nat.testBit_and, testBit_not32, testBit_0x1FFFF, Nat.zero_testBit] at h1 h2
    simp only [Nat.testBit_and, Nat.testBit_or, testBit_not32, testBit_0x1FFFF]
    by_cases h : i < 17
    · have h32 : i < 32 := by omega
      simp only [h, h32, decide_True, Bool.and_true, Bool.true_and] at h1 h2 ⊢
      rw [h1] at h2 ⊢
      simp only [Bool.not_false, Bool.and_true] at h2 ⊢
      rw [h2]
      simp
    · simp [h]
  · symm
    apply add_eq_or_of_and_eq_zero
    apply Nat.eq_of_testBit_eq
    intro i
    have h2 := congrArg (fun x => x.testBit i) hp
    simp only [Nat.testBit_and, testBit_not32, Nat.zero_testBit] at h2
    simp only [Nat.testBit_and, testBit_not32, Nat.zero_testBit]
    rw [← Bool.and_assoc, Bool.and_comm (phys_hi.testBit i), Bool.and_assoc, h2]
    simp

/-- The three mask facts of an entry computed by `ibat_update` / `dbat_update`. -/
theorem bat_entry_of_pair_masks (upper lower : Nat) :
    (bat_entry_of_pair upper lower).hi_mask &&& 0x1FFFF = 0 ∧
    (bat_entry_of_pair upper lower).bepi &&& not32 (bat_entry_of_pair upper lower).hi_mask = 0 ∧
    (bat_entry_of_pair upper lower).phys_hi
      &&& not32 (bat_entry_of_pair upper lower).hi_mask = 0 :=
  ⟨hi_mask_low _, and_not32_self _ _, and_not32_self _ _⟩

/-- The entries of the array after `ibat_update`: the old ones, or one
computed by `bat_entry_of_pair`. -/
theorem ibat_update_entries (bat_reg : Nat) (s s' : MMU)
    (h : ibat_update bat_reg s = Res.ok () s') (k : Nat) :
    s'.ibat_array k = s.ibat_array k ∨
      ∃ u l, s'.ibat_array k = bat_entry_of_pair u l := by
  unfold ibat_update at h
  simp only at h
  split_ifs at h with h1 h2
  · injection h with _ h; subst h
    simp only
    by_cases hk : k = sub32 bat_reg 528 >>> 1
    · rw [if_pos hk]; exact Or.inr ⟨_, _, rfl⟩
    · rw [if_neg hk]; exact Or.inl rfl
  · injection h with _ h; subst h; exact Or.inl rfl

theorem dbat_update_entries (bat_reg : Nat) (s s' : MMU)
    (h : dbat_update bat_reg s = Res.ok () s') (k : Nat) :
    s'.dbat_array k = s.dbat_array k ∨
      ∃ u l, s'.dbat_array k = bat_entry_of_pair u l := by
  unfold dbat_update at h
  simp only at h
  split_ifs at h with h1 h2
  · injection h with _ h; subst h
    simp only
    by_cases hk : k = sub32 bat_reg 536 >>> 1
    · rw [if_pos hk]; exact Or.inr ⟨_, _, rfl⟩
    · rw [if_neg hk]; exact Or.inl rfl
  · injection h with _ h; subst h; exact Or.inl rfl

/-- A hit of the BAT scan is the hit of the first entry of the array that
admits the address. -/
theorem bat_scan_hit (arr : Nat → PPC_BAT_entry) (ab la : Nat) (r : BATResult)
    (hr : r.hit = false) (hh : (bat_scan arr ab la r 0 4).hit = true) :
    ∃ i, i < 4 ∧ bat_match (arr i) ab la ∧ (∀ j, j < i → ¬ bat_match (arr j) ab la) ∧
      (bat_scan arr ab la r 0 4).phys = (arr i).phys_hi ||| (la &&& not32 (arr i).hi_mask) := by
  rcases bat_first_or_none arr ab la with ⟨i, hi, hm, hfirst⟩ | hnone
  · refine ⟨i, hi, hm, hfirst, ?_⟩
    rw [bat_scan_first arr ab la r 4 0 i hi (by simpa using hm) (by simpa using hfirst)]
    simp
  · rw [bat_scan_none arr ab la r 4 0 (by simpa using hnone), hr] at hh
    cases hh

/-- C37: every entry that `ibat_update` / `dbat_update` write is computed by
`bat_entry_of_pair`; such an entry has `hi_mask & 0x1FFFF = 0`,
`bepi & ~hi_mask = 0` and `phys_hi & ~hi_mask = 0`, for all values of the two
registers; so for every `la` the address `phys_hi | (la & ~hi_mask)` has the
low 17 bits of `la` and equals `phys_hi + (la & ~hi_mask)`.  A hit of
`ppc_block_address_translation` is the hit of the first entry that admits
`la`, and when that one entry has the two mask properties the translated
address has the low 17 bits of `la` and is that sum; nothing is asked of the
other entries of the arrays. -/
theorem bat_entry_masks (upper lower la : Nat) :
    ((bat_entry_of_pair upper lower).hi_mask &&& 0x1FFFF = 0 ∧
      (bat_entry_of_pair upper lower).bepi
        &&& not32 (bat_entry_of_pair upper lower).hi_mask = 0 ∧
      (bat_entry_of_pair upper lower).phys_hi
        &&& not32 (bat_entry_of_pair upper lower).hi_mask = 0) ∧
    ((bat_entry_of_pair upper lower).phys_hi
        ||| (la &&& not32 (bat_entry_of_pair upper lower).hi_mask)) &&& 0x1FFFF
      = la &&& 0x1FFFF ∧
    ((bat_entry_of_pair upper lower).phys_hi
        ||| (la &&& not32 (bat_entry_of_pair upper lower).hi_mask))
      = (bat_entry_of_pair upper lower).phys_hi
        + (la &&& not32 (bat_entry_of_pair upper lower).hi_mask) ∧
    (∀ (bat_reg : Nat) (s s' : MMU), ibat_update bat_reg s = Res.ok () s' →
      ∀ k, s'.ibat_array k = s.ibat_array k ∨
        ∃ u l, s'.ibat_array k = bat_entry_of_pair u l) ∧
    (∀ (bat_reg : Nat) (s s' : MMU), dbat_update bat_reg s = Res.ok () s' →
      ∀ k, s'.dbat_array k = s.dbat_array k ∨
        ∃ u l, s'.dbat_array k = bat_entry_of_pair u l) ∧
    (∀ (type : BATType) (s : MMU) (prot0 pa0 : Nat),
      (ppc_block_address_translation type s la prot0 pa0).hit = true →
      ∃ i, i < 4 ∧
        bat_match ((if type = BATType.Instruction then s.ibat_array else s.dbat_array) i)
          (access_bits_of (msr_pr_of s.ppc_state.msr)) la ∧
        (∀ j, j < i →
          ¬ bat_match ((if type = BATType.Instruction then s.ibat_array else s.dbat_array) j)
            (access_bits_of (msr_pr_of s.ppc_state.msr)) la) ∧
        (ppc_block_address_translation type s la prot0 pa0).phys =
          ((if type = BATType.Instruction then s.ibat_array else s.dbat_array) i).phys_hi |||
            (la &&& not32
              ((if type = BATType.Instruction then s.ibat_array else s.dbat_array) i).hi_mask) ∧
        (((if type = BATType.Instruction then s.ibat_array else s.dbat_array) i).hi_mask
            &&& 0x1FFFF = 0 →
          ((if type = BATType.Instruction then s.ibat_array else s.dbat_array) i).phys_hi
            &&& not32
              ((if type = BATType.Instruction then s.ibat_array else s.dbat_array) i).hi_mask
            = 0 →
          (ppc_block_address_translation type s la prot0 pa0).phys &&& 0x1FFFF
              = la &&& 0x1FFFF ∧
            (ppc_block_address_translation type s la prot0 pa0).phys =
              ((if type = BATType.Instruction then s.ibat_array else s.dbat_array) i).phys_hi +
                (la &&& not32
                  ((if type = BATType.Instruction then s.ibat_array
                    else s.dbat_array) i).hi_mask))) := by
  obtain ⟨m1, m2, m3⟩ := bat_entry_of_pair_masks upper lower
  obtain ⟨b1, b2⟩ := bat_phys_bits _ _ la m1 m3
  refine ⟨⟨m1, m2, m3⟩, b1, b2, ibat_update_entries, dbat_update_entries, ?_⟩
  intro type s prot0 pa0 hh
  unfold ppc_block_address_translation at hh ⊢
  simp only at hh ⊢
  obtain ⟨i, hi, hm, hfirst, hp⟩ := bat_scan_hit _ _ la _ rfl hh
  refine ⟨i, hi, hm, hfirst, hp, ?_⟩
  intro n1 n3
  rw [hp]
  exact bat_phys_bits _ _ la n1 n3

/-- C37 on the sample machine with the BAT registers loaded: `dbat_update(537)`
writes DBAT0 from the pair `0x80001FFF`, `0x10000002`, the other three entries
of `dbat_array` were never written, and the translation of `0x81234567` hits
DBAT0 and gives `0x11234567`, which has the low 17 bits of the address. -/
theorem bat_entry_masks_witness :
    dbat_update 537 sample_batregs
      = Res.ok () (Res.state sample_batregs (dbat_update 537 sample_batregs)) ∧
    (Res.state sample_batregs (dbat_update 537 sample_batregs)).dbat_array 1 = empty_bat ∧
    (ppc_block_address_translation BATType.Data
      (Res.state sample_batregs (dbat_update 537 sample_batregs)) 0x81234567 0 0).phys
        = 0x11234567 ∧
    (ppc_block_address_translation BATType.Data
      (Res.state sample_batregs (dbat_update 537 sample_batregs)) 0x81234567 0 0).phys
        &&& 0x1FFFF = 0x81234567 &&& 0x1FFFF := by
  refine ⟨rfl, rfl, by decide, ?_⟩
  obtain ⟨i, hi, hm, -, -, hwf⟩ :=
    (bat_entry_masks 0x80001FFF 0x10000002 0x81234567).2.2.2.2.2 BATType.Data
      (Res.state sample_batregs (dbat_update 537 sample_batregs)) 0 0 (by decide)
  have h0 : i = 0 := by
    interval_cases i
    · rfl
    · exact absurd hm (by decide)
    · exact absurd hm (by decide)
    · exact absurd hm (by decide)
  subst h0
  exact (hwf (by decide) (by decide)).1

/-! ## The two data translations -/

/-- C34: with `MSR[DR] = 1`, for every address, access kind and state, the
translation of `tlb2_refill` (`ppc_block_address_translation<Data>`, then
`page_address_translate` on a BAT miss) ends as `ppc_mmu_addr_translate`
does: with the same physical address and state, or with the same exception
raised in the same state (the same DSISR and DAR), or with the same exit. -/
theorem refill_translate_eq (la is_write : Nat) (s : MMU)
    (hdr : truthy (s.ppc_state.msr &&& 0x10) = true) :
    tlb2_refill_translate la is_write s = ppc_mmu_addr_translate la is_write s := by
  unfold tlb2_refill_translate ppc_mmu_addr_translate ppc_block_address_translation
  rw [if_pos hdr]
  simp only [show (BATType.Data = BATType.Instruction) = False by simp, if_false]
  rcases bat_first_or_none s.dbat_array (access_bits_of (msr_pr_of s.ppc_state.msr)) la
    with ⟨i, hi, hm, hfirst⟩ | hnone
  · rw [bat_scan_first s.dbat_array _ la _ 4 0 i hi (by simpa using hm)
        (by simpa using hfirst),
      dbat_loop_first la is_write _ s 4 0 i hi (by simpa using hm) (by simpa using hfirst)]
    simp only [Nat.zero_add, if_true]
    by_cases hc : (s.dbat_array i).prot = 0 ∨
        ((s.dbat_array i).prot &&& 1 ≠ 0 ∧ is_write ≠ 0)
    · rw [if_pos hc, if_pos ((dbat_cond _ _).2 hc)]
      rfl
    · rw [if_neg hc, if_neg (fun h => hc ((dbat_cond _ _).1 h))]
      rfl
  · rw [bat_scan_none s.dbat_array _ la _ 4 0 (by simpa using hnone),
      dbat_loop_none la is_write _ s 4 0 (by simpa using hnone)]
    rfl

/-- C34 on the sample machine (`MSR[DR] = 1`): the address `0x1000` goes
through the page table, `0x40000000` through DBAT0, and the store to
`0x40000000` raises DSI on both paths. -/
theorem refill_translate_eq_witness :
    truthy (sample.ppc_state.msr &&& 0x10) = true ∧
    tlb2_refill_translate 0x1000 0 sample = ppc_mmu_addr_translate 0x1000 0 sample ∧
    tlb2_refill_translate 0x40000000 1 sample
      = ppc_mmu_addr_translate 0x40000000 1 sample ∧
    (∃ s', ppc_mmu_addr_translate 0x40000000 1 sample = Res.exc Except_Type.EXC_DSI 0 s') :=
  ⟨by decide, refill_translate_eq 0x1000 0 sample (by decide),
    refill_translate_eq 0x40000000 1 sample (by decide), _, rfl⟩

/-! ## Faults of the page walk -/

theorem calc_pteg_addr_ne_exc (hash : Nat) (s s' : MMU) (t : Except_Type) (b : Nat) :
    calc_pteg_addr hash s ≠ Res.exc t b s' := by
  unfold calc_pteg_addr
  simp only
  split_ifs
  · simp
  · cases s.find_range (pteg_phys (s.ppc_state.spr SPR.SDR1) hash) with
    | none => simp
    | some e =>
      simp only
      split_ifs <;> simp

theorem calc_pteg_addr_hmem (hash : Nat) (s s1 : MMU) (p : Int)
    (h : calc_pteg_addr hash s = Res.ok p s1) : s1.hmem = s.hmem := by
  rw [calc_pteg_addr_frame hash s s1 p h]

theorem raise_dsi_hmem {α : Type} (d a : Nat) (s s' : MMU) (t : Except_Type) (b : Nat)
    (h : (raise_dsi d a s : Res α) = Res.exc t b s') : s'.hmem = s.hmem := by
  simp only [raise_dsi, mmu_exception_handler_call] at h
  injection h with _ _ h3
  rw [← h3]
  rfl

theorem handler_call_hmem {α : Type} (t0 : Except_Type) (b0 : Nat) (s s' : MMU)
    (t : Except_Type) (b : Nat)
    (h : (mmu_exception_handler_call t0 b0 s : Res α) = Res.exc t b s') :
    s'.hmem = s.hmem := by
  simp only [mmu_exception_handler_call] at h
  injection h with _ _ h3
  rw [← h3]

/-- An exception of the PTE search leaves host memory as it is. -/
theorem pte_lookup_exc_hmem (la is_write sr_val : Nat) (fetch : Bool) (s s' : MMU)
    (t : Except_Type) (b : Nat)
    (h : pte_lookup la fetch is_write sr_val s = Res.exc t b s') : s'.hmem = s.hmem := by
  unfold pte_lookup at h
  by_cases hc : (truthy (sr_val &&& 0x10000000) && fetch) = true
  · rw [if_pos hc] at h
    exact handler_call_hmem _ _ _ _ _ _ h
  · rw [if_neg hc] at h
    simp only at h
    cases h1 : calc_pteg_addr ((sr_val &&& 0x7FFFF) ^^^ ((la >>> 12) &&& 0xFFFF)) s with
    | ub => rw [h1] at h; cases h
    | exit s1 => rw [h1] at h; cases h
    | exc t1 b1 s1 => exact absurd h1 (calc_pteg_addr_ne_exc _ _ _ _ _)
    | ok p1 s1 =>
      rw [h1] at h
      simp only [Res.bind] at h
      have hm1 := calc_pteg_addr_hmem _ _ _ _ h1
      cases hs1 : search_pteg s1.hmem p1 (sr_val &&& 0x0FFFFFF) ((la >>> 12) &&& 0xFFFF) 0 with
      | some pte => rw [hs1] at h; cases h
      | none =>
        rw [hs1] at h
        simp only at h
        cases h2 : calc_pteg_addr
            (not32 ((sr_val &&& 0x7FFFF) ^^^ ((la >>> 12) &&& 0xFFFF))) s1 with
        | ub => rw [h2] at h; cases h
        | exit s2 => rw [h2] at h; cases h
        | exc t1 b1 s2 => exact absurd h2 (calc_pteg_addr_ne_exc _ _ _ _ _)
        | ok p2 s2 =>
          rw [h2] at h
          simp only [Res.bind] at h
          have hm2 := calc_pteg_addr_hmem _ _ _ _ h2
          cases hs2 : search_pteg s2.hmem p2 (sr_val &&& 0x0FFFFFF)
              ((la >>> 12) &&& 0xFFFF) 1 with
          | some pte => rw [hs2] at h; cases h
          | none =>
            rw [hs2] at h
            simp only at h
            cases fetch with
            | true =>
              simp only [if_true] at h
              rw [handler_call_hmem _ _ _ _ _ _ h, hm2, hm1]
            | false =>
              simp only [Bool.false_eq_true, if_false] at h
              rw [raise_dsi_hmem _ _ _ _ _ _ h, hm2, hm1]

/-- C33: whenever `page_address_translate` ends by raising an exception (ISI
or DSI: no-execute segment, no PTE in either PTEG, protection violation),
host memory is what it was before the call, so no R or C bit was changed. -/
theorem translate_fault_keeps_memory (la msr_pr is_write : Nat) (is_instr_fetch : Bool)
    (s s' : MMU) (t : Except_Type) (b : Nat)
    (h : page_address_translate la is_instr_fetch msr_pr is_write s = Res.exc t b s') :
    s'.hmem = s.hmem := by
  unfold page_address_translate at h
  simp only at h
  by_cases hT : truthy (s.ppc_state.sr ((la >>> 28) &&& 0x0F) &&& 0x80000000) = true
  · rw [if_pos hT] at h
    cases h
  · rw [if_neg hT] at h
    cases hl : pte_lookup la is_instr_fetch is_write
        (s.ppc_state.sr ((la >>> 28) &&& 0x0F)) s with
    | ub => rw [hl] at h; cases h
    | exit s1 => rw [hl] at h; cases h
    | exc t1 b1 s1 =>
      rw [hl] at h
      simp only [Res.bind] at h
      injection h with _ _ h3
      rw [← h3]
      exact pte_lookup_exc_hmem _ _ _ _ _ _ _ _ hl
    | ok pte s1 =>
      rw [hl] at h
      simp only [Res.bind] at h
      have hm1 : s1.hmem = s.hmem := by rw [pte_lookup_frame _ _ _ _ _ _ _ hl]
      unfold pte_access at h
      simp only at h
      by_cases hv : pte_violation
          (pte_key (s.ppc_state.sr ((la >>> 28) &&& 0x0F)) msr_pr)
          (READ_DWORD_BE s1.hmem (pte + 4) &&& 3) is_write = true
      · rw [if_pos hv] at h
        cases is_instr_fetch with
        | true =>
          simp only [if_true] at h
          rw [handler_call_hmem _ _ _ _ _ _ h, hm1]
        | false =>
          simp only [Bool.false_eq_true, if_false] at h
          rw [raise_dsi_hmem _ _ _ _ _ _ h, hm1]
      · rw [if_neg hv] at h
        cases h

/-- C33 on the sample machine: the walk of a load at `0x2000` finds no PTE and
raises DSI, and the walk of a fetch from a no-execute segment raises ISI;
host memory is as before in both end states. -/
theorem translate_fault_keeps_memory_witness :
    (∃ s', page_address_translate 0x2000 false 0 0 sample
        = Res.exc Except_Type.EXC_DSI 0 s' ∧ s'.hmem = sample.hmem) ∧
    (∃ s', page_address_translate 0x2000 true 0 0 sample_noexec
        = Res.exc Except_Type.EXC_ISI 0x10000000 s' ∧ s'.hmem = sample_noexec.hmem) :=
  ⟨⟨_, rfl, translate_fault_keeps_memory 0x2000 0 0 false sample _ _ _ rfl⟩,
    ⟨_, rfl, translate_fault_keeps_memory 0x2000 0 0 true sample_noexec _ _ _ rfl⟩⟩

/-! ## Tags of an L2 set -/

/-- C36: in every state reachable from `ppc_mmu_init` through
`mmu_read_vmem`, `tlb_translate_addr` and `flush_tlb_entry` (and
`mmu_change_mode`), two ways of an L2 set that hold the same tag, other than
`TLB_INVALID_TAG`, are the same way; the tag of a guest address has its low
12 bits zero and so is never `TLB_INVALID_TAG`, and the entry that
`lookup_secondary_tlb` reports for a guest address does not hold that tag. -/
theorem l2_tags_distinct (s : MMU) (h : Reachable s) :
    (∀ sel i w1 w2, i < TLB_SIZE → w1 < TLB2_WAYS → w2 < TLB2_WAYS →
      (s.tlb2 sel (i * TLB2_WAYS + w1)).tag = (s.tlb2 sel (i * TLB2_WAYS + w2)).tag →
      (s.tlb2 sel (i * TLB2_WAYS + w1)).tag ≠ TLB_INVALID_TAG → w1 = w2) ∧
    (∀ va, (va &&& 0xFFFFF000) &&& 0xFFF = 0 ∧ va &&& 0xFFFFF000 ≠ TLB_INVALID_TAG) ∧
    (∀ va p s', lookup_secondary_tlb va (va &&& 0xFFFFF000) s = Res.ok (some p) s' →
      (s.deref p).tag = va &&& 0xFFFFF000 ∧ (s.deref p).tag ≠ TLB_INVALID_TAG) := by
  obtain ⟨hinv, -⟩ := reachable_inv s h
  refine ⟨fun sel i w1 w2 hi hw1 hw2 ht hv => (hinv.2 sel i hi).2 w1 w2 hw1 hw2 ht hv, ?_, ?_⟩
  · intro va
    refine ⟨?_, tag_valid va⟩
    apply Nat.eq_of_testBit_eq
    intro i
    simp only [Nat.testBit_and, testBit_0xFFFFF000, Nat.zero_testBit]
    rw [show (0xFFF : Nat) = 2 ^ 12 - 1 by norm_num, Nat.testBit_two_pow_sub_one]
    by_cases h12 : i < 12 <;> simp [h12]
  · intro va p s' hl
    obtain ⟨-, sel, -, hcase⟩ := lookup_secondary_tlb_quiet _ _ _ _ _ hl
    rcases hcase with ⟨hr, -⟩ | ⟨w, -, hr, ht⟩
    · cases hr
    · injection hr with hr
      subst hr
      have hd : (s.deref (TLBPtr.tlb2 sel
          (((va >>> PAGE_SIZE_BITS) &&& tlb_size_mask) * TLB2_WAYS + w))).tag
          = va &&& 0xFFFFF000 := ht
      exact ⟨hd, by rw [hd]; exact tag_valid va⟩

/-- C36 on the machine after `ppc_mmu_init` and byte reads at `0x00000000`
and `0x01000000`: the ways 0 and 1 of L2 set 0 hold the tags `0` and
`0x01000000`. -/
theorem l2_tags_distinct_witness :
    Reachable sample_two_ways ∧
    (sample_two_ways.tlb2 TLBSel.mode1 (0 * TLB2_WAYS + 0)).tag = 0x00000000 ∧
    (sample_two_ways.tlb2 TLBSel.mode1 (0 * TLB2_WAYS + 1)).tag = 0x01000000 ∧
    (∀ sel i w1 w2, i < TLB_SIZE → w1 < TLB2_WAYS → w2 < TLB2_WAYS →
      (sample_two_ways.tlb2 sel (i * TLB2_WAYS + w1)).tag
        = (sample_two_ways.tlb2 sel (i * TLB2_WAYS + w2)).tag →
      (sample_two_ways.tlb2 sel (i * TLB2_WAYS + w1)).tag ≠ TLB_INVALID_TAG → w1 = w2) :=
  ⟨Reachable.read_ok _ _ 1 _ _
      (Reachable.read_ok _ _ 1 _ _ (Reachable.init sample_big_start ⟨rfl, rfl, rfl⟩)
        (by decide) after_reads_step1)
      (by decide) after_reads_step2,
    rfl, rfl,
    (l2_tags_distinct sample_two_ways
      (Reachable.read_ok _ _ 1 _ _
        (Reachable.read_ok _ _ 1 _ _ (Reachable.init sample_big_start ⟨rfl, rfl, rfl⟩)
          (by decide) after_reads_step1)
        (by decide) after_reads_step2)).1⟩

/-! ## The MRU variables are a cache -/

/-- C32: for a coherent address map (disjoint ranges, `find_range` returns
the range of the address) and an MRU variable that holds its initial bounds
or a copy of a range of the map, `read_phys_mem` returns the value of the
read that consults `find_range` on every access, `write_phys_mem` and
`read_phys_mem` leave the state that access leaves, the MRU variable apart,
and the MRU variable again holds its initial value or a copy of a range. -/
theorem mru_cache_refinement (s : MMU) (sz addr value : Nat) (is_aligned : Bool) (m : MRU)
    (hsz : 0 < sz) (hcoh : map_coherent s.find_range)
    (hmru : ((s.mru m).start = 0xFFFFFFFF ∧ (s.mru m).end_ = 0xFFFFFFFF) ∨
      ∃ a, s.find_range a = some (s.mru m)) :
    (read_phys_mem sz is_aligned m addr s).1
      = (read_phys_mem_uncached sz is_aligned addr s).1 ∧
    (∃ e, (read_phys_mem sz is_aligned m addr s).2
        = ((read_phys_mem_uncached sz is_aligned addr s).2).set_mru m e ∧
      (e = s.mru m ∨ s.find_range addr = some e)) ∧
    (∃ e, write_phys_mem sz is_aligned m addr value s
        = (write_phys_mem_uncached sz is_aligned addr value s).set_mru m e ∧
      (e = s.mru m ∨ s.find_range addr = some e)) := by
  cases hr : s.find_range addr with
  | none =>
    have hres := mru_resolve_unmapped s sz addr m hsz hcoh hmru hr
    unfold read_phys_mem write_phys_mem read_phys_mem_uncached write_phys_mem_uncached
    rw [hres, hr]
    exact ⟨rfl, ⟨s.mru m, (set_mru_self s m).symm, Or.inl rfl⟩,
      ⟨s.mru m, (set_mru_self s m).symm, Or.inl rfl⟩⟩
  | some r =>
    have hres := mru_resolve_coherent s sz addr m r hsz hcoh hmru hr
    unfold read_phys_mem write_phys_mem read_phys_mem_uncached write_phys_mem_uncached
    rw [hres, hr]
    simp only [mru_set_mru]
    refine ⟨?_, ⟨r, ?_, Or.inr rfl⟩, ⟨r, ?_, Or.inr rfl⟩⟩
    all_goals (cases m <;> (split_ifs <;> rfl))

/-- C32 on the real-mode sample machine with the MRU variable at its initial
value: the 2-byte read at `0x1FFE` returns `0xAABB` both ways. -/
theorem mru_cache_refinement_witness :
    (read_phys_mem 2 true MRU.last_read_area 0x1FFE sample_real).1
      = (read_phys_mem_uncached 2 true 0x1FFE sample_real).1 ∧
    (read_phys_mem_uncached 2 true 0x1FFE sample_real).1 = 0xAABB ∧
    (∃ e, write_phys_mem 2 true MRU.last_read_area 0x1FFE 0x1234 sample_real
        = (write_phys_mem_uncached 2 true 0x1FFE 0x1234 sample_real).set_mru
            MRU.last_read_area e ∧
      (e = sample_real.mru MRU.last_read_area ∨ sample_real.find_range 0x1FFE = some e)) :=
  ⟨(mru_cache_refinement sample_real 2 0x1FFE 0x1234 true MRU.last_read_area (by decide)
      sample_coherent (Or.inl ⟨rfl, rfl⟩)).1,
    rfl,
    (mru_cache_refinement sample_real 2 0x1FFE 0x1234 true MRU.last_read_area (by decide)
      sample_coherent (Or.inl ⟨rfl, rfl⟩)).2.2⟩

/-! ## Translation of the addresses of one page -/

theorem same_page_shift (va va' : Nat) (hva : va < 2 ^ 32) (hva' : va' < 2 ^ 32)
    (hpage : va' &&& 0xFFFFF000 = va &&& 0xFFFFF000) : va' >>> 12 = va >>> 12 := by
  rw [and_0xFFFFF000 va hva, and_0xFFFFF000 va' hva'] at hpage
  rw [Nat.shiftRight_eq_div_pow, Nat.shiftRight_eq_div_pow]
  omega

theorem same_page_testBit (va va' : Nat) (h : va' >>> 12 = va >>> 12) (j : Nat)
    (hj : 12 ≤ j) : va'.testBit j = va.testBit j := by
  have h1 := congrArg (fun x => x.testBit (j - 12)) h
  simp only [Nat.testBit_shiftRight] at h1
  rw [show 12 + (j - 12) = j by omega] at h1
  exact h1

theorem testBit_0xFFF (j : Nat) : (0xFFF : Nat).testBit j = decide (j < 12) := by
  rw [show (0xFFF : Nat) = 2 ^ 12 - 1 by norm_num, Nat.testBit_two_pow_sub_one]

/-- A mask with the low 12 bits clear sees the same bits in two addresses of
a page. -/
theorem same_page_and_mask (va va' m : Nat) (h : va' >>> 12 = va >>> 12)
    (hm : m &&& 0xFFF = 0) : va' &&& m = va &&& m := by
  apply Nat.eq_of_testBit_eq
  intro j
  have h1 := congrArg (fun x => x.testBit j) hm
  simp only [Nat.testBit_and, testBit_0xFFF, Nat.zero_testBit] at h1
  simp only [Nat.testBit_and]
  by_cases hj : j < 12
  · simp only [hj, decide_True, Bool.and_true] at h1
    rw [h1]
    simp
  · rw [same_page_testBit va va' h j (by omega)]

theorem same_page_bat_match (e : PPC_BAT_entry) (ab va va' : Nat)
    (h : va' >>> 12 = va >>> 12) (hm : e.hi_mask &&& 0xFFF = 0) :
    bat_match e ab va' ↔ bat_match e ab va := by
  unfold bat_match
  rw [same_page_and_mask va va' e.hi_mask h hm]

/-- The block translation of two addresses of a page: the same page frame,
and the offset in the page is that of the address. -/
theorem same_page_bat_phys (phys_hi hi_mask va va' : Nat) (h : va' >>> 12 = va >>> 12)
    (hm : hi_mask &&& 0xFFF = 0) (hp : phys_hi &&& 0xFFF = 0) :
    (phys_hi ||| (va' &&& not32 hi_mask)) >>> 12 = (phys_hi ||| (va &&& not32 hi_mask)) >>> 12 ∧
    (phys_hi ||| (va &&& not32 hi_mask)) &&& 0xFFF = va &&& 0xFFF := by
  constructor
  · apply Nat.eq_of_testBit_eq
    intro j
    simp only [Nat.testBit_shiftRight, Nat.testBit_or, Nat.testBit_and]
    rw [same_page_testBit va va' h (12 + j) (by omega)]
  · apply Nat.eq_of_testBit_eq
    intro j
    have h1 := congrArg (fun x => x.testBit j) hm
    have h2 := congrArg (fun x => x.testBit j) hp
    simp only [Nat.testBit_and, testBit_0xFFF, Nat.zero_testBit] at h1 h2
    simp only [Nat.testBit_and, Nat.testBit_or, testBit_not32, testBit_0xFFF]
    by_cases hj : j < 12
    · have h32 : j < 32 := by omega
      simp only [hj, decide_True, Bool.and_true] at h1 h2
      rw [h1, h2]
      simp [hj, h32]
    · simp [hj]

/-- The page translation of two addresses of a page. -/
theorem same_page_pte_phys (w2 va va' : Nat) :
    ((w2 &&& 0xFFFFF000) ||| (va' &&& 0xFFF)) >>> 12
      = ((w2 &&& 0xFFFFF000) ||| (va &&& 0xFFF)) >>> 12 ∧
    ((w2 &&& 0xFFFFF000) ||| (va &&& 0xFFF)) &&& 0xFFF = va &&& 0xFFF := by
  constructor
  · apply Nat.eq_of_testBit_eq
    intro j
    simp only [Nat.testBit_shiftRight, Nat.testBit_or, Nat.testBit_and, testBit_0xFFF]
    have : ¬ (12 + j < 12) := by omega
    simp [this]
  · apply Nat.eq_of_testBit_eq
    intro j
    simp only [Nat.testBit_and, Nat.testBit_or, testBit_0xFFF, testBit_0xFFFFF000]
    by_cases hj : j < 12
    · have : ¬ (12 ≤ j) := by omega
      simp [hj, this]
    · simp [hj]

/-- The PTE search looks at the address only through its page index. -/
theorem pte_lookup_same_page (la la' is_write sr_val : Nat) (fetch : Bool) (s s1 : MMU)
    (p : Int) (hidx : (la' >>> 12) &&& 0xFFFF = (la >>> 12) &&& 0xFFFF)
    (h : pte_lookup la fetch is_write sr_val s = Res.ok p s1) :
    pte_lookup la' fetch is_write sr_val s = Res.ok p s1 := by
  unfold pte_lookup at h ⊢
  rw [hidx]
  by_cases hc : (truthy (sr_val &&& 0x10000000) && fetch) = true
  · rw [if_pos hc] at h
    cases h
  · rw [if_neg hc] at h ⊢
    simp only at h ⊢
    cases h1 : calc_pteg_addr ((sr_val &&& 0x7FFFF) ^^^ ((la >>> 12) &&& 0xFFFF)) s with
    | ub => rw [h1] at h; cases h
    | exit s1 => rw [h1] at h; cases h
    | exc t1 b1 s1 => rw [h1] at h; cases h
    | ok p1 t1 =>
      rw [h1] at h
      simp only [Res.bind] at h ⊢
      cases hs1 : search_pteg t1.hmem p1 (sr_val &&& 0x0FFFFFF) ((la >>> 12) &&& 0xFFFF) 0 with
      | some pte => rw [hs1] at h; exact h
      | none =>
        rw [hs1] at h
        simp only at h ⊢
        cases h2 : calc_pteg_addr
            (not32 ((sr_val &&& 0x7FFFF) ^^^ ((la >>> 12) &&& 0xFFFF))) t1 with
        | ub => rw [h2] at h; cases h
        | exit s2 => rw [h2] at h; cases h
        | exc t2 b2 s2 => rw [h2] at h; cases h
        | ok p2 t2 =>
          rw [h2] at h
          simp only [Res.bind] at h ⊢
          cases hs2 : search_pteg t2.hmem p2 (sr_val &&& 0x0FFFFFF)
              ((la >>> 12) &&& 0xFFFF) 1 with
          | some pte => rw [hs2] at h; exact h
          | none =>
            rw [hs2] at h
            simp only at h
            cases fetch with
            | true => simp [mmu_exception_handler_call] at h
            | false => simp [raise_dsi, mmu_exception_handler_call] at h

/-- The page walk of another address of the page succeeds with the same PTE:
it ends in the same state, with the same page frame. -/
theorem page_translate_same_page (s s1 : MMU) (la la' msr_pr is_write pa : Nat)
    (h12 : la' >>> 12 = la >>> 12)
    (h : page_address_translate la false msr_pr is_write s = Res.ok pa s1) :
    s1.find_range = s.find_range ∧ s1.pCurTLB2 = s.pCurTLB2 ∧
    ∃ pa', page_address_translate la' false msr_pr is_write s = Res.ok pa' s1 ∧
      pa' >>> 12 = pa >>> 12 ∧ pa' &&& 0xFFF = la' &&& 0xFFF ∧ pa &&& 0xFFF = la &&& 0xFFF := by
  have hsr : (la' >>> 28) &&& 0x0F = (la >>> 28) &&& 0x0F := by
    have e : ∀ x : Nat, x >>> 28 = (x >>> 12) >>> 16 := fun x => by
      rw [← Nat.shiftRight_add]
    rw [e la, e la', h12]
  have hidx : (la' >>> 12) &&& 0xFFFF = (la >>> 12) &&& 0xFFFF := by rw [h12]
  obtain ⟨hT, pte, t1, hl⟩ := page_address_translate_ok_inv s s1 la msr_pr is_write pa false h
  have hacc := page_address_translate_found s t1 la msr_pr is_write false pte hT hl
  rw [hacc] at h
  obtain ⟨hv, hpa, hs1⟩ := pte_access_ok _ _ _ _ _ _ _ _ _ h
  have hl' := pte_lookup_same_page la la' is_write _ false s t1 pte hidx hl
  rw [← hsr] at hl' hT
  have hacc' := page_address_translate_found s t1 la' msr_pr is_write false pte hT hl'
  have hf := pte_lookup_frame _ _ _ _ _ _ _ hl
  refine ⟨by rw [hs1, hf], by rw [hs1, hf], ?_⟩
  refine ⟨(READ_DWORD_BE t1.hmem (pte + 4) &&& 0xFFFFF000) ||| (la' &&& 0xFFF), ?_, ?_⟩
  · rw [hacc', hsr]
    unfold pte_access
    simp only
    rw [hv, hs1]
    rfl
  · rw [hpa]
    exact ⟨(same_page_pte_phys _ la la').1, (same_page_pte_phys _ la' la).2,
      (same_page_pte_phys _ la la').2⟩

/-- The translation of `tlb2_refill` for another address of the page, when the
BAT entries have masks and block addresses with the low 12 bits clear. -/
theorem refill_translate_same_page (s s1 : MMU) (va va' is_write pa : Nat)
    (h12 : va' >>> 12 = va >>> 12)
    (hbat : ∀ i, i < 4 → (s.dbat_array i).hi_mask &&& 0xFFF = 0 ∧
      (s.dbat_array i).phys_hi &&& 0xFFF = 0)
    (h : tlb2_refill_translate va is_write s = Res.ok pa s1) :
    s1.find_range = s.find_range ∧ s1.pCurTLB2 = s.pCurTLB2 ∧
    ∃ pa', tlb2_refill_translate va' is_write s = Res.ok pa' s1 ∧
      pa' >>> 12 = pa >>> 12 ∧ pa' &&& 0xFFF = va' &&& 0xFFF ∧ pa &&& 0xFFF = va &&& 0xFFF := by
  unfold tlb2_refill_translate at h ⊢
  by_cases hdr : truthy (s.ppc_state.msr &&& 0x10) = true
  · rw [if_pos hdr] at h ⊢
    unfold ppc_block_address_translation at h ⊢
    simp only [show (BATType.Data = BATType.Instruction) = False by simp, if_false] at h ⊢
    rcases bat_first_or_none s.dbat_array (access_bits_of (msr_pr_of s.ppc_state.msr)) va
      with ⟨i, hi, hm, hfirst⟩ | hnone
    · obtain ⟨hmask, hphys⟩ := hbat i hi
      have hm' : bat_match (s.dbat_array i) (access_bits_of (msr_pr_of s.ppc_state.msr)) va' :=
        (same_page_bat_match _ _ va va' h12 hmask).2 hm
      have hfirst' : ∀ j, j < i →
          ¬ bat_match (s.dbat_array j) (access_bits_of (msr_pr_of s.ppc_state.msr)) va' :=
        fun j hj hb => hfirst j hj
          ((same_page_bat_match _ _ va va' h12 (hbat j (by omega)).1).1 hb)
      rw [bat_scan_first s.dbat_array _ va _ 4 0 i hi (by simpa using hm)
        (by simpa using hfirst)] at h
      rw [bat_scan_first s.dbat_array _ va' _ 4 0 i hi (by simpa using hm')
        (by simpa using hfirst')]
      simp only [Nat.zero_add, if_true] at h ⊢
      by_cases hc : (!(truthy (s.dbat_array i).prot) ||
          (truthy ((s.dbat_array i).prot &&& 1) && truthy is_write)) = true
      · rw [if_pos hc] at h
        exact absurd h (raise_dsi_ne_ok _ _ _ _ _)
      · rw [if_neg hc] at h ⊢
        injection h with h1 h2
        subst h1 h2
        refine ⟨rfl, rfl, _, rfl, ?_⟩
        exact ⟨(same_page_bat_phys _ _ va va' h12 hmask hphys).1,
          (same_page_bat_phys _ _ va' va h12.symm hmask hphys).2,
          (same_page_bat_phys _ _ va va' h12 hmask hphys).2⟩
    · have hnone' : ∀ i, i < 4 →
          ¬ bat_match (s.dbat_array i) (access_bits_of (msr_pr_of s.ppc_state.msr)) va' :=
        fun j hj hb => hnone j hj ((same_page_bat_match _ _ va va' h12 (hbat j hj).1).1 hb)
      rw [bat_scan_none s.dbat_array _ va _ 4 0 (by simpa using hnone)] at h
      rw [bat_scan_none s.dbat_array _ va' _ 4 0 (by simpa using hnone')]
      simp only [Bool.false_eq_true, if_false] at h ⊢
      exact page_translate_same_page s s1 va va' _ is_write pa h12 h
  · rw [if_neg hdr] at h ⊢
    injection h with h1 h2
    subst h1 h2
    exact ⟨rfl, rfl, va', rfl, h12, rfl, rfl⟩

/-- C31: when `tlb2_refill(guest_va)` translates to a physical address in a
range that is not MMIO, the entry it returns has flags 1 and a
`host_va_offset` such that, for every `va'` of the page of `guest_va`, the
translation of `va'` (by BAT, by the page table, or the identity in
real-address mode) succeeds with some `pa'` and
`host_va_offset + va' = range.mem_ptr + (pa' - range.start)`; when `pa'` is
not below `range.start` this is the host address `read_phys_mem` uses.  The
address map is coherent, and the masks and block addresses of the DBAT
entries have their low 12 bits clear, as in the entries `dbat_update`
writes. -/
theorem refill_offset_same_page (s s1 s2 : MMU) (guest_va va' is_write phys : Nat)
    (p : TLBPtr) (range : AddressMapEntry)
    (hva : guest_va < 2 ^ 32) (hva' : va' < 2 ^ 32)
    (hpage : va' &&& 0xFFFFF000 = guest_va &&& 0xFFFFF000)
    (hbat : ∀ i, i < 4 → (s.dbat_array i).hi_mask &&& 0xFFF = 0 ∧
      (s.dbat_array i).phys_hi &&& 0xFFF = 0)
    (hcoh : map_coherent s.find_range) (hend : range.end_ < 2 ^ 32)
    (ht : tlb2_refill_translate guest_va is_write s = Res.ok phys s1)
    (hr : s.find_range phys = some range)
    (hmem : range.type &&& RT_MMIO = 0)
    (h : tlb2_refill guest_va is_write s = Res.ok p s2) :
    (s2.deref p).flags = 1 ∧
    ∃ o pa', (s2.deref p).payload = TLBPayload.host_va_offset o ∧
      tlb2_refill_translate va' is_write s = Res.ok pa' s1 ∧
      o + (va' : Int) = range.mem_ptr + ((pa' : Int) - (range.start : Int)) ∧
      (range.start ≤ pa' → o + (va' : Int) = host_of range pa') := by
  have h12 := same_page_shift guest_va va' hva hva' hpage
  obtain ⟨hfr, hpc, pa', ht', e1, e2, e3⟩ :=
    refill_translate_same_page s s1 guest_va va' is_write phys h12 hbat ht
  have hr1 : s1.find_range phys = some range := by rw [hfr]; exact hr
  unfold tlb2_refill at h
  rw [ht] at h
  simp only [Res.bind] at h
  cases hc : s1.pCurTLB2 with
  | none =>
    unfold tlb2_refill_fill at h
    rw [hr1] at h
    simp only at h
    unfold tlb2_target_entry at h
    rw [hc] at h
    cases h
  | some sel =>
    obtain ⟨p', t4, hf, -, hfl, hpl⟩ :=
      tlb2_refill_fill_ok s1 guest_va phys range sel hc hr1 hmem
    rw [hf] at h
    injection h with h1 h2
    subst h1 h2
    obtain ⟨hs, he, -⟩ := hcoh phys range hr
    refine ⟨hfl, _, pa', hpl, ht', ?_, ?_⟩
    · unfold host_of sub32
      rw [Nat.shiftRight_eq_div_pow, Nat.shiftRight_eq_div_pow] at e1 h12
      rw [and_0xFFF, and_0xFFF] at e2 e3
      norm_num at e1 h12 hend hva hva' ⊢
      omega
    · intro hle
      unfold host_of sub32
      rw [Nat.shiftRight_eq_div_pow, Nat.shiftRight_eq_div_pow] at e1 h12
      rw [and_0xFFF, and_0xFFF] at e2 e3
      norm_num at e1 h12 hend hva hva' ⊢
      omega

/-- C31 on the sample machine: the refill for `0x1000` goes through the page
table to physical page 0 of the RAM range; for the address `0x1234` of the
page the stored offset gives the host address `0x70000234`. -/
theorem refill_offset_same_page_witness :
    ∃ s1 s2 p,
      tlb2_refill_translate 0x1000 0 sample = Res.ok 0 s1 ∧
      tlb2_refill 0x1000 0 sample = Res.ok p s2 ∧
      (s2.deref p).flags = 1 ∧
      ∃ o pa', (s2.deref p).payload = TLBPayload.host_va_offset o ∧
        tlb2_refill_translate 0x1234 0 sample = Res.ok pa' s1 ∧
        o + ((0x1234 : Nat) : Int) = sample_ram.mem_ptr + ((pa' : Int) - (sample_ram.start : Int)) ∧
        (sample_ram.start ≤ pa' → o + ((0x1234 : Nat) : Int) = host_of sample_ram pa') :=
  ⟨_, _, _, rfl, rfl,
    refill_offset_same_page sample _ _ 0x1000 0x1234 0 0 _ sample_ram (by decide) (by decide)
      (by decide) (fun i hi => by interval_cases i <;> decide) sample_coherent (by decide)
      rfl (by decide) (by decide) rfl⟩

/-! ## The R bits a read sets -/

end DingusPPC
